import Mathlib

/-! Verification development for the aoide client of Mixxx.

Shallow embedding of the asynchronous request/reply core
(`src/network/*`, `src/library/aoide/gateway.cpp`).

Conventions of the embedding

* `RequestId` is the `quint32` value of `mixxx::network::RequestId`; `0` is the
  invalid id (`RequestId()`).
* A `QNetworkReply*` is a natural number, `0` standing for `nullptr`.
* `QMap<K, V>` is an association list kept sorted by key; `QMap::take` and
  `QMap::value` return a default-constructed value for a missing key.
* Qt objects the code talks to (timers, replies) live in an explicit
  runtime record that is threaded through every function.
* `VERIFY_OR_DEBUG_ASSERT(c) { body }` runs `body` when `c` is false
  (behaviour of a build without fatal assertions); `DEBUG_ASSERT` has no effect.
* Log output is not modelled.
-/

namespace mixxx

/-! ## QMap -/

/-- Association list standing for a `QMap` whose keys are ordered numerically. -/
abbrev QMap (β : Type) := List (Nat × β)

namespace QMap

/-- Lookup of `QMap::contains`. -/
def contains {β : Type} (m : QMap β) (k : Nat) : Bool :=
  (List.lookup k m).isSome

/-- Lookup of `QMap::value`, with the default-constructed value for a missing key. -/
def value {β : Type} (m : QMap β) (k : Nat) (dflt : β) : β :=
  (List.lookup k m).getD dflt

/-- Removal of a key, as in `QMap::remove` and in the second half of `QMap::take`. -/
def remove {β : Type} (m : QMap β) (k : Nat) : QMap β :=
  List.filter (fun e => e.1 != k) m

/-- Insertion of `QMap::insert`: replaces the value of an existing key, keeps key order. -/
def insert {β : Type} : QMap β → Nat → β → QMap β
  | [], k, v => [(k, v)]
  | (k1, v1) :: rest, k, v =>
    if k < k1 then (k, v) :: (k1, v1) :: rest
    else if k = k1 then (k, v) :: rest
    else (k1, v1) :: insert rest k v

/-- Smallest key, as `QMap::firstKey` (0 for an empty map, where Qt is undefined). -/
def firstKey {β : Type} (m : QMap β) : Nat :=
  match m with
  | [] => 0
  | (k, _) :: _ => k

end QMap

namespace network

/-! ## requestid.h -/

/-- Value of a `mixxx::network::RequestId` (`quint32`, 0 = invalid). -/
abbrev RequestId := Nat

/-- Default-constructed `RequestId()`. -/
def RequestId.invalid : RequestId := 0

/-- Test of `RequestId::isValid`. -/
def RequestId.isValid (r : RequestId) : Bool := r != 0

/-- A `QNetworkReply*`; `0` is `nullptr`. -/
abbrev ReplyHandle := Nat

/-! ## httpstatuscode.h -/

/-- The `typedef int HttpStatusCode`. -/
abbrev HttpStatusCode := Int

def kHttpStatusCodeInvalid : HttpStatusCode := -1
def kHttpStatusCodeOk : HttpStatusCode := 200
def kHttpStatusCodeCreated : HttpStatusCode := 201
def kHttpStatusCodeAccepted : HttpStatusCode := 202
def kHttpStatusCodeNoContent : HttpStatusCode := 204

def HttpStatusCode_isValid (statusCode : Int) : Bool :=
  decide (statusCode ≥ 100) && decide (statusCode < 600)

def HttpStatusCode_isSuccess (statusCode : Int) : Bool :=
  decide (statusCode ≥ 200) && decide (statusCode < 300)

/-! ## Qt runtime -/

/-- The enum `HttpRequestMethod` of jsonwebtask.h. -/
inductive HttpRequestMethod where
  | Get
  | Put
  | Post
  | Delete
  deriving DecidableEq, Repr

/-- One call of `QNetworkAccessManager::get/put/post/deleteResource`. -/
structure HttpCall where
  method : HttpRequestMethod
  /-- Path set on the base URL. -/
  path : String
  /-- Query set on the URL (empty when none is set). -/
  query : String
  /-- Whether the request carries the header `Content-Type: application/json`. -/
  jsonHeader : Bool
  /-- Request body. -/
  body : String
  /-- The reply object returned for the call. -/
  reply : ReplyHandle
  deriving DecidableEq, Repr

/-- State of the Qt objects used by the request bookkeeping. -/
structure Qt where
  /-- Replies for which `QNetworkReply::isRunning()` holds. -/
  running : List ReplyHandle
  /-- Calls of `QNetworkReply::abort()`, oldest first. -/
  aborted : List ReplyHandle
  /-- Active timers as (timer id, interval in milliseconds). -/
  timers : List (Int × Int)
  /-- Number of timer ids handed out so far. -/
  nextTimerId : Nat
  /-- HTTP calls issued through the network access manager, oldest first. -/
  calls : List HttpCall
  /-- Number of reply objects handed out so far. -/
  nextReply : Nat
  deriving DecidableEq, Repr

namespace Qt

/-- Runtime with no replies and no timers. -/
def init : Qt :=
  { running := [], aborted := [], timers := [], nextTimerId := 0, calls := [], nextReply := 0 }

/-- Query `QNetworkReply::isRunning()`. -/
def isRunning (qt : Qt) (reply : ReplyHandle) : Bool := decide (reply ∈ qt.running)

/-- Call `QNetworkReply::abort()`: the reply stops running. -/
def abort (qt : Qt) (reply : ReplyHandle) : Qt :=
  { qt with
    running := qt.running.filter (fun r => r != reply),
    aborted := qt.aborted ++ [reply] }

/-- Call `QObject::startTimer(interval)`: returns a timer id not handed out before. -/
def startTimer (qt : Qt) (interval : Int) : Int × Qt :=
  (((qt.nextTimerId + 1 : Nat) : Int),
   { qt with
     timers := qt.timers ++ [(((qt.nextTimerId + 1 : Nat) : Int), interval)],
     nextTimerId := qt.nextTimerId + 1 })

/-- Call `QObject::killTimer(id)`. -/
def killTimer (qt : Qt) (timerId : Int) : Qt :=
  { qt with timers := qt.timers.filter (fun t => t.1 != timerId) }

/-- Issue an HTTP call on the network access manager: a new, running reply is returned. -/
def send (qt : Qt) (method : HttpRequestMethod) (path query : String) (jsonHeader : Bool)
    (body : String) : ReplyHandle × Qt :=
  (qt.nextReply + 1,
   { qt with
     running := qt.running ++ [qt.nextReply + 1],
     calls := qt.calls ++ [{ method := method, path := path, query := query,
                             jsonHeader := jsonHeader, body := body,
                             reply := qt.nextReply + 1 }],
     nextReply := qt.nextReply + 1 })

/-- The reply has finished: it is no longer running. -/
def finish (qt : Qt) (reply : ReplyHandle) : Qt :=
  { qt with running := qt.running.filter (fun r => r != reply) }

end Qt

/-! ## requestreplymanager.cpp -/

/-- The constant `kInvalidTimerId`. -/
def kInvalidTimerId : Int := -1

/-- The struct `RequestReplyManager::PendingReply`. -/
structure PendingReply where
  requestId : RequestId
  timerId : Int
  deriving DecidableEq, Repr

/-- Default-constructed `PendingReply`, as returned by `QMap::take` for a missing key. -/
def PendingReply.default : PendingReply := { requestId := RequestId.invalid, timerId := 0 }

/-- Members of `RequestReplyManager`. -/
structure RequestReplyManager where
  m_pendingRequests : QMap ReplyHandle
  m_pendingReplies : QMap PendingReply
  deriving DecidableEq, Repr

namespace RequestReplyManager

/-- Manager without pending requests. -/
def init : RequestReplyManager := { m_pendingRequests := [], m_pendingReplies := [] }

/-- Method `isRequestPending`. -/
def isRequestPending (m : RequestReplyManager) (requestId : RequestId) : Bool :=
  QMap.contains m.m_pendingRequests requestId

/-- Method `cancelRequest`. -/
def cancelRequest (m : RequestReplyManager) (qt : Qt) (requestId : RequestId) :
    RequestReplyManager × Qt :=
  let reply := QMap.value m.m_pendingRequests requestId 0
  let m1 := { m with m_pendingRequests := QMap.remove m.m_pendingRequests requestId }
  if reply = 0 then (m1, qt)
  else if qt.isRunning reply then (m1, qt.abort reply)
  else (m1, qt)

/-- Loop of `cancelAllRequests`, unrolled at most `fuel` times. -/
def cancelAllLoop : Nat → RequestReplyManager → Qt → RequestReplyManager × Qt
  | 0, m, qt => (m, qt)
  | fuel + 1, m, qt =>
    if m.m_pendingRequests.isEmpty then (m, qt)
    else
      let r := cancelRequest m qt (QMap.firstKey m.m_pendingRequests)
      cancelAllLoop fuel r.1 r.2

/-- Method `cancelAllRequests`; every pass of the loop removes one key. -/
def cancelAllRequests (m : RequestReplyManager) (qt : Qt) : RequestReplyManager × Qt :=
  cancelAllLoop m.m_pendingRequests.length m qt

/-- Method `afterRequestSent`. -/
def afterRequestSent (m : RequestReplyManager) (qt : Qt)
    (requestId : RequestId) (reply : ReplyHandle) (timeoutMillis : Int) :
    RequestReplyManager × Qt :=
  let s0 := if isRequestPending m requestId then cancelRequest m qt requestId else (m, qt)
  let m1 := { s0.1 with
    m_pendingRequests := QMap.insert s0.1.m_pendingRequests requestId reply }
  let t := if s0.2.isRunning reply && decide (timeoutMillis > 0)
    then s0.2.startTimer timeoutMillis else (kInvalidTimerId, s0.2)
  ({ m1 with
     m_pendingReplies :=
       QMap.insert m1.m_pendingReplies reply { requestId := requestId, timerId := t.1 } },
   t.2)

/-- Method `afterReplyReceived`; the first component is the returned pair. -/
def afterReplyReceived (m : RequestReplyManager) (qt : Qt) (reply : ReplyHandle) :
    (RequestId × Bool) × RequestReplyManager × Qt :=
  let pendingReply := QMap.value m.m_pendingReplies reply PendingReply.default
  let m1 := { m with m_pendingReplies := QMap.remove m.m_pendingReplies reply }
  let qt1 := if pendingReply.timerId ≠ kInvalidTimerId then qt.killTimer pendingReply.timerId else qt
  let requestId := pendingReply.requestId
  if !QMap.contains m1.m_pendingRequests requestId then
    ((requestId, false), m1, qt1)
  else
    let taken := QMap.value m1.m_pendingRequests requestId 0
    let m2 := { m1 with m_pendingRequests := QMap.remove m1.m_pendingRequests requestId }
    if taken ≠ reply then ((requestId, false), m2, qt1)
    else ((requestId, true), m2, qt1)

/-- Loop of `killTimerForPendingReply` over the pending replies in key order. -/
def clearTimer (timerId : Int) : QMap PendingReply → RequestId × QMap PendingReply
  | [] => (RequestId.invalid, [])
  | (h, p) :: rest =>
    if p.timerId = timerId then
      (p.requestId, (h, { p with timerId := kInvalidTimerId }) :: rest)
    else
      ((clearTimer timerId rest).1, (h, p) :: (clearTimer timerId rest).2)

/-- Method `killTimerForPendingReply`. -/
def killTimerForPendingReply (m : RequestReplyManager) (qt : Qt) (timerId : Int) :
    RequestId × RequestReplyManager × Qt :=
  ((clearTimer timerId m.m_pendingReplies).1,
   { m with m_pendingReplies := (clearTimer timerId m.m_pendingReplies).2 },
   qt.killTimer timerId)

/-- Method `timerEvent`. -/
def timerEvent (m : RequestReplyManager) (qt : Qt) (timerId : Int) :
    RequestReplyManager × Qt :=
  let r := killTimerForPendingReply m qt timerId
  if !RequestId.isValid r.1 then (r.2.1, r.2.2)
  else cancelRequest r.2.1 r.2.2 r.1

end RequestReplyManager

/-! ## Replies as seen by the reply handlers -/

/-- Outcome of `readContentType`: the `QMimeType` resolved from the Content-Type header. -/
inductive MimeType where
  /-- Missing header or unknown type: an invalid `QMimeType`. -/
  | invalid
  /-- The type `application/json`. -/
  | json
  /-- The type `text/plain`. -/
  | text
  /-- Any other valid type. -/
  | other
  deriving DecidableEq, Repr

/-- What a finished `QNetworkReply` reports to the code. -/
structure NetworkReplyData where
  /-- Whether `reply->error() != QNetworkReply::NoError`. -/
  error : Bool
  /-- Text of `reply->errorString()`. -/
  errorString : String
  /-- The attribute `HttpStatusCodeAttribute` when `toInt` succeeds. -/
  statusCodeAttr : Option Int
  /-- Result of `readContentType`. -/
  contentType : MimeType
  /-- Bytes of `reply->readAll()`. -/
  content : String
  deriving DecidableEq, Repr

/-- Function `readStatusCode`: the status code stored through the pointer. -/
def readStatusCode (d : NetworkReplyData) (statusCode : HttpStatusCode) : HttpStatusCode :=
  match d.statusCodeAttr with
  | some v => if HttpStatusCode_isValid v then v else statusCode
  | none => statusCode

/-- Function `readTextContent`: the text when the content type is `text/plain`. -/
def readTextContent (d : NetworkReplyData) : Option String :=
  if d.contentType = MimeType.text then some d.content else none

/-- Function `readJsonContent`: the bytes parsed as JSON when the content type is JSON. -/
def readJsonContent (d : NetworkReplyData) : Option String :=
  if d.contentType = MimeType.json then some d.content else none

/-- Error message built by the reply handlers from a failed reply. -/
def replyErrorMessage (d : NetworkReplyData) : String :=
  match readTextContent d with
  | some textContent =>
    if !textContent.isEmpty then d.errorString ++ " -- " ++ textContent else d.errorString
  | none => d.errorString

/-! ## jsonwebclient.cpp -/

/-- The constant `kDefaultTimeoutMillis` of jsonwebclient.cpp. -/
def kDefaultTimeoutMillis : Int := 60000

/-- State of the object behind `QPointer<QNetworkAccessManager>`. -/
structure NetworkAccess where
  /-- The pointer is not null. -/
  alive : Bool
  /-- The manager lives in the thread of its user. -/
  sameThread : Bool
  /-- Whether `networkAccessible()` differs from `NotAccessible`. -/
  accessible : Bool
  deriving DecidableEq, Repr

/-- Signals of `JsonWebClient`. -/
inductive ClientSignal where
  | networkRequestFailed (requestId : RequestId) (errorMessage : String)
  deriving DecidableEq, Repr

/-- Members of `JsonWebClient`. -/
structure JsonWebClient where
  m_networkAccessManager : NetworkAccess
  m_requestReplyManager : RequestReplyManager
  deriving DecidableEq, Repr

/-- Return value and effects of `JsonWebClient::receiveReply`. -/
structure ReceivedReply where
  requestId : RequestId
  statusCode : HttpStatusCode
  /-- Signals emitted during the call, oldest first. -/
  emitted : List ClientSignal
  /-- Document stored through `jsonResponse`, `none` when nothing is stored. -/
  jsonResponse : Option String
  deriving DecidableEq, Repr

namespace JsonWebClient

/-- Static method `isStatusCodeSuccess`. -/
def isStatusCodeSuccess (statusCode : Int) : Bool :=
  decide (statusCode ≥ 200) && decide (statusCode < 300)

/-- Method `accessNetwork`: whether a manager is returned, and the signals emitted. -/
def accessNetwork (c : JsonWebClient) (requestId : RequestId) : Bool × List ClientSignal :=
  if c.m_networkAccessManager.alive then
    if !c.m_networkAccessManager.sameThread then
      (false, [ClientSignal.networkRequestFailed requestId "Invalid thread"])
    else if !c.m_networkAccessManager.accessible then
      (false, [ClientSignal.networkRequestFailed requestId "Network not accessible"])
    else (true, [])
  else
    (false, [ClientSignal.networkRequestFailed requestId "No network access"])

/-- Method `afterRequestSent`; a timeout that is not positive is replaced by the default. -/
def afterRequestSent (c : JsonWebClient) (qt : Qt) (requestId : RequestId)
    (reply : ReplyHandle) (timeoutMillis : Int) : JsonWebClient × Qt :=
  let timeout := if timeoutMillis ≤ 0 then kDefaultTimeoutMillis else timeoutMillis
  let r := c.m_requestReplyManager.afterRequestSent qt requestId reply timeout
  ({ c with m_requestReplyManager := r.1 }, r.2)

/-- Method `isRequestPending`. -/
def isRequestPending (c : JsonWebClient) (requestId : RequestId) : Bool :=
  c.m_requestReplyManager.isRequestPending requestId

/-- Method `cancelRequest`. -/
def cancelRequest (c : JsonWebClient) (qt : Qt) (requestId : RequestId) : JsonWebClient × Qt :=
  let r := c.m_requestReplyManager.cancelRequest qt requestId
  ({ c with m_requestReplyManager := r.1 }, r.2)

/-- Method `cancelAllRequests`. -/
def cancelAllRequests (c : JsonWebClient) (qt : Qt) : JsonWebClient × Qt :=
  let r := c.m_requestReplyManager.cancelAllRequests qt
  ({ c with m_requestReplyManager := r.1 }, r.2)

/-- Method `receiveReply`; `wantJson` tells whether a `jsonResponse` pointer is passed. -/
def receiveReply (c : JsonWebClient) (qt : Qt) (reply : ReplyHandle) (d : NetworkReplyData)
    (wantJson : Bool) : ReceivedReply × JsonWebClient × Qt :=
  let requestResult := c.m_requestReplyManager.afterReplyReceived qt reply
  let c1 := { c with m_requestReplyManager := requestResult.2.1 }
  let qt1 := requestResult.2.2
  let requestId := requestResult.1.1
  if !requestResult.1.2 then
    ({ requestId := requestId, statusCode := kHttpStatusCodeInvalid,
       emitted := [], jsonResponse := none }, c1, qt1)
  else if d.error then
    ({ requestId := requestId, statusCode := kHttpStatusCodeInvalid,
       emitted := [ClientSignal.networkRequestFailed requestId (replyErrorMessage d)],
       jsonResponse := none }, c1, qt1)
  else
    let statusCode := readStatusCode d kHttpStatusCodeInvalid
    let jsonResponse :=
      if wantJson && statusCode != kHttpStatusCodeInvalid then readJsonContent d else none
    ({ requestId := requestId, statusCode := statusCode,
       emitted := [], jsonResponse := jsonResponse }, c1, qt1)

end JsonWebClient

/-! ## jsonwebtask.cpp -/

/-- The struct `JsonWebRequest`. -/
structure JsonWebRequest where
  method : HttpRequestMethod
  path : String
  query : String
  /-- Compact JSON text of the request document. -/
  content : String
  deriving DecidableEq, Repr

/-- The struct `JsonWebResponse`. -/
structure JsonWebResponse where
  statusCode : HttpStatusCode
  /-- The parsed document, `none` for the default-constructed one. -/
  content : Option String
  deriving DecidableEq, Repr

/-- Method `JsonWebResponse::isStatusCodeSuccess`. -/
def JsonWebResponse.isStatusCodeSuccess (r : JsonWebResponse) : Bool :=
  decide (r.statusCode ≥ 200) && decide (r.statusCode < 300)

/-- Signals of `JsonWebTask`. -/
inductive TaskSignal where
  | networkRequestFailed (errorMessage : String)
  | aborted
  | finished (response : JsonWebResponse)
  deriving DecidableEq, Repr

/-- Members of `JsonWebTask`; `m_networkAccessManager` tells whether the pointer is set. -/
structure JsonWebTask where
  m_networkAccessManager : Bool
  m_request : JsonWebRequest
  m_networkReply : ReplyHandle
  m_timeoutTimerId : Int
  m_aborted : Bool
  deriving DecidableEq, Repr

namespace JsonWebTask

/-- Constructor of `JsonWebTask`. -/
def create (networkAccessManager : Bool) (request : JsonWebRequest) : JsonWebTask :=
  { m_networkAccessManager := networkAccessManager,
    m_request := request,
    m_networkReply := 0,
    m_timeoutTimerId := kInvalidTimerId,
    m_aborted := false }

/-- Slot `start`. -/
def start (t : JsonWebTask) (qt : Qt) (timeoutMillis : Int) : JsonWebTask × Qt :=
  if !t.m_networkAccessManager then (t, qt)
  else if t.m_networkReply ≠ 0 then (t, qt)
  else
    let sent :=
      match t.m_request.method with
      | HttpRequestMethod.Get =>
        qt.send HttpRequestMethod.Get t.m_request.path t.m_request.query false ""
      | HttpRequestMethod.Put =>
        qt.send HttpRequestMethod.Put t.m_request.path t.m_request.query true t.m_request.content
      | HttpRequestMethod.Post =>
        qt.send HttpRequestMethod.Post t.m_request.path t.m_request.query true t.m_request.content
      | HttpRequestMethod.Delete =>
        qt.send HttpRequestMethod.Delete t.m_request.path t.m_request.query false ""
    let t1 := { t with m_networkReply := sent.1, m_networkAccessManager := false }
    if timeoutMillis > 0 then
      ({ t1 with m_timeoutTimerId := (sent.2.startTimer timeoutMillis).1 },
       (sent.2.startTimer timeoutMillis).2)
    else (t1, sent.2)

/-- Method `invokeStart`: the queued call of `start` with the given timeout. -/
def invokeStart (t : JsonWebTask) (qt : Qt) (timeoutMillis : Int) : JsonWebTask × Qt :=
  start t qt timeoutMillis

/-- Call `invokeStart()` with the default argument of its declaration, `timeoutMillis = 0`. -/
def invokeStartDefault (t : JsonWebTask) (qt : Qt) : JsonWebTask × Qt :=
  invokeStart t qt 0

/-- Slot `abort`. -/
def abort (t : JsonWebTask) (qt : Qt) : JsonWebTask × Qt :=
  if t.m_networkReply = 0 then (t, qt)
  else ({ t with m_aborted := true }, qt.abort t.m_networkReply)

/-- Method `timerEvent`; the test against `m_timeoutTimerId` has an empty body. -/
def timerEvent (t : JsonWebTask) (qt : Qt) (timerId : Int) : JsonWebTask × Qt :=
  abort { t with m_timeoutTimerId := kInvalidTimerId } (qt.killTimer timerId)

/-- Slot `slotNetworkReplyFinished`, run for the reply `sender()`; returns the signals emitted. -/
def slotNetworkReplyFinished (t : JsonWebTask) (qt : Qt) (sender : ReplyHandle)
    (d : NetworkReplyData) : List TaskSignal × JsonWebTask × Qt :=
  let qt1 := qt.finish sender
  if t.m_networkReply = 0 then ([], t, qt1)
  else
    let t1 := { t with m_networkReply := 0 }
    if t.m_aborted then ([TaskSignal.aborted], t1, qt1)
    else if d.error then ([TaskSignal.networkRequestFailed (replyErrorMessage d)], t1, qt1)
    else
      let statusCode := readStatusCode d kHttpStatusCodeInvalid
      let content :=
        if statusCode != kHttpStatusCodeInvalid then readJsonContent d else none
      ([TaskSignal.finished { statusCode := statusCode, content := content }], t1, qt1)

/-- Events delivered to one task instance by the event loop. -/
inductive Event where
  | start (timeoutMillis : Int)
  | abort
  | timer (timerId : Int)
  | replyFinished (d : NetworkReplyData)
  deriving DecidableEq, Repr

/-- A task with its runtime and the signals it has emitted so far, oldest first. -/
structure Run where
  task : JsonWebTask
  qt : Qt
  emitted : List TaskSignal
  deriving DecidableEq, Repr

/-- Delivery of one event; a finished reply is the one stored in `m_networkReply`. -/
def step (r : Run) : Event → Run
  | Event.start timeoutMillis =>
    { r with task := (start r.task r.qt timeoutMillis).1, qt := (start r.task r.qt timeoutMillis).2 }
  | Event.abort =>
    { r with task := (abort r.task r.qt).1, qt := (abort r.task r.qt).2 }
  | Event.timer timerId =>
    { r with task := (timerEvent r.task r.qt timerId).1, qt := (timerEvent r.task r.qt timerId).2 }
  | Event.replyFinished d =>
    { task := (slotNetworkReplyFinished r.task r.qt r.task.m_networkReply d).2.1,
      qt := (slotNetworkReplyFinished r.task r.qt r.task.m_networkReply d).2.2,
      emitted := r.emitted ++ (slotNetworkReplyFinished r.task r.qt r.task.m_networkReply d).1 }

/-- Delivery of a sequence of events. -/
def run (r : Run) (events : List Event) : Run :=
  events.foldl step r

/-- Whether an event is the completion of the transport call. -/
def isReplyFinished : Event → Bool
  | Event.replyFinished _ => true
  | _ => false

/-- Whether a start is followed, later in the sequence, by a finished reply. -/
def startedThenFinished : List Event → Bool
  | [] => false
  | Event.start _ :: rest => rest.any isReplyFinished
  | _ :: rest => startedThenFinished rest

end JsonWebTask

end network

/-! ## library/aoide/gateway.cpp -/

namespace aoide

open network

/-- The enum `Gateway::WriteRequestMethod`. -/
inductive WriteRequestMethod where
  | Put
  | Post
  | Delete
  deriving DecidableEq, Repr

/-- The reply handlers `Gateway::on<Operation>NetworkReplyFinished`, one per operation. -/
inductive Operation where
  | Shutdown
  | ListCollections
  | CreateCollection
  | UpdateCollection
  | DeleteCollection
  | ReplaceTracks
  | RelocateTracks
  | PurgeTracks
  | ListTagsFacets
  | ListTags
  | CreatePlaylist
  | DeletePlaylist
  | LoadPlaylistBriefs
  deriving DecidableEq, Repr

namespace Operation

/-- Whether the reply handler of the operation calls `finishWriteRequest(requestId)`. -/
def isWrite : Operation → Bool
  | CreateCollection => true
  | UpdateCollection => true
  | DeleteCollection => true
  | ReplaceTracks => true
  | RelocateTracks => true
  | PurgeTracks => true
  | CreatePlaylist => true
  | DeletePlaylist => true
  | _ => false

/-- Whether the reply handler passes `&jsonContent` to `receiveReply`. -/
def readsJson : Operation → Bool
  | ListCollections => true
  | CreateCollection => true
  | UpdateCollection => true
  | ReplaceTracks => true
  | ListTagsFacets => true
  | ListTags => true
  | CreatePlaylist => true
  | LoadPlaylistBriefs => true
  | _ => false

/-- Whether the reply handler ends with `emit <operation>Result(requestId, ...)`;
`onShutdownNetworkReplyFinished` emits nothing. -/
def emitsResult : Operation → Bool
  | Shutdown => false
  | _ => true

end Operation

/-- The struct `Gateway::WriteRequest`; `finishedHandler` names the member function. -/
structure WriteRequest where
  method : WriteRequestMethod
  id : RequestId
  path : String
  query : String
  jsonContent : String
  finishedHandler : Operation
  deriving DecidableEq, Repr

/-- Signals of `Gateway`: `networkRequestFailed` and the result signal of an operation
(`listCollectionsResult`, `createCollectionResult`, ...), which carries the request id
and the result decoded from the JSON document of the reply. -/
inductive GatewaySignal where
  | networkRequestFailed (requestId : RequestId) (errorMessage : String)
  | result (operation : Operation) (requestId : RequestId) (jsonContent : Option String)
  deriving DecidableEq, Repr

/-- Request id carried by a signal. -/
def GatewaySignal.requestId : GatewaySignal → RequestId
  | GatewaySignal.networkRequestFailed requestId _ => requestId
  | GatewaySignal.result _ requestId _ => requestId

/-- Members of `Gateway` with the Qt objects it drives. -/
structure Gateway where
  m_jsonWebClient : JsonWebClient
  m_queuedWriteRequests : List WriteRequest
  m_pendingWriteRequestId : RequestId
  m_shutdownRequestId : RequestId
  /-- Timers, replies and HTTP calls. -/
  qt : Qt
  /-- Connections `connect(reply, &QNetworkReply::finished, this, handler)` of replies
  that have not finished yet. -/
  connections : List (ReplyHandle × Operation)
  /-- Write requests taken from the queue and sent, oldest first (the requests of the
  log line "Dequeued next write request"). -/
  dequeued : List WriteRequest
  /-- Signals emitted by the gateway, oldest first. -/
  emitted : List GatewaySignal
  deriving DecidableEq, Repr

namespace Gateway

/-- Gateway after construction and `connectSlots()`. -/
def init (access : NetworkAccess) : Gateway :=
  { m_jsonWebClient :=
      { m_networkAccessManager := access, m_requestReplyManager := RequestReplyManager.init },
    m_queuedWriteRequests := [],
    m_pendingWriteRequestId := RequestId.invalid,
    m_shutdownRequestId := RequestId.invalid,
    qt := Qt.init,
    connections := [],
    dequeued := [],
    emitted := [] }

/-- HTTP method of a write request. -/
def httpMethod : WriteRequestMethod → HttpRequestMethod
  | WriteRequestMethod.Put => HttpRequestMethod.Put
  | WriteRequestMethod.Post => HttpRequestMethod.Post
  | WriteRequestMethod.Delete => HttpRequestMethod.Delete

/-- The switch of `finishWriteRequest` that sends the dequeued request: `put` and `post`
send `newRequest(url)` with the JSON content, `deleteResource` a plain request. -/
def sendWriteRequest (qt : Qt) (writeRequest : WriteRequest) : ReplyHandle × Qt :=
  match writeRequest.method with
  | WriteRequestMethod.Put =>
    qt.send HttpRequestMethod.Put writeRequest.path writeRequest.query true
      writeRequest.jsonContent
  | WriteRequestMethod.Post =>
    qt.send HttpRequestMethod.Post writeRequest.path writeRequest.query true
      writeRequest.jsonContent
  | WriteRequestMethod.Delete =>
    qt.send HttpRequestMethod.Delete writeRequest.path writeRequest.query false ""

/-- The steps that follow every call of the access manager: the reply `sent.1` is
connected to its handler and registered with
`m_jsonWebClient->afterRequestSent(requestId, reply)`, the timeout argument being the
default 0. -/
def awaitReply (g : Gateway) (sent : ReplyHandle × Qt) (handler : Operation)
    (requestId : RequestId) : Gateway :=
  { g with
    m_jsonWebClient := (g.m_jsonWebClient.afterRequestSent sent.2 requestId sent.1 0).1,
    qt := (g.m_jsonWebClient.afterRequestSent sent.2 requestId sent.1 0).2,
    connections := g.connections ++ [(sent.1, handler)] }

/-- End of `finishWriteRequest`: the dequeued request is sent and becomes the pending one. -/
def dispatchWriteRequest (g : Gateway) (writeRequest : WriteRequest)
    (rest : List WriteRequest) : Gateway :=
  awaitReply
    { g with
      m_queuedWriteRequests := rest,
      dequeued := g.dequeued ++ [writeRequest],
      m_pendingWriteRequestId := writeRequest.id }
    (sendWriteRequest g.qt writeRequest) writeRequest.finishedHandler writeRequest.id

/-- End of `slotShutdown`: the shutdown request is posted. -/
def postShutdown (g : Gateway) (requestId : RequestId) : Gateway :=
  awaitReply g (g.qt.send HttpRequestMethod.Post "/shutdown" "" false "")
    Operation.Shutdown requestId

/-- The gateway after it has emitted the given signals. -/
def emit (g : Gateway) (signals : List GatewaySignal) : Gateway :=
  { g with emitted := g.emitted ++ signals }

mutual

/-- Slot `onNetworkRequestFailed`, connected to `JsonWebClient::networkRequestFailed`. -/
def onNetworkRequestFailed : Nat → Gateway → RequestId → String → Option Gateway
  | 0, _, _, _ => none
  | fuel + 1, g, requestId, errorMessage =>
    (if requestId = g.m_pendingWriteRequestId then finishWriteRequest fuel g requestId
     else some g).map
      (fun g1 => g1.emit [GatewaySignal.networkRequestFailed requestId errorMessage])
termination_by structural fuel => fuel

/-- Call `m_jsonWebClient->accessNetwork(requestId)`: the signal it emits is delivered
to `onNetworkRequestFailed` before the call returns. -/
def accessNetwork : Nat → Gateway → RequestId → Option (Bool × Gateway)
  | 0, _, _ => none
  | fuel + 1, g, requestId =>
    ((g.m_jsonWebClient.accessNetwork requestId).2.foldlM
      (fun g1 signal =>
        match signal with
        | ClientSignal.networkRequestFailed failedId errorMessage =>
          onNetworkRequestFailed fuel g1 failedId errorMessage) g).map
      (fun g1 => ((g.m_jsonWebClient.accessNetwork requestId).1, g1))
termination_by structural fuel => fuel

/-- Method `finishWriteRequest`. -/
def finishWriteRequest : Nat → Gateway → RequestId → Option Gateway
  | 0, _, _ => none
  | fuel + 1, g, requestId =>
    if requestId.isValid &&
        !(!g.m_pendingWriteRequestId.isValid || requestId == g.m_pendingWriteRequestId) then
      some g
    else if !requestId.isValid && g.m_pendingWriteRequestId.isValid then
      some g
    else
      let g1 := { g with m_pendingWriteRequestId := RequestId.invalid }
      match g1.m_queuedWriteRequests with
      | [] =>
        if g1.m_shutdownRequestId.isValid then slotShutdown fuel g1 g1.m_shutdownRequestId
        else some g1
      | head :: _ =>
        match accessNetwork fuel g1 head.id with
        | none => none
        | some (false, g2) => some g2
        | some (true, g2) =>
          match g2.m_queuedWriteRequests with
          | [] => some g2
          | writeRequest :: rest => some (dispatchWriteRequest g2 writeRequest rest)
termination_by structural fuel => fuel

/-- Slot `slotShutdown`. -/
def slotShutdown : Nat → Gateway → RequestId → Option Gateway
  | 0, _, _ => none
  | fuel + 1, g, requestId =>
    if g.m_shutdownRequestId.isValid && g.m_shutdownRequestId != requestId then
      some g
    else if g.m_pendingWriteRequestId.isValid || !g.m_queuedWriteRequests.isEmpty then
      some { g with m_shutdownRequestId := requestId }
    else
      let g1 :=
        if g.m_shutdownRequestId.isValid then { g with m_shutdownRequestId := RequestId.invalid }
        else g
      match accessNetwork fuel g1 requestId with
      | none => none
      | some (false, g2) => some g2
      | some (true, g2) => some (postShutdown g2 requestId)
termination_by structural fuel => fuel

end

/-- Method `enqueueWriteRequest`. -/
def enqueueWriteRequest (fuel : Nat) (g : Gateway) (writeRequest : WriteRequest) :
    Option Gateway :=
  finishWriteRequest fuel
    { g with m_queuedWriteRequests := g.m_queuedWriteRequests ++ [writeRequest] }
    RequestId.invalid

/-- Query with the item `collectionUid`, added only for a non-empty uid. -/
def collectionQuery (collectionUid : String) : String :=
  if collectionUid.isEmpty then "" else "collectionUid=" ++ collectionUid

/-- Arguments of the write slots; JSON arguments are given as their compact text. -/
inductive WriteCall where
  | createCollection (collection : String)
  | updateCollection (uid : String) (collectionEntity : String)
  | deleteCollection (collectionUid : String)
  | replaceTracks (collectionUid : String) (body : String)
  | relocateTracks (collectionUid : String) (body : String)
  | purgeTracks (collectionUid : String) (body : String)
  | createPlaylist (playlist : String)
  | deletePlaylist (playlistUid : String)
  deriving DecidableEq, Repr

/-- The `WriteRequest` built by the slots `slotCreateCollection`, `slotUpdateCollection`,
`slotDeleteCollection`, `slotReplaceTracks`, `slotRelocateTracks`, `slotPurgeTracks`,
`slotCreatePlaylist` and `slotDeletePlaylist`. -/
def WriteCall.writeRequest (requestId : RequestId) : WriteCall → WriteRequest
  | WriteCall.createCollection collection =>
    { method := WriteRequestMethod.Post, id := requestId, path := "/collections",
      query := "", jsonContent := collection,
      finishedHandler := Operation.CreateCollection }
  | WriteCall.updateCollection uid collectionEntity =>
    { method := WriteRequestMethod.Put, id := requestId, path := "/collections/" ++ uid,
      query := "", jsonContent := collectionEntity,
      finishedHandler := Operation.UpdateCollection }
  | WriteCall.deleteCollection collectionUid =>
    { method := WriteRequestMethod.Delete, id := requestId,
      path := "/collections/" ++ collectionUid,
      query := "", jsonContent := "",
      finishedHandler := Operation.DeleteCollection }
  | WriteCall.replaceTracks collectionUid body =>
    { method := WriteRequestMethod.Post, id := requestId, path := "/tracks/replace",
      query := collectionQuery collectionUid, jsonContent := body,
      finishedHandler := Operation.ReplaceTracks }
  | WriteCall.relocateTracks collectionUid body =>
    { method := WriteRequestMethod.Post, id := requestId, path := "/tracks/relocate",
      query := collectionQuery collectionUid, jsonContent := body,
      finishedHandler := Operation.RelocateTracks }
  | WriteCall.purgeTracks collectionUid body =>
    { method := WriteRequestMethod.Post, id := requestId, path := "/tracks/purge",
      query := collectionQuery collectionUid, jsonContent := body,
      finishedHandler := Operation.PurgeTracks }
  | WriteCall.createPlaylist playlist =>
    { method := WriteRequestMethod.Post, id := requestId, path := "/playlists",
      query := "", jsonContent := playlist,
      finishedHandler := Operation.CreatePlaylist }
  | WriteCall.deletePlaylist playlistUid =>
    { method := WriteRequestMethod.Delete, id := requestId,
      path := "/playlists/" ++ playlistUid,
      query := "", jsonContent := "",
      finishedHandler := Operation.DeletePlaylist }

/-- A write slot: builds the `WriteRequest` and calls `enqueueWriteRequest`. -/
def slotWrite (fuel : Nat) (g : Gateway) (requestId : RequestId) (call : WriteCall) :
    Option Gateway :=
  enqueueWriteRequest fuel g (call.writeRequest requestId)

/-- The read slots. -/
inductive ReadCall where
  | listCollections
  | listTagsFacets
  | listTags
  | loadPlaylistBriefs
  deriving DecidableEq, Repr

/-- Resource path of a read slot. -/
def ReadCall.path : ReadCall → String
  | ReadCall.listCollections => "/collections"
  | ReadCall.listTagsFacets => "/tags/facets"
  | ReadCall.listTags => "/tags"
  | ReadCall.loadPlaylistBriefs => "/playlists"

/-- Reply handler connected by a read slot. -/
def ReadCall.handler : ReadCall → Operation
  | ReadCall.listCollections => Operation.ListCollections
  | ReadCall.listTagsFacets => Operation.ListTagsFacets
  | ReadCall.listTags => Operation.ListTags
  | ReadCall.loadPlaylistBriefs => Operation.LoadPlaylistBriefs

/-- The slots `slotListCollections`, `slotListTagsFacets`, `slotListTags` and
`slotLoadPlaylistBriefs`; `query` is the query built from their arguments. -/
def slotRead (fuel : Nat) (g : Gateway) (requestId : RequestId) (call : ReadCall)
    (query : String) : Option Gateway :=
  match accessNetwork fuel g requestId with
  | none => none
  | some (false, g1) => some g1
  | some (true, g1) =>
    some (awaitReply g1 (g1.qt.send HttpRequestMethod.Get call.path query false "")
      call.handler requestId)

/-- The reply handlers `on<Operation>NetworkReplyFinished`, run for the reply `sender()`.
They differ only in whether a JSON document is requested from `receiveReply`, whether
`finishWriteRequest(requestId)` is called, and in the result signal emitted. -/
def onNetworkReplyFinished (fuel : Nat) (g : Gateway) (operation : Operation)
    (reply : ReplyHandle) (d : NetworkReplyData) : Option Gateway :=
  let response := g.m_jsonWebClient.receiveReply g.qt reply d operation.readsJson
  let g1 := { g with m_jsonWebClient := response.2.1, qt := response.2.2 }
  (response.1.emitted.foldlM
    (fun g2 signal =>
      match signal with
      | ClientSignal.networkRequestFailed failedId errorMessage =>
        onNetworkRequestFailed fuel g2 failedId errorMessage) g1).bind
    (fun g2 =>
      if !response.1.requestId.isValid then some g2
      else
        (if operation.isWrite then finishWriteRequest fuel g2 response.1.requestId
         else some g2).bind
          (fun g3 =>
            if !JsonWebClient.isStatusCodeSuccess response.1.statusCode then some g3
            else if operation.emitsResult then
              some (g3.emit
                [GatewaySignal.result operation response.1.requestId response.1.jsonResponse])
            else some g3))

/-- What the event loop delivers to the gateway. -/
inductive Event where
  /-- A write slot is called with the id generated by the `invoke` function. -/
  | slotWrite (requestId : RequestId) (call : WriteCall)
  /-- The slot `slotShutdown` is called. -/
  | slotShutdown (requestId : RequestId)
  /-- A read slot is called. -/
  | slotRead (requestId : RequestId) (call : ReadCall) (query : String)
  /-- A reply emits `finished`. -/
  | replyFinished (reply : ReplyHandle) (d : NetworkReplyData)
  /-- A timer of the `RequestReplyManager` fires. -/
  | timerEvent (timerId : Int)
  /-- The state of the network access manager changes. -/
  | networkAccess (access : NetworkAccess)
  deriving DecidableEq, Repr

/-- Delivery of one event. The finished signal of a reply runs the handler connected
to it; the reply is deleted afterwards, which removes the connection. -/
def step (fuel : Nat) (g : Gateway) : Event → Option Gateway
  | Event.slotWrite requestId call => slotWrite fuel g requestId call
  | Event.slotShutdown requestId => slotShutdown fuel g requestId
  | Event.slotRead requestId call query => slotRead fuel g requestId call query
  | Event.replyFinished reply d =>
    match List.lookup reply g.connections with
    | none => some g
    | some operation =>
      onNetworkReplyFinished fuel
        { g with
          connections := g.connections.filter (fun c => c.1 != reply),
          qt := g.qt.finish reply }
        operation reply d
  | Event.timerEvent timerId =>
    some { g with
      m_jsonWebClient :=
        { g.m_jsonWebClient with
          m_requestReplyManager :=
            (g.m_jsonWebClient.m_requestReplyManager.timerEvent g.qt timerId).1 },
      qt := (g.m_jsonWebClient.m_requestReplyManager.timerEvent g.qt timerId).2 }
  | Event.networkAccess access =>
    some { g with m_jsonWebClient := { g.m_jsonWebClient with m_networkAccessManager := access } }

/-- Delivery of a sequence of events. -/
def run (fuel : Nat) (g : Gateway) : List Event → Option Gateway
  | [] => some g
  | e :: rest => (step fuel g e).bind (fun g1 => run fuel g1 rest)

/-! ### Observations on a gateway state -/

/-- Request id under which a reply is registered with the `RequestReplyManager`. -/
def requestIdOf (g : Gateway) (reply : ReplyHandle) : RequestId :=
  (QMap.value g.m_jsonWebClient.m_requestReplyManager.m_pendingReplies reply
    PendingReply.default).requestId

/-- Outstanding write calls: replies of write requests that have not finished yet. -/
def writesInFlight (g : Gateway) : List ReplyHandle :=
  (g.connections.filter (fun c => c.2.isWrite)).map (fun c => c.1)

/-- Request ids of all outstanding calls. -/
def inFlightIds (g : Gateway) : List RequestId :=
  g.connections.map (fun c => g.requestIdOf c.1)

/-- Request ids of the queued write requests, in queue order. -/
def queuedIds (g : Gateway) : List RequestId :=
  g.m_queuedWriteRequests.map (fun w => w.id)

/-- A request id as `RequestId::nextValid` hands it out: valid, and different from the
ids of the requests the gateway still knows (queued, outstanding, pending, deferred
shutdown). -/
def Fresh (g : Gateway) (requestId : RequestId) : Prop :=
  requestId ≠ 0 ∧ requestId ∉ g.queuedIds ++ g.inFlightIds ∧
    requestId ≠ g.m_pendingWriteRequestId ∧ requestId ≠ g.m_shutdownRequestId

/-- Events the gateway can receive: the slots are called with fresh request ids. -/
def Admissible (g : Gateway) : Event → Prop
  | Event.slotWrite requestId _ => g.Fresh requestId
  | Event.slotShutdown requestId => g.Fresh requestId
  | Event.slotRead requestId _ _ => g.Fresh requestId
  | Event.replyFinished _ _ => True
  | Event.timerEvent _ => True
  | Event.networkAccess _ => True

/-- States the gateway reaches from its initial state by admissible events. -/
inductive Reachable (access : NetworkAccess) : Gateway → Prop where
  | init : Reachable access (init access)
  | step (g : Gateway) (event : Event) (fuel : Nat) (g1 : Gateway) :
      Reachable access g → g.Admissible event → step fuel g event = some g1 →
      Reachable access g1

/-- Write requests enqueued by the write slots called in a sequence of events, in call
order. -/
def enqueuedRequests : List Event → List WriteRequest
  | [] => []
  | Event.slotWrite requestId call :: rest =>
    call.writeRequest requestId :: enqueuedRequests rest
  | _ :: rest => enqueuedRequests rest

/-- Request ids of the write slots called in a sequence of events, in call order. -/
def enqueuedIds (events : List Event) : List RequestId :=
  (enqueuedRequests events).map (fun w => w.id)

/-- Method, path, query and body of an HTTP call. -/
def httpRequest (c : HttpCall) : HttpRequestMethod × String × String × String :=
  (c.method, c.path, c.query, c.body)

/-- Calls issued by `sendWriteRequest`: `put`, `deleteResource`, and `post` of a request
made by `newRequest` (the shutdown request is posted without the JSON header). -/
def isWriteCall (c : HttpCall) : Bool :=
  c.method == HttpRequestMethod.Put || c.method == HttpRequestMethod.Delete ||
    (c.method == HttpRequestMethod.Post && c.jsonHeader)

/-- The write calls among the HTTP calls issued so far, oldest first. -/
def writeCallsSent (g : Gateway) : List (HttpRequestMethod × String × String × String) :=
  (g.qt.calls.filter isWriteCall).map httpRequest

/-- Calls issued by `slotShutdown`: a `post` of a plain request. -/
def isShutdownCall (c : HttpCall) : Bool :=
  c.method == HttpRequestMethod.Post && !c.jsonHeader

/-- The calls of `POST /shutdown` among the HTTP calls issued so far. -/
def shutdownCalls (g : Gateway) : List HttpCall :=
  g.qt.calls.filter isShutdownCall

/-- The HTTP call that `sendWriteRequest` issues for a write request. -/
def writeCall (writeRequest : WriteRequest) (reply : ReplyHandle) : HttpCall :=
  match writeRequest.method with
  | WriteRequestMethod.Put =>
    { method := HttpRequestMethod.Put, path := writeRequest.path, query := writeRequest.query,
      jsonHeader := true, body := writeRequest.jsonContent, reply := reply }
  | WriteRequestMethod.Post =>
    { method := HttpRequestMethod.Post, path := writeRequest.path,
      query := writeRequest.query,
      jsonHeader := true, body := writeRequest.jsonContent, reply := reply }
  | WriteRequestMethod.Delete =>
    { method := HttpRequestMethod.Delete, path := writeRequest.path,
      query := writeRequest.query,
      jsonHeader := false, body := "", reply := reply }

/-- The HTTP call that `slotShutdown` issues. -/
def shutdownCall (reply : ReplyHandle) : HttpCall :=
  { method := HttpRequestMethod.Post, path := "/shutdown", query := "",
    jsonHeader := false, body := "", reply := reply }

/-- Between `g` and `g1` the requests `sent` have been taken from the head of the queue
and sent, in this order, and no other write call has been issued. -/
def Sent (g g1 : Gateway) (sent : List WriteRequest) : Prop :=
  g1.dequeued = g.dequeued ++ sent ∧
    g.m_queuedWriteRequests = sent ++ g1.m_queuedWriteRequests ∧
    g1.writeCallsSent = g.writeCallsSent ++ sent.map (fun w => httpRequest (writeCall w 0))

/-- Between `g` and `g1` either no shutdown request has been posted, the id of a deferred
shutdown being kept or reset, or the deferred shutdown request has been posted, once,
which leaves no write pending, no write queued and no shutdown deferred. -/
def PostsDeferred (g g1 : Gateway) : Prop :=
  (g1.shutdownCalls = g.shutdownCalls ∧
    (g1.m_shutdownRequestId = g.m_shutdownRequestId ∨ g1.m_shutdownRequestId = 0)) ∨
  (g.m_shutdownRequestId ≠ 0 ∧
    (∃ c, g1.shutdownCalls = g.shutdownCalls ++ [c]) ∧
    g1.m_pendingWriteRequestId = 0 ∧ g1.m_queuedWriteRequests = [] ∧
    g1.m_shutdownRequestId = 0)

instance (g : Gateway) (requestId : RequestId) : Decidable (g.Fresh requestId) := by
  unfold Fresh
  infer_instance

instance (g : Gateway) (event : Event) : Decidable (g.Admissible event) := by
  cases event <;> unfold Admissible <;> infer_instance

/-! ### Values used in the scenarios -/

/-- A network access manager that is alive, in the right thread and accessible. -/
def accessible : NetworkAccess := { alive := true, sameThread := true, accessible := true }

/-- A network access manager reporting `NotAccessible`. -/
def notAccessible : NetworkAccess := { alive := true, sameThread := true, accessible := false }

/-- A reply without transport error, with the given status and an empty JSON array. -/
def replyWithStatus (statusCode : Int) : NetworkReplyData :=
  { error := false, errorString := "", statusCodeAttr := some statusCode,
    contentType := MimeType.json, content := "[]" }

/-- A reply with a transport error. -/
def replyRefused : NetworkReplyData :=
  { error := true, errorString := "Connection refused", statusCodeAttr := none,
    contentType := MimeType.invalid, content := "" }

/-! ### Fuel-free forms

The functions below repeat the mutually recursive slots with the nested delivery of
`networkRequestFailed` replaced by its effect when the failed id is not the pending
one, namely the forwarding of the signal. They agree with the slots whenever the request
ids in the gateway are valid (theorems `accessNetwork_direct` to `step_direct`). -/

/-- Signals `Gateway::networkRequestFailed` forwarded for the signals of the client. -/
def forwarded (signals : List ClientSignal) : List GatewaySignal :=
  signals.map (fun signal =>
    match signal with
    | ClientSignal.networkRequestFailed failedId errorMessage =>
      GatewaySignal.networkRequestFailed failedId errorMessage)

/-- Fuel-free form of `accessNetwork`. -/
def accessNetworkDirect (g : Gateway) (requestId : RequestId) : Bool × Gateway :=
  ((g.m_jsonWebClient.accessNetwork requestId).1,
   g.emit (forwarded (g.m_jsonWebClient.accessNetwork requestId).2))

/-- Fuel-free form of `slotShutdown`. -/
def slotShutdownDirect (g : Gateway) (requestId : RequestId) : Gateway :=
  if g.m_shutdownRequestId.isValid && g.m_shutdownRequestId != requestId then g
  else if g.m_pendingWriteRequestId.isValid || !g.m_queuedWriteRequests.isEmpty then
    { g with m_shutdownRequestId := requestId }
  else
    let g1 :=
      if g.m_shutdownRequestId.isValid then { g with m_shutdownRequestId := RequestId.invalid }
      else g
    if (accessNetworkDirect g1 requestId).1 then
      postShutdown (accessNetworkDirect g1 requestId).2 requestId
    else (accessNetworkDirect g1 requestId).2

/-- Fuel-free form of `finishWriteRequest`. -/
def finishWriteRequestDirect (g : Gateway) (requestId : RequestId) : Gateway :=
  if requestId.isValid &&
      !(!g.m_pendingWriteRequestId.isValid || requestId == g.m_pendingWriteRequestId) then g
  else if !requestId.isValid && g.m_pendingWriteRequestId.isValid then g
  else
    let g1 := { g with m_pendingWriteRequestId := RequestId.invalid }
    match g1.m_queuedWriteRequests with
    | [] =>
      if g1.m_shutdownRequestId.isValid then slotShutdownDirect g1 g1.m_shutdownRequestId
      else g1
    | head :: rest =>
      if (accessNetworkDirect g1 head.id).1 then
        dispatchWriteRequest (accessNetworkDirect g1 head.id).2 head rest
      else (accessNetworkDirect g1 head.id).2

/-- Fuel-free form of `onNetworkRequestFailed`. -/
def onNetworkRequestFailedDirect (g : Gateway) (requestId : RequestId)
    (errorMessage : String) : Gateway :=
  (if requestId = g.m_pendingWriteRequestId then finishWriteRequestDirect g requestId
   else g).emit [GatewaySignal.networkRequestFailed requestId errorMessage]

/-- Fuel-free delivery of the signals of the client to `onNetworkRequestFailed`. -/
def deliverDirect (g : Gateway) (signals : List ClientSignal) : Gateway :=
  signals.foldl
    (fun g1 signal =>
      match signal with
      | ClientSignal.networkRequestFailed failedId errorMessage =>
        onNetworkRequestFailedDirect g1 failedId errorMessage) g

/-- Fuel-free form of `onNetworkReplyFinished`. -/
def onNetworkReplyFinishedDirect (g : Gateway) (operation : Operation)
    (reply : ReplyHandle) (d : NetworkReplyData) : Gateway :=
  let response := g.m_jsonWebClient.receiveReply g.qt reply d operation.readsJson
  let g2 := deliverDirect
    { g with m_jsonWebClient := response.2.1, qt := response.2.2 } response.1.emitted
  if !response.1.requestId.isValid then g2
  else
    let g3 :=
      if operation.isWrite then finishWriteRequestDirect g2 response.1.requestId else g2
    if !JsonWebClient.isStatusCodeSuccess response.1.statusCode then g3
    else if operation.emitsResult then
      g3.emit [GatewaySignal.result operation response.1.requestId response.1.jsonResponse]
    else g3

/-- Fuel-free form of `step`. -/
def stepDirect (g : Gateway) : Event → Gateway
  | Event.slotWrite requestId call =>
    finishWriteRequestDirect
      { g with
        m_queuedWriteRequests := g.m_queuedWriteRequests ++ [call.writeRequest requestId] }
      RequestId.invalid
  | Event.slotShutdown requestId => slotShutdownDirect g requestId
  | Event.slotRead requestId call query =>
    if (accessNetworkDirect g requestId).1 then
      awaitReply (accessNetworkDirect g requestId).2
        ((accessNetworkDirect g requestId).2.qt.send HttpRequestMethod.Get call.path query
          false "")
        call.handler requestId
    else (accessNetworkDirect g requestId).2
  | Event.replyFinished reply d =>
    match List.lookup reply g.connections with
    | none => g
    | some operation =>
      onNetworkReplyFinishedDirect
        { g with
          connections := g.connections.filter (fun c => c.1 != reply),
          qt := g.qt.finish reply }
        operation reply d
  | Event.timerEvent timerId =>
    { g with
      m_jsonWebClient :=
        { g.m_jsonWebClient with
          m_requestReplyManager :=
            (g.m_jsonWebClient.m_requestReplyManager.timerEvent g.qt timerId).1 },
      qt := (g.m_jsonWebClient.m_requestReplyManager.timerEvent g.qt timerId).2 }
  | Event.networkAccess access =>
    { g with m_jsonWebClient := { g.m_jsonWebClient with m_networkAccessManager := access } }

/-! ### States used in the scenarios -/

/-- The gateway after `slotCreateCollection` with request id 1: the POST is outstanding. -/
def oneWrite : Gateway :=
  stepDirect (init accessible) (Event.slotWrite 1 (WriteCall.createCollection "X"))

/-- The gateway after a second write slot, `slotDeleteCollection` with request id 2, has
been called while the first write is outstanding. -/
def twoWrites : Gateway :=
  stepDirect oneWrite (Event.slotWrite 2 (WriteCall.deleteCollection "X"))

/-- The gateway after `slotShutdown` with request id 9 has been called while the write
is outstanding. -/
def writeThenShutdown : Gateway :=
  stepDirect oneWrite (Event.slotShutdown 9)

/-- The gateway after `slotShutdown` with request id 9 in the initial state. -/
def shutdownOnly : Gateway :=
  stepDirect (init accessible) (Event.slotShutdown 9)

/-- Invariant of the write queue. The id `finishing` is the one of the reply whose
handler is running (0 between two events): it may still be the pending write id
although its call is no longer outstanding. -/
structure Inv (finishing : RequestId) (g : Gateway) : Prop where
  /-- Outstanding replies are replies the access manager has handed out. -/
  conn_le : ∀ c ∈ g.connections, c.1 ≤ g.qt.nextReply
  /-- Queued and outstanding requests have pairwise different ids. -/
  ids_nodup : (g.queuedIds ++ g.inFlightIds).Nodup
  /-- Queued and outstanding requests have valid ids. -/
  ids_valid : ∀ i ∈ g.queuedIds ++ g.inFlightIds, i ≠ 0
  /-- Queued requests carry the reply handler of a write slot. -/
  queue_write : ∀ w ∈ g.m_queuedWriteRequests, w.finishedHandler.isWrite = true
  /-- The id of a deferred shutdown is not the id of another request. -/
  token_fresh : g.m_shutdownRequestId ∉ g.queuedIds ++ g.inFlightIds
  /-- The finishing id is not the id of a queued or outstanding request. -/
  finishing_fresh : finishing ∉ g.queuedIds ++ g.inFlightIds
  /-- The finishing id is not the id of a deferred shutdown. -/
  finishing_token : finishing = g.m_shutdownRequestId → finishing = 0
  /-- No write call is outstanding when no write is pending. -/
  write_none : g.m_pendingWriteRequestId = 0 ∨ g.m_pendingWriteRequestId = finishing →
    g.writesInFlight = []
  /-- Otherwise exactly one write call is outstanding, the one of the pending id. -/
  write_one : g.m_pendingWriteRequestId ≠ 0 → g.m_pendingWriteRequestId ≠ finishing →
    ∃ reply, g.writesInFlight = [reply] ∧ g.requestIdOf reply = g.m_pendingWriteRequestId

end Gateway

end aoide

end mixxx

namespace mixxx

namespace network

/-! ## requestid.cpp -/

/-- The pre-increment `++s_value` of the `QAtomicInteger<quint32>`: the new value of the
counter, which is also the value of the expression. -/
def RequestId.increment (s_value : Nat) : Nat := (s_value + 1) % 2 ^ 32

/-- The `do ... while (!next.isValid())` loop of `RequestId::nextValid`, run for at most
`fuel` passes: the id returned and the value of the shared counter afterwards. -/
def RequestId.nextValidLoop : Nat → Nat → Option (RequestId × Nat)
  | 0, _ => none
  | fuel + 1, s_value =>
    if RequestId.isValid (RequestId.increment s_value) then
      some (RequestId.increment s_value, RequestId.increment s_value)
    else RequestId.nextValidLoop fuel (RequestId.increment s_value)

/-- Static method `RequestId::nextValid` as a function of the shared counter; the loop
ends within two passes (theorem `nextValidLoop_two`). -/
def RequestId.nextValid (s_value : Nat) : RequestId × Nat :=
  (RequestId.nextValidLoop 2 s_value).getD (RequestId.invalid, s_value)

/-- The shared counter after `n` calls of `RequestId::nextValid`. -/
def RequestId.counterAfter : Nat → Nat → Nat
  | 0, s_value => s_value
  | n + 1, s_value => RequestId.counterAfter n (RequestId.nextValid s_value).2

/-- The id returned by call number `n + 1` of `RequestId::nextValid`, counted from the
counter value `s_value`. -/
def RequestId.result (n : Nat) (s_value : Nat) : RequestId :=
  (RequestId.nextValid (RequestId.counterAfter n s_value)).1

/-- Method `RequestId::reset`. -/
def RequestId.reset (_ : RequestId) : RequestId := RequestId.invalid

end network

namespace aoide

open network

/-! ## trackreplacementscheduler.cpp

The scheduler talks to three collaborators: the `TrackLoader` (calls of
`invokeSlotLoadTrack` are recorded in `loadCalls`), the `Gateway` (calls of
`invokeReplaceTracks` are recorded in `writeCalls`, each with the request id that
`RequestId::nextValid` hands out) and the receivers of its `progress` signal. -/

/-- A `TrackRef`; the scheduler only compares track refs. -/
abbrev TrackRef := Nat

/-- The track behind a non-null `TrackPointer`. -/
abbrev Track := Nat

/-- The `AoideTrack` that `Gateway::exportTrack(collectionUid, track)` returns. -/
structure AoideTrack where
  collectionUid : String
  track : Track
  deriving DecidableEq, Repr

/-- The arrays of the JSON object carried by `Gateway::replaceTracksResult`. -/
structure ReplaceTracksResult where
  created : List String
  updated : List String
  skipped : List String
  rejected : List String
  discarded : List String
  deriving DecidableEq, Repr

/-- Number of tracks a result accounts for. -/
def ReplaceTracksResult.total (result : ReplaceTracksResult) : Nat :=
  result.created.length + result.updated.length + result.skipped.length +
    result.rejected.length + result.discarded.length

def kMaxLoading : Nat := 8

def kBatchSize : Nat := 64

def kMaxPending : Nat := 2 * (kMaxLoading + kBatchSize)

/-- A call of `Gateway::invokeReplaceTracks`. -/
structure ReplaceTracksCall where
  requestId : RequestId
  collectionUid : String
  tracks : List AoideTrack
  deriving DecidableEq, Repr

/-- The signal `progress(queued, pending, succeeded, failed)`. -/
structure Progress where
  queued : Int
  pending : Int
  succeeded : Int
  failed : Int
  deriving DecidableEq, Repr

/-- Members of `TrackReplacementScheduler` and what it has asked of its collaborators. -/
structure TrackReplacementScheduler where
  /-- Whether the `QPointer<Gateway>` is non-null. -/
  m_gateway : Bool
  /-- Whether the `QPointer<TrackLoader>` is non-null. -/
  m_trackLoader : Bool
  m_deferredRequests : List (String × List TrackRef)
  m_collectionUid : String
  m_queuedTrackRefs : List TrackRef
  m_loadingTrackRefs : List TrackRef
  m_bufferedRequests : List AoideTrack
  /-- The `QSet<RequestId>`, as a list without repetitions. -/
  m_pendingRequests : List RequestId
  m_pendingCounter : Int
  m_succeededCounter : Int
  m_failedCounter : Int
  /-- The shared counter of `RequestId::nextValid`. -/
  s_value : Nat
  /-- Calls of `m_trackLoader->invokeSlotLoadTrack`, oldest first. -/
  loadCalls : List TrackRef
  /-- Calls of `m_gateway->invokeReplaceTracks`, oldest first. -/
  writeCalls : List ReplaceTracksCall
  /-- Emissions of the signal `progress`, oldest first. -/
  progress : List Progress
  deriving DecidableEq, Repr

namespace TrackReplacementScheduler

/-- The scheduler after construction. -/
def init (gateway trackLoader : Bool) (s_value : Nat) : TrackReplacementScheduler :=
  { m_gateway := gateway, m_trackLoader := trackLoader, m_deferredRequests := [],
    m_collectionUid := "", m_queuedTrackRefs := [], m_loadingTrackRefs := [],
    m_bufferedRequests := [], m_pendingRequests := [], m_pendingCounter := 0,
    m_succeededCounter := 0, m_failedCounter := 0, s_value := s_value,
    loadCalls := [], writeCalls := [], progress := [] }

/-- Method `isLoading`. -/
def isLoading (s : TrackReplacementScheduler) (trackRef : TrackRef) : Bool :=
  decide (s.m_loadingTrackRefs.count trackRef > 0)

/-- Method `enterLoading`. -/
def enterLoading (s : TrackReplacementScheduler) (trackRef : TrackRef) :
    Bool × TrackReplacementScheduler :=
  if s.isLoading trackRef then (false, s)
  else (true, { s with m_loadingTrackRefs := s.m_loadingTrackRefs ++ [trackRef] })

/-- Method `leaveLoading`: `removeAll` and whether anything was removed. -/
def leaveLoading (s : TrackReplacementScheduler) (trackRef : TrackRef) :
    Bool × TrackReplacementScheduler :=
  (decide (s.m_loadingTrackRefs.count trackRef > 0),
   { s with m_loadingTrackRefs := s.m_loadingTrackRefs.filter (fun r => r != trackRef) })

/-- Method `emitProgress`. -/
def emitProgress (s : TrackReplacementScheduler) : TrackReplacementScheduler :=
  { s with
    progress := s.progress ++
      [{ queued := (s.m_queuedTrackRefs.length : Int), pending := s.m_pendingCounter,
         succeeded := s.m_succeededCounter, failed := s.m_failedCounter }] }

/-- The inner loop of `makeProgress`, which dequeues track refs and asks the loader for
them; the first argument is the queue `m_queuedTrackRefs` the loop starts with. -/
def loadLoop : List TrackRef → TrackReplacementScheduler → TrackReplacementScheduler
  | [], s => { s with m_queuedTrackRefs := [] }
  | trackRef :: rest, s =>
    if s.m_loadingTrackRefs.length < kMaxLoading ∧ s.m_pendingCounter < (kMaxPending : Int) then
      if (enterLoading { s with m_queuedTrackRefs := rest } trackRef).1 then
        if !s.m_trackLoader then
          { (enterLoading { s with m_queuedTrackRefs := rest } trackRef).2 with
            m_failedCounter := s.m_failedCounter + 1 }
        else
          loadLoop rest
            { (enterLoading { s with m_queuedTrackRefs := rest } trackRef).2 with
              m_pendingCounter := s.m_pendingCounter + 1,
              loadCalls := s.loadCalls ++ [trackRef] }
      else loadLoop rest { s with m_queuedTrackRefs := rest }
    else { s with m_queuedTrackRefs := trackRef :: rest }

/-- The idle check of `makeProgress` followed by `emitProgress`. -/
def settle (s : TrackReplacementScheduler) : TrackReplacementScheduler :=
  emitProgress
    (if s.m_queuedTrackRefs.isEmpty && s.m_pendingCounter == 0 then
      { s with m_collectionUid := "", m_succeededCounter := 0, m_failedCounter := 0 }
    else s)

/-- The outer loop of `makeProgress`; the first argument is the queue
`m_deferredRequests` the loop starts with, of which every further pass takes one. -/
def makeProgressLoop :
    List (String × List TrackRef) → TrackReplacementScheduler → TrackReplacementScheduler
  | [], s =>
    if s.m_collectionUid.isEmpty then { s with m_deferredRequests := [] }
    else { settle (loadLoop s.m_queuedTrackRefs s) with m_deferredRequests := [] }
  | nextBatch :: rest, s =>
    if s.m_collectionUid.isEmpty then { s with m_deferredRequests := nextBatch :: rest }
    else if (settle (loadLoop s.m_queuedTrackRefs s)).m_collectionUid.isEmpty then
      makeProgressLoop rest
        { settle (loadLoop s.m_queuedTrackRefs s) with
          m_deferredRequests := rest,
          m_collectionUid := nextBatch.1,
          m_queuedTrackRefs :=
            (settle (loadLoop s.m_queuedTrackRefs s)).m_queuedTrackRefs ++ nextBatch.2 }
    else
      { settle (loadLoop s.m_queuedTrackRefs s) with
        m_deferredRequests := nextBatch :: rest }

/-- Method `makeProgress`. -/
def makeProgress (s : TrackReplacementScheduler) : TrackReplacementScheduler :=
  makeProgressLoop s.m_deferredRequests s

/-- Slot `slotReplaceTracks`. -/
def slotReplaceTracks (s : TrackReplacementScheduler) (collectionUid : String)
    (trackRefs : List TrackRef) : TrackReplacementScheduler :=
  if s.m_collectionUid.isEmpty || s.m_collectionUid == collectionUid then
    makeProgress
      { s with
        m_collectionUid := collectionUid,
        m_queuedTrackRefs := s.m_queuedTrackRefs ++ trackRefs }
  else { s with m_deferredRequests := s.m_deferredRequests ++ [(collectionUid, trackRefs)] }

/-- Slot `slotCancel`. -/
def slotCancel (s : TrackReplacementScheduler) : TrackReplacementScheduler :=
  makeProgress
    { s with m_deferredRequests := [], m_collectionUid := "", m_queuedTrackRefs := [] }

/-- The branches of `onTrackLoaded` that count the track as failed. -/
def countFailed (s : TrackReplacementScheduler) : TrackReplacementScheduler :=
  emitProgress
    { s with
      m_pendingCounter := s.m_pendingCounter - 1,
      m_failedCounter := s.m_failedCounter + 1 }

/-- The flush of `onTrackLoaded`: the buffered tracks are handed to
`Gateway::invokeReplaceTracks`, whose request id is recorded as pending. -/
def flush (s : TrackReplacementScheduler) : TrackReplacementScheduler :=
  { s with
    s_value := (RequestId.nextValid s.s_value).2,
    writeCalls := s.writeCalls ++
      [{ requestId := (RequestId.nextValid s.s_value).1,
         collectionUid := s.m_collectionUid,
         tracks := s.m_bufferedRequests }],
    m_pendingRequests :=
      if (RequestId.nextValid s.s_value).1 ∈ s.m_pendingRequests then s.m_pendingRequests
      else s.m_pendingRequests ++ [(RequestId.nextValid s.s_value).1],
    m_bufferedRequests := [] }

/-- Slot `onTrackLoaded`; `trackPtr` is `none` for a null pointer. -/
def onTrackLoaded (s : TrackReplacementScheduler) (trackRef : TrackRef)
    (trackPtr : Option Track) : TrackReplacementScheduler :=
  if !(s.leaveLoading trackRef).1 then s
  else
    match trackPtr with
    | none => countFailed (s.leaveLoading trackRef).2
    | some track =>
      if !s.m_gateway || s.m_collectionUid.isEmpty then
        countFailed (s.leaveLoading trackRef).2
      else
        makeProgress
          (if decide ((s.m_bufferedRequests.length + 1) ≥ kBatchSize) ||
              (s.m_queuedTrackRefs.isEmpty &&
                (s.leaveLoading trackRef).2.m_loadingTrackRefs.isEmpty) then
            flush
              { (s.leaveLoading trackRef).2 with
                m_bufferedRequests := s.m_bufferedRequests ++
                  [{ collectionUid := s.m_collectionUid, track := track }] }
          else
            { (s.leaveLoading trackRef).2 with
              m_bufferedRequests := s.m_bufferedRequests ++
                [{ collectionUid := s.m_collectionUid, track := track }] })

/-- The counters of `onReplaceTracksResult` after the result has been accounted, before
`emitProgress` and `makeProgress`. -/
def account (s : TrackReplacementScheduler) (requestId : RequestId)
    (result : ReplaceTracksResult) : TrackReplacementScheduler :=
  { s with
    m_pendingRequests := s.m_pendingRequests.filter (fun r => r != requestId),
    m_pendingCounter :=
      s.m_pendingCounter -
        ((result.created.length + result.updated.length + result.skipped.length : Nat) : Int) -
        ((result.rejected.length + result.discarded.length : Nat) : Int),
    m_succeededCounter :=
      s.m_succeededCounter +
        ((result.created.length + result.updated.length + result.skipped.length : Nat) : Int),
    m_failedCounter :=
      s.m_failedCounter + ((result.rejected.length + result.discarded.length : Nat) : Int) }

/-- Slot `onReplaceTracksResult`. -/
def onReplaceTracksResult (s : TrackReplacementScheduler) (requestId : RequestId)
    (result : ReplaceTracksResult) : TrackReplacementScheduler :=
  if requestId ∈ s.m_pendingRequests then
    makeProgress (emitProgress (account s requestId result))
  else s

/-- Slot `onNetworkRequestFailed`. -/
def onNetworkRequestFailed (s : TrackReplacementScheduler) (requestId : RequestId)
    (_ : String) : TrackReplacementScheduler :=
  if requestId ∈ s.m_pendingRequests then
    makeProgress
      (emitProgress
        { s with
          m_pendingRequests := s.m_pendingRequests.filter (fun r => r != requestId),
          m_pendingCounter := s.m_pendingCounter - 1,
          m_failedCounter := s.m_failedCounter + 1 })
  else s

/-- What the event loop delivers to the scheduler. -/
inductive Event where
  | slotReplaceTracks (collectionUid : String) (trackRefs : List TrackRef)
  | slotCancel
  | onTrackLoaded (trackRef : TrackRef) (trackPtr : Option Track)
  | onReplaceTracksResult (requestId : RequestId) (result : ReplaceTracksResult)
  | onNetworkRequestFailed (requestId : RequestId) (errorMessage : String)
  deriving DecidableEq, Repr

/-- Delivery of one event. -/
def step (s : TrackReplacementScheduler) : Event → TrackReplacementScheduler
  | Event.slotReplaceTracks collectionUid trackRefs =>
    s.slotReplaceTracks collectionUid trackRefs
  | Event.slotCancel => s.slotCancel
  | Event.onTrackLoaded trackRef trackPtr => s.onTrackLoaded trackRef trackPtr
  | Event.onReplaceTracksResult requestId result => s.onReplaceTracksResult requestId result
  | Event.onNetworkRequestFailed requestId errorMessage =>
    s.onNetworkRequestFailed requestId errorMessage

/-- Delivery of a sequence of events. -/
def run (s : TrackReplacementScheduler) : List Event → TrackReplacementScheduler
  | [] => s
  | event :: rest => run (s.step event) rest

/-- States reachable from a freshly constructed scheduler. -/
inductive Reachable (gateway trackLoader : Bool) (s_value : Nat) :
    TrackReplacementScheduler → Prop where
  | init : Reachable gateway trackLoader s_value (init gateway trackLoader s_value)
  | step (s : TrackReplacementScheduler) (event : Event) :
      Reachable gateway trackLoader s_value s →
      Reachable gateway trackLoader s_value (s.step event)

/-- The scheduler after three track refs have been submitted for collection "C1" and
loaded: their batch has been handed to the gateway under request id 1. -/
def threeLoaded : TrackReplacementScheduler :=
  run (init true true 0)
    [Event.slotReplaceTracks "C1" [10, 11, 12], Event.onTrackLoaded 10 (some 10),
     Event.onTrackLoaded 11 (some 11), Event.onTrackLoaded 12 (some 12)]

/-- Number of tracks handed to the gateway so far. -/
def written (s : TrackReplacementScheduler) : Nat :=
  (s.writeCalls.map (fun w => w.tracks.length)).sum

/-- Number of tracks in the batches whose write has not been answered yet. -/
def inflight (s : TrackReplacementScheduler) : Nat :=
  ((s.writeCalls.filter (fun w => decide (w.requestId ∈ s.m_pendingRequests))).map
    (fun w => w.tracks.length)).sum

/-- The events of a run in which every load succeeds and every write is answered with a
result that accounts for its whole batch: a track that is loading arrives loaded, or the
result of a pending write arrives, whose arrays name as many tracks as the batch had. -/
def Cooperative (s : TrackReplacementScheduler) : Event → Prop
  | Event.onTrackLoaded trackRef trackPtr =>
    trackRef ∈ s.m_loadingTrackRefs ∧ trackPtr.isSome = true
  | Event.onReplaceTracksResult requestId result =>
    requestId ∈ s.m_pendingRequests ∧
      ∃ w ∈ s.writeCalls, w.requestId = requestId ∧ result.total = w.tracks.length
  | _ => False

instance (s : TrackReplacementScheduler) (event : Event) : Decidable (s.Cooperative event) := by
  cases event <;> unfold Cooperative <;> infer_instance

/-- A sequence of events each of which is cooperative in the state it arrives in. -/
def CooperativeRun : TrackReplacementScheduler → List Event → Prop
  | _, [] => True
  | s, event :: rest => s.Cooperative event ∧ CooperativeRun (s.step event) rest

instance decidableCooperativeRun (s : TrackReplacementScheduler) (events : List Event) :
    Decidable (s.CooperativeRun events) := by
  induction events generalizing s with
  | nil => exact isTrue trivial
  | cons event rest ih =>
    unfold CooperativeRun
    have := ih (s.step event)
    infer_instance

/-- A schedule of cooperative events: the track that has been loading longest arrives,
and when no track is loading the oldest pending write is answered with a result that
reports all its tracks as created. At most `fuel` events are produced. -/
def schedule : Nat → TrackReplacementScheduler → List Event
  | 0, _ => []
  | fuel + 1, s =>
    match s.m_loadingTrackRefs with
    | trackRef :: _ =>
      Event.onTrackLoaded trackRef (some trackRef) ::
        schedule fuel (s.onTrackLoaded trackRef (some trackRef))
    | [] =>
      match s.writeCalls.filter (fun w => decide (w.requestId ∈ s.m_pendingRequests)) with
      | w :: _ =>
        Event.onReplaceTracksResult w.requestId
            { created := w.tracks.map (fun _ => ""), updated := [], skipped := [],
              rejected := [], discarded := [] } ::
          schedule fuel
            (s.onReplaceTracksResult w.requestId
              { created := w.tracks.map (fun _ => ""), updated := [], skipped := [],
                rejected := [], discarded := [] })
      | [] => []

/-- Invariant of a cooperative run that starts with one call of `slotReplaceTracks` for
`N` pairwise distinct track refs on an idle scheduler whose request id counter is at
`c0`. -/
structure Cooperating (collectionUid : String) (N c0 : Nat)
    (s : TrackReplacementScheduler) : Prop where
  gateway : s.m_gateway = true
  loader : s.m_trackLoader = true
  deferred : s.m_deferredRequests = []
  /-- Queued and loading track refs are pairwise distinct. -/
  nodup : (s.m_queuedTrackRefs ++ s.m_loadingTrackRefs).Nodup
  buffered_lt : s.m_bufferedRequests.length < kBatchSize
  /-- Once nothing is queued and nothing is loading, nothing is buffered. -/
  drained : s.m_queuedTrackRefs = [] → s.m_loadingTrackRefs = [] → s.m_bufferedRequests = []
  /-- Every track ref is queued, loading, buffered or written. -/
  total : s.m_queuedTrackRefs.length + s.m_loadingTrackRefs.length +
    s.m_bufferedRequests.length + s.written = N
  /-- The batches written are full, but for a last one. -/
  sizes : s.writeCalls.map (fun w => w.tracks.length) =
    List.replicate (s.written / kBatchSize) kBatchSize ++
      (if s.written % kBatchSize = 0 then [] else [s.written % kBatchSize])
  /-- A batch that is not full is written only after the last track has been loaded. -/
  last : s.written % kBatchSize ≠ 0 → s.m_queuedTrackRefs = [] ∧ s.m_loadingTrackRefs = []
  pending : s.m_pendingCounter =
    ((s.m_loadingTrackRefs.length + s.m_bufferedRequests.length + s.inflight : Nat) : Int)
  /-- The request ids of the writes are the ids handed out since the start. -/
  ids : s.writeCalls.map (fun w => w.requestId) =
    (List.range s.writeCalls.length).map (fun i => RequestId.result i c0)
  counter : s.s_value = RequestId.counterAfter s.writeCalls.length c0
  tracked : ∀ requestId ∈ s.m_pendingRequests,
    requestId ∈ s.writeCalls.map (fun w => w.requestId)
  /-- The collection stays active while a track is loading or a write is pending. -/
  active : s.m_collectionUid = collectionUid ∨
    (s.m_loadingTrackRefs = [] ∧ s.m_pendingRequests = [])

/-- The loading loop has stopped at one of its two bounds: track refs stay queued only
while eight tracks are loading or the pending counter has reached its limit. -/
def Saturated (s : TrackReplacementScheduler) : Prop :=
  s.m_queuedTrackRefs ≠ [] →
    ¬ (s.m_loadingTrackRefs.length < kMaxLoading ∧ s.m_pendingCounter < (kMaxPending : Int))

/-- The admission bounds of the scheduler. -/
def Bounded (s : TrackReplacementScheduler) : Prop :=
  s.m_loadingTrackRefs.length ≤ kMaxLoading ∧ s.m_loadingTrackRefs.Nodup ∧
    s.m_pendingCounter ≤ (kMaxPending : Int) ∧ s.m_bufferedRequests.length < kBatchSize

end TrackReplacementScheduler

/-! ## library/aoide/gateway.cpp, the public write operations -/

namespace Gateway

/-- The slots that gateway.h declares under `public slots:`. -/
def publicSlots : List String :=
  ["slotShutdown", "slotListCollections", "slotCreateCollection", "slotUpdateCollection",
   "slotDeleteCollection", "slotReplaceTracks", "slotRelocateTracks", "slotPurgeTracks",
   "slotListTagsFacets", "slotListTags", "slotCreatePlaylist", "slotDeletePlaylist",
   "slotLoadPlaylistBriefs"]

/-- The public write operations of `Gateway` with the arguments they hand to
`QMetaObject::invokeMethod`; JSON arguments are given as their compact text, a
collection entity as its uid and its compact text. -/
inductive InvokeCall where
  | invokeCreateCollection (collection : String)
  | invokeUpdateCollection (uid : String) (collectionEntity : String)
  | invokeDeleteCollection (collectionUid : String)
  | invokeReplaceTracks (collectionUid : String) (tracks : String)
  | invokeRelocateTracks (collectionUid : String) (relocateTracksParams : String)
  | invokeRelocateAllTracks (collectionUid : String) (relocateTracksParams : String)
  | invokePurgeTracks (collectionUid : String) (purgeTracksParams : String)
  | invokePurgeAllTracks (collectionUid : String) (purgeTracksParams : String)
  | invokeCreatePlaylist (playlist : String)
  | invokeDeletePlaylist (playlistUid : String)
  deriving DecidableEq, Repr

/-- What `QMetaObject::invokeMethod` is asked to call: a member that is looked up by its
name when the call is made, or a functor that calls a slot of the gateway directly. -/
inductive Invoked where
  | member (name : String)
  | functor (call : WriteCall)
  deriving DecidableEq, Repr

/-- The write slot that a member name resolves to, with the call it makes for the
arguments that follow the request id. A name that no slot bears resolves to nothing. -/
def slotCall : String → List String → Option WriteCall
  | "slotCreateCollection", [collection] => some (WriteCall.createCollection collection)
  | "slotUpdateCollection", [uid, collectionEntity] =>
    some (WriteCall.updateCollection uid collectionEntity)
  | "slotDeleteCollection", [collectionUid] => some (WriteCall.deleteCollection collectionUid)
  | "slotReplaceTracks", [collectionUid, tracks] =>
    some (WriteCall.replaceTracks collectionUid tracks)
  | "slotRelocateTracks", [collectionUid, body] =>
    some (WriteCall.relocateTracks collectionUid body)
  | "slotPurgeTracks", [collectionUid, body] => some (WriteCall.purgeTracks collectionUid body)
  | "slotCreatePlaylist", [playlist] => some (WriteCall.createPlaylist playlist)
  | "slotDeletePlaylist", [playlistUid] => some (WriteCall.deletePlaylist playlistUid)
  | _, _ => none

namespace InvokeCall

/-- First argument after `this` of the call of `QMetaObject::invokeMethod` in each write
operation; the playlist operations pass a functor (Qt 5.10 and later). -/
def invoked : InvokeCall → Invoked
  | invokeCreateCollection _ => Invoked.member "slotCreateCollection"
  | invokeUpdateCollection _ _ => Invoked.member "slotUpdateCollection"
  | invokeDeleteCollection _ => Invoked.member "slotDeleteCollection"
  | invokeReplaceTracks _ _ => Invoked.member "slotReplaceTracks"
  | invokeRelocateTracks _ _ => Invoked.member "relocateTracks"
  | invokeRelocateAllTracks _ _ => Invoked.member "slotRelocateTracks"
  | invokePurgeTracks _ _ => Invoked.member "slotPurgeTracks"
  | invokePurgeAllTracks _ _ => Invoked.member "slotPurgeTracks"
  | invokeCreatePlaylist playlist => Invoked.functor (WriteCall.createPlaylist playlist)
  | invokeDeletePlaylist playlistUid => Invoked.functor (WriteCall.deletePlaylist playlistUid)

/-- The arguments passed after the request id. -/
def arguments : InvokeCall → List String
  | invokeCreateCollection collection => [collection]
  | invokeUpdateCollection uid collectionEntity => [uid, collectionEntity]
  | invokeDeleteCollection collectionUid => [collectionUid]
  | invokeReplaceTracks collectionUid tracks => [collectionUid, tracks]
  | invokeRelocateTracks collectionUid relocateTracksParams =>
    [collectionUid, relocateTracksParams]
  | invokeRelocateAllTracks collectionUid relocateTracksParams =>
    [collectionUid, relocateTracksParams]
  | invokePurgeTracks collectionUid purgeTracksParams => [collectionUid, purgeTracksParams]
  | invokePurgeAllTracks collectionUid purgeTracksParams => [collectionUid, purgeTracksParams]
  | invokeCreatePlaylist _ => []
  | invokeDeletePlaylist _ => []

/-- Method and path that the endpoint table of the specification gives for each write
operation. -/
def endpointTable : InvokeCall → WriteRequestMethod × String
  | invokeCreateCollection _ => (WriteRequestMethod.Post, "/collections")
  | invokeUpdateCollection uid _ => (WriteRequestMethod.Put, "/collections/" ++ uid)
  | invokeDeleteCollection collectionUid =>
    (WriteRequestMethod.Delete, "/collections/" ++ collectionUid)
  | invokeReplaceTracks _ _ => (WriteRequestMethod.Post, "/tracks/replace")
  | invokeRelocateTracks _ _ => (WriteRequestMethod.Post, "/tracks/relocate")
  | invokeRelocateAllTracks _ _ => (WriteRequestMethod.Post, "/tracks/relocate")
  | invokePurgeTracks _ _ => (WriteRequestMethod.Post, "/tracks/purge")
  | invokePurgeAllTracks _ _ => (WriteRequestMethod.Post, "/tracks/purge")
  | invokeCreatePlaylist _ => (WriteRequestMethod.Post, "/playlists")
  | invokeDeletePlaylist playlistUid =>
    (WriteRequestMethod.Delete, "/playlists/" ++ playlistUid)

end InvokeCall

/-- The thread that calls the gateway: the counter of `RequestId` and the calls posted
to the event loop of the gateway that have not been delivered yet, oldest first. -/
structure Caller where
  s_value : Nat
  posted : List Event
  deriving DecidableEq, Repr

/-- Function `QMetaObject::invokeMethod` with `Qt::QueuedConnection`: the call is posted
if the member is found; otherwise nothing is posted and `false` is returned, which the
write operations ignore. -/
def invokeMethod (c : Caller) (invoked : Invoked) (requestId : RequestId)
    (arguments : List String) : Bool × Caller :=
  match invoked with
  | Invoked.functor call =>
    (true, { c with posted := c.posted ++ [Event.slotWrite requestId call] })
  | Invoked.member name =>
    match slotCall name arguments with
    | some call => (true, { c with posted := c.posted ++ [Event.slotWrite requestId call] })
    | none => (false, c)

/-- A public write operation: a request id is generated, the slot is invoked through
the event loop, and the id is returned. -/
def invoke (c : Caller) (call : InvokeCall) : RequestId × Caller :=
  ((RequestId.nextValid c.s_value).1,
    (invokeMethod { c with s_value := (RequestId.nextValid c.s_value).2 } call.invoked
      (RequestId.nextValid c.s_value).1 call.arguments).2)

end Gateway

end aoide

end mixxx

namespace mixxx

namespace aoide

/-! ## Qt strings and JSON values -/

/-- A `QString`, as the list of its characters. -/
abbrev QString := List Char

namespace QString

/-- Function `QChar::isSpace`: the separator characters and the control characters
U+0009 to U+000D and U+0085. -/
def isSpace (c : Char) : Bool :=
  (9 ≤ c.toNat && c.toNat ≤ 13) || c.toNat == 32 || c.toNat == 0x85 || c.toNat == 0xA0 ||
    c.toNat == 0x1680 || (0x2000 ≤ c.toNat && c.toNat ≤ 0x200A) || c.toNat == 0x2028 ||
    c.toNat == 0x2029 || c.toNat == 0x202F || c.toNat == 0x205F || c.toNat == 0x3000

/-- Function `QString::trimmed`: whitespace is removed from the start and the end. -/
def trimmed (s : QString) : QString :=
  (s.dropWhile isSpace).rdropWhile isSpace

/-- Puts a character in front of the first of the parts. -/
def pushFront (c : Char) : List QString → List QString
  | [] => [[c]]
  | part :: parts => (c :: part) :: parts

/-- The parts between the occurrences of a non-empty separator, found from left to
right without overlap, empty parts included; the last argument counts the characters of
a separator just found that are still to be skipped. -/
def splitKeep (sep : QString) : QString → Nat → List QString
  | [], _ => [[]]
  | c :: rest, 0 =>
    if sep.isPrefixOf (c :: rest) then [] :: splitKeep sep rest (sep.length - 1)
    else pushFront c (splitKeep sep rest 0)
  | _ :: rest, skip + 1 => splitKeep sep rest skip

/-- Function `QString::split` with `QString::SkipEmptyParts`; an empty separator splits
between all characters. -/
def split (sep s : QString) : List QString :=
  if sep.isEmpty then s.map (fun c => [c])
  else (splitKeep sep s 0).filter (fun part => !part.isEmpty)

/-- Function `QStringList::join`. -/
def join (sep : QString) : List QString → QString
  | [] => []
  | [part] => part
  | part :: next :: rest => part ++ sep ++ join sep (next :: rest)

/-- Function `QString::indexOf` for a non-empty string searched for; `none` stands for
the result -1. -/
def indexOf (sep : QString) : QString → Option Nat
  | [] => if sep.isEmpty then some 0 else none
  | c :: rest =>
    if sep.isPrefixOf (c :: rest) then some 0 else (indexOf sep rest).map (fun i => i + 1)

/-- Function `QString::lastIndexOf` for a non-empty string searched for; `none` stands
for the result -1. -/
def lastIndexOf (sep : QString) : QString → Option Nat
  | [] => if sep.isEmpty then some 0 else none
  | c :: rest =>
    match lastIndexOf sep rest with
    | some i => some (i + 1)
    | none => if sep.isPrefixOf (c :: rest) then some 0 else none

/-- Function `QString::left`. -/
def left (s : QString) (n : Nat) : QString := s.take n

/-- Function `QString::right`. -/
def right (s : QString) (n : Nat) : QString := s.drop (s.length - n)

end QString

/-- The functions of `QString` that the model takes from Qt as they are: `toLower`, and
`toDouble`, which gives no number when its flag `ok` is false. A `double` is a rational
number here; rounding is not modelled. -/
structure QStringFunctions where
  toLower : QString → QString
  toDouble : QString → Option ℚ

/-- A `QJsonValue` that is null, a string or a number. -/
inductive QJsonScalar where
  | null
  | string (s : QString)
  | double (d : ℚ)
  deriving DecidableEq, Repr

namespace QJsonScalar

/-- Function `QJsonValue::toString`. -/
def toString : QJsonScalar → QString
  | string s => s
  | _ => []

/-- Function `QJsonValue::toDouble`. -/
def toDouble (v : QJsonScalar) (defaultValue : ℚ) : ℚ :=
  match v with
  | double d => d
  | _ => defaultValue

/-- Function `QJsonValue::isNull`. -/
def isNull : QJsonScalar → Bool
  | null => true
  | _ => false

/-- Function `QJsonValue::isDouble`. -/
def isDouble : QJsonScalar → Bool
  | double _ => true
  | _ => false

end QJsonScalar

/-- A `QJsonValue` as tags are encoded: a scalar or an array of scalars. -/
inductive QJsonValue where
  | scalar (v : QJsonScalar)
  | array (items : List QJsonScalar)
  deriving DecidableEq, Repr

/-! ## library/aoide/domain/tag.cpp -/

/-- Class `AoideTag`: the three elements of `m_jsonArray`, at `kFacetIndex`,
`kLabelIndex` and `kScoreIndex`. -/
structure AoideTag where
  atFacetIndex : QJsonScalar
  atLabelIndex : QJsonScalar
  atScoreIndex : QJsonScalar
  deriving DecidableEq, Repr

namespace AoideTag

/-- Constructor `AoideTag()`. -/
def empty : AoideTag :=
  { atFacetIndex := QJsonScalar.null, atLabelIndex := QJsonScalar.null,
    atScoreIndex := QJsonScalar.null }

def kFacetComment : QString := "comment".toList

def kFacetGenre : QString := "genre".toList

def noFacet : QString := []

def noLabel : QString := []

def defaultScore : ℚ := 1

def isValidScore (score : ℚ) : Bool := decide (0 ≤ score) && decide (score ≤ 1)

/-- Characters that the regular expression `\s` matches. -/
def isRegexpWhitespace (c : Char) : Bool :=
  (9 ≤ c.toNat && c.toNat ≤ 13) || c.toNat == 32

def isValidFacet (qt : QStringFunctions) (facet : QString) : Bool :=
  !facet.any isRegexpWhitespace && qt.toLower facet == facet

def isValidLabel (label : QString) : Bool := QString.trimmed label == label

def facet (t : AoideTag) : QString := t.atFacetIndex.toString

def setFacet (t : AoideTag) (facet : QString) : AoideTag :=
  { t with atFacetIndex := if facet.isEmpty then QJsonScalar.null else QJsonScalar.string facet }

def label (t : AoideTag) : QString := t.atLabelIndex.toString

def setLabel (t : AoideTag) (label : QString) : AoideTag :=
  { t with atLabelIndex := if label.isEmpty then QJsonScalar.null else QJsonScalar.string label }

def score (t : AoideTag) : ℚ :=
  if t.atScoreIndex.isDouble then t.atScoreIndex.toDouble defaultScore else defaultScore

def setScore (t : AoideTag) (score : ℚ) : AoideTag :=
  { t with atScoreIndex := QJsonScalar.double score }

def isEmpty (t : AoideTag) : Bool :=
  t.atFacetIndex.isNull && t.atLabelIndex.isNull && t.atScoreIndex.isNull

def isPlain (t : AoideTag) : Bool := t.facet.isEmpty

def isFaceted (t : AoideTag) : Bool := !t.isPlain

/-- Method `intoJsonValue`: label or facet and score are left out when they are empty or
the default. -/
def intoJsonValue (t : AoideTag) : QJsonValue :=
  if t.isEmpty then QJsonValue.array []
  else
    match
      (if t.isFaceted then
        (if t.label.isEmpty then [t.atFacetIndex] else [t.atFacetIndex, t.atLabelIndex])
       else [t.atLabelIndex]) ++
      (if isValidScore t.score && t.score != defaultScore then [t.atScoreIndex] else []) with
    | [first] => QJsonValue.scalar first
    | jsonArray => QJsonValue.array jsonArray

/-- Function `QJsonArray::at`, which gives an undefined value outside the array; that
value converts like null. -/
def jsonAt (jsonArray : List QJsonScalar) (i : Nat) : QJsonScalar :=
  jsonArray.getD i QJsonScalar.null

/-- Method `fromPlain`. -/
def fromPlain : QJsonValue → AoideTag
  | QJsonValue.array jsonArray =>
    (empty.setLabel (jsonAt jsonArray 0).toString).setScore ((jsonAt jsonArray 1).toDouble 0)
  | QJsonValue.scalar v => empty.setLabel v.toString

/-- Method `fromFaceted`. -/
def fromFaceted : QJsonValue → AoideTag
  | QJsonValue.array jsonArray =>
    if jsonArray.length == 2 then
      if (jsonAt jsonArray 1).isDouble then
        (empty.setFacet (jsonAt jsonArray 0).toString).setScore ((jsonAt jsonArray 1).toDouble 0)
      else
        (empty.setFacet (jsonAt jsonArray 0).toString).setLabel (jsonAt jsonArray 1).toString
    else
      ((empty.setFacet (jsonAt jsonArray 0).toString).setLabel
        (jsonAt jsonArray 1).toString).setScore ((jsonAt jsonArray 2).toDouble 0)
  | QJsonValue.scalar v => empty.setFacet v.toString

end AoideTag

/-- Class `AoideTags`: the two arrays of `m_jsonArray`, the plain and the faceted tags. -/
structure AoideTags where
  plain : List QJsonValue
  faceted : List QJsonValue
  deriving DecidableEq, Repr

namespace AoideTags

/-- Constructor `AoideTags()`. -/
def empty : AoideTags := { plain := [], faceted := [] }

def plainTags (tags : AoideTags) : List AoideTag := tags.plain.map AoideTag.fromPlain

def facetedTags (tags : AoideTags) (facet label : QString) : List AoideTag :=
  (tags.faceted.map AoideTag.fromFaceted).filter
    (fun tag => (facet == AoideTag.noFacet || facet == tag.facet) &&
      (label == AoideTag.noLabel || label == tag.label))

def allTags (tags : AoideTags) : List AoideTag :=
  tags.plain.map AoideTag.fromPlain ++ tags.faceted.map AoideTag.fromFaceted

def addTags (tags : AoideTags) (added : List AoideTag) : AoideTags :=
  added.foldl
    (fun acc tag =>
      if tag.isPlain then { acc with plain := acc.plain ++ [tag.intoJsonValue] }
      else { acc with faceted := acc.faceted ++ [tag.intoJsonValue] })
    tags

end AoideTags

/-! ## Arithmetic of `double`

A finite `double` is the rational number it stands for. A product is the exact product
rounded to the nearest `double`, to the even one of two that are equally near, as IEEE 754
has it for the format binary64 with its 53 significant bits and its smallest exponent
-1022, below which the spacing of the numbers stays 2 ^ -1074. Results of a size from
2 ^ 1024, which are infinite, are not modelled. -/

namespace Double

/-- The power of 2 with an integer exponent. -/
def pow2 (e : Int) : ℚ :=
  if 0 ≤ e then ((2 ^ e.toNat : Nat) : ℚ) else 1 / ((2 ^ (-e).toNat : Nat) : ℚ)

/-- The size of a rational number. -/
def size (x : ℚ) : ℚ := if x < 0 then -x else x

/-- Halves a number until it is below 2, at most `fuel` times, and counts the halvings. -/
def halvings : Nat → Nat → Nat
  | 0, _ => 0
  | fuel + 1, n => if n < 2 then 0 else halvings fuel (n / 2) + 1

/-- The greatest `k` with `2 ^ k` at most `n`, for `n` other than 0. -/
def log2 (n : Nat) : Nat := halvings n n

/-- The exponent of the `double` format for a number other than 0: the greatest `e` with
`2 ^ e` at most the size of the number, and -1022 when that is less. -/
def exponent (x : ℚ) : Int :=
  max
    (if size x < pow2 ((log2 x.num.natAbs : Int) - (log2 x.den : Int)) then
      (log2 x.num.natAbs : Int) - (log2 x.den : Int) - 1
     else (log2 x.num.natAbs : Int) - (log2 x.den : Int))
    (-1022)

/-- The integer nearest to a number that is not negative, the even one of two that are
equally near. -/
def nearestEven (n : ℚ) : Int :=
  if n - (Rat.floor n : ℚ) < 1 / 2 then Rat.floor n
  else if n - (Rat.floor n : ℚ) > 1 / 2 then Rat.floor n + 1
  else if Rat.floor n % 2 = 0 then Rat.floor n
  else Rat.floor n + 1

/-- The `double` nearest to a rational number. -/
def round (x : ℚ) : ℚ :=
  if x = 0 then 0
  else
    (if x < 0 then -1 else 1) *
      ((nearestEven (size x / pow2 (exponent x - 52)) : Int) : ℚ) * pow2 (exponent x - 52)

/-- The product of two values of type `double`. -/
def mul (x y : ℚ) : ℚ := round (x * y)

end Double

/-! ## library/aoide/tag/multigenretagger.cpp -/

/-- Class `MultiGenreTagger`; the attenuation is a `double`. -/
structure MultiGenreTagger where
  m_multiGenreSeparator : QString
  m_multiGenreAttenuation : ℚ

namespace MultiGenreTagger

/-- The call of `std::sort` in `importGenre`, as an insertion sort; the order of tags
with equal scores, which `std::sort` leaves open, is the one of the argument here. -/
def sortByScore (genreTags : List AoideTag) : List AoideTag :=
  genreTags.insertionSort (fun t1 t2 => t1.score > t2.score)

/-- Method `importGenre`. -/
def importGenre (t : MultiGenreTagger) (genreTags : List AoideTag) : QString :=
  match genreTags with
  | [] => []
  | [tag] => tag.label
  | _ => QString.join t.m_multiGenreSeparator ((sortByScore genreTags).map AoideTag.label)

/-- The loop of `exportGenreTags` over the parts of the genre, with the score of the
next tag. -/
def exportLoop (t : MultiGenreTagger) : List QString → ℚ → List AoideTag
  | [], _ => []
  | genre :: rest, score =>
    if !(QString.trimmed genre).isEmpty then
      ((AoideTag.empty.setFacet AoideTag.kFacetGenre).setLabel (QString.trimmed genre)).setScore
          score ::
        exportLoop t rest (Double.mul score t.m_multiGenreAttenuation)
    else exportLoop t rest score

/-- Method `exportGenreTags`. -/
def exportGenreTags (t : MultiGenreTagger) (genre : QString) : List AoideTag :=
  exportLoop t (QString.split t.m_multiGenreSeparator genre) AoideTag.defaultScore

end MultiGenreTagger

/-! ## library/aoide/tag/hashtagcommentstagger.cpp -/

namespace HashtagCommentsTagger

def kProtectedCommentTagsSeparator : QString := "##\n".toList

def kHashtagPrefix : QString := "#".toList

def kFacetLabelSeparator : QString := ":".toList

def kLabelScoreSeparator : QString := "=".toList

/-- Function `splitProtectedCommentTag`: the tag it returns and the comment it leaves. -/
def splitProtectedCommentTag (comment : QString) : AoideTag × QString :=
  match QString.lastIndexOf kProtectedCommentTagsSeparator comment with
  | some separatorIndex =>
    ((AoideTag.empty.setFacet AoideTag.kFacetComment).setLabel
        (QString.trimmed (QString.left comment separatorIndex)),
      QString.right comment
        (comment.length - (separatorIndex + kProtectedCommentTagsSeparator.length)))
  | none => (AoideTag.empty, comment)

/-- Function `extractTagFacet`: the facet it returns and the token it leaves. -/
def extractTagFacet (qt : QStringFunctions) (token : QString) : QString × QString :=
  match QString.indexOf kFacetLabelSeparator token with
  | some separatorIndex =>
    if (QString.trimmed (QString.left token separatorIndex)).isEmpty ||
        AoideTag.isValidFacet qt (QString.trimmed (QString.left token separatorIndex)) then
      (QString.trimmed (QString.left token separatorIndex),
        QString.right token (token.length - (separatorIndex + kFacetLabelSeparator.length)))
    else (AoideTag.noFacet, token)
  | none => (AoideTag.noFacet, token)

/-- Function `extractTagScore`: the score it returns and the token it leaves. -/
def extractTagScore (qt : QStringFunctions) (token : QString) : ℚ × QString :=
  match QString.lastIndexOf kLabelScoreSeparator token with
  | some separatorIndex =>
    match qt.toDouble
        (QString.right token (token.length - (separatorIndex + kLabelScoreSeparator.length))) with
    | some score =>
      if AoideTag.isValidScore score then (score, QString.left token separatorIndex)
      else (AoideTag.defaultScore, token)
    | none => (AoideTag.defaultScore, token)
  | none => (AoideTag.defaultScore, token)

/-- Function `extractTag`. -/
def extractTag (qt : QStringFunctions) (token : QString) : AoideTag :=
  if !(extractTagFacet qt token).1.isEmpty ||
      !(QString.trimmed (extractTagScore qt (extractTagFacet qt token).2).2).isEmpty then
    ((AoideTag.empty.setFacet (extractTagFacet qt token).1).setLabel
        (QString.trimmed (extractTagScore qt (extractTagFacet qt token).2).2)).setScore
      (extractTagScore qt (extractTagFacet qt token).2).1
  else AoideTag.empty

/-- The variables of the loop of `splitAndKeepSpaces`. -/
structure SplitState where
  tokens : List QString
  nextSpaceToken : QString
  nextTextToken : QString

/-- Function `splitAndKeepSpaces`. -/
def splitAndKeepSpaces (str : QString) : List QString :=
  let final := str.foldl
    (fun (st : SplitState) c =>
      if QString.isSpace c then
        { tokens := if !st.nextTextToken.isEmpty then st.tokens ++ [st.nextTextToken]
            else st.tokens,
          nextSpaceToken := st.nextSpaceToken ++ [c],
          nextTextToken := [] }
      else
        { tokens := if !st.nextSpaceToken.isEmpty then st.tokens ++ [st.nextSpaceToken]
            else st.tokens,
          nextSpaceToken := [],
          nextTextToken := st.nextTextToken ++ [c] })
    { tokens := [], nextSpaceToken := [], nextTextToken := [] }
  final.tokens ++ (if !final.nextSpaceToken.isEmpty then [final.nextSpaceToken] else []) ++
    (if !final.nextTextToken.isEmpty then [final.nextTextToken] else [])

/-- Whether the last character of a text is no whitespace. -/
def backIsNoSpace (text : QString) : Bool :=
  match text.getLast? with
  | some c => !QString.isSpace c
  | none => false

/-- Whether the first character of a token is no whitespace. -/
def frontIsNoSpace (token : QString) : Bool :=
  match token.head? with
  | some c => !QString.isSpace c
  | none => false

/-- The variables of the loop of `extractHashtagsFromText`. -/
structure ExtractState where
  text : QString
  extractedTags : List AoideTag
  nextHashtag : QString

/-- One pass of the loop of `extractHashtagsFromText`. -/
def extractStep (qt : QStringFunctions) (st : ExtractState) (token : QString) : ExtractState :=
  if kHashtagPrefix.isPrefixOf token || token.isEmpty then
    if !st.nextHashtag.isEmpty then
      if (extractTag qt
          (QString.right st.nextHashtag (st.nextHashtag.length - kHashtagPrefix.length))).isEmpty then
        { text :=
            (if !st.text.isEmpty && backIsNoSpace st.text then st.text ++ [' '] else st.text) ++
              st.nextHashtag,
          extractedTags := st.extractedTags,
          nextHashtag := token }
      else
        { text := st.text,
          extractedTags := st.extractedTags ++
            [extractTag qt
              (QString.right st.nextHashtag (st.nextHashtag.length - kHashtagPrefix.length))],
          nextHashtag := token }
    else { st with nextHashtag := token }
  else if st.nextHashtag.isEmpty then
    { st with
      text :=
        (if !st.text.isEmpty && backIsNoSpace st.text && frontIsNoSpace token then
          st.text ++ [' '] else st.text) ++ token }
  else { st with nextHashtag := st.nextHashtag ++ token }

/-- Function `extractHashtagsFromText`: the tags it returns and the text it leaves. -/
def extractHashtagsFromText (qt : QStringFunctions) (text : QString) :
    List AoideTag × QString :=
  let final := (splitAndKeepSpaces text ++ [[]]).foldl (extractStep qt)
    { text := [], extractedTags := [], nextHashtag := [] }
  (final.extractedTags, final.text)

/-- The second and the third step of `exportCommentAsTags`, for the comment that
`splitProtectedCommentTag` has left. -/
def exportUnprotected (qt : QStringFunctions) (tags : AoideTags) (comment : QString) :
    AoideTags :=
  if !(QString.trimmed (extractHashtagsFromText qt comment).2).isEmpty then
    (tags.addTags (extractHashtagsFromText qt comment).1).addTags
      [(AoideTag.empty.setFacet AoideTag.kFacetComment).setLabel
        (QString.trimmed (extractHashtagsFromText qt comment).2)]
  else tags.addTags (extractHashtagsFromText qt comment).1

/-- Method `exportCommentAsTags`. -/
def exportCommentAsTags (qt : QStringFunctions) (tags : AoideTags) (comment : QString) :
    AoideTags :=
  exportUnprotected qt
    (if !(splitProtectedCommentTag comment).1.isEmpty then
      tags.addTags [(splitProtectedCommentTag comment).1]
     else tags)
    (splitProtectedCommentTag comment).2

/-- The number that a text of decimal digits denotes; the empty text gives 0. -/
def parseDigits (s : QString) : Option Nat :=
  s.foldlM (fun acc c => if c.isDigit then some (acc * 10 + (c.toNat - 48)) else none) 0

/-- An unsigned decimal number without exponent, such as 0.85, 1 or .5. -/
def parseUnsigned (s : QString) : Option ℚ :=
  if (s.takeWhile (fun c => c != '.')).isEmpty &&
      ((s.dropWhile (fun c => c != '.')).drop 1).isEmpty then none
  else
    match parseDigits (s.takeWhile (fun c => c != '.')),
        parseDigits ((s.dropWhile (fun c => c != '.')).drop 1) with
    | some whole, some fraction =>
      some ((whole : ℚ) +
        (fraction : ℚ) / (10 : ℚ) ^ ((s.dropWhile (fun c => c != '.')).drop 1).length)
    | _, _ => none

/-- An unsigned decimal number without exponent between whitespace, which `toDouble`
ignores. -/
def parseDecimal (s : QString) : Option ℚ :=
  parseUnsigned (QString.trimmed s)

/-- Functions of Qt for the scenarios, whose texts are ASCII and hold numbers only as
unsigned decimal numbers without exponent. -/
def asciiText : QStringFunctions :=
  { toLower := fun s => s.map Char.toLower, toDouble := parseDecimal }

end HashtagCommentsTagger

end aoide

end mixxx

namespace mixxx

namespace network

/-! ## httpstatuscode.h, the class predicates -/

def HttpStatusCode_isInformational (statusCode : Int) : Bool :=
  decide (statusCode ≥ 100) && decide (statusCode < 200)

def HttpStatusCode_isRedirection (statusCode : Int) : Bool :=
  decide (statusCode ≥ 300) && decide (statusCode < 400)

def HttpStatusCode_isClientError (statusCode : Int) : Bool :=
  decide (statusCode ≥ 400) && decide (statusCode < 500)

def HttpStatusCode_isServerError (statusCode : Int) : Bool :=
  decide (statusCode ≥ 400) && decide (statusCode < 500)

/-- The five class predicates at a status code, in the order informational, success,
redirection, client error, server error. -/
def statusClasses (statusCode : Int) : List Bool :=
  [HttpStatusCode_isInformational statusCode, HttpStatusCode_isSuccess statusCode,
   HttpStatusCode_isRedirection statusCode, HttpStatusCode_isClientError statusCode,
   HttpStatusCode_isServerError statusCode]

end network

namespace aoide

/-! ## library/aoide/settings.cpp -/

/-- A `ConfigKey`: group and item. -/
structure ConfigKey where
  group : String
  item : String
  deriving DecidableEq, Repr

/-- The user settings as settings.cpp uses them: texts stored under keys. -/
abbrev UserSettings := List (ConfigKey × QString)

namespace UserSettings

/-- The value stored under a key, if there is one. -/
def get (s : UserSettings) (key : ConfigKey) : Option QString :=
  (s.find? (fun e => e.1 == key)).map (fun e => e.2)

/-- Method `getValue` for a text: the default is returned for a key without value. -/
def getValue (s : UserSettings) (key : ConfigKey) (defaultValue : QString) : QString :=
  (get s key).getD defaultValue

/-- Method `remove`. -/
def remove (s : UserSettings) (key : ConfigKey) : UserSettings :=
  s.filter (fun e => e.1 != key)

/-- Method `setValue` for a text. -/
def setValue (s : UserSettings) (key : ConfigKey) (value : QString) : UserSettings :=
  (key, value) :: remove s key

end UserSettings

namespace Settings

def kGroup : String := "[aoide]"

def kCommandKey : ConfigKey := { group := kGroup, item := "command" }

def kCommandDefaultValue : QString := []

def kDatabaseKey : ConfigKey := { group := kGroup, item := "database" }

def kDatabaseDefaultValue : QString := []

def kProtocolKey : ConfigKey := { group := kGroup, item := "protocol" }

def kProtocolDefaultValue : QString := "http".toList

def kHostKey : ConfigKey := { group := kGroup, item := "host" }

def kHostDefaultValue : QString := "[::1]".toList

def kPortKey : ConfigKey := { group := kGroup, item := "port" }

def kPortDefaultValue : Int := 0

def kCollectionUidKey : ConfigKey := { group := kGroup, item := "collectionUid" }

def kCollectionUidDefaultValue : QString := []

def kMultiGenreSeparatorDelimiters : QString := "\"'".toList

def kMultiGenreSeparatorKey : ConfigKey := { group := kGroup, item := "multiGenreSeparator" }

def kMultiGenreSeparatorDefaultValue : QString := "\" - \"".toList

def kMultiGenreAttenuationKey : ConfigKey :=
  { group := kGroup, item := "multiGenreAttenuation" }

def kMultiGenreAttenuationDefaultValue : ℚ := 3 / 4

/-- Method `collectionUid`. -/
def collectionUid (m_userSettings : UserSettings) : QString :=
  m_userSettings.getValue kCollectionUidKey kCollectionUidDefaultValue

/-- Method `setCollectionUid`. -/
def setCollectionUid (m_userSettings : UserSettings) (collectionUid : QString) :
    UserSettings :=
  if collectionUid != kCollectionUidDefaultValue then
    m_userSettings.setValue kCollectionUidKey collectionUid
  else m_userSettings.remove kProtocolKey

/-- Method `command`. -/
def command (m_userSettings : UserSettings) : QString :=
  m_userSettings.getValue kCommandKey kCommandDefaultValue

/-- Method `database`. -/
def database (m_userSettings : UserSettings) : QString :=
  m_userSettings.getValue kDatabaseKey kDatabaseDefaultValue

/-- Method `protocol`. -/
def protocol (m_userSettings : UserSettings) : QString :=
  m_userSettings.getValue kProtocolKey kProtocolDefaultValue

/-- Method `setProtocol`. -/
def setProtocol (m_userSettings : UserSettings) (protocol : QString) : UserSettings :=
  if protocol != kProtocolDefaultValue then m_userSettings.setValue kProtocolKey protocol
  else m_userSettings.remove kProtocolKey

/-- Method `host`. -/
def host (m_userSettings : UserSettings) : QString :=
  m_userSettings.getValue kHostKey kHostDefaultValue

/-- Method `port`: the number that the stored text denotes, or the default. -/
def port (m_userSettings : UserSettings) : Int :=
  match (m_userSettings.get kPortKey).bind (fun value => (String.mk value).toInt?) with
  | some value => value
  | none => kPortDefaultValue

/-- The delimiter that a stored separator of more than two characters starts and ends
with, if there is one. -/
def separatorDelimiter (separator : QString) : Option Char :=
  kMultiGenreSeparatorDelimiters.find?
    (fun delimiter => separator.head? == some delimiter && separator.getLast? == some delimiter)

/-- Method `multiGenreSeparator`: the stored text without the delimiters around it. -/
def multiGenreSeparator (m_userSettings : UserSettings) : QString :=
  if (m_userSettings.getValue kMultiGenreSeparatorKey
        kMultiGenreSeparatorDefaultValue).length > 2 &&
      (separatorDelimiter (m_userSettings.getValue kMultiGenreSeparatorKey
        kMultiGenreSeparatorDefaultValue)).isSome then
    ((m_userSettings.getValue kMultiGenreSeparatorKey
        kMultiGenreSeparatorDefaultValue).drop 1).take
      ((m_userSettings.getValue kMultiGenreSeparatorKey
        kMultiGenreSeparatorDefaultValue).length - 2)
  else m_userSettings.getValue kMultiGenreSeparatorKey kMultiGenreSeparatorDefaultValue

/-- Method `multiGenreAttenuation`: the number that the stored text denotes, or the
default. -/
def multiGenreAttenuation (m_userSettings : UserSettings) : ℚ :=
  match (m_userSettings.get kMultiGenreAttenuationKey).bind
      HashtagCommentsTagger.parseDecimal with
  | some value => value
  | none => kMultiGenreAttenuationDefaultValue

/-- What all the settings but the collection uid read: command, database, protocol,
host, port, and the multi-genre separator and attenuation. -/
def others (m_userSettings : UserSettings) :
    QString × QString × QString × QString × Int × QString × ℚ :=
  (command m_userSettings, database m_userSettings, protocol m_userSettings,
    host m_userSettings, port m_userSettings, multiGenreSeparator m_userSettings,
    multiGenreAttenuation m_userSettings)

end Settings

/-! ## library/aoide/domain/tag.cpp, removal of tags -/

namespace MixxxTag

def kFacet : QString := "mixxx.org".toList

def kLabelRating : QString := "rating".toList

def kLabelHidden : QString := "hidden".toList

def kLabelMissing : QString := "missing".toList

/-- Method `MixxxTag::rating`. -/
def rating (score : ℚ) : AoideTag :=
  ((AoideTag.empty.setFacet kFacet).setLabel kLabelRating).setScore score

/-- Method `MixxxTag::hidden`. -/
def hidden : AoideTag := (AoideTag.empty.setFacet kFacet).setLabel kLabelHidden

/-- Method `MixxxTag::missing`. -/
def missing : AoideTag := (AoideTag.empty.setFacet kFacet).setLabel kLabelMissing

end MixxxTag

namespace AoideTags

/-- Method `removeTags`: the tags it returns and the tags it leaves. With an empty facet
plain tags are removed, those with the label if one is given; with a facet all tags of
that facet are removed. -/
def removeTags (tags : AoideTags) (facet label : QString) : List AoideTag × AoideTags :=
  if facet.isEmpty then
    ((tags.plain.map AoideTag.fromPlain).filter
        (fun tag => label == AoideTag.noLabel || label == tag.label),
      { tags with
        plain := tags.plain.filter
          (fun jsonValue =>
            !(label == AoideTag.noLabel || label == (AoideTag.fromPlain jsonValue).label)) })
  else
    ((tags.faceted.map AoideTag.fromFaceted).filter (fun tag => facet == tag.facet),
      { tags with
        faceted := tags.faceted.filter
          (fun jsonValue => !(facet == (AoideTag.fromFaceted jsonValue).facet)) })

/-- Method `clearTags`: the tags it returns; it leaves no tags. -/
def clearTags (tags : AoideTags) : List AoideTag × AoideTags :=
  (tags.plain.map AoideTag.fromPlain ++ tags.faceted.map AoideTag.fromFaceted, empty)

end AoideTags

end aoide

end mixxx

namespace mixxx

namespace network

namespace RequestReplyManager

/-! ## requestreplymanager.cpp, the bookkeeping of pending requests -/

/-- The two tables agree: requests map to different replies, and the reply of every
pending request is registered in `m_pendingReplies` with that request id. -/
def Consistent (m : RequestReplyManager) : Prop :=
  (∀ id1 id2 reply, List.lookup id1 m.m_pendingRequests = some reply →
    List.lookup id2 m.m_pendingRequests = some reply → id1 = id2) ∧
  (∀ id reply, List.lookup id m.m_pendingRequests = some reply →
    ∃ p, List.lookup reply m.m_pendingReplies = some p ∧ p.requestId = id)

/-- States of the manager that are reached by calls of its methods and by timer events,
whatever the state of the replies and timers is at each call. As `afterRequestSent`
asserts, the reply that it is called with is not registered in `m_pendingReplies`. -/
inductive Reachable : RequestReplyManager → Prop where
  | init : Reachable init
  | afterRequestSent (m : RequestReplyManager) (qt : Qt) (requestId : RequestId)
      (reply : ReplyHandle) (timeoutMillis : Int) :
      Reachable m → QMap.contains m.m_pendingReplies reply = false →
      Reachable (m.afterRequestSent qt requestId reply timeoutMillis).1
  | cancelRequest (m : RequestReplyManager) (qt : Qt) (requestId : RequestId) :
      Reachable m → Reachable (m.cancelRequest qt requestId).1
  | cancelAllRequests (m : RequestReplyManager) (qt : Qt) :
      Reachable m → Reachable (m.cancelAllRequests qt).1
  | afterReplyReceived (m : RequestReplyManager) (qt : Qt) (reply : ReplyHandle) :
      Reachable m → Reachable (m.afterReplyReceived qt reply).2.1
  | timerEvent (m : RequestReplyManager) (qt : Qt) (timerId : Int) :
      Reachable m → Reachable (m.timerEvent qt timerId).1

/-- The manager after `afterRequestSent(1, reply 1)` and `afterRequestSent(2, reply 2)`,
both without timeout. -/
def twoPending : RequestReplyManager :=
  ((init.afterRequestSent Qt.init 1 1 0).1.afterRequestSent
    (init.afterRequestSent Qt.init 1 1 0).2 2 2 0).1

end RequestReplyManager

end network

namespace aoide

open network

namespace HashtagCommentsTagger

/-! ## library/aoide/tag/hashtagcommentstagger.cpp, the loop of `splitAndKeepSpaces` -/

/-- One pass of the loop of `splitAndKeepSpaces`. -/
def splitStep (st : SplitState) (c : Char) : SplitState :=
  if QString.isSpace c then
    { tokens := if !st.nextTextToken.isEmpty then st.tokens ++ [st.nextTextToken]
        else st.tokens,
      nextSpaceToken := st.nextSpaceToken ++ [c],
      nextTextToken := [] }
  else
    { tokens := if !st.nextSpaceToken.isEmpty then st.tokens ++ [st.nextSpaceToken]
        else st.tokens,
      nextSpaceToken := [],
      nextTextToken := st.nextTextToken ++ [c] }

/-- The end of `splitAndKeepSpaces`: the token that is being collected is added. -/
def splitEnd (final : SplitState) : List QString :=
  final.tokens ++ (if !final.nextSpaceToken.isEmpty then [final.nextSpaceToken] else []) ++
    (if !final.nextTextToken.isEmpty then [final.nextTextToken] else [])

end HashtagCommentsTagger

namespace Gateway

/-! ## library/aoide/gateway.cpp, the calls of `finishWriteRequest` -/

/-- A call of `finishWriteRequest`: its argument, and the value of
`m_pendingWriteRequestId` at the call. -/
structure FinishCall where
  requestId : RequestId
  pending : RequestId
  deriving DecidableEq, Repr

/-- The calls of `finishWriteRequest` that `onNetworkRequestFailed` makes while the
signals of the client are delivered to it. -/
def deliverFinishCalls : Gateway → List ClientSignal → List FinishCall
  | _, [] => []
  | g, ClientSignal.networkRequestFailed failedId errorMessage :: rest =>
    (if failedId = g.m_pendingWriteRequestId then
      [{ requestId := failedId, pending := g.m_pendingWriteRequestId }]
     else []) ++
      deliverFinishCalls (onNetworkRequestFailedDirect g failedId errorMessage) rest

/-- The calls of `finishWriteRequest` made while a reply handler
`on<Operation>NetworkReplyFinished` runs: those of `onNetworkRequestFailed` for the
signals that `receiveReply` emits, and then the call of the handler itself. -/
def replyFinishCalls (g : Gateway) (operation : Operation) (reply : ReplyHandle)
    (d : NetworkReplyData) : List FinishCall :=
  deliverFinishCalls
      { g with
        m_jsonWebClient := (g.m_jsonWebClient.receiveReply g.qt reply d operation.readsJson).2.1,
        qt := (g.m_jsonWebClient.receiveReply g.qt reply d operation.readsJson).2.2 }
      (g.m_jsonWebClient.receiveReply g.qt reply d operation.readsJson).1.emitted ++
    (if (g.m_jsonWebClient.receiveReply g.qt reply d operation.readsJson).1.requestId.isValid &&
        operation.isWrite then
      [{ requestId :=
           (g.m_jsonWebClient.receiveReply g.qt reply d operation.readsJson).1.requestId,
         pending :=
           (deliverDirect
             { g with
               m_jsonWebClient :=
                 (g.m_jsonWebClient.receiveReply g.qt reply d operation.readsJson).2.1,
               qt := (g.m_jsonWebClient.receiveReply g.qt reply d operation.readsJson).2.2 }
             (g.m_jsonWebClient.receiveReply g.qt reply d
               operation.readsJson).1.emitted).m_pendingWriteRequestId }]
     else [])

/-- The calls of `finishWriteRequest` made while the signal `finished` of a reply is
delivered. -/
def finishCalls (g : Gateway) (reply : ReplyHandle) (d : NetworkReplyData) :
    List FinishCall :=
  match List.lookup reply g.connections with
  | none => []
  | some operation =>
    replyFinishCalls
      { g with
        connections := g.connections.filter (fun c => c.1 != reply),
        qt := g.qt.finish reply }
      operation reply d

/-- The gateway after `slotCreateCollection` with request id 1 has been called while
the network was not accessible, and the network has become accessible then: no write is
pending and the write is still queued. -/
def writeWaiting : Gateway :=
  stepDirect
    (stepDirect (init notAccessible) (Event.slotWrite 1 (WriteCall.createCollection "X")))
    (Event.networkAccess accessible)

end Gateway

end aoide

end mixxx

namespace mixxx

namespace aoide

/-! ## QDate, as `json.cpp` uses it -/

namespace QString

end QString

namespace QDate

/-- Function `QDate::isLeapYear`. -/
def isLeapYear (year : Int) : Bool :=
  ((if year < 1 then year + 1 else year) % 4 == 0 &&
      (if year < 1 then year + 1 else year) % 100 != 0) ||
    (if year < 1 then year + 1 else year) % 400 == 0

/-- The table `monthDays`. -/
def monthDays (month : Int) : Int :=
  if month = 2 then 28
  else if month = 4 ∨ month = 6 ∨ month = 9 ∨ month = 11 then 30
  else if 1 ≤ month ∧ month ≤ 12 then 31
  else 0

/-- Function `QDate::isValid(year, month, day)`. -/
def isValid (year month day : Int) : Bool :=
  if year = 0 then false
  else
    (decide (day > 0) && decide (month > 0) && decide (month ≤ 12)) &&
      (decide (day ≤ monthDays month) || (day == 29 && month == 2 && isLeapYear year))

end QDate

namespace AoideJsonBase

end AoideJsonBase

end aoide

end mixxx

/-! ## Lemmas on QMap -/

namespace mixxx

namespace QMap

theorem lookup_insert_self {β : Type} (m : QMap β) (k : Nat) (v : β) :
    List.lookup k (QMap.insert m k v) = some v := by
  induction m with
  | nil => simp [QMap.insert, List.lookup]
  | cons e rest ih =>
    obtain ⟨k1, v1⟩ := e
    unfold QMap.insert
    by_cases h1 : k < k1
    · simp [h1, List.lookup]
    · by_cases h2 : k = k1
      · simp [h2, List.lookup]
      · have h3 : (k == k1) = false := by simpa using h2
        simp [h1, h2, List.lookup, h3, ih]

theorem lookup_insert_ne {β : Type} (m : QMap β) (k k2 : Nat) (v : β) (hne : k2 ≠ k) :
    List.lookup k2 (QMap.insert m k v) = List.lookup k2 m := by
  have hk : (k2 == k) = false := by simpa using hne
  induction m with
  | nil => simp [QMap.insert, List.lookup, hk]
  | cons e rest ih =>
    obtain ⟨k1, v1⟩ := e
    unfold QMap.insert
    by_cases h1 : k < k1
    · simp [h1, List.lookup, hk]
    · by_cases h2 : k = k1
      · subst h2
        simp [List.lookup, hk]
      · simp only [h1, h2, if_false, List.lookup]
        cases hc : (k2 == k1) <;> simp [ih]

theorem lookup_remove_self {β : Type} (m : QMap β) (k : Nat) :
    List.lookup k (QMap.remove m k) = none := by
  induction m with
  | nil => simp [QMap.remove]
  | cons e rest ih =>
    obtain ⟨k1, v1⟩ := e
    by_cases h : k1 = k
    · simpa [QMap.remove, h] using ih
    · have hk : (k == k1) = false := by simpa using (Ne.symm h)
      simpa [QMap.remove, h, List.lookup, hk] using ih

theorem lookup_remove_ne {β : Type} (m : QMap β) (k k2 : Nat) (hne : k2 ≠ k) :
    List.lookup k2 (QMap.remove m k) = List.lookup k2 m := by
  induction m with
  | nil => simp [QMap.remove]
  | cons e rest ih =>
    obtain ⟨k1, v1⟩ := e
    by_cases h : k1 = k
    · subst h
      have hk : (k2 == k1) = false := by simpa using hne
      simpa [QMap.remove, List.lookup, hk] using ih
    · cases hc : (k2 == k1)
      · simpa [QMap.remove, h, List.lookup, hc] using ih
      · simp [QMap.remove, h, List.lookup, hc]

theorem contains_insert_self {β : Type} (m : QMap β) (k : Nat) (v : β) :
    QMap.contains (QMap.insert m k v) k = true := by
  simp [QMap.contains, lookup_insert_self]

theorem contains_remove_self {β : Type} (m : QMap β) (k : Nat) :
    QMap.contains (QMap.remove m k) k = false := by
  simp [QMap.contains, lookup_remove_self]

theorem length_remove_firstKey {β : Type} (m : QMap β) (hne : m ≠ []) :
    (QMap.remove m (QMap.firstKey m)).length < m.length := by
  cases m with
  | nil => exact absurd rfl hne
  | cons e rest =>
    obtain ⟨k1, v1⟩ := e
    have : (List.filter (fun e => e.1 != k1) rest).length ≤ rest.length :=
      List.length_filter_le _ _
    simp [QMap.remove, QMap.firstKey]
    omega

end QMap

end mixxx

namespace mixxx

namespace network
namespace RequestReplyManager

theorem cancelRequest_requests (m : RequestReplyManager) (qt : Qt) (id : RequestId) :
    (cancelRequest m qt id).1.m_pendingRequests = QMap.remove m.m_pendingRequests id := by
  unfold cancelRequest
  simp only
  split
  · rfl
  · split <;> rfl

theorem cancelRequest_replies (m : RequestReplyManager) (qt : Qt) (id : RequestId) :
    (cancelRequest m qt id).1.m_pendingReplies = m.m_pendingReplies := by
  unfold cancelRequest
  simp only
  split
  · rfl
  · split <;> rfl

theorem cancelRequest_nextTimerId (m : RequestReplyManager) (qt : Qt) (id : RequestId) :
    (cancelRequest m qt id).2.nextTimerId = qt.nextTimerId := by
  unfold cancelRequest
  simp only
  split
  · rfl
  · split <;> rfl

theorem cancelAllLoop_replies (fuel : Nat) (m : RequestReplyManager) (qt : Qt) :
    (cancelAllLoop fuel m qt).1.m_pendingReplies = m.m_pendingReplies := by
  induction fuel generalizing m qt with
  | zero => rfl
  | succ n ih =>
    unfold cancelAllLoop
    split
    · rfl
    · simp only [ih, cancelRequest_replies]

theorem cancelAllLoop_requests (fuel : Nat) (m : RequestReplyManager) (qt : Qt)
    (hfuel : m.m_pendingRequests.length ≤ fuel) :
    (cancelAllLoop fuel m qt).1.m_pendingRequests = [] := by
  induction fuel generalizing m qt with
  | zero =>
    simp only [cancelAllLoop]
    exact List.length_eq_zero.mp (Nat.le_zero.mp hfuel)
  | succ n ih =>
    unfold cancelAllLoop
    split
    · rename_i hempty
      simpa using hempty
    · rename_i hempty
      apply ih
      rw [cancelRequest_requests]
      have hne : m.m_pendingRequests ≠ [] := by simpa using hempty
      have := QMap.length_remove_firstKey m.m_pendingRequests hne
      omega

theorem cancelAllRequests_requests (m : RequestReplyManager) (qt : Qt) :
    (cancelAllRequests m qt).1.m_pendingRequests = [] :=
  cancelAllLoop_requests _ m qt (Nat.le_refl _)

theorem cancelAllRequests_replies (m : RequestReplyManager) (qt : Qt) :
    (cancelAllRequests m qt).1.m_pendingReplies = m.m_pendingReplies :=
  cancelAllLoop_replies _ m qt

theorem afterRequestSent_requests (m : RequestReplyManager) (qt : Qt)
    (id : RequestId) (h : ReplyHandle) (t : Int) :
    (afterRequestSent m qt id h t).1.m_pendingRequests =
      QMap.insert (QMap.remove m.m_pendingRequests id) id h
    ∨ (afterRequestSent m qt id h t).1.m_pendingRequests =
      QMap.insert m.m_pendingRequests id h := by
  unfold afterRequestSent
  simp only
  split
  · left; rw [cancelRequest_requests]
  · right; rfl

theorem afterRequestSent_lookup_request (m : RequestReplyManager) (qt : Qt)
    (id : RequestId) (h : ReplyHandle) (t : Int) :
    List.lookup id (afterRequestSent m qt id h t).1.m_pendingRequests = some h := by
  rcases afterRequestSent_requests m qt id h t with e | e <;>
    rw [e, QMap.lookup_insert_self]

theorem afterRequestSent_replies (m : RequestReplyManager) (qt : Qt)
    (id : RequestId) (h : ReplyHandle) (t : Int) :
    ∃ tid, (afterRequestSent m qt id h t).1.m_pendingReplies =
      QMap.insert m.m_pendingReplies h { requestId := id, timerId := tid } ∧
      (tid = kInvalidTimerId ∨ tid = ((qt.nextTimerId + 1 : Nat) : Int)) := by
  unfold afterRequestSent
  simp only
  by_cases hp : m.isRequestPending id = true
  · rw [if_pos hp]
    by_cases hr : ((m.cancelRequest qt id).2.isRunning h && decide (t > 0)) = true
    · refine ⟨((qt.nextTimerId + 1 : Nat) : Int), ?_, Or.inr rfl⟩
      rw [if_pos hr]
      simp only [Qt.startTimer, cancelRequest_replies, cancelRequest_nextTimerId]
    · refine ⟨kInvalidTimerId, ?_, Or.inl rfl⟩
      rw [if_neg hr]
      simp only [cancelRequest_replies]
  · rw [if_neg hp]
    by_cases hr : (qt.isRunning h && decide (t > 0)) = true
    · refine ⟨((qt.nextTimerId + 1 : Nat) : Int), ?_, Or.inr rfl⟩
      rw [if_pos hr]
      simp only [Qt.startTimer]
    · refine ⟨kInvalidTimerId, ?_, Or.inl rfl⟩
      rw [if_neg hr]

/-- Result of `afterReplyReceived` in terms of the two tables. -/
theorem afterReplyReceived_stale (m : RequestReplyManager) (qt : Qt) (h : ReplyHandle)
    (p : PendingReply) (hp : List.lookup h m.m_pendingReplies = some p)
    (hreq : List.lookup p.requestId m.m_pendingRequests = none) :
    (afterReplyReceived m qt h).1 = (p.requestId, false) := by
  unfold afterReplyReceived
  simp [QMap.value, QMap.contains, hp, hreq]

theorem afterReplyReceived_valid (m : RequestReplyManager) (qt : Qt) (h : ReplyHandle)
    (p : PendingReply) (hp : List.lookup h m.m_pendingReplies = some p)
    (hreq : List.lookup p.requestId m.m_pendingRequests = some h) :
    (afterReplyReceived m qt h).1 = (p.requestId, true) ∧
    (afterReplyReceived m qt h).2.1.m_pendingRequests =
        QMap.remove m.m_pendingRequests p.requestId ∧
    (afterReplyReceived m qt h).2.1.m_pendingReplies = QMap.remove m.m_pendingReplies h := by
  unfold afterReplyReceived
  simp [QMap.value, QMap.contains, hp, hreq]

theorem clearTimer_insert (tid : Int) (m : QMap PendingReply) (h : ReplyHandle) (id : RequestId)
    (hfresh : ∀ e ∈ m, e.2.timerId ≠ tid) :
    clearTimer tid (QMap.insert m h { requestId := id, timerId := tid }) =
      (id, QMap.insert m h { requestId := id, timerId := kInvalidTimerId }) := by
  induction m with
  | nil => simp [QMap.insert, clearTimer]
  | cons e rest ih =>
    obtain ⟨k1, v1⟩ := e
    have h1 : v1.timerId ≠ tid := hfresh (k1, v1) (List.mem_cons_self _ _)
    have h2 : ∀ e ∈ rest, e.2.timerId ≠ tid := fun e he => hfresh e (List.mem_cons_of_mem _ he)
    unfold QMap.insert
    by_cases c1 : h < k1
    · simp [c1, clearTimer]
    · by_cases c2 : h = k1
      · simp [c1, c2, clearTimer]
      · simp [c1, c2, clearTimer, h1, ih h2]

end RequestReplyManager
end network
end mixxx

namespace mixxx.network.RequestReplyManager

theorem lookup_eq_none_of_contains_false {β : Type} (m : QMap β) (k : Nat)
    (h : QMap.contains m k = false) : List.lookup k m = none := by
  simpa [QMap.contains] using h

/-- C6: after `afterRequestSent(id, h, t)` the request is pending. If it is then
cancelled before its reply is delivered, by `cancelRequest(id)`, by `cancelAllRequests()`
or by the firing of its timeout timer (for a valid id, when a timer has been started for
the reply and its id is not the timer id of another pending reply), `isRequestPending(id)`
is false and the later `afterReplyReceived(h)` returns `(id, false)`. Without a
cancellation `afterReplyReceived(h)` returns `(id, true)` and removes the entries of the
request and of the reply. -/
theorem C6_stale_reply_discard (m : RequestReplyManager) (qt : Qt)
    (id : RequestId) (h : ReplyHandle) (t : Int) :
    let s1 := afterRequestSent m qt id h t
    let byCancel := cancelRequest s1.1 s1.2 id
    let byCancelAll := cancelAllRequests s1.1 s1.2
    let tid := (QMap.value s1.1.m_pendingReplies h PendingReply.default).timerId
    let byTimeout := timerEvent s1.1 s1.2 tid
    let noCancel := afterReplyReceived s1.1 s1.2 h
    isRequestPending s1.1 id = true ∧
    (isRequestPending byCancel.1 id = false ∧
      (afterReplyReceived byCancel.1 byCancel.2 h).1 = (id, false)) ∧
    (isRequestPending byCancelAll.1 id = false ∧
      (afterReplyReceived byCancelAll.1 byCancelAll.2 h).1 = (id, false)) ∧
    (RequestId.isValid id = true → tid ≠ kInvalidTimerId →
      (∀ e ∈ m.m_pendingReplies, e.2.timerId ≠ ((qt.nextTimerId + 1 : Nat) : Int)) →
      isRequestPending byTimeout.1 id = false ∧
      (afterReplyReceived byTimeout.1 byTimeout.2 h).1 = (id, false)) ∧
    (noCancel.1 = (id, true) ∧
      isRequestPending noCancel.2.1 id = false ∧
      QMap.contains noCancel.2.1.m_pendingReplies h = false) := by
  intro s1 byCancel byCancelAll tid byTimeout noCancel
  obtain ⟨tid0, hrep, htid0⟩ := afterRequestSent_replies m qt id h t
  have hreq : List.lookup id s1.1.m_pendingRequests = some h :=
    afterRequestSent_lookup_request m qt id h t
  have hlk : List.lookup h s1.1.m_pendingReplies = some { requestId := id, timerId := tid0 } := by
    show List.lookup h (afterRequestSent m qt id h t).1.m_pendingReplies = _
    rw [hrep, QMap.lookup_insert_self]
  have htid : tid = tid0 := by
    show (QMap.value s1.1.m_pendingReplies h PendingReply.default).timerId = tid0
    simp [QMap.value, hlk]
  refine ⟨?_, ⟨?_, ?_⟩, ⟨?_, ?_⟩, ?_, ?_, ?_, ?_⟩
  · simp [isRequestPending, QMap.contains, hreq]
  · show QMap.contains (cancelRequest s1.1 s1.2 id).1.m_pendingRequests id = false
    rw [cancelRequest_requests, QMap.contains_remove_self]
  · have := afterReplyReceived_stale byCancel.1 byCancel.2 h { requestId := id, timerId := tid0 }
      (by show List.lookup h (cancelRequest s1.1 s1.2 id).1.m_pendingReplies = _
          rw [cancelRequest_replies, hlk])
      (by show List.lookup id (cancelRequest s1.1 s1.2 id).1.m_pendingRequests = none
          rw [cancelRequest_requests, QMap.lookup_remove_self])
    exact this
  · show QMap.contains (cancelAllRequests s1.1 s1.2).1.m_pendingRequests id = false
    rw [cancelAllRequests_requests]; rfl
  · have := afterReplyReceived_stale byCancelAll.1 byCancelAll.2 h
      { requestId := id, timerId := tid0 }
      (by show List.lookup h (cancelAllRequests s1.1 s1.2).1.m_pendingReplies = _
          rw [cancelAllRequests_replies, hlk])
      (by show List.lookup id (cancelAllRequests s1.1 s1.2).1.m_pendingRequests = none
          rw [cancelAllRequests_requests]; rfl)
    exact this
  · intro hvalid harmed hfresh
    have htid1 : tid0 = ((qt.nextTimerId + 1 : Nat) : Int) := by
      rcases htid0 with e | e
      · exact absurd (htid.trans e) harmed
      · exact e
    have hclear : clearTimer tid s1.1.m_pendingReplies =
        (id, QMap.insert m.m_pendingReplies h
          { requestId := id, timerId := kInvalidTimerId }) := by
      show clearTimer tid (afterRequestSent m qt id h t).1.m_pendingReplies = _
      rw [hrep, htid]
      exact clearTimer_insert tid0 m.m_pendingReplies h id (by rw [htid1]; exact hfresh)
    have hv : (!RequestId.isValid id) = false := by simp [hvalid]
    have hte : byTimeout =
        cancelRequest
          { s1.1 with m_pendingReplies := (QMap.insert m.m_pendingReplies h
              { requestId := id, timerId := kInvalidTimerId }) }
          (s1.2.killTimer tid) id := by
      show timerEvent s1.1 s1.2 tid = _
      unfold timerEvent killTimerForPendingReply
      simp only [hclear, hv]
      simp
    constructor
    · show QMap.contains byTimeout.1.m_pendingRequests id = false
      rw [hte, cancelRequest_requests, QMap.contains_remove_self]
    · have := afterReplyReceived_stale byTimeout.1 byTimeout.2 h
        { requestId := id, timerId := kInvalidTimerId }
        (by rw [hte, cancelRequest_replies]; exact QMap.lookup_insert_self _ _ _)
        (by rw [hte, cancelRequest_requests]; exact QMap.lookup_remove_self _ _)
      exact this
  · exact (afterReplyReceived_valid s1.1 s1.2 h { requestId := id, timerId := tid0 } hlk hreq).1
  · have := (afterReplyReceived_valid s1.1 s1.2 h { requestId := id, timerId := tid0 } hlk hreq).2.1
    show QMap.contains (afterReplyReceived s1.1 s1.2 h).2.1.m_pendingRequests id = false
    rw [this]; exact QMap.contains_remove_self _ _
  · have := (afterReplyReceived_valid s1.1 s1.2 h { requestId := id, timerId := tid0 } hlk hreq).2.2
    show QMap.contains (afterReplyReceived s1.1 s1.2 h).2.1.m_pendingReplies h = false
    rw [this]; exact QMap.contains_remove_self _ _

/-- C6, instance: `afterRequestSent(5, H, 0)`, `cancelAllRequests()`, then the reply for
`H` arrives: `afterReplyReceived(H)` returns `(5, false)`. Second instance: the request
is sent with a timeout of 1000 ms for a running reply and its timer fires; afterwards
the request is not pending and the reply is reported as stale. -/
theorem C6_stale_reply_discard_witness :
    (afterReplyReceived
      (cancelAllRequests (afterRequestSent init Qt.init 5 7 0).1
        (afterRequestSent init Qt.init 5 7 0).2).1
      (cancelAllRequests (afterRequestSent init Qt.init 5 7 0).1
        (afterRequestSent init Qt.init 5 7 0).2).2 7).1 = (5, false) ∧
    (isRequestPending
        (timerEvent
          (afterRequestSent init (Qt.init.send HttpRequestMethod.Get "/tags" "" false "").2
            5 1 1000).1
          (afterRequestSent init (Qt.init.send HttpRequestMethod.Get "/tags" "" false "").2
            5 1 1000).2 1).1 5 = false ∧
      (afterReplyReceived
        (timerEvent
          (afterRequestSent init (Qt.init.send HttpRequestMethod.Get "/tags" "" false "").2
            5 1 1000).1
          (afterRequestSent init (Qt.init.send HttpRequestMethod.Get "/tags" "" false "").2
            5 1 1000).2 1).1
        (timerEvent
          (afterRequestSent init (Qt.init.send HttpRequestMethod.Get "/tags" "" false "").2
            5 1 1000).1
          (afterRequestSent init (Qt.init.send HttpRequestMethod.Get "/tags" "" false "").2
            5 1 1000).2 1).2 1).1 = (5, false)) :=
  ⟨(C6_stale_reply_discard init Qt.init 5 7 0).2.2.1.2,
   (C6_stale_reply_discard init (Qt.init.send HttpRequestMethod.Get "/tags" "" false "").2
      5 1 1000).2.2.2.1 (by decide) (by decide) (by decide)⟩

end mixxx.network.RequestReplyManager

namespace mixxx

namespace network

/-! ## JsonWebClient::receiveReply -/

namespace JsonWebClient

/-- C7: `receiveReply` emits `networkRequestFailed(id, message)` exactly when
`afterReplyReceived` reports the reply as still valid and the transport reports an
error; then, and for a stale reply, it returns `(id, kHttpStatusCodeInvalid)`;
for a stale reply it emits nothing and stores no JSON document. -/
theorem C7_receiveReply_failure_signal (c : JsonWebClient) (qt : Qt) (reply : ReplyHandle)
    (d : NetworkReplyData) (wantJson : Bool) :
    let id := (c.m_requestReplyManager.afterReplyReceived qt reply).1.1
    let valid := (c.m_requestReplyManager.afterReplyReceived qt reply).1.2
    let r := (receiveReply c qt reply d wantJson).1
    r.requestId = id ∧
    ((∃ message, ClientSignal.networkRequestFailed id message ∈ r.emitted) ↔
      (valid = true ∧ d.error = true)) ∧
    (valid = true ∧ d.error = true →
      r.emitted = [ClientSignal.networkRequestFailed id (replyErrorMessage d)] ∧
      r.statusCode = kHttpStatusCodeInvalid) ∧
    (¬ (valid = true ∧ d.error = true) → r.emitted = []) ∧
    (valid = false →
      r.statusCode = kHttpStatusCodeInvalid ∧ r.emitted = [] ∧ r.jsonResponse = none) := by
  intro id valid r
  cases hv : (c.m_requestReplyManager.afterReplyReceived qt reply).1.2 <;>
    cases he : d.error <;>
    simp [r, valid, id, receiveReply, hv, he]

/-- C7, instance: a valid reply with a transport error. -/
theorem C7_receiveReply_failure_signal_witness :
    ((receiveReply
        (JsonWebClient.afterRequestSent
          { m_networkAccessManager := { alive := true, sameThread := true, accessible := true },
            m_requestReplyManager := RequestReplyManager.init } Qt.init 5 7 0).1
        (JsonWebClient.afterRequestSent
          { m_networkAccessManager := { alive := true, sameThread := true, accessible := true },
            m_requestReplyManager := RequestReplyManager.init } Qt.init 5 7 0).2
        7
        { error := true, errorString := "refused", statusCodeAttr := none,
          contentType := MimeType.invalid, content := "" } true).1).emitted =
      [ClientSignal.networkRequestFailed 5 "refused"] :=
  ((C7_receiveReply_failure_signal _ _ 7
      { error := true, errorString := "refused", statusCodeAttr := none,
        contentType := MimeType.invalid, content := "" } true).2.2.1
    ⟨by decide, by decide⟩).1

end JsonWebClient

/-! ## JsonWebTask -/

namespace JsonWebTask

theorem run_cons (r : Run) (e : Event) (es : List Event) :
    run r (e :: es) = run (step r e) es := rfl

theorem run_append (r : Run) (es1 es2 : List Event) :
    run r (es1 ++ es2) = run (run r es1) es2 := by
  simp [run, List.foldl_append]

/-- A task that has no call outstanding and no access manager emits nothing more. -/
theorem run_done (r : Run) (es : List Event)
    (hreply : r.task.m_networkReply = 0) (hmgr : r.task.m_networkAccessManager = false) :
    (run r es).emitted = r.emitted ∧ (run r es).task.m_networkReply = 0 := by
  induction es generalizing r with
  | nil => exact ⟨rfl, hreply⟩
  | cons e es ih =>
    rw [run_cons]
    have hstep : (step r e).emitted = r.emitted ∧ (step r e).task.m_networkReply = 0 ∧
        (step r e).task.m_networkAccessManager = false := by
      cases e <;>
        simp [step, start, abort, timerEvent, slotNetworkReplyFinished, hreply, hmgr]
    obtain ⟨h1, h2, h3⟩ := hstep
    have := ih (step r e) h2 h3
    rw [h1] at this
    exact this

/-- While the call is outstanding, the first completion emits exactly one signal. -/
theorem run_started (r : Run) (es : List Event)
    (hreply : r.task.m_networkReply ≠ 0) (hmgr : r.task.m_networkAccessManager = false) :
    (run r es).emitted.length =
      r.emitted.length + (if es.any isReplyFinished then 1 else 0) := by
  induction es generalizing r with
  | nil => simp [run]
  | cons e es ih =>
    rw [run_cons]
    cases e with
    | start t =>
      have hs : step r (Event.start t) = r := by
        simp [step, start, hmgr]
      rw [hs, ih r hreply hmgr]
      simp [isReplyFinished]
    | abort =>
      have h1 : (step r Event.abort).task.m_networkReply ≠ 0 := by
        simp [step, abort, hreply]
      have h2 : (step r Event.abort).task.m_networkAccessManager = false := by
        simp [step, abort, hreply, hmgr]
      have h3 : (step r Event.abort).emitted = r.emitted := by
        simp [step]
      rw [ih _ h1 h2, h3]
      simp [isReplyFinished]
    | timer tid =>
      have h1 : (step r (Event.timer tid)).task.m_networkReply ≠ 0 := by
        simp [step, timerEvent, abort, hreply]
      have h2 : (step r (Event.timer tid)).task.m_networkAccessManager = false := by
        simp [step, timerEvent, abort, hreply, hmgr]
      have h3 : (step r (Event.timer tid)).emitted = r.emitted := by
        simp [step]
      rw [ih _ h1 h2, h3]
      simp [isReplyFinished]
    | replyFinished d =>
      have h1 : (step r (Event.replyFinished d)).task.m_networkReply = 0 := by
        simp only [step, slotNetworkReplyFinished, if_neg hreply]
        split
        · rfl
        · split <;> rfl
      have h2 : (step r (Event.replyFinished d)).task.m_networkAccessManager = false := by
        simp only [step, slotNetworkReplyFinished, if_neg hreply]
        split
        · exact hmgr
        · split <;> exact hmgr
      have h3 : (step r (Event.replyFinished d)).emitted.length = r.emitted.length + 1 := by
        simp only [step, slotNetworkReplyFinished, if_neg hreply]
        split
        · simp
        · split <;> simp
      rw [(run_done _ es h1 h2).1, h3]
      simp [isReplyFinished]

/-- Before the call is issued nothing is emitted; the first start issues it. -/
theorem run_idle (r : Run) (es : List Event)
    (hreply : r.task.m_networkReply = 0) (hmgr : r.task.m_networkAccessManager = true) :
    (run r es).emitted.length =
      r.emitted.length + (if startedThenFinished es then 1 else 0) := by
  induction es generalizing r with
  | nil => simp [run, startedThenFinished]
  | cons e es ih =>
    rw [run_cons]
    cases e with
    | start t =>
      have h1 : (step r (Event.start t)).task.m_networkReply ≠ 0 := by
        simp only [step, start, hmgr, hreply]
        cases r.task.m_request.method <;> simp <;> split <;> simp [Qt.send]
      have h2 : (step r (Event.start t)).task.m_networkAccessManager = false := by
        simp only [step, start, hmgr, hreply]
        cases r.task.m_request.method <;> simp <;> split <;> simp
      have h3 : (step r (Event.start t)).emitted = r.emitted := by
        simp [step]
      rw [run_started _ es h1 h2, h3]
      simp [startedThenFinished]
    | abort =>
      have hs : step r Event.abort = r := by
        simp [step, abort, hreply]
      rw [hs, ih r hreply hmgr]
      simp [startedThenFinished]
    | timer tid =>
      have h1 : (step r (Event.timer tid)).task.m_networkReply = 0 := by
        simp [step, timerEvent, abort, hreply]
      have h2 : (step r (Event.timer tid)).task.m_networkAccessManager = true := by
        simp [step, timerEvent, abort, hreply, hmgr]
      have h3 : (step r (Event.timer tid)).emitted = r.emitted := by
        simp [step]
      rw [ih _ h1 h2, h3]
      simp [startedThenFinished]
    | replyFinished d =>
      have h1 : (step r (Event.replyFinished d)).task.m_networkReply = 0 := by
        simp [step, slotNetworkReplyFinished, hreply]
      have h2 : (step r (Event.replyFinished d)).task.m_networkAccessManager = true := by
        simp [step, slotNetworkReplyFinished, hreply, hmgr]
      have h3 : (step r (Event.replyFinished d)).emitted = r.emitted := by
        simp [step, slotNetworkReplyFinished, hreply]
      rw [ih _ h1 h2, h3]
      simp [startedThenFinished]

/-- C8, as amended: whatever the sequence of start, abort, timer and completion events
on a task instance, at most one terminal signal is emitted and none twice; exactly
one is emitted when a completion follows the start that issued the call, and none
otherwise. A task whose access manager is gone when it is started stays silent. -/
theorem C8_terminal_signal (request : JsonWebRequest) (qt : Qt) (events : List Event) :
    (run { task := create true request, qt := qt, emitted := [] } events).emitted.length =
      (if startedThenFinished events then 1 else 0) ∧
    (run { task := create true request, qt := qt, emitted := [] } events).emitted.length ≤ 1 ∧
    (run { task := create false request, qt := qt, emitted := [] } events).emitted = [] := by
  have h := run_idle { task := create true request, qt := qt, emitted := [] } events rfl rfl
  refine ⟨?_, ?_, ?_⟩
  · simpa using h
  · rw [h]
    split <;> simp
  · exact (run_done { task := create false request, qt := qt, emitted := [] } events rfl rfl).1

/-- C8, counterexample: a task whose network access manager has been destroyed is started,
aborted and receives a timer event, and none of the three signals is emitted. -/
theorem C8_terminal_signal_counterexample :
    ¬ ((run { task := create false
                { method := HttpRequestMethod.Post, path := "/tracks/search",
                  query := "", content := "" },
              qt := Qt.init, emitted := [] }
          [Event.start 0, Event.abort, Event.timer 1]).emitted.length = 1) := by
  decide

/-- States in which a call is outstanding have dropped the manager and emitted nothing. -/
theorem run_fresh_inv (r : Run) (es : List Event)
    (h1 : r.task.m_networkReply ≠ 0 → r.task.m_networkAccessManager = false)
    (h2 : r.task.m_networkAccessManager = true ∨ r.task.m_networkReply ≠ 0 → r.emitted = []) :
    ((run r es).task.m_networkReply ≠ 0 → (run r es).task.m_networkAccessManager = false) ∧
    ((run r es).task.m_networkAccessManager = true ∨ (run r es).task.m_networkReply ≠ 0 →
      (run r es).emitted = []) := by
  induction es generalizing r with
  | nil => exact ⟨h1, h2⟩
  | cons e es ih =>
    rw [run_cons]
    apply ih
    · cases e with
      | start t =>
        intro _
        cases hm : r.task.m_networkAccessManager
        · simp [step, start, hm]
        · by_cases hr : r.task.m_networkReply = 0
          · simp only [step, start, hm, hr]
            cases r.task.m_request.method <;> simp <;> split <;> simp
          · simpa [hm] using h1 hr
      | abort =>
        by_cases hr : r.task.m_networkReply = 0
        · simp [step, abort, hr]
        · simpa [step, abort, hr] using h1 hr
      | timer tid =>
        by_cases hr : r.task.m_networkReply = 0
        · simp [step, timerEvent, abort, hr]
        · simpa [step, timerEvent, abort, hr] using h1 hr
      | replyFinished d =>
        by_cases hr : r.task.m_networkReply = 0
        · simp [step, slotNetworkReplyFinished, hr]
        · intro hne
          exfalso
          apply hne
          simp only [step, slotNetworkReplyFinished, if_neg hr]
          split
          · rfl
          · split <;> rfl
    · cases e with
      | start t =>
        intro _
        have : (step r (Event.start t)).emitted = r.emitted := by simp [step]
        rw [this]
        apply h2
        cases hm : r.task.m_networkAccessManager
        · right
          intro hr
          rename_i hx
          simp [step, start, hm, hr] at hx
        · left; rfl
      | abort =>
        by_cases hr : r.task.m_networkReply = 0
        · simpa [step, abort, hr] using h2
        · intro _
          simpa [step] using h2 (Or.inr hr)
      | timer tid =>
        by_cases hr : r.task.m_networkReply = 0
        · simpa [step, timerEvent, abort, hr] using h2
        · intro _
          simpa [step] using h2 (Or.inr hr)
      | replyFinished d =>
        by_cases hr : r.task.m_networkReply = 0
        · simpa [step, slotNetworkReplyFinished, hr] using h2
        · intro hx
          exfalso
          have hm : r.task.m_networkAccessManager = false := h1 hr
          rcases hx with hx | hx
          · revert hx
            simp only [step, slotNetworkReplyFinished, if_neg hr]
            split
            · simp [hm]
            · split <;> simp [hm]
          · apply hx
            simp only [step, slotNetworkReplyFinished, if_neg hr]
            split
            · rfl
            · split <;> rfl

/-- An aborted task stays aborted and silent until the completion is delivered. -/
theorem run_aborted (r : Run) (es : List Event)
    (hreply : r.task.m_networkReply ≠ 0) (hmgr : r.task.m_networkAccessManager = false)
    (habort : r.task.m_aborted = true)
    (hes : ∀ e ∈ es, isReplyFinished e = false) :
    (run r es).task.m_networkReply ≠ 0 ∧ (run r es).task.m_networkAccessManager = false ∧
    (run r es).task.m_aborted = true ∧ (run r es).emitted = r.emitted := by
  induction es generalizing r with
  | nil => exact ⟨hreply, hmgr, habort, rfl⟩
  | cons e es ih =>
    rw [run_cons]
    have he : isReplyFinished e = false := hes e (List.mem_cons_self _ _)
    have hes1 : ∀ e ∈ es, isReplyFinished e = false :=
      fun e h => hes e (List.mem_cons_of_mem _ h)
    have hstep : (step r e).task.m_networkReply ≠ 0 ∧
        (step r e).task.m_networkAccessManager = false ∧
        (step r e).task.m_aborted = true ∧ (step r e).emitted = r.emitted := by
      cases e with
      | start t => simp [step, start, hmgr, hreply, habort]
      | abort => simp [step, abort, hmgr, hreply]
      | timer tid => simp [step, timerEvent, abort, hmgr, hreply]
      | replyFinished d => simp [isReplyFinished] at he
    obtain ⟨a, b, c, d1⟩ := hstep
    have := ih (step r e) a b c hes1
    rw [d1] at this
    exact this

/-- C9: once `abort()` has run, explicitly or through a timer event, while the call is
outstanding, the completion of the call emits `aborted`, and over the whole life of
the instance `aborted` is the only signal emitted, exactly once, whatever the reply
reports and whatever events come in between or afterwards. -/
theorem C9_abort_precedence (request : JsonWebRequest) (qt : Qt)
    (before between after : List Event) (trigger : Event) (d : NetworkReplyData)
    (houtstanding :
      (run { task := create true request, qt := qt, emitted := [] } before).task.m_networkReply
        ≠ 0)
    (htrigger : trigger = Event.abort ∨ ∃ timerId, trigger = Event.timer timerId)
    (hbetween : ∀ e ∈ between, isReplyFinished e = false) :
    (run { task := create true request, qt := qt, emitted := [] }
        (before ++ [trigger] ++ between ++ [Event.replyFinished d] ++ after)).emitted =
      [TaskSignal.aborted] := by
  obtain ⟨i1, i2⟩ := run_fresh_inv { task := create true request, qt := qt, emitted := [] }
    before (by intro h; exact absurd rfl h) (by intro _; rfl)
  simp only [run_append]
  generalize run { task := create true request, qt := qt, emitted := [] } before = r0
    at houtstanding i1 i2
  have hm0 := i1 houtstanding
  have he0 := i2 (Or.inr houtstanding)
  have ht : (run r0 [trigger]).task.m_networkReply ≠ 0 ∧
      (run r0 [trigger]).task.m_networkAccessManager = false ∧
      (run r0 [trigger]).task.m_aborted = true ∧ (run r0 [trigger]).emitted = [] := by
    rcases htrigger with e | ⟨tid, e⟩
    · subst e
      simp [run, step, abort, houtstanding, hm0, he0]
    · subst e
      simp [run, step, timerEvent, abort, houtstanding, hm0, he0]
  obtain ⟨a1, a2, a3, a4⟩ := ht
  generalize run r0 [trigger] = r1 at a1 a2 a3 a4
  obtain ⟨b1, b2, b3, b4⟩ := run_aborted r1 between a1 a2 a3 hbetween
  rw [a4] at b4
  generalize run r1 between = r2 at b1 b2 b3 b4
  have hc : (run r2 [Event.replyFinished d]).task.m_networkReply = 0 ∧
      (run r2 [Event.replyFinished d]).task.m_networkAccessManager = false ∧
      (run r2 [Event.replyFinished d]).emitted = [TaskSignal.aborted] := by
    simp [run, step, slotNetworkReplyFinished, b1, b2, b3, b4]
  obtain ⟨c1, c2, c3⟩ := hc
  rw [(run_done _ after c1 c2).1, c3]

/-- C9, instance: `start(100)`, the timer fires before the transport completes, and the
completion, here a reply with status 200, is reported as `aborted` only. -/
theorem C9_abort_precedence_witness :
    (run { task := create true
              { method := HttpRequestMethod.Post, path := "/tracks/search",
                query := "", content := "" },
            qt := Qt.init, emitted := [] }
        ([Event.start 100] ++ [Event.timer 1] ++ [] ++
          [Event.replyFinished
            { error := false, errorString := "", statusCodeAttr := some 200,
              contentType := MimeType.json, content := "[]" }] ++ [])).emitted =
      [TaskSignal.aborted] :=
  C9_abort_precedence _ Qt.init [Event.start 100] [] [] (Event.timer 1) _
    (by decide) (Or.inr ⟨1, rfl⟩) (by simp)

/-- C10, counterexample: a task started through `invokeStart()` with the default argument
has issued its call, and no timer is armed, in particular none of 60000 ms. -/
theorem C10_default_timeout_counterexample :
    ¬ (∃ timerId : Int, (timerId, (60000 : Int)) ∈
        (invokeStartDefault
          (create true { method := HttpRequestMethod.Post, path := "/tracks/search",
                         query := "", content := "" })
          Qt.init).2.timers) := by
  rintro ⟨timerId, h⟩
  have hnone : (invokeStartDefault
      (create true { method := HttpRequestMethod.Post, path := "/tracks/search",
                     query := "", content := "" })
      Qt.init).2.timers = [] := by decide
  rw [hnone] at h
  cases h

/-- C10, as amended: `invokeStart()` with its default argument `timeoutMillis = 0` arms no
timer and leaves `m_timeoutTimerId` untouched; a start that issues the call with
`timeoutMillis > 0` arms one timer with exactly that interval. The default of 60000 ms
is the one of `JsonWebClient::afterRequestSent`, which registers a request whose timeout
is not positive with `kDefaultTimeoutMillis = 60000`. -/
theorem C10_default_timeout (t : JsonWebTask) (qt : Qt) :
    ((invokeStartDefault t qt).2.timers = qt.timers ∧
      (invokeStartDefault t qt).1.m_timeoutTimerId = t.m_timeoutTimerId) ∧
    (∀ timeoutMillis : Int, 0 < timeoutMillis →
      t.m_networkAccessManager = true → t.m_networkReply = 0 →
      (invokeStart t qt timeoutMillis).2.timers =
        qt.timers ++ [((invokeStart t qt timeoutMillis).1.m_timeoutTimerId, timeoutMillis)]) ∧
    (∀ (c : JsonWebClient) (requestId : RequestId) (reply : ReplyHandle) (timeoutMillis : Int),
      timeoutMillis ≤ 0 →
      kDefaultTimeoutMillis = 60000 ∧
      JsonWebClient.afterRequestSent c qt requestId reply timeoutMillis =
        ({ c with m_requestReplyManager :=
            (c.m_requestReplyManager.afterRequestSent qt requestId reply 60000).1 },
         (c.m_requestReplyManager.afterRequestSent qt requestId reply 60000).2)) := by
  refine ⟨?_, ?_, ?_⟩
  · unfold invokeStartDefault invokeStart start
    by_cases hm : t.m_networkAccessManager = true
    · by_cases hr : t.m_networkReply = 0
      · cases hmeth : t.m_request.method <;> simp [hm, hr, Qt.send]
      · simp [hm, hr]
    · simp [hm]
  · intro ms hms hm hr
    unfold invokeStart start
    cases hmeth : t.m_request.method <;> simp [hm, hr, hms, Qt.send, Qt.startTimer]
  · intro c requestId reply ms hms
    refine ⟨rfl, ?_⟩
    simp [JsonWebClient.afterRequestSent, hms, kDefaultTimeoutMillis]

/-- C10, instance: a start with 100 ms arms the timer (1, 100). -/
theorem C10_default_timeout_witness :
    (invokeStart
        (create true { method := HttpRequestMethod.Get, path := "/tags", query := "",
                       content := "" })
        Qt.init 100).2.timers = [(1, 100)] :=
  (C10_default_timeout
    (create true { method := HttpRequestMethod.Get, path := "/tags", query := "",
                   content := "" }) Qt.init).2.1 100 (by decide) rfl rfl

end JsonWebTask

end network

end mixxx

namespace mixxx

namespace aoide

open network

namespace Gateway

/-! ## Agreement of the slots with their fuel-free forms -/

/-- Validity of the ids of the queued write requests. -/
theorem queuedIds_valid_iff (g : Gateway) :
    (∀ i ∈ g.queuedIds, i ≠ 0) ↔ ∀ w ∈ g.m_queuedWriteRequests, w.id ≠ 0 := by
  simp [queuedIds]

theorem onNetworkRequestFailed_other (n : Nat) (g : Gateway) (y : RequestId) (msg : String)
    (hy : y ≠ g.m_pendingWriteRequestId) :
    onNetworkRequestFailed (n + 1) g y msg =
      some (g.emit [GatewaySignal.networkRequestFailed y msg]) := by
  simp [onNetworkRequestFailed, hy]

theorem clientAccess_cases (c : JsonWebClient) (y : RequestId) :
    c.accessNetwork y = (true, []) ∨
    ∃ msg, c.accessNetwork y = (false, [ClientSignal.networkRequestFailed y msg]) := by
  unfold JsonWebClient.accessNetwork
  cases c.m_networkAccessManager.alive <;> cases c.m_networkAccessManager.sameThread <;>
    cases c.m_networkAccessManager.accessible <;> simp

theorem accessNetwork_direct (g : Gateway) (y : RequestId)
    (hy : y ≠ g.m_pendingWriteRequestId) :
    (∀ n, accessNetwork (n + 2) g y = some (accessNetworkDirect g y)) ∧
    (∀ n r, accessNetwork n g y = some r → r = accessNetworkDirect g y) := by
  rcases clientAccess_cases g.m_jsonWebClient y with h | ⟨msg, h⟩
  · constructor
    · intro n
      simp [accessNetwork, accessNetworkDirect, h, forwarded, emit]
    · intro n r hr
      cases n with
      | zero => simp [accessNetwork] at hr
      | succ n =>
        simp [accessNetwork, h] at hr
        simp [accessNetworkDirect, h, forwarded, emit, ← hr]
  · constructor
    · intro n
      simp [accessNetwork, accessNetworkDirect, h, forwarded,
        onNetworkRequestFailed_other n g y msg hy]
    · intro n r hr
      cases n with
      | zero => simp [accessNetwork] at hr
      | succ n =>
        cases n with
        | zero => simp [accessNetwork, h, onNetworkRequestFailed] at hr
        | succ n =>
          simp [accessNetwork, h, onNetworkRequestFailed_other n g y msg hy] at hr
          simp [accessNetworkDirect, h, forwarded, ← hr]

theorem accessNetwork_weak (g : Gateway) (y : RequestId)
    (hy : y ≠ g.m_pendingWriteRequestId) (n : Nat) :
    accessNetwork n g y = none ∨ accessNetwork n g y = some (accessNetworkDirect g y) := by
  cases h : accessNetwork n g y with
  | none => exact Or.inl rfl
  | some r => exact Or.inr (by rw [(accessNetwork_direct g y hy).2 n r h])

theorem slotShutdown_weak (g : Gateway) (requestId : RequestId) (hid : requestId ≠ 0)
    (n : Nat) :
    slotShutdown n g requestId = none ∨
      slotShutdown n g requestId = some (slotShutdownDirect g requestId) := by
  cases n with
  | zero => left; rfl
  | succ n =>
    simp only [slotShutdown, slotShutdownDirect]
    split
    · right; rfl
    · split
      · right; rfl
      · rename_i h1 h2
        have hp : g.m_pendingWriteRequestId = 0 := by
          simp [RequestId.isValid] at h2
          exact h2.1
        have hne : requestId ≠
            (if g.m_shutdownRequestId.isValid = true then
              { g with m_shutdownRequestId := RequestId.invalid } else g).m_pendingWriteRequestId := by
          split <;> simpa [hp] using hid
        rcases accessNetwork_weak _ requestId hne n with h | h
        · left; rw [h]
        · right
          rw [h]
          generalize accessNetworkDirect _ requestId = p
          obtain ⟨b, g2⟩ := p
          cases b <;> rfl

theorem slotShutdown_total (g : Gateway) (requestId : RequestId) (hid : requestId ≠ 0)
    (n : Nat) :
    slotShutdown (n + 3) g requestId = some (slotShutdownDirect g requestId) := by
  rcases slotShutdown_weak g requestId hid (n + 3) with h | h
  · exfalso
    revert h
    simp only [slotShutdown]
    split
    · simp
    · split
      · simp
      · rename_i h1 h2
        have hp : g.m_pendingWriteRequestId = 0 := by
          simp [RequestId.isValid] at h2
          exact h2.1
        have hne : requestId ≠
            (if g.m_shutdownRequestId.isValid = true then
              { g with m_shutdownRequestId := RequestId.invalid } else g).m_pendingWriteRequestId := by
          split <;> simpa [hp] using hid
        rw [(accessNetwork_direct _ requestId hne).1 n]
        generalize accessNetworkDirect _ requestId = p
        obtain ⟨b, g2⟩ := p
        cases b <;> simp
  · exact h

theorem finishWriteRequest_weak (g : Gateway) (x : RequestId)
    (hq : ∀ w ∈ g.m_queuedWriteRequests, w.id ≠ 0) (n : Nat) :
    finishWriteRequest n g x = none ∨
      finishWriteRequest n g x = some (finishWriteRequestDirect g x) := by
  cases n with
  | zero => left; rfl
  | succ n =>
    obtain ⟨client, queue, pending, token, qt, conns, deq, em⟩ := g
    simp only [finishWriteRequest, finishWriteRequestDirect]
    split
    · right; rfl
    · split
      · right; rfl
      · cases queue with
        | nil =>
          simp only
          split
          · rename_i hv
            apply slotShutdown_weak
            simpa [RequestId.isValid] using hv
          · right; rfl
        | cons head rest =>
          simp only
          have hne : head.id ≠ RequestId.invalid := by
            have := hq head (List.mem_cons_self _ _)
            simpa [RequestId.invalid] using this
          rcases accessNetwork_weak
            { m_jsonWebClient := client, m_queuedWriteRequests := head :: rest,
              m_pendingWriteRequestId := RequestId.invalid, m_shutdownRequestId := token,
              qt := qt, connections := conns, dequeued := deq, emitted := em }
            head.id hne n with h | h
          · left; rw [h]
          · right
            rw [h]
            cases hb : (JsonWebClient.accessNetwork client head.id).1 <;>
              simp [accessNetworkDirect, emit, hb]

theorem finishWriteRequest_total (g : Gateway) (x : RequestId)
    (hq : ∀ w ∈ g.m_queuedWriteRequests, w.id ≠ 0) (n : Nat) :
    finishWriteRequest (n + 4) g x = some (finishWriteRequestDirect g x) := by
  rcases finishWriteRequest_weak g x hq (n + 4) with h | h
  · exfalso
    revert h
    obtain ⟨client, queue, pending, token, qt, conns, deq, em⟩ := g
    simp only [finishWriteRequest]
    split
    · simp
    · split
      · simp
      · cases queue with
        | nil =>
          simp only
          split
          · rename_i hv
            rw [slotShutdown_total _ _ (by simpa [RequestId.isValid] using hv) n]
            simp
          · simp
        | cons head rest =>
          simp only
          have hne : head.id ≠ RequestId.invalid := by
            have := hq head (List.mem_cons_self _ _)
            simpa [RequestId.invalid] using this
          rw [(accessNetwork_direct
            { m_jsonWebClient := client, m_queuedWriteRequests := head :: rest,
              m_pendingWriteRequestId := RequestId.invalid, m_shutdownRequestId := token,
              qt := qt, connections := conns, dequeued := deq, emitted := em }
            head.id hne).1 (n + 1)]
          cases hb : (JsonWebClient.accessNetwork client head.id).1 <;>
            simp [accessNetworkDirect, emit, hb]
  · exact h

theorem slotShutdownDirect_queue (g : Gateway) (requestId : RequestId) :
    (slotShutdownDirect g requestId).m_queuedWriteRequests = g.m_queuedWriteRequests := by
  unfold slotShutdownDirect
  simp only [accessNetworkDirect, postShutdown, awaitReply, emit]
  split_ifs <;> rfl

theorem finishWriteRequestDirect_queue (g : Gateway) (x : RequestId) :
    ∀ w ∈ (finishWriteRequestDirect g x).m_queuedWriteRequests, w ∈ g.m_queuedWriteRequests := by
  intro w
  obtain ⟨client, queue, pending, token, qt, conns, deq, em⟩ := g
  unfold finishWriteRequestDirect
  cases queue with
  | nil =>
    simp only
    split_ifs <;> simp [slotShutdownDirect_queue]
  | cons head rest =>
    simp only [accessNetworkDirect, dispatchWriteRequest, awaitReply, emit]
    split_ifs <;> simp
    intro h
    exact Or.inr h

theorem onNetworkRequestFailed_weak (g : Gateway) (y : RequestId) (msg : String)
    (hq : ∀ w ∈ g.m_queuedWriteRequests, w.id ≠ 0) (n : Nat) :
    onNetworkRequestFailed n g y msg = none ∨
      onNetworkRequestFailed n g y msg = some (onNetworkRequestFailedDirect g y msg) := by
  cases n with
  | zero => left; rfl
  | succ n =>
    simp only [onNetworkRequestFailed, onNetworkRequestFailedDirect]
    split
    · rcases finishWriteRequest_weak g y hq n with h | h
      · left; rw [h]; rfl
      · right; rw [h]; rfl
    · right; rfl

theorem onNetworkRequestFailed_total (g : Gateway) (y : RequestId) (msg : String)
    (hq : ∀ w ∈ g.m_queuedWriteRequests, w.id ≠ 0) (n : Nat) :
    onNetworkRequestFailed (n + 5) g y msg =
      some (onNetworkRequestFailedDirect g y msg) := by
  simp only [onNetworkRequestFailed, onNetworkRequestFailedDirect]
  split
  · rw [finishWriteRequest_total g y hq n]; rfl
  · rfl

theorem onNetworkRequestFailedDirect_queue (g : Gateway) (y : RequestId) (msg : String) :
    ∀ w ∈ (onNetworkRequestFailedDirect g y msg).m_queuedWriteRequests,
      w ∈ g.m_queuedWriteRequests := by
  intro w
  unfold onNetworkRequestFailedDirect
  split
  · simpa [emit] using finishWriteRequestDirect_queue g y w
  · simp [emit]

theorem receiveReply_emitted_cases (c : JsonWebClient) (qt : Qt) (reply : ReplyHandle)
    (d : NetworkReplyData) (wantJson : Bool) :
    (c.receiveReply qt reply d wantJson).1.emitted = [] ∨
    (c.receiveReply qt reply d wantJson).1.emitted =
      [ClientSignal.networkRequestFailed (c.receiveReply qt reply d wantJson).1.requestId
        (replyErrorMessage d)] := by
  unfold JsonWebClient.receiveReply
  simp only
  split
  · left; rfl
  · split
    · right; rfl
    · left; rfl

/-- The part of a reply handler that follows `receiveReply`. -/
theorem replyHandler_weak (g1 : Gateway) (op : Operation) (signals : List ClientSignal)
    (id : RequestId) (status : HttpStatusCode) (json : Option String) (msg : String)
    (hq : ∀ w ∈ g1.m_queuedWriteRequests, w.id ≠ 0)
    (hs : signals = [] ∨ signals = [ClientSignal.networkRequestFailed id msg]) (n : Nat) :
    let fuelled := (signals.foldlM
      (fun g2 signal =>
        match signal with
        | ClientSignal.networkRequestFailed failedId errorMessage =>
          onNetworkRequestFailed n g2 failedId errorMessage) g1).bind
      (fun g2 =>
        if !id.isValid then some g2
        else
          (if op.isWrite then finishWriteRequest n g2 id else some g2).bind
            (fun g3 =>
              if !JsonWebClient.isStatusCodeSuccess status then some g3
              else if op.emitsResult then
                some (g3.emit [GatewaySignal.result op id json])
              else some g3))
    let direct :=
      if !id.isValid then deliverDirect g1 signals
      else if !JsonWebClient.isStatusCodeSuccess status then
        (if op.isWrite then finishWriteRequestDirect (deliverDirect g1 signals) id
         else deliverDirect g1 signals)
      else if op.emitsResult then
        (if op.isWrite then finishWriteRequestDirect (deliverDirect g1 signals) id
         else deliverDirect g1 signals).emit [GatewaySignal.result op id json]
      else
        (if op.isWrite then finishWriteRequestDirect (deliverDirect g1 signals) id
         else deliverDirect g1 signals)
    (fuelled = none ∨ fuelled = some direct) ∧ (5 ≤ n → fuelled = some direct) := by
  intro fuelled direct
  have key : ∀ g2, (∀ w ∈ g2.m_queuedWriteRequests, w.id ≠ 0) →
      let rest := (if !id.isValid then some g2
        else
          (if op.isWrite then finishWriteRequest n g2 id else some g2).bind
            (fun g3 =>
              if !JsonWebClient.isStatusCodeSuccess status then some g3
              else if op.emitsResult then
                some (g3.emit [GatewaySignal.result op id json])
              else some g3))
      let restDirect :=
        if !id.isValid then g2
        else if !JsonWebClient.isStatusCodeSuccess status then
          (if op.isWrite then finishWriteRequestDirect g2 id else g2)
        else if op.emitsResult then
          (if op.isWrite then finishWriteRequestDirect g2 id
           else g2).emit [GatewaySignal.result op id json]
        else
          (if op.isWrite then finishWriteRequestDirect g2 id else g2)
      (rest = none ∨ rest = some restDirect) ∧ (5 ≤ n → rest = some restDirect) := by
    intro g2 hq2 rest restDirect
    by_cases hv : (!id.isValid) = true
    · simp [rest, restDirect, hv]
    · by_cases hw : op.isWrite = true
      · constructor
        · rcases finishWriteRequest_weak g2 id hq2 n with h | h
          · left; simp [rest, hv, hw, h]
          · right
            simp only [rest, restDirect, hv, hw, h, if_true, if_false, Option.bind]
            split_ifs <;> rfl
        · intro hn
          obtain ⟨k, rfl⟩ : ∃ k, n = k + 4 := ⟨n - 4, by omega⟩
          simp only [rest, restDirect, hv, hw, finishWriteRequest_total g2 id hq2 k, if_true,
            if_false, Option.bind]
          split_ifs <;> rfl
      · have : rest = some restDirect := by
          simp only [rest, restDirect, hv, hw, if_false, Option.bind]
          split_ifs <;> rfl
        exact ⟨Or.inr this, fun _ => this⟩
  rcases hs with hs | hs
  · subst hs
    have := key g1 hq
    simpa [fuelled, direct, deliverDirect] using this
  · subst hs
    have hk := key (onNetworkRequestFailedDirect g1 id msg)
      (fun w hw => hq w (onNetworkRequestFailedDirect_queue _ _ _ w hw))
    constructor
    · rcases onNetworkRequestFailed_weak g1 id msg hq n with h | h
      · left; simp [fuelled, h]
      · have := hk.1
        simpa [fuelled, direct, deliverDirect, h] using this
    · intro hn
      obtain ⟨k, rfl⟩ : ∃ k, n = k + 5 := ⟨n - 5, by omega⟩
      have := hk.2 hn
      simpa [fuelled, direct, deliverDirect, onNetworkRequestFailed_total g1 id msg hq k]
        using this

theorem onNetworkReplyFinished_direct (g : Gateway) (op : Operation) (reply : ReplyHandle)
    (d : NetworkReplyData) (hq : ∀ w ∈ g.m_queuedWriteRequests, w.id ≠ 0) (n : Nat) :
    (onNetworkReplyFinished n g op reply d = none ∨
      onNetworkReplyFinished n g op reply d =
        some (onNetworkReplyFinishedDirect g op reply d)) ∧
    (5 ≤ n → onNetworkReplyFinished n g op reply d =
        some (onNetworkReplyFinishedDirect g op reply d)) := by
  have h := replyHandler_weak
    { g with
      m_jsonWebClient := (g.m_jsonWebClient.receiveReply g.qt reply d op.readsJson).2.1,
      qt := (g.m_jsonWebClient.receiveReply g.qt reply d op.readsJson).2.2 }
    op (g.m_jsonWebClient.receiveReply g.qt reply d op.readsJson).1.emitted
    (g.m_jsonWebClient.receiveReply g.qt reply d op.readsJson).1.requestId
    (g.m_jsonWebClient.receiveReply g.qt reply d op.readsJson).1.statusCode
    (g.m_jsonWebClient.receiveReply g.qt reply d op.readsJson).1.jsonResponse
    (replyErrorMessage d) hq
    (receiveReply_emitted_cases g.m_jsonWebClient g.qt reply d op.readsJson) n
  have hd : onNetworkReplyFinishedDirect g op reply d =
      (if !(g.m_jsonWebClient.receiveReply g.qt reply d op.readsJson).1.requestId.isValid then
        deliverDirect
          { g with
            m_jsonWebClient := (g.m_jsonWebClient.receiveReply g.qt reply d op.readsJson).2.1,
            qt := (g.m_jsonWebClient.receiveReply g.qt reply d op.readsJson).2.2 }
          (g.m_jsonWebClient.receiveReply g.qt reply d op.readsJson).1.emitted
      else if !JsonWebClient.isStatusCodeSuccess
          (g.m_jsonWebClient.receiveReply g.qt reply d op.readsJson).1.statusCode then
        (if op.isWrite then finishWriteRequestDirect (deliverDirect
          { g with
            m_jsonWebClient := (g.m_jsonWebClient.receiveReply g.qt reply d op.readsJson).2.1,
            qt := (g.m_jsonWebClient.receiveReply g.qt reply d op.readsJson).2.2 }
          (g.m_jsonWebClient.receiveReply g.qt reply d op.readsJson).1.emitted)
          (g.m_jsonWebClient.receiveReply g.qt reply d op.readsJson).1.requestId
         else deliverDirect
          { g with
            m_jsonWebClient := (g.m_jsonWebClient.receiveReply g.qt reply d op.readsJson).2.1,
            qt := (g.m_jsonWebClient.receiveReply g.qt reply d op.readsJson).2.2 }
          (g.m_jsonWebClient.receiveReply g.qt reply d op.readsJson).1.emitted)
      else if op.emitsResult then
        (if op.isWrite then finishWriteRequestDirect (deliverDirect
          { g with
            m_jsonWebClient := (g.m_jsonWebClient.receiveReply g.qt reply d op.readsJson).2.1,
            qt := (g.m_jsonWebClient.receiveReply g.qt reply d op.readsJson).2.2 }
          (g.m_jsonWebClient.receiveReply g.qt reply d op.readsJson).1.emitted)
          (g.m_jsonWebClient.receiveReply g.qt reply d op.readsJson).1.requestId
         else deliverDirect
          { g with
            m_jsonWebClient := (g.m_jsonWebClient.receiveReply g.qt reply d op.readsJson).2.1,
            qt := (g.m_jsonWebClient.receiveReply g.qt reply d op.readsJson).2.2 }
          (g.m_jsonWebClient.receiveReply g.qt reply d op.readsJson).1.emitted).emit
          [GatewaySignal.result op
            (g.m_jsonWebClient.receiveReply g.qt reply d op.readsJson).1.requestId
            (g.m_jsonWebClient.receiveReply g.qt reply d op.readsJson).1.jsonResponse]
      else
        (if op.isWrite then finishWriteRequestDirect (deliverDirect
          { g with
            m_jsonWebClient := (g.m_jsonWebClient.receiveReply g.qt reply d op.readsJson).2.1,
            qt := (g.m_jsonWebClient.receiveReply g.qt reply d op.readsJson).2.2 }
          (g.m_jsonWebClient.receiveReply g.qt reply d op.readsJson).1.emitted)
          (g.m_jsonWebClient.receiveReply g.qt reply d op.readsJson).1.requestId
         else deliverDirect
          { g with
            m_jsonWebClient := (g.m_jsonWebClient.receiveReply g.qt reply d op.readsJson).2.1,
            qt := (g.m_jsonWebClient.receiveReply g.qt reply d op.readsJson).2.2 }
          (g.m_jsonWebClient.receiveReply g.qt reply d op.readsJson).1.emitted)) := by
    unfold onNetworkReplyFinishedDirect
    simp only
  rw [hd]
  exact h

theorem writeRequest_id (requestId : RequestId) (call : WriteCall) :
    (call.writeRequest requestId).id = requestId := by
  cases call <;> rfl

theorem writeRequest_isWrite (requestId : RequestId) (call : WriteCall) :
    (call.writeRequest requestId).finishedHandler.isWrite = true := by
  cases call <;> rfl

/-- With valid ids in the queue and an admissible event, `step` yields the state computed
by its fuel-free form whenever it yields a state, and it does so from fuel 5 on. -/
theorem step_direct (g : Gateway) (event : Event)
    (hq : ∀ w ∈ g.m_queuedWriteRequests, w.id ≠ 0) (hadm : g.Admissible event) (n : Nat) :
    (step n g event = none ∨ step n g event = some (stepDirect g event)) ∧
    (5 ≤ n → step n g event = some (stepDirect g event)) := by
  cases event with
  | slotWrite requestId call =>
    have hq1 : ∀ w ∈ g.m_queuedWriteRequests ++ [call.writeRequest requestId], w.id ≠ 0 := by
      intro w hw
      rcases List.mem_append.mp hw with h | h
      · exact hq w h
      · have : w = call.writeRequest requestId := by simpa using h
        rw [this, writeRequest_id]
        exact hadm.1
    constructor
    · exact finishWriteRequest_weak
        { g with
          m_queuedWriteRequests := g.m_queuedWriteRequests ++ [call.writeRequest requestId] }
        RequestId.invalid hq1 n
    · intro hn
      obtain ⟨k, rfl⟩ : ∃ k, n = k + 4 := ⟨n - 4, by omega⟩
      exact finishWriteRequest_total
        { g with
          m_queuedWriteRequests := g.m_queuedWriteRequests ++ [call.writeRequest requestId] }
        RequestId.invalid hq1 k
  | slotShutdown requestId =>
    constructor
    · exact slotShutdown_weak g requestId hadm.1 n
    · intro hn
      obtain ⟨k, rfl⟩ : ∃ k, n = k + 3 := ⟨n - 3, by omega⟩
      exact slotShutdown_total g requestId hadm.1 k
  | slotRead requestId call query =>
    have hne : requestId ≠ g.m_pendingWriteRequestId := hadm.2.2.1
    constructor
    · simp only [step, slotRead, stepDirect]
      rcases accessNetwork_weak g requestId hne n with h | h
      · left; rw [h]
      · right
        rw [h]
        generalize accessNetworkDirect g requestId = p
        obtain ⟨b, g2⟩ := p
        cases b <;> rfl
    · intro hn
      obtain ⟨k, rfl⟩ : ∃ k, n = k + 2 := ⟨n - 2, by omega⟩
      simp only [step, slotRead, stepDirect]
      rw [(accessNetwork_direct g requestId hne).1 k]
      generalize accessNetworkDirect g requestId = p
      obtain ⟨b, g2⟩ := p
      cases b <;> rfl
  | replyFinished reply d =>
    simp only [step, stepDirect]
    cases hl : List.lookup reply g.connections with
    | none => simp
    | some op =>
      simp only
      exact onNetworkReplyFinished_direct
        { g with
          connections := g.connections.filter (fun c => c.1 != reply),
          qt := g.qt.finish reply } op reply d hq n
  | timerEvent timerId => simp [step, stepDirect]
  | networkAccess access => simp [step, stepDirect]

end Gateway

end aoide

end mixxx

namespace mixxx

namespace network

namespace RequestReplyManager

theorem cancelRequest_nextReply (m : RequestReplyManager) (qt : Qt) (id : RequestId) :
    (cancelRequest m qt id).2.nextReply = qt.nextReply ∧
    (cancelRequest m qt id).2.calls = qt.calls := by
  unfold cancelRequest
  simp only
  split
  · exact ⟨rfl, rfl⟩
  · split <;> exact ⟨rfl, rfl⟩

theorem afterRequestSent_nextReply (m : RequestReplyManager) (qt : Qt)
    (id : RequestId) (h : ReplyHandle) (t : Int) :
    (afterRequestSent m qt id h t).2.nextReply = qt.nextReply ∧
    (afterRequestSent m qt id h t).2.calls = qt.calls := by
  unfold afterRequestSent
  simp only
  split <;> split <;>
    simp [Qt.startTimer, cancelRequest_nextReply]

theorem afterReplyReceived_nextReply (m : RequestReplyManager) (qt : Qt) (h : ReplyHandle) :
    (afterReplyReceived m qt h).2.2.nextReply = qt.nextReply ∧
    (afterReplyReceived m qt h).2.2.calls = qt.calls := by
  unfold afterReplyReceived
  simp only
  split_ifs <;> simp [Qt.killTimer]

theorem afterReplyReceived_replies (m : RequestReplyManager) (qt : Qt) (h : ReplyHandle) :
    (afterReplyReceived m qt h).2.1.m_pendingReplies = QMap.remove m.m_pendingReplies h := by
  unfold afterReplyReceived
  simp only
  split_ifs <;> rfl

theorem afterReplyReceived_requestId (m : RequestReplyManager) (qt : Qt) (h : ReplyHandle) :
    (afterReplyReceived m qt h).1.1 =
      (QMap.value m.m_pendingReplies h PendingReply.default).requestId := by
  unfold afterReplyReceived
  simp only
  split_ifs <;> rfl

theorem clearTimer_lookup (tid : Int) (m : QMap PendingReply) (h : ReplyHandle) :
    (List.lookup h (clearTimer tid m).2).map (fun p => p.requestId) =
      (List.lookup h m).map (fun p => p.requestId) := by
  induction m with
  | nil => simp [clearTimer]
  | cons e rest ih =>
    obtain ⟨k, p⟩ := e
    unfold clearTimer
    by_cases hp : p.timerId = tid
    · simp only [hp, if_true, List.lookup]
      cases h == k <;> simp
    · simp only [hp, if_false, List.lookup]
      cases h == k <;> simp [ih]

theorem timerEvent_replies (m : RequestReplyManager) (qt : Qt) (tid : Int) :
    (timerEvent m qt tid).1.m_pendingReplies = (clearTimer tid m.m_pendingReplies).2 := by
  unfold timerEvent killTimerForPendingReply
  simp only
  split
  · rfl
  · rw [cancelRequest_replies]

theorem timerEvent_nextReply (m : RequestReplyManager) (qt : Qt) (tid : Int) :
    (timerEvent m qt tid).2.nextReply = qt.nextReply ∧
    (timerEvent m qt tid).2.calls = qt.calls := by
  unfold timerEvent killTimerForPendingReply
  simp only
  split
  · exact ⟨rfl, rfl⟩
  · simp [cancelRequest_nextReply, Qt.killTimer]

end RequestReplyManager

end network

namespace aoide

open network

namespace Gateway

/-! ## Effect of the building blocks on the observations -/

theorem requestIdOf_timerEvent (g : Gateway) (tid : Int) (r : ReplyHandle) :
    requestIdOf
      { g with
        m_jsonWebClient :=
          { g.m_jsonWebClient with
            m_requestReplyManager :=
              (g.m_jsonWebClient.m_requestReplyManager.timerEvent g.qt tid).1 },
        qt := (g.m_jsonWebClient.m_requestReplyManager.timerEvent g.qt tid).2 } r =
      requestIdOf g r := by
  simp only [requestIdOf, QMap.value, RequestReplyManager.timerEvent_replies]
  have := RequestReplyManager.clearTimer_lookup tid
    g.m_jsonWebClient.m_requestReplyManager.m_pendingReplies r
  cases h1 : List.lookup r
      (RequestReplyManager.clearTimer tid
        g.m_jsonWebClient.m_requestReplyManager.m_pendingReplies).2 <;>
    cases h2 : List.lookup r g.m_jsonWebClient.m_requestReplyManager.m_pendingReplies <;>
    simp_all

theorem sendWriteRequest_eq (qt : Qt) (w : WriteRequest) :
    (sendWriteRequest qt w).1 = qt.nextReply + 1 ∧
    (sendWriteRequest qt w).2.nextReply = qt.nextReply + 1 ∧
    (sendWriteRequest qt w).2.calls = qt.calls ++ [writeCall w (qt.nextReply + 1)] := by
  unfold sendWriteRequest writeCall
  cases w.method <;> simp [Qt.send]

theorem awaitReply_requestIdOf (g : Gateway) (sent : ReplyHandle × Qt) (op : Operation)
    (id : RequestId) (r : ReplyHandle) :
    (awaitReply g sent op id).requestIdOf r =
      if r = sent.1 then id else g.requestIdOf r := by
  obtain ⟨tid, hrep, _⟩ := RequestReplyManager.afterRequestSent_replies
    g.m_jsonWebClient.m_requestReplyManager sent.2 id sent.1
    (if (0 : Int) ≤ 0 then kDefaultTimeoutMillis else 0)
  simp only [requestIdOf, awaitReply, JsonWebClient.afterRequestSent, QMap.value]
  rw [hrep]
  by_cases h : r = sent.1
  · subst h
    simp [QMap.lookup_insert_self]
  · simp [QMap.lookup_insert_ne _ _ _ _ h, h]

theorem awaitReply_qt (g : Gateway) (sent : ReplyHandle × Qt) (op : Operation)
    (id : RequestId) :
    (awaitReply g sent op id).qt.nextReply = sent.2.nextReply ∧
    (awaitReply g sent op id).qt.calls = sent.2.calls := by
  simp only [awaitReply, JsonWebClient.afterRequestSent]
  exact RequestReplyManager.afterRequestSent_nextReply _ _ _ _ _

/-! ## The invariant of the write queue -/

theorem inFlightIds_congr (g g1 : Gateway) (hconn : g1.connections = g.connections)
    (hids : ∀ c ∈ g.connections, g1.requestIdOf c.1 = g.requestIdOf c.1) :
    g1.inFlightIds = g.inFlightIds := by
  unfold inFlightIds
  rw [hconn]
  exact List.map_congr_left hids

theorem writesInFlight_congr (g g1 : Gateway) (hconn : g1.connections = g.connections) :
    g1.writesInFlight = g.writesInFlight := by
  unfold writesInFlight
  rw [hconn]

theorem mem_inFlightIds_of_write (g : Gateway) (reply : ReplyHandle)
    (h : reply ∈ g.writesInFlight) : g.requestIdOf reply ∈ g.inFlightIds := by
  simp only [writesInFlight, List.mem_map, List.mem_filter] at h
  obtain ⟨c, ⟨hc, _⟩, rfl⟩ := h
  exact List.mem_map.mpr ⟨c, hc, rfl⟩

/-- The invariant looks only at the queue, the pending id, the deferred shutdown, the
connections and the ids registered for the connected replies. -/
theorem Inv.congr {x : RequestId} {g g1 : Gateway} (h : Inv x g)
    (hconn : g1.connections = g.connections)
    (hnext : g.qt.nextReply ≤ g1.qt.nextReply)
    (hqueue : g1.m_queuedWriteRequests = g.m_queuedWriteRequests)
    (hpend : g1.m_pendingWriteRequestId = g.m_pendingWriteRequestId)
    (htoken : g1.m_shutdownRequestId = g.m_shutdownRequestId)
    (hids : ∀ r, g1.requestIdOf r = g.requestIdOf r) : Inv x g1 := by
  have hi : g1.inFlightIds = g.inFlightIds :=
    inFlightIds_congr g g1 hconn (fun c _ => hids c.1)
  have hw : g1.writesInFlight = g.writesInFlight := writesInFlight_congr g g1 hconn
  have hqi : g1.queuedIds = g.queuedIds := by simp [queuedIds, hqueue]
  refine ⟨?_, ?_, ?_, ?_, ?_, ?_, ?_, ?_, ?_⟩
  · intro c hc
    rw [hconn] at hc
    exact le_trans (h.conn_le c hc) hnext
  · rw [hi, hqi]; exact h.ids_nodup
  · rw [hi, hqi]; exact h.ids_valid
  · rw [hqueue]; exact h.queue_write
  · rw [hi, hqi, htoken]; exact h.token_fresh
  · rw [hi, hqi]; exact h.finishing_fresh
  · rw [htoken]; exact h.finishing_token
  · rw [hpend, hw]; exact h.write_none
  · rw [hpend, hw]
    intro h1 h2
    obtain ⟨reply, hr1, hr2⟩ := h.write_one h1 h2
    exact ⟨reply, hr1, by rw [hids, hr2]⟩

theorem Inv.emit {x : RequestId} {g : Gateway} (h : Inv x g) (signals : List GatewaySignal) :
    Inv x (g.emit signals) :=
  h.congr rfl (le_refl _) rfl rfl rfl (fun _ => rfl)

theorem Inv.zero_valid {x : RequestId} {g : Gateway} (h : Inv x g) :
    (0 : RequestId) ∉ g.queuedIds ++ g.inFlightIds :=
  fun h0 => h.ids_valid 0 h0 rfl

/-- Between two events the finishing id plays no role as soon as it is not pending. -/
theorem Inv.to_zero {x : RequestId} {g : Gateway} (h : Inv x g)
    (hp : g.m_pendingWriteRequestId = x → x = 0) : Inv 0 g := by
  refine ⟨h.conn_le, h.ids_nodup, h.ids_valid, h.queue_write, h.token_fresh, h.zero_valid,
    fun _ => rfl, ?_, ?_⟩
  · intro h0
    have h0 : g.m_pendingWriteRequestId = 0 := by rcases h0 with h0 | h0 <;> exact h0
    exact h.write_none (Or.inl h0)
  · intro h1 _
    apply h.write_one h1
    intro h2
    exact h1 (by rw [h2]; exact hp h2)

/-- An id that is not in use can be taken as finishing id. -/
theorem Inv.of_zero {x : RequestId} {g : Gateway} (h : Inv 0 g)
    (hx : x ∉ g.queuedIds ++ g.inFlightIds) (ht : x = g.m_shutdownRequestId → x = 0) :
    Inv x g := by
  refine ⟨h.conn_le, h.ids_nodup, h.ids_valid, h.queue_write, h.token_fresh, hx, ht, ?_, ?_⟩
  · intro h0
    by_cases hp : g.m_pendingWriteRequestId = 0
    · exact h.write_none (Or.inl hp)
    · exfalso
      have hpx : g.m_pendingWriteRequestId = x := by
        rcases h0 with h0 | h0
        · exact absurd h0 hp
        · exact h0
      obtain ⟨reply, hr1, hr2⟩ := h.write_one hp hp
      have hmem := mem_inFlightIds_of_write g reply (by rw [hr1]; exact List.mem_singleton_self _)
      rw [hr2, hpx] at hmem
      exact hx (List.mem_append_right _ hmem)
  · intro h1 _
    exact h.write_one h1 h1

theorem Inv.reset_token {x : RequestId} {g : Gateway} (h : Inv x g) :
    Inv x { g with m_shutdownRequestId := RequestId.invalid } := by
  refine ⟨h.conn_le, h.ids_nodup, h.ids_valid, h.queue_write, h.zero_valid,
    h.finishing_fresh, ?_, h.write_none, h.write_one⟩
  intro hx
  exact hx

theorem Inv.set_token {x : RequestId} {g : Gateway} (h : Inv x g) (id : RequestId)
    (hfresh : id ∉ g.queuedIds ++ g.inFlightIds) (hx : id ≠ x) :
    Inv x { g with m_shutdownRequestId := id } := by
  refine ⟨h.conn_le, h.ids_nodup, h.ids_valid, h.queue_write, hfresh,
    h.finishing_fresh, ?_, h.write_none, h.write_one⟩
  intro hxid
  exact absurd hxid.symm hx

theorem inFlightIds_add (g g1 : Gateway) (op : Operation) (id : RequestId)
    (hle : ∀ c ∈ g.connections, c.1 ≤ g.qt.nextReply)
    (hconn : g1.connections = g.connections ++ [(g.qt.nextReply + 1, op)])
    (hids : ∀ r, g1.requestIdOf r = if r = g.qt.nextReply + 1 then id else g.requestIdOf r) :
    g1.inFlightIds = g.inFlightIds ++ [id] := by
  unfold inFlightIds
  rw [hconn, List.map_append]
  congr 1
  · apply List.map_congr_left
    intro c hc
    rw [hids]
    have := hle c hc
    rw [if_neg (Nat.ne_of_lt (Nat.lt_succ_of_le this))]
  · simp [hids]

theorem writesInFlight_add (g g1 : Gateway) (op : Operation)
    (hconn : g1.connections = g.connections ++ [(g.qt.nextReply + 1, op)]) :
    g1.writesInFlight =
      g.writesInFlight ++ (if op.isWrite then [g.qt.nextReply + 1] else []) := by
  unfold writesInFlight
  rw [hconn, List.filter_append, List.map_append]
  congr 1
  by_cases h : op.isWrite = true <;> simp [h]

/-- A call that is not a write is issued for a fresh id. -/
theorem Inv.add_other {x : RequestId} {g g1 : Gateway} (h : Inv x g) (op : Operation)
    (id : RequestId) (hop : op.isWrite = false)
    (hconn : g1.connections = g.connections ++ [(g.qt.nextReply + 1, op)])
    (hnext : g1.qt.nextReply = g.qt.nextReply + 1)
    (hqueue : g1.m_queuedWriteRequests = g.m_queuedWriteRequests)
    (hpend : g1.m_pendingWriteRequestId = g.m_pendingWriteRequestId)
    (htoken : g1.m_shutdownRequestId = g.m_shutdownRequestId)
    (hids : ∀ r, g1.requestIdOf r = if r = g.qt.nextReply + 1 then id else g.requestIdOf r)
    (hid0 : id ≠ 0) (hfresh : id ∉ g.queuedIds ++ g.inFlightIds) (hidx : id ≠ x)
    (hidt : id ≠ g.m_shutdownRequestId) : Inv x g1 := by
  have hi := inFlightIds_add g g1 op id h.conn_le hconn hids
  have hw : g1.writesInFlight = g.writesInFlight := by
    rw [writesInFlight_add g g1 op hconn, hop]; simp
  have hqi : g1.queuedIds = g.queuedIds := by simp [queuedIds, hqueue]
  have hmem : ∀ i, i ∈ g1.queuedIds ++ g1.inFlightIds ↔
      (i ∈ g.queuedIds ++ g.inFlightIds ∨ i = id) := by
    intro i
    rw [hi, hqi, ← List.append_assoc]
    simp [or_assoc]
  refine ⟨?_, ?_, ?_, ?_, ?_, ?_, ?_, ?_, ?_⟩
  · intro c hc
    rw [hconn] at hc
    rcases List.mem_append.mp hc with hc | hc
    · rw [hnext]
      exact Nat.le_succ_of_le (h.conn_le c hc)
    · have : c = (g.qt.nextReply + 1, op) := by simpa using hc
      rw [this, hnext]
  · rw [hi, hqi, ← List.append_assoc]
    apply List.Nodup.append h.ids_nodup (List.nodup_singleton _)
    intro a ha hb
    have : a = id := by simpa using hb
    exact hfresh (this ▸ ha)
  · intro i hi2
    rcases (hmem i).mp hi2 with h1 | h1
    · exact h.ids_valid i h1
    · rw [h1]; exact hid0
  · rw [hqueue]; exact h.queue_write
  · intro hm
    rw [htoken] at hm
    rcases (hmem _).mp hm with h1 | h1
    · exact h.token_fresh h1
    · exact hidt h1.symm
  · intro hm
    rcases (hmem _).mp hm with h1 | h1
    · exact h.finishing_fresh h1
    · exact hidx h1.symm
  · rw [htoken]; exact h.finishing_token
  · rw [hpend, hw]; exact h.write_none
  · rw [hpend, hw]
    intro h1 h2
    obtain ⟨reply, hr1, hr2⟩ := h.write_one h1 h2
    refine ⟨reply, hr1, ?_⟩
    rw [hids, ← hr2]
    have hmemr : reply ∈ g.writesInFlight := by rw [hr1]; exact List.mem_singleton_self _
    simp only [writesInFlight, List.mem_map, List.mem_filter] at hmemr
    obtain ⟨c, ⟨hc, _⟩, rfl⟩ := hmemr
    have := h.conn_le c hc
    rw [if_neg (Nat.ne_of_lt (Nat.lt_succ_of_le this))]

/-- The head of the queue is sent while no write is pending. -/
theorem Inv.add_write {x : RequestId} {g g1 : Gateway} (h : Inv x g)
    (head : WriteRequest) (rest : List WriteRequest)
    (hp : g.m_pendingWriteRequestId = 0)
    (hq : g.m_queuedWriteRequests = head :: rest)
    (hconn : g1.connections = g.connections ++ [(g.qt.nextReply + 1, head.finishedHandler)])
    (hnext : g1.qt.nextReply = g.qt.nextReply + 1)
    (hqueue : g1.m_queuedWriteRequests = rest)
    (hpend : g1.m_pendingWriteRequestId = head.id)
    (htoken : g1.m_shutdownRequestId = g.m_shutdownRequestId)
    (hids : ∀ r, g1.requestIdOf r =
      if r = g.qt.nextReply + 1 then head.id else g.requestIdOf r) : Inv x g1 := by
  have hi := inFlightIds_add g g1 head.finishedHandler head.id h.conn_le hconn hids
  have hwrite : head.finishedHandler.isWrite = true :=
    h.queue_write head (by rw [hq]; exact List.mem_cons_self _ _)
  have hw0 : g.writesInFlight = [] := h.write_none (Or.inl hp)
  have hw : g1.writesInFlight = [g.qt.nextReply + 1] := by
    rw [writesInFlight_add g g1 head.finishedHandler hconn, hwrite, hw0]; simp
  have hqi : g.queuedIds = head.id :: g1.queuedIds := by simp [queuedIds, hq, hqueue]
  have hperm : (g1.queuedIds ++ g1.inFlightIds).Perm (g.queuedIds ++ g.inFlightIds) := by
    rw [hi, hqi]
    simp only [List.cons_append]
    rw [← List.append_assoc]
    exact List.perm_append_singleton _ _
  have hmem : ∀ i, i ∈ g1.queuedIds ++ g1.inFlightIds ↔ i ∈ g.queuedIds ++ g.inFlightIds :=
    fun i => hperm.mem_iff
  have hheadmem : head.id ∈ g.queuedIds ++ g.inFlightIds := by
    rw [hqi]; simp
  refine ⟨?_, ?_, ?_, ?_, ?_, ?_, ?_, ?_, ?_⟩
  · intro c hc
    rw [hconn] at hc
    rcases List.mem_append.mp hc with hc | hc
    · rw [hnext]
      exact Nat.le_succ_of_le (h.conn_le c hc)
    · have : c = (g.qt.nextReply + 1, head.finishedHandler) := by simpa using hc
      rw [this, hnext]
  · exact hperm.nodup_iff.mpr h.ids_nodup
  · intro i hi2
    exact h.ids_valid i ((hmem i).mp hi2)
  · intro w hw2
    rw [hqueue] at hw2
    exact h.queue_write w (by rw [hq]; exact List.mem_cons_of_mem _ hw2)
  · rw [htoken]
    intro hm
    exact h.token_fresh ((hmem _).mp hm)
  · intro hm
    exact h.finishing_fresh ((hmem _).mp hm)
  · rw [htoken]; exact h.finishing_token
  · intro h0
    exfalso
    rw [hpend] at h0
    rcases h0 with h0 | h0
    · exact h.ids_valid _ hheadmem h0
    · exact h.finishing_fresh (h0 ▸ hheadmem)
  · intro _ _
    refine ⟨g.qt.nextReply + 1, hw, ?_⟩
    rw [hids, hpend]
    simp

theorem Inv.await_other {x : RequestId} {g : Gateway} (h : Inv x g)
    (method : HttpRequestMethod) (path query : String) (jsonHeader : Bool) (body : String)
    (op : Operation) (id : RequestId) (hop : op.isWrite = false)
    (hid0 : id ≠ 0) (hfresh : id ∉ g.queuedIds ++ g.inFlightIds) (hidx : id ≠ x)
    (hidt : id ≠ g.m_shutdownRequestId) :
    Inv x (awaitReply g (g.qt.send method path query jsonHeader body) op id) := by
  refine @Inv.add_other x g
    (awaitReply g (g.qt.send method path query jsonHeader body) op id) h op id hop rfl ?_
    rfl rfl rfl ?_ hid0 hfresh hidx hidt
  · rw [(awaitReply_qt _ _ _ _).1]; rfl
  · intro r
    rw [awaitReply_requestIdOf]; rfl

theorem Inv.dispatch {x : RequestId} {g : Gateway} (h : Inv x g)
    (head : WriteRequest) (rest : List WriteRequest)
    (hp : g.m_pendingWriteRequestId = 0) (hq : g.m_queuedWriteRequests = head :: rest) :
    Inv x (dispatchWriteRequest g head rest) := by
  obtain ⟨s1, s2, _⟩ := sendWriteRequest_eq g.qt head
  refine @Inv.add_write x g (dispatchWriteRequest g head rest) h head rest hp hq ?_ ?_
    rfl rfl rfl ?_
  · simp only [dispatchWriteRequest, awaitReply, s1]
  · rw [dispatchWriteRequest, (awaitReply_qt _ _ _ _).1, s2]
  · intro r
    rw [dispatchWriteRequest, awaitReply_requestIdOf, s1]
    rfl

theorem slotShutdownDirect_pending (g : Gateway) (requestId : RequestId) :
    (slotShutdownDirect g requestId).m_pendingWriteRequestId = g.m_pendingWriteRequestId := by
  unfold slotShutdownDirect
  simp only [accessNetworkDirect, postShutdown, awaitReply, emit]
  split_ifs <;> rfl

theorem Inv.slotShutdownDirect {x : RequestId} {g : Gateway} (h : Inv x g)
    (id : RequestId) (hid0 : id ≠ 0) (hfresh : id ∉ g.queuedIds ++ g.inFlightIds)
    (hidx : id ≠ x) : Inv x (slotShutdownDirect g id) := by
  unfold Gateway.slotShutdownDirect
  split
  · exact h
  · split
    · exact h.set_token id hfresh hidx
    · rename_i h1 h2
      have hg1 : Inv x (if g.m_shutdownRequestId.isValid = true then
          { g with m_shutdownRequestId := RequestId.invalid } else g) := by
        split
        · exact h.reset_token
        · exact h
      have ht1 : (if g.m_shutdownRequestId.isValid = true then
          { g with m_shutdownRequestId := RequestId.invalid } else g).m_shutdownRequestId = 0 := by
        split
        · rfl
        · rename_i hv
          simpa [RequestId.isValid] using hv
      have hf1 : id ∉ (if g.m_shutdownRequestId.isValid = true then
          { g with m_shutdownRequestId := RequestId.invalid } else g).queuedIds ++
          (if g.m_shutdownRequestId.isValid = true then
          { g with m_shutdownRequestId := RequestId.invalid } else g).inFlightIds := by
        split
        · exact hfresh
        · exact hfresh
      generalize (if g.m_shutdownRequestId.isValid = true then
          { g with m_shutdownRequestId := RequestId.invalid } else g) = g1 at hg1 ht1 hf1
      simp only [accessNetworkDirect]
      split
      · exact (hg1.emit _).await_other _ _ _ _ _ _ id rfl hid0 hf1 hidx
          (by show id ≠ g1.m_shutdownRequestId; rw [ht1]; exact hid0)
      · exact hg1.emit _

theorem Inv.clear_pending {x : RequestId} {g : Gateway} (h : Inv x g)
    (hp : g.m_pendingWriteRequestId = 0 ∨ g.m_pendingWriteRequestId = x) :
    Inv x { g with m_pendingWriteRequestId := RequestId.invalid } := by
  have hw : g.writesInFlight = [] := h.write_none hp
  refine ⟨h.conn_le, h.ids_nodup, h.ids_valid, h.queue_write, h.token_fresh,
    h.finishing_fresh, h.finishing_token, fun _ => hw, ?_⟩
  intro h1 _
  exact absurd rfl h1

theorem finish_guard (g : Gateway) (x : RequestId)
    (h1 : ¬ (x.isValid &&
      !(!g.m_pendingWriteRequestId.isValid || x == g.m_pendingWriteRequestId)) = true)
    (h2 : ¬ (!x.isValid && g.m_pendingWriteRequestId.isValid) = true) :
    g.m_pendingWriteRequestId = 0 ∨ g.m_pendingWriteRequestId = x := by
  simp only [RequestId.isValid, bne_iff_ne, ne_eq, Bool.and_eq_true, Bool.not_eq_true',
    Bool.or_eq_true, beq_iff_eq, not_and, Bool.not_eq_false', Bool.or_eq_false_iff,
    decide_eq_true_eq, Bool.not_eq_eq_eq_not, Bool.not_true, bne_eq_false_iff_eq] at h1 h2
  by_cases hx : x = 0
  · left
    by_contra hp
    exact h2 hx hp
  · by_cases hp : g.m_pendingWriteRequestId = 0
    · exact Or.inl hp
    · right
      by_contra hne
      have := h1 hx
      simp [hp] at this
      exact hne this.symm

/-- The core of the serialization: `finishWriteRequest`, called with the finishing id,
re-establishes the invariant between events. -/
theorem Inv.finishWriteRequestDirect {x : RequestId} {g : Gateway} (h : Inv x g) :
    Inv 0 (finishWriteRequestDirect g x) ∧ Inv x (finishWriteRequestDirect g x) := by
  by_cases h1 : (x.isValid &&
      !(!g.m_pendingWriteRequestId.isValid || x == g.m_pendingWriteRequestId)) = true
  · have hd : Gateway.finishWriteRequestDirect g x = g := by
      unfold Gateway.finishWriteRequestDirect
      rw [if_pos h1]
    rw [hd]
    refine ⟨h.to_zero ?_, h⟩
    intro hpx
    simp [RequestId.isValid, hpx] at h1
  · by_cases h2 : (!x.isValid && g.m_pendingWriteRequestId.isValid) = true
    · have hd : Gateway.finishWriteRequestDirect g x = g := by
        unfold Gateway.finishWriteRequestDirect
        rw [if_neg h1, if_pos h2]
      rw [hd]
      have hx : x = 0 := by
        simp [RequestId.isValid] at h2
        exact h2.1
      subst hx
      exact ⟨h, h⟩
    · have hp := finish_guard g x h1 h2
      have hc := h.clear_pending hp
      have hc0 : Inv 0 { g with m_pendingWriteRequestId := RequestId.invalid } :=
        hc.to_zero (fun e => e.symm)
      have htf := h.token_fresh
      have hft := h.finishing_token
      obtain ⟨client, queue, pending, token, qt, conns, deq, em⟩ := g
      unfold Gateway.finishWriteRequestDirect
      rw [if_neg h1, if_neg h2]
      cases queue with
      | nil =>
        simp only
        split
        · rename_i hv
          have hv0 : token ≠ 0 := by simpa [RequestId.isValid] using hv
          exact ⟨hc0.slotShutdownDirect _ hv0 htf hv0,
            hc.slotShutdownDirect _ hv0 htf (fun e => hv0 (e ▸ hft e.symm))⟩
        · exact ⟨hc0, hc⟩
      | cons head rest =>
        simp only [accessNetworkDirect]
        split
        · exact ⟨(hc0.emit _).dispatch head rest rfl rfl, (hc.emit _).dispatch head rest rfl rfl⟩
        · exact ⟨hc0.emit _, hc.emit _⟩

theorem Inv.onNetworkRequestFailedDirect {x : RequestId} {g : Gateway} (h : Inv x g)
    (msg : String) :
    Inv 0 (onNetworkRequestFailedDirect g x msg) ∧
      Inv x (onNetworkRequestFailedDirect g x msg) := by
  unfold Gateway.onNetworkRequestFailedDirect
  split
  · exact ⟨h.finishWriteRequestDirect.1.emit _, h.finishWriteRequestDirect.2.emit _⟩
  · rename_i hne
    exact ⟨(h.to_zero (fun e => absurd e.symm hne)).emit _, h.emit _⟩

theorem mem_of_lookup {β : Type} (l : List (Nat × β)) (k : Nat) (v : β)
    (h : List.lookup k l = some v) : (k, v) ∈ l := by
  induction l with
  | nil => simp at h
  | cons e rest ih =>
    obtain ⟨k1, v1⟩ := e
    simp only [List.lookup] at h
    cases hk : (k == k1)
    · rw [hk] at h
      exact List.mem_cons_of_mem _ (ih h)
    · rw [hk] at h
      have e1 : k = k1 := by simpa using hk
      have e2 : v1 = v := by simpa using h
      rw [e1, e2]
      exact List.mem_cons_self _ _

theorem writesInFlight_filter (g g1 : Gateway) (reply : ReplyHandle)
    (hconn : g1.connections = g.connections.filter (fun c => c.1 != reply)) :
    g1.writesInFlight = g.writesInFlight.filter (fun r => r != reply) := by
  unfold writesInFlight
  rw [hconn, List.filter_map, List.filter_filter, List.filter_filter]
  congr 1
  apply List.filter_congr
  intro c _
  simp [Bool.and_comm]

/-- A reply has finished: its id becomes the finishing id of the handler. -/
theorem Inv.remove {g g1 : Gateway} (h : Inv 0 g) (reply : ReplyHandle) (op : Operation)
    (hl : List.lookup reply g.connections = some op)
    (hconn : g1.connections = g.connections.filter (fun c => c.1 != reply))
    (hnext : g.qt.nextReply ≤ g1.qt.nextReply)
    (hqueue : g1.m_queuedWriteRequests = g.m_queuedWriteRequests)
    (hpend : g1.m_pendingWriteRequestId = g.m_pendingWriteRequestId)
    (htoken : g1.m_shutdownRequestId = g.m_shutdownRequestId)
    (hids : ∀ r, r ≠ reply → g1.requestIdOf r = g.requestIdOf r) :
    Inv (g.requestIdOf reply) g1 ∧ (op.isWrite = false → Inv 0 g1) ∧
      (op.isWrite = true → g.m_pendingWriteRequestId = g.requestIdOf reply) := by
  have hmem : (reply, op) ∈ g.connections := mem_of_lookup _ _ _ hl
  have hnd : g.inFlightIds.Nodup := (List.nodup_append.mp h.ids_nodup).2.1
  have hinj : ∀ c ∈ g.connections, g.requestIdOf c.1 = g.requestIdOf reply → c = (reply, op) :=
    fun c hc he => List.inj_on_of_nodup_map hnd hc hmem he
  have hxin : g.requestIdOf reply ∈ g.inFlightIds := List.mem_map.mpr ⟨(reply, op), hmem, rfl⟩
  have hi : g1.inFlightIds =
      (g.connections.filter (fun c => c.1 != reply)).map (fun c => g.requestIdOf c.1) := by
    unfold inFlightIds
    rw [hconn]
    apply List.map_congr_left
    intro c hc
    have : c.1 ≠ reply := by simpa using (List.mem_filter.mp hc).2
    exact hids c.1 this
  have hsub : (g1.queuedIds ++ g1.inFlightIds).Sublist (g.queuedIds ++ g.inFlightIds) := by
    have hqi : g1.queuedIds = g.queuedIds := by simp [queuedIds, hqueue]
    rw [hi, hqi]
    exact List.Sublist.append (List.Sublist.refl _)
      (List.Sublist.map _ (List.filter_sublist _))
  have hxq : g.requestIdOf reply ∉ g.queuedIds := by
    intro hq
    exact (List.nodup_append.mp h.ids_nodup).2.2 hq hxin
  have hx1 : g.requestIdOf reply ∉ g1.inFlightIds := by
    rw [hi]
    intro hm
    obtain ⟨c, hc, he⟩ := List.mem_map.mp hm
    have hc2 := List.mem_filter.mp hc
    have := hinj c hc2.1 he
    rw [this] at hc2
    simp at hc2
  have hw := writesInFlight_filter g g1 reply hconn
  have hwrite : ∀ w, g.writesInFlight = [w] →
      g.requestIdOf w = g.requestIdOf reply → w = reply ∧ op.isWrite = true := by
    intro w hw1 he
    have hwm : w ∈ g.writesInFlight := by rw [hw1]; exact List.mem_singleton_self _
    simp only [writesInFlight, List.mem_map, List.mem_filter] at hwm
    obtain ⟨c, ⟨hc, hcw⟩, rfl⟩ := hwm
    have := hinj c hc he
    subst this
    exact ⟨rfl, hcw⟩
  have hx : Inv (g.requestIdOf reply) g1 := by
    refine ⟨?_, ?_, ?_, ?_, ?_, ?_, ?_, ?_, ?_⟩
    · intro c hc
      rw [hconn] at hc
      exact le_trans (h.conn_le c (List.mem_filter.mp hc).1) hnext
    · exact hsub.nodup h.ids_nodup
    · intro i hi2
      exact h.ids_valid i (hsub.subset hi2)
    · rw [hqueue]; exact h.queue_write
    · rw [htoken]
      intro hm
      exact h.token_fresh (hsub.subset hm)
    · intro hm
      rcases List.mem_append.mp hm with hm | hm
      · have hqi : g1.queuedIds = g.queuedIds := by simp [queuedIds, hqueue]
        rw [hqi] at hm
        exact hxq hm
      · exact hx1 hm
    · intro he
      exfalso
      rw [htoken] at he
      exact h.token_fresh (he ▸ List.mem_append_right _ hxin)
    · rw [hpend, hw]
      intro h0
      by_cases hp : g.m_pendingWriteRequestId = 0
      · rw [h.write_none (Or.inl hp)]; rfl
      · have hpx : g.m_pendingWriteRequestId = g.requestIdOf reply := by
          rcases h0 with h0 | h0
          · exact absurd h0 hp
          · exact h0
        obtain ⟨w, hw1, hw2⟩ := h.write_one hp hp
        have := (hwrite w hw1 (hw2.trans hpx)).1
        rw [hw1, this]
        simp
    · rw [hpend, hw]
      intro h1 h2
      obtain ⟨w, hw1, hw2⟩ := h.write_one h1 h1
      have hne : w ≠ reply := by
        intro e
        apply h2
        rw [← hw2, e]
      refine ⟨w, ?_, ?_⟩
      · rw [hw1]
        simp [hne]
      · rw [hids w hne, hw2]
  refine ⟨hx, ?_, ?_⟩
  · intro hop
    apply hx.to_zero
    intro hp
    rw [hpend] at hp
    by_contra hx0
    have hp0 : g.m_pendingWriteRequestId ≠ 0 := by rw [hp]; exact hx0
    obtain ⟨w, hw1, hw2⟩ := h.write_one hp0 hp0
    have := (hwrite w hw1 (hw2.trans hp)).2
    rw [hop] at this
    cases this
  · intro hop
    have hrw : reply ∈ g.writesInFlight := by
      simp only [writesInFlight, List.mem_map, List.mem_filter]
      exact ⟨(reply, op), ⟨hmem, hop⟩, rfl⟩
    have hp0 : g.m_pendingWriteRequestId ≠ 0 := by
      intro hp
      rw [h.write_none (Or.inl hp)] at hrw
      cases hrw
    obtain ⟨w, hw1, hw2⟩ := h.write_one hp0 hp0
    rw [hw1] at hrw
    have : reply = w := by simpa using hrw
    rw [this, hw2]

theorem receiveReply_requestId (c : JsonWebClient) (qt : Qt) (reply : ReplyHandle)
    (d : NetworkReplyData) (wantJson : Bool) :
    (c.receiveReply qt reply d wantJson).1.requestId =
      (QMap.value c.m_requestReplyManager.m_pendingReplies reply
        PendingReply.default).requestId := by
  unfold JsonWebClient.receiveReply
  simp only
  split_ifs <;> exact RequestReplyManager.afterReplyReceived_requestId _ _ _

theorem receiveReply_replies (c : JsonWebClient) (qt : Qt) (reply : ReplyHandle)
    (d : NetworkReplyData) (wantJson : Bool) :
    (c.receiveReply qt reply d wantJson).2.1.m_requestReplyManager.m_pendingReplies =
      QMap.remove c.m_requestReplyManager.m_pendingReplies reply := by
  unfold JsonWebClient.receiveReply
  simp only
  split_ifs <;> exact RequestReplyManager.afterReplyReceived_replies _ _ _

theorem receiveReply_qt (c : JsonWebClient) (qt : Qt) (reply : ReplyHandle)
    (d : NetworkReplyData) (wantJson : Bool) :
    (c.receiveReply qt reply d wantJson).2.2.nextReply = qt.nextReply ∧
    (c.receiveReply qt reply d wantJson).2.2.calls = qt.calls := by
  unfold JsonWebClient.receiveReply
  simp only
  split_ifs <;> exact RequestReplyManager.afterReplyReceived_nextReply _ _ _

/-- The state in which the reply handler continues after `receiveReply`. -/
theorem Inv.received {g : Gateway} (h : Inv 0 g) (reply : ReplyHandle) (op : Operation)
    (d : NetworkReplyData) (wantJson : Bool)
    (hl : List.lookup reply g.connections = some op) :
    let response := g.m_jsonWebClient.receiveReply (g.qt.finish reply) reply d wantJson
    let g1 : Gateway :=
      { g with
        connections := g.connections.filter (fun c => c.1 != reply),
        m_jsonWebClient := response.2.1,
        qt := response.2.2 }
    response.1.requestId = g.requestIdOf reply ∧
    Inv (g.requestIdOf reply) g1 ∧ (op.isWrite = false → Inv 0 g1) ∧
      (op.isWrite = true → g.m_pendingWriteRequestId = g.requestIdOf reply) := by
  intro response g1
  refine ⟨receiveReply_requestId _ _ _ _ _, ?_⟩
  refine @Inv.remove g g1 h reply op hl rfl ?_ rfl rfl rfl ?_
  · show g.qt.nextReply ≤ response.2.2.nextReply
    rw [(receiveReply_qt _ _ _ _ _).1]
    exact le_refl _
  · intro r hr
    simp only [requestIdOf, g1, response, receiveReply_replies, QMap.value,
      QMap.lookup_remove_ne _ _ _ hr]

theorem Inv.deliverDirect {x : RequestId} {g : Gateway} (h : Inv x g)
    (signals : List ClientSignal) (msg : String)
    (hs : signals = [] ∨ signals = [ClientSignal.networkRequestFailed x msg]) :
    Inv x (deliverDirect g signals) ∧ (Inv 0 g → Inv 0 (deliverDirect g signals)) := by
  rcases hs with hs | hs
  · subst hs
    exact ⟨h, fun h0 => h0⟩
  · subst hs
    exact ⟨(h.onNetworkRequestFailedDirect msg).2, fun _ => (h.onNetworkRequestFailedDirect msg).1⟩

/-- Every event re-establishes the invariant. -/
theorem Inv.stepDirect {g : Gateway} (h : Inv 0 g) (event : Event)
    (hadm : g.Admissible event) : Inv 0 (stepDirect g event) := by
  cases event with
  | slotWrite requestId call =>
    obtain ⟨h0, hfresh, _, ht⟩ := hadm
    have hq : Inv 0
        { g with
          m_queuedWriteRequests :=
            g.m_queuedWriteRequests ++ [call.writeRequest requestId] } := by
      have hqi : ∀ i, i ∈ (g.m_queuedWriteRequests ++ [call.writeRequest requestId]).map
          (fun w => w.id) ++ g.inFlightIds ↔
          (i ∈ g.queuedIds ++ g.inFlightIds ∨ i = requestId) := by
        intro i
        simp only [List.map_append, List.map_cons, List.map_nil, writeRequest_id,
          List.mem_append, List.mem_singleton, queuedIds]
        tauto
      refine ⟨h.conn_le, ?_, ?_, ?_, ?_, ?_, fun _ => rfl, h.write_none, h.write_one⟩
      · show ((g.m_queuedWriteRequests ++ [call.writeRequest requestId]).map
          (fun w => w.id) ++ g.inFlightIds).Nodup
        simp only [List.map_append, List.map_cons, List.map_nil, writeRequest_id]
        have hperm : ((g.m_queuedWriteRequests.map (fun w => w.id) ++ [requestId]) ++
            g.inFlightIds).Perm
            (requestId :: (g.queuedIds ++ g.inFlightIds)) := by
          rw [List.append_assoc]
          exact (List.perm_middle).trans (List.Perm.refl _)
        exact hperm.nodup_iff.mpr (List.nodup_cons.mpr ⟨hfresh, h.ids_nodup⟩)
      · intro i hi
        rcases (hqi i).mp hi with h1 | h1
        · exact h.ids_valid i h1
        · rw [h1]; exact h0
      · intro w hw
        rcases List.mem_append.mp hw with h1 | h1
        · exact h.queue_write w h1
        · have : w = call.writeRequest requestId := by simpa using h1
          rw [this]; exact writeRequest_isWrite _ _
      · intro hm
        rcases (hqi _).mp hm with h1 | h1
        · exact h.token_fresh h1
        · exact ht h1.symm
      · intro hm
        rcases (hqi _).mp hm with h1 | h1
        · exact h.zero_valid h1
        · exact h0 h1.symm
    exact hq.finishWriteRequestDirect.1
  | slotShutdown requestId =>
    exact h.slotShutdownDirect requestId hadm.1 hadm.2.1 hadm.1
  | slotRead requestId call query =>
    obtain ⟨h0, hfresh, _, ht⟩ := hadm
    simp only [Gateway.stepDirect, accessNetworkDirect]
    split
    · exact (h.emit _).await_other _ _ _ _ _ call.handler requestId
        (by cases call <;> rfl) h0 hfresh h0 ht
    · exact h.emit _
  | replyFinished reply d =>
    simp only [Gateway.stepDirect]
    cases hl : List.lookup reply g.connections with
    | none => exact h
    | some op =>
      simp only
      obtain ⟨hid, hx, hother, _⟩ := h.received reply op d op.readsJson hl
      unfold onNetworkReplyFinishedDirect
      simp only
      rw [hid]
      have hd := hx.deliverDirect
        (g.m_jsonWebClient.receiveReply (g.qt.finish reply) reply d op.readsJson).1.emitted
        (replyErrorMessage d)
        (by
          have := receiveReply_emitted_cases g.m_jsonWebClient (g.qt.finish reply) reply d
            op.readsJson
          rw [hid] at this
          exact this)
      by_cases hw : op.isWrite = true
      · simp only [hw, if_true]
        split_ifs with hv
        · have hx0 : g.requestIdOf reply = 0 := by simpa [RequestId.isValid] using hv
          rw [hx0] at hd
          exact hd.1
        · exact hd.1.finishWriteRequestDirect.1
        · exact hd.1.finishWriteRequestDirect.1.emit _
        · exact hd.1.finishWriteRequestDirect.1
      · have hw2 : op.isWrite = false := by simpa using hw
        have h0 := hd.2 (hother hw2)
        simp only [hw2, Bool.false_eq_true, if_false]
        split_ifs
        · exact h0
        · exact h0
        · exact h0.emit _
        · exact h0
  | timerEvent timerId =>
    exact h.congr rfl (by
      show g.qt.nextReply ≤
        (g.m_jsonWebClient.m_requestReplyManager.timerEvent g.qt timerId).2.nextReply
      rw [(RequestReplyManager.timerEvent_nextReply _ _ _).1]) rfl rfl rfl
      (fun r => requestIdOf_timerEvent g timerId r)
  | networkAccess access =>
    exact h.congr rfl (le_refl _) rfl rfl rfl (fun _ => rfl)

theorem Inv.init (access : NetworkAccess) : Inv 0 (init access) := by
  refine ⟨?_, ?_, ?_, ?_, ?_, ?_, fun _ => rfl, fun _ => rfl, ?_⟩ <;>
    simp [Gateway.init, queuedIds, inFlightIds, RequestId.invalid]

theorem Inv.queue_valid {x : RequestId} {g : Gateway} (h : Inv x g) :
    ∀ w ∈ g.m_queuedWriteRequests, w.id ≠ 0 := by
  intro w hw
  apply h.ids_valid
  apply List.mem_append_left
  exact List.mem_map.mpr ⟨w, hw, rfl⟩

/-- Reachable states satisfy the invariant. -/
theorem Reachable.inv {access : NetworkAccess} {g : Gateway} (h : Reachable access g) :
    Inv 0 g := by
  induction h with
  | init => exact Inv.init access
  | step g0 event fuel g1 _ hadm hstep ih =>
    rcases (step_direct g0 event ih.queue_valid hadm fuel).1 with hn | hs
    · rw [hn] at hstep
      cases hstep
    · rw [hs] at hstep
      cases hstep
      exact ih.stepDirect event hadm

end Gateway

end aoide

end mixxx

namespace mixxx

namespace aoide

open network

namespace Gateway

/-! ## Connections only disappear when their reply finishes -/

theorem slotShutdownDirect_connections (g : Gateway) (id : RequestId) :
    ∀ c ∈ g.connections, c ∈ (slotShutdownDirect g id).connections := by
  intro c hc
  unfold slotShutdownDirect
  simp only [accessNetworkDirect, postShutdown, awaitReply, emit]
  split_ifs <;> simp [hc]

theorem finishWriteRequestDirect_connections (g : Gateway) (x : RequestId) :
    ∀ c ∈ g.connections, c ∈ (finishWriteRequestDirect g x).connections := by
  intro c hc
  obtain ⟨client, queue, pending, token, qt, conns, deq, em⟩ := g
  unfold finishWriteRequestDirect
  cases queue with
  | nil =>
    simp only
    split_ifs
    · exact hc
    · exact hc
    · exact slotShutdownDirect_connections _ _ c hc
    · exact hc
  | cons head rest =>
    simp only [accessNetworkDirect, dispatchWriteRequest, awaitReply, emit]
    split_ifs <;> simp_all

theorem onNetworkRequestFailedDirect_connections (g : Gateway) (x : RequestId) (msg : String) :
    ∀ c ∈ g.connections, c ∈ (onNetworkRequestFailedDirect g x msg).connections := by
  intro c hc
  unfold onNetworkRequestFailedDirect
  split
  · exact finishWriteRequestDirect_connections g x c hc
  · exact hc

theorem deliverDirect_connections (g : Gateway) (signals : List ClientSignal) :
    ∀ c ∈ g.connections, c ∈ (deliverDirect g signals).connections := by
  induction signals generalizing g with
  | nil => intro c hc; exact hc
  | cons s rest ih =>
    intro c hc
    cases s with
    | networkRequestFailed id msg =>
      exact ih _ c (onNetworkRequestFailedDirect_connections g id msg c hc)

theorem onNetworkReplyFinishedDirect_connections (g : Gateway) (op : Operation)
    (reply : ReplyHandle) (d : NetworkReplyData) :
    ∀ c ∈ g.connections, c ∈ (onNetworkReplyFinishedDirect g op reply d).connections := by
  intro c hc
  have h2 := deliverDirect_connections
    { g with
      m_jsonWebClient := (g.m_jsonWebClient.receiveReply g.qt reply d op.readsJson).2.1,
      qt := (g.m_jsonWebClient.receiveReply g.qt reply d op.readsJson).2.2 }
    (g.m_jsonWebClient.receiveReply g.qt reply d op.readsJson).1.emitted c hc
  have h3 := finishWriteRequestDirect_connections _
    (g.m_jsonWebClient.receiveReply g.qt reply d op.readsJson).1.requestId c h2
  unfold onNetworkReplyFinishedDirect
  simp only
  split_ifs <;> first | exact h2 | exact h3

theorem stepDirect_connections (g : Gateway) (event : Event) :
    ∀ c ∈ g.connections, (∀ d, event ≠ Event.replyFinished c.1 d) →
      c ∈ (stepDirect g event).connections := by
  intro c hc hne
  cases event with
  | slotWrite requestId call =>
    exact finishWriteRequestDirect_connections _ _ c hc
  | slotShutdown requestId => exact slotShutdownDirect_connections _ _ c hc
  | slotRead requestId call query =>
    simp only [stepDirect, accessNetworkDirect, awaitReply, emit]
    split_ifs <;> simp [hc]
  | replyFinished reply d =>
    simp only [stepDirect]
    cases List.lookup reply g.connections with
    | none => exact hc
    | some op =>
      simp only
      apply onNetworkReplyFinishedDirect_connections
      apply List.mem_filter.mpr
      refine ⟨hc, ?_⟩
      have : c.1 ≠ reply := fun e => hne d (by rw [e])
      simpa using this
  | timerEvent timerId => exact hc
  | networkAccess access => exact hc

/-! ## C1: serialization of the writes -/

theorem slotShutdownDirect_dequeued (g : Gateway) (id : RequestId) :
    (slotShutdownDirect g id).dequeued = g.dequeued := by
  unfold slotShutdownDirect
  simp only [accessNetworkDirect, postShutdown, awaitReply, emit]
  split_ifs <;> rfl

/-- When `finishWriteRequest` sends a request, the pending id was invalid or the finished
one, and the request sent is the head of the queue, which becomes the pending one. -/
theorem finishWriteRequestDirect_dequeued (g : Gateway) (x : RequestId) :
    (finishWriteRequestDirect g x).dequeued = g.dequeued ∨
    ((g.m_pendingWriteRequestId = 0 ∨ g.m_pendingWriteRequestId = x) ∧
      ∃ head rest, g.m_queuedWriteRequests = head :: rest ∧
        (finishWriteRequestDirect g x).dequeued = g.dequeued ++ [head] ∧
        (finishWriteRequestDirect g x).m_queuedWriteRequests = rest ∧
        (finishWriteRequestDirect g x).m_pendingWriteRequestId = head.id) := by
  by_cases h1 : (x.isValid &&
      !(!g.m_pendingWriteRequestId.isValid || x == g.m_pendingWriteRequestId)) = true
  · left
    unfold finishWriteRequestDirect
    rw [if_pos h1]
  · by_cases h2 : (!x.isValid && g.m_pendingWriteRequestId.isValid) = true
    · left
      unfold finishWriteRequestDirect
      rw [if_neg h1, if_pos h2]
    · have hp := finish_guard g x h1 h2
      obtain ⟨client, queue, pending, token, qt, conns, deq, em⟩ := g
      unfold finishWriteRequestDirect
      rw [if_neg h1, if_neg h2]
      cases queue with
      | nil =>
        left
        simp only
        split
        · exact slotShutdownDirect_dequeued _ _
        · rfl
      | cons head rest =>
        simp only [accessNetworkDirect]
        split
        · right
          exact ⟨hp, head, rest, rfl, rfl, rfl, rfl⟩
        · left; rfl

/-- C1: in every state the gateway reaches, at most one write call is outstanding, and it
is the call of the pending write id; an event that sends a write while another write call
was outstanding is the completion of that call, so that the next write is sent only by
the reply handler of the previous one; and `finishWriteRequest` sends the head of the
queue only if the pending id was invalid or is the id it has just been called with,
which it has reset before. -/
theorem C1_write_serialization (access : NetworkAccess) (g : Gateway)
    (hreach : Reachable access g) :
    g.writesInFlight.length ≤ 1 ∧
    (g.m_pendingWriteRequestId = 0 → g.writesInFlight = []) ∧
    (g.m_pendingWriteRequestId ≠ 0 →
      ∃ reply, g.writesInFlight = [reply] ∧ g.requestIdOf reply = g.m_pendingWriteRequestId) ∧
    (∀ event, g.Admissible event →
      (∀ fuel, 5 ≤ fuel → step fuel g event = some (stepDirect g event)) ∧
      ∀ fuel g1, step fuel g event = some g1 →
        ∀ reply ∈ g1.writesInFlight, reply ∉ g.writesInFlight →
          ∀ earlier ∈ g.writesInFlight, ∃ d, event = Event.replyFinished earlier d) ∧
    (∀ fuel x g1, finishWriteRequest fuel g x = some g1 → g1.dequeued ≠ g.dequeued →
      (g.m_pendingWriteRequestId = 0 ∨ g.m_pendingWriteRequestId = x) ∧
      ∃ head, g1.dequeued = g.dequeued ++ [head] ∧
        g.m_queuedWriteRequests = head :: g1.m_queuedWriteRequests ∧
        g1.m_pendingWriteRequestId = head.id) := by
  have hinv := hreach.inv
  have hone : ∀ g2 : Gateway, Inv 0 g2 → g2.writesInFlight.length ≤ 1 := by
    intro g2 h2
    by_cases hp : g2.m_pendingWriteRequestId = 0
    · rw [h2.write_none (Or.inl hp)]; simp
    · obtain ⟨r, hr, _⟩ := h2.write_one hp hp
      rw [hr]; simp
  refine ⟨hone g hinv, fun hp => hinv.write_none (Or.inl hp),
    fun hp => hinv.write_one hp hp, ?_, ?_⟩
  · intro event hadm
    have hsd := step_direct g event hinv.queue_valid hadm
    refine ⟨fun fuel hf => (hsd fuel).2 hf, ?_⟩
    intro fuel g1 hstep reply hr hnew earlier he
    have hg1 : g1 = stepDirect g event := by
      rcases (hsd fuel).1 with hn | hs
      · rw [hn] at hstep; cases hstep
      · rw [hs] at hstep; cases hstep; rfl
    have hinv1 : Inv 0 g1 := (Reachable.step g event fuel g1 hreach hadm hstep).inv
    by_contra hnot
    have hne : ∀ d, event ≠ Event.replyFinished earlier d := by
      intro d hd
      exact hnot ⟨d, hd⟩
    simp only [writesInFlight, List.mem_map, List.mem_filter] at he
    obtain ⟨c, ⟨hc, hcw⟩, rfl⟩ := he
    have hc1 : c ∈ g1.connections := by
      rw [hg1]
      exact stepDirect_connections g event c hc hne
    have he1 : c.1 ∈ g1.writesInFlight := by
      simp only [writesInFlight, List.mem_map, List.mem_filter]
      exact ⟨c, ⟨hc1, hcw⟩, rfl⟩
    have hlen := hone g1 hinv1
    have heq : reply = c.1 := by
      match hw : g1.writesInFlight, hlen, hr, he1 with
      | [], _, hr, _ => cases hr
      | [a], _, hr, he1 =>
        have e1 : reply = a := by simpa using hr
        have e2 : c.1 = a := by simpa using he1
        rw [e1, e2]
      | a :: b :: rest, hlen, _, _ => simp at hlen
    apply hnew
    rw [heq]
    simp only [writesInFlight, List.mem_map, List.mem_filter]
    exact ⟨c, ⟨hc, hcw⟩, rfl⟩
  · intro fuel x g1 hfin hdeq
    have hg1 : g1 = finishWriteRequestDirect g x := by
      rcases finishWriteRequest_weak g x hinv.queue_valid fuel with hn | hs
      · rw [hn] at hfin; cases hfin
      · rw [hs] at hfin; cases hfin; rfl
    rcases finishWriteRequestDirect_dequeued g x with h | ⟨hp, head, rest, hq, hd, hq1, hp1⟩
    · exact absurd (hg1 ▸ h) hdeq
    · refine ⟨hp, head, ?_, ?_, ?_⟩
      · rw [hg1]; exact hd
      · rw [hg1, hq1]; exact hq
      · rw [hg1]; exact hp1

end Gateway

end aoide

end mixxx

namespace mixxx

namespace aoide

open network

namespace Gateway

/-! ## C1, scenario -/

/-- C1, instance: `createCollection` then `deleteCollection` before the reply of the
create arrives. The POST is issued at once, the DELETE only by the reply handler of the
POST, and at most one write call is outstanding in the state in between. -/
theorem C1_write_serialization_witness :
    (stepDirect
        (stepDirect (init accessible) (Event.slotWrite 1 (WriteCall.createCollection "X")))
        (Event.slotWrite 2 (WriteCall.deleteCollection "X"))).writesInFlight.length ≤ 1 ∧
    (run 5 (init accessible)
        [Event.slotWrite 1 (WriteCall.createCollection "X")]).map
      (fun g => g.qt.calls.map (fun c => (c.method, c.path))) =
      some [(HttpRequestMethod.Post, "/collections")] ∧
    (run 5 (init accessible)
        [Event.slotWrite 1 (WriteCall.createCollection "X"),
         Event.slotWrite 2 (WriteCall.deleteCollection "X")]).map
      (fun g => (g.qt.calls.map (fun c => (c.method, c.path)), g.m_pendingWriteRequestId,
        g.queuedIds)) =
      some ([(HttpRequestMethod.Post, "/collections")], 1, [2]) ∧
    (run 5 (init accessible)
        [Event.slotWrite 1 (WriteCall.createCollection "X"),
         Event.slotWrite 2 (WriteCall.deleteCollection "X"),
         Event.replyFinished 1 (replyWithStatus 201)]).map
      (fun g => (g.qt.calls.map (fun c => (c.method, c.path)), g.m_pendingWriteRequestId,
        g.queuedIds)) =
      some ([(HttpRequestMethod.Post, "/collections"),
             (HttpRequestMethod.Delete, "/collections/X")], 2, []) :=
  ⟨(C1_write_serialization accessible _
      (Reachable.step
        (stepDirect (init accessible) (Event.slotWrite 1 (WriteCall.createCollection "X")))
        (Event.slotWrite 2 (WriteCall.deleteCollection "X")) 5
        (stepDirect
          (stepDirect (init accessible) (Event.slotWrite 1 (WriteCall.createCollection "X")))
          (Event.slotWrite 2 (WriteCall.deleteCollection "X")))
        (Reachable.step (init accessible)
          (Event.slotWrite 1 (WriteCall.createCollection "X")) 5
          (stepDirect (init accessible) (Event.slotWrite 1 (WriteCall.createCollection "X")))
          Reachable.init (by decide) (by decide))
        (by decide) (by decide))).1,
    by decide, by decide, by decide⟩

/-! ## C2: the queue is served in order -/

theorem Sent.nil (g : Gateway) : Sent g g [] := by
  simp [Sent]

theorem Sent.trans {g g1 g2 : Gateway} {l1 l2 : List WriteRequest}
    (h1 : Sent g g1 l1) (h2 : Sent g1 g2 l2) : Sent g g2 (l1 ++ l2) := by
  obtain ⟨a1, b1, c1⟩ := h1
  obtain ⟨a2, b2, c2⟩ := h2
  refine ⟨?_, ?_, ?_⟩
  · rw [a2, a1, List.append_assoc]
  · rw [b1, b2, List.append_assoc]
  · rw [c2, c1, List.map_append, List.append_assoc]

theorem Sent.of_same {g g1 : Gateway} (hd : g1.dequeued = g.dequeued)
    (hq : g1.m_queuedWriteRequests = g.m_queuedWriteRequests)
    (hc : g1.qt.calls = g.qt.calls) : Sent g g1 [] := by
  simp [Sent, hd, hq, writeCallsSent, hc]

theorem isWriteCall_writeCall (w : WriteRequest) (r : ReplyHandle) :
    isWriteCall (writeCall w r) = true ∧
    httpRequest (writeCall w r) = httpRequest (writeCall w 0) := by
  unfold writeCall isWriteCall httpRequest
  cases w.method <;> simp

theorem Sent.of_dispatch (g : Gateway) (w : WriteRequest) (rest : List WriteRequest)
    (hq : g.m_queuedWriteRequests = w :: rest) :
    Sent g (dispatchWriteRequest g w rest) [w] := by
  refine ⟨rfl, ?_, ?_⟩
  · rw [hq]; rfl
  · have hc : (dispatchWriteRequest g w rest).qt.calls =
        g.qt.calls ++ [writeCall w (g.qt.nextReply + 1)] := by
      rw [dispatchWriteRequest, (awaitReply_qt _ _ _ _).2, (sendWriteRequest_eq g.qt w).2.2]
    simp only [writeCallsSent, hc, List.filter_append, List.map_append, List.filter_cons,
      List.filter_nil, (isWriteCall_writeCall w (g.qt.nextReply + 1)).1, if_true,
      List.map_cons, List.map_nil, (isWriteCall_writeCall w (g.qt.nextReply + 1)).2]

theorem Sent.postShutdown (g : Gateway) (id : RequestId) :
    Sent g (postShutdown g id) [] := by
  refine ⟨by simp [Gateway.postShutdown, awaitReply],
    by simp [Gateway.postShutdown, awaitReply], ?_⟩
  have hc : (Gateway.postShutdown g id).qt.calls =
      g.qt.calls ++ [{ method := HttpRequestMethod.Post, path := "/shutdown", query := "",
                       jsonHeader := false, body := "", reply := g.qt.nextReply + 1 }] := by
    rw [Gateway.postShutdown, (awaitReply_qt _ _ _ _).2]
    rfl
  simp [writeCallsSent, hc, List.filter_append, isWriteCall]

theorem foldlM_sent (n : Nat)
    (ih : ∀ g y msg g1, onNetworkRequestFailed n g y msg = some g1 → ∃ l, Sent g g1 l)
    (signals : List ClientSignal) (g g1 : Gateway)
    (h : signals.foldlM
      (fun g2 signal =>
        match signal with
        | ClientSignal.networkRequestFailed failedId errorMessage =>
          onNetworkRequestFailed n g2 failedId errorMessage) g = some g1) :
    ∃ l, Sent g g1 l := by
  induction signals generalizing g with
  | nil =>
    simp only [List.foldlM, pure] at h
    cases h
    exact ⟨[], Sent.nil _⟩
  | cons s rest ihl =>
    cases s with
    | networkRequestFailed id msg =>
      simp only [List.foldlM, bind, Option.bind] at h
      cases hf : onNetworkRequestFailed n g id msg with
      | none => rw [hf] at h; cases h
      | some g2 =>
        rw [hf] at h
        obtain ⟨l1, h1⟩ := ih g id msg g2 hf
        obtain ⟨l2, h2⟩ := ihl g2 h
        exact ⟨l1 ++ l2, h1.trans h2⟩

/-- Whatever the slots do, requests leave the queue at its head, one call each. -/
theorem sent_all (n : Nat) :
    (∀ g y msg g1, onNetworkRequestFailed n g y msg = some g1 → ∃ l, Sent g g1 l) ∧
    (∀ g y r, accessNetwork n g y = some r → ∃ l, Sent g r.2 l) ∧
    (∀ g x g1, finishWriteRequest n g x = some g1 → ∃ l, Sent g g1 l) ∧
    (∀ g id g1, slotShutdown n g id = some g1 → ∃ l, Sent g g1 l) := by
  induction n with
  | zero =>
    refine ⟨?_, ?_, ?_, ?_⟩ <;> intros <;> rename_i h <;>
      simp [onNetworkRequestFailed, accessNetwork, finishWriteRequest, slotShutdown] at h
  | succ n ih =>
    obtain ⟨ihF, ihA, ihW, ihS⟩ := ih
    refine ⟨?_, ?_, ?_, ?_⟩
    · intro g y msg g1 h
      simp only [onNetworkRequestFailed] at h
      split at h
      · cases hf : finishWriteRequest n g y with
        | none => rw [hf] at h; cases h
        | some g2 =>
          rw [hf] at h
          cases h
          obtain ⟨l, hl⟩ := ihW g y g2 hf
          exact ⟨l, hl.trans (Sent.of_same rfl rfl rfl) |> fun t => by simpa using t⟩
      · cases h
        exact ⟨[], Sent.of_same rfl rfl rfl⟩
    · intro g y r h
      simp only [accessNetwork] at h
      cases hf : (g.m_jsonWebClient.accessNetwork y).2.foldlM
        (fun g1 signal =>
          match signal with
          | ClientSignal.networkRequestFailed failedId errorMessage =>
            onNetworkRequestFailed n g1 failedId errorMessage) g with
      | none => rw [hf] at h; cases h
      | some g2 =>
        rw [hf] at h
        cases h
        exact foldlM_sent n ihF _ g g2 hf
    · intro g x g1 h
      obtain ⟨client, queue, pending, token, qt, conns, deq, em⟩ := g
      simp only [finishWriteRequest] at h
      split at h
      · cases h; exact ⟨[], Sent.nil _⟩
      · split at h
        · cases h; exact ⟨[], Sent.nil _⟩
        · cases queue with
          | nil =>
            simp only at h
            split at h
            · obtain ⟨l, hl⟩ := ihS _ _ g1 h
              exact ⟨l, by simpa using (Sent.of_same rfl rfl rfl : Sent _ _ []).trans hl⟩
            · cases h
              exact ⟨[], Sent.of_same rfl rfl rfl⟩
          | cons head rest =>
            simp only at h
            cases ha : accessNetwork n
              { m_jsonWebClient := client, m_queuedWriteRequests := head :: rest,
                m_pendingWriteRequestId := RequestId.invalid, m_shutdownRequestId := token,
                qt := qt, connections := conns, dequeued := deq, emitted := em } head.id with
            | none => rw [ha] at h; cases h
            | some r =>
              obtain ⟨b, g2⟩ := r
              rw [ha] at h
              obtain ⟨l, hl⟩ := ihA _ _ _ ha
              have hl0 : Sent
                  { m_jsonWebClient := client, m_queuedWriteRequests := head :: rest,
                    m_pendingWriteRequestId := pending, m_shutdownRequestId := token,
                    qt := qt, connections := conns, dequeued := deq, emitted := em }
                  g2 l := by
                simpa using (Sent.of_same rfl rfl rfl : Sent _ _ []).trans hl
              cases b with
              | false =>
                simp only at h
                cases h
                exact ⟨l, hl0⟩
              | true =>
                simp only at h
                cases hq2 : g2.m_queuedWriteRequests with
                | nil =>
                  rw [hq2] at h
                  cases h
                  exact ⟨l, hl0⟩
                | cons w rest2 =>
                  rw [hq2] at h
                  cases h
                  exact ⟨l ++ [w], hl0.trans (Sent.of_dispatch g2 w rest2 hq2)⟩
    · intro g id g1 h
      simp only [slotShutdown] at h
      split at h
      · cases h; exact ⟨[], Sent.nil _⟩
      · split at h
        · cases h; exact ⟨[], Sent.of_same rfl rfl rfl⟩
        · have hg0 : Sent g (if g.m_shutdownRequestId.isValid = true then
              { g with m_shutdownRequestId := RequestId.invalid } else g) [] := by
            split
            · exact Sent.of_same rfl rfl rfl
            · exact Sent.nil g
          generalize (if g.m_shutdownRequestId.isValid = true then
              { g with m_shutdownRequestId := RequestId.invalid } else g) = g0 at h hg0
          cases ha : accessNetwork n g0 id with
          | none => rw [ha] at h; cases h
          | some r =>
            obtain ⟨b, g2⟩ := r
            rw [ha] at h
            obtain ⟨l, hl⟩ := ihA _ _ _ ha
            cases b with
            | false =>
              simp only at h
              cases h
              exact ⟨l, by simpa using hg0.trans hl⟩
            | true =>
              simp only at h
              cases h
              exact ⟨l, by simpa using (hg0.trans hl).trans (Sent.postShutdown g2 id)⟩

theorem onNetworkReplyFinished_sent (n : Nat) (g : Gateway) (op : Operation)
    (reply : ReplyHandle) (d : NetworkReplyData) (g1 : Gateway)
    (h : onNetworkReplyFinished n g op reply d = some g1) : ∃ l, Sent g g1 l := by
  unfold onNetworkReplyFinished at h
  simp only at h
  cases hf : (g.m_jsonWebClient.receiveReply g.qt reply d op.readsJson).1.emitted.foldlM
      (fun g2 signal =>
        match signal with
        | ClientSignal.networkRequestFailed failedId errorMessage =>
          onNetworkRequestFailed n g2 failedId errorMessage)
      { g with
        m_jsonWebClient := (g.m_jsonWebClient.receiveReply g.qt reply d op.readsJson).2.1,
        qt := (g.m_jsonWebClient.receiveReply g.qt reply d op.readsJson).2.2 } with
  | none => rw [hf] at h; cases h
  | some g2 =>
    rw [hf] at h
    simp only [Option.bind] at h
    obtain ⟨l1, h1⟩ := foldlM_sent n (sent_all n).1 _ _ g2 hf
    have h0 : Sent g
        { g with
          m_jsonWebClient := (g.m_jsonWebClient.receiveReply g.qt reply d op.readsJson).2.1,
          qt := (g.m_jsonWebClient.receiveReply g.qt reply d op.readsJson).2.2 } [] :=
      Sent.of_same rfl rfl (receiveReply_qt _ _ _ _ _).2
    have h01 : Sent g g2 l1 := by simpa using h0.trans h1
    split at h
    · cases h
      exact ⟨l1, h01⟩
    · by_cases hw : op.isWrite = true
      · simp only [hw, if_true] at h
        cases hfin : finishWriteRequest n g2
            (g.m_jsonWebClient.receiveReply g.qt reply d op.readsJson).1.requestId with
        | none => rw [hfin] at h; cases h
        | some g3 =>
          rw [hfin] at h
          simp only at h
          obtain ⟨l2, h2⟩ := (sent_all n).2.2.1 _ _ _ hfin
          have h02 := h01.trans h2
          split at h
          · cases h; exact ⟨_, h02⟩
          · split at h
            · cases h
              exact ⟨_, by simpa using h02.trans (Sent.of_same rfl rfl rfl)⟩
            · cases h; exact ⟨_, h02⟩
      · have hw2 : op.isWrite = false := by simpa using hw
        simp only [hw2, Bool.false_eq_true, if_false, Option.some_bind] at h
        split at h
        · cases h; exact ⟨_, h01⟩
        · split at h
          · cases h
            exact ⟨_, by simpa using h01.trans (Sent.of_same rfl rfl rfl)⟩
          · cases h; exact ⟨_, h01⟩

/-- One event: the requests sent come from the head of the queue, to which the event
has appended the request it enqueues, if any. -/
theorem step_sent (n : Nat) (g : Gateway) (event : Event) (g1 : Gateway)
    (h : step n g event = some g1) :
    ∃ l, g1.dequeued = g.dequeued ++ l ∧
      g.m_queuedWriteRequests ++ enqueuedRequests [event] = l ++ g1.m_queuedWriteRequests ∧
      g1.writeCallsSent = g.writeCallsSent ++ l.map (fun w => httpRequest (writeCall w 0)) := by
  cases event with
  | slotWrite requestId call =>
    obtain ⟨l, hl⟩ := (sent_all n).2.2.1 _ _ _ h
    exact ⟨l, hl⟩
  | slotShutdown requestId =>
    obtain ⟨l, hl⟩ := (sent_all n).2.2.2 _ _ _ h
    exact ⟨l, by simpa [enqueuedRequests, Sent] using hl⟩
  | slotRead requestId call query =>
    simp only [step, slotRead] at h
    cases ha : accessNetwork n g requestId with
    | none => rw [ha] at h; cases h
    | some r =>
      obtain ⟨b, g2⟩ := r
      rw [ha] at h
      obtain ⟨l, hl⟩ := (sent_all n).2.1 _ _ _ ha
      cases b with
      | false =>
        simp only at h
        cases h
        exact ⟨l, by simpa [enqueuedRequests, Sent] using hl⟩
      | true =>
        simp only at h
        cases h
        have hs : Sent g2
            (awaitReply g2 (g2.qt.send HttpRequestMethod.Get call.path query false "")
              call.handler requestId) [] := by
          refine ⟨by simp [awaitReply], by simp [awaitReply], ?_⟩
          simp [writeCallsSent, (awaitReply_qt _ _ _ _).2, Qt.send, List.filter_append,
            isWriteCall]
        exact ⟨l, by simpa [enqueuedRequests, Sent] using hl.trans hs⟩
  | replyFinished reply d =>
    simp only [step] at h
    cases hl : List.lookup reply g.connections with
    | none =>
      rw [hl] at h
      cases h
      exact ⟨[], by simp [enqueuedRequests]⟩
    | some op =>
      rw [hl] at h
      simp only at h
      obtain ⟨l, hs⟩ := onNetworkReplyFinished_sent n _ op reply d g1 h
      have h0 : Sent g
          { g with
            connections := g.connections.filter (fun c => c.1 != reply),
            qt := g.qt.finish reply } [] := Sent.of_same rfl rfl rfl
      exact ⟨l, by simpa [enqueuedRequests, Sent] using h0.trans hs⟩
  | timerEvent timerId =>
    simp only [step] at h
    cases h
    have h0 : Sent g
        { g with
          m_jsonWebClient :=
            { g.m_jsonWebClient with
              m_requestReplyManager :=
                (g.m_jsonWebClient.m_requestReplyManager.timerEvent g.qt timerId).1 },
          qt := (g.m_jsonWebClient.m_requestReplyManager.timerEvent g.qt timerId).2 } [] :=
      Sent.of_same rfl rfl (RequestReplyManager.timerEvent_nextReply _ _ _).2
    exact ⟨[], by simpa [enqueuedRequests, Sent] using h0⟩
  | networkAccess access =>
    simp only [step] at h
    cases h
    exact ⟨[], by simp [enqueuedRequests, writeCallsSent]⟩

theorem enqueuedRequests_cons (event : Event) (events : List Event) :
    enqueuedRequests (event :: events) = enqueuedRequests [event] ++ enqueuedRequests events := by
  cases event <;> simp [enqueuedRequests]

theorem run_sent (n : Nat) (events : List Event) (g g1 : Gateway)
    (h : run n g events = some g1) :
    ∃ l, g1.dequeued = g.dequeued ++ l ∧
      g.m_queuedWriteRequests ++ enqueuedRequests events = l ++ g1.m_queuedWriteRequests ∧
      g1.writeCallsSent = g.writeCallsSent ++ l.map (fun w => httpRequest (writeCall w 0)) := by
  induction events generalizing g with
  | nil =>
    simp only [run] at h
    cases h
    exact ⟨[], by simp [enqueuedRequests]⟩
  | cons e rest ih =>
    simp only [run] at h
    cases hs : step n g e with
    | none => rw [hs] at h; cases h
    | some g2 =>
      rw [hs] at h
      simp only [Option.bind] at h
      obtain ⟨l1, a1, b1, c1⟩ := step_sent n g e g2 hs
      obtain ⟨l2, a2, b2, c2⟩ := ih g2 h
      refine ⟨l1 ++ l2, ?_, ?_, ?_⟩
      · rw [a2, a1, List.append_assoc]
      · rw [enqueuedRequests_cons, ← List.append_assoc, b1, List.append_assoc, b2,
          List.append_assoc]
      · rw [c2, c1, List.map_append, List.append_assoc]

/-- C2: whatever events the gateway receives, the write requests for which an HTTP call
has been issued, followed by those still queued, are the enqueued requests in the order
of their enqueueing: the calls issued are an initial segment of the enqueue sequence,
one call per request, in the same order. -/
theorem C2_fifo_writes (access : NetworkAccess) (fuel : Nat) (events : List Event)
    (g : Gateway) (hrun : run fuel (init access) events = some g) :
    g.dequeued ++ g.m_queuedWriteRequests = enqueuedRequests events ∧
    g.dequeued.map (fun w => w.id) ++ g.queuedIds = enqueuedIds events ∧
    g.dequeued.map (fun w => w.id) <+: enqueuedIds events ∧
    g.writeCallsSent = g.dequeued.map (fun w => httpRequest (writeCall w 0)) := by
  obtain ⟨l, a, b, c⟩ := run_sent fuel events (init access) g hrun
  have ha : g.dequeued = l := by simpa [init] using a
  have hb : l ++ g.m_queuedWriteRequests = enqueuedRequests events := by
    simpa [init] using b.symm
  have hids : g.dequeued.map (fun w => w.id) ++ g.queuedIds = enqueuedIds events := by
    rw [enqueuedIds, ← hb, ha, queuedIds, List.map_append]
  refine ⟨by rw [ha]; exact hb, hids, ⟨g.queuedIds, hids⟩, ?_⟩
  rw [ha]
  simpa [init, writeCallsSent, Qt.init] using c

end Gateway

end aoide

end mixxx

namespace mixxx

namespace aoide

open network

namespace Gateway

/-- C2, instance: three writes are enqueued and the first fails with a transport error;
the calls are issued in the order of enqueueing. -/
theorem C2_fifo_writes_witness :
    ∃ g, run 5 (init accessible)
        [Event.slotWrite 1 (WriteCall.createCollection "X"),
         Event.slotWrite 2 (WriteCall.replaceTracks "X" "[]"),
         Event.slotWrite 3 (WriteCall.deleteCollection "X"),
         Event.replyFinished 1 replyRefused] = some g ∧
      g.dequeued.map (fun w => w.id) <+: enqueuedIds
        [Event.slotWrite 1 (WriteCall.createCollection "X"),
         Event.slotWrite 2 (WriteCall.replaceTracks "X" "[]"),
         Event.slotWrite 3 (WriteCall.deleteCollection "X"),
         Event.replyFinished 1 replyRefused] :=
  ⟨_, rfl, (C2_fifo_writes accessible 5
    [Event.slotWrite 1 (WriteCall.createCollection "X"),
     Event.slotWrite 2 (WriteCall.replaceTracks "X" "[]"),
     Event.slotWrite 3 (WriteCall.deleteCollection "X"),
     Event.replyFinished 1 replyRefused] _ rfl).2.2.1⟩

end Gateway

end aoide

end mixxx

namespace mixxx

namespace aoide

open network

namespace Gateway

/-! ## The branches of `finishWriteRequest` -/

theorem forwarded_access (c : JsonWebClient) (y : RequestId) :
    ∀ s ∈ forwarded (c.accessNetwork y).2,
      ∃ msg, s = GatewaySignal.networkRequestFailed y msg := by
  rcases clientAccess_cases c y with h | ⟨msg, h⟩
  · simp [h, forwarded]
  · intro s hs
    refine ⟨msg, ?_⟩
    simpa [h, forwarded] using hs

theorem clientAccess_accessible (c : JsonWebClient) (y : RequestId)
    (h : c.m_networkAccessManager = accessible) : c.accessNetwork y = (true, []) := by
  simp [JsonWebClient.accessNetwork, h, accessible]

/-- A call with a valid id that is not the pending one changes nothing. -/
theorem finish_noop (g : Gateway) (x : RequestId) (hx : x ≠ 0)
    (hp : g.m_pendingWriteRequestId ≠ 0) (hne : g.m_pendingWriteRequestId ≠ x) :
    finishWriteRequestDirect g x = g := by
  unfold finishWriteRequestDirect
  rw [if_pos]
  simp [RequestId.isValid, hx, hp, Ne.symm hne]

/-- With nothing pending, nothing queued and no shutdown deferred nothing happens. -/
theorem finish_idle (g : Gateway) (x : RequestId)
    (hp : g.m_pendingWriteRequestId = 0) (hq : g.m_queuedWriteRequests = [])
    (ht : g.m_shutdownRequestId = 0) : finishWriteRequestDirect g x = g := by
  obtain ⟨client, queue, pending, token, qt, conns, deq, em⟩ := g
  simp only at hp hq ht
  subst hp hq ht
  unfold finishWriteRequestDirect
  simp [RequestId.isValid, RequestId.invalid]

/-- The pending write is finished while the access manager is accessible: the head of
the queue is sent. -/
theorem finish_dispatch (g : Gateway) (x : RequestId) (head : WriteRequest)
    (rest : List WriteRequest) (hx : x ≠ 0) (hp : g.m_pendingWriteRequestId = x)
    (hq : g.m_queuedWriteRequests = head :: rest)
    (ha : g.m_jsonWebClient.m_networkAccessManager = accessible) :
    finishWriteRequestDirect g x =
      dispatchWriteRequest { g with m_pendingWriteRequestId := RequestId.invalid } head rest := by
  obtain ⟨client, queue, pending, token, qt, conns, deq, em⟩ := g
  simp only at hp hq ha
  subst hp hq
  unfold finishWriteRequestDirect
  simp [RequestId.isValid, hx, accessNetworkDirect, clientAccess_accessible client _ ha,
    forwarded, emit]

/-- The pending write is finished and the queue is empty. -/
theorem finish_empty (g : Gateway) (x : RequestId) (hx : x ≠ 0)
    (hp : g.m_pendingWriteRequestId = x) (hq : g.m_queuedWriteRequests = []) :
    finishWriteRequestDirect g x =
      if g.m_shutdownRequestId.isValid then
        slotShutdownDirect { g with m_pendingWriteRequestId := RequestId.invalid }
          g.m_shutdownRequestId
      else { g with m_pendingWriteRequestId := RequestId.invalid } := by
  obtain ⟨client, queue, pending, token, qt, conns, deq, em⟩ := g
  simp only at hp hq
  subst hp hq
  unfold finishWriteRequestDirect
  simp [RequestId.isValid, hx]

/-- The deferred shutdown is continued. -/
theorem slotShutdown_continue (g : Gateway) (hp : g.m_pendingWriteRequestId = 0)
    (hq : g.m_queuedWriteRequests = []) (ht : g.m_shutdownRequestId ≠ 0) :
    slotShutdownDirect g g.m_shutdownRequestId =
      if (g.m_jsonWebClient.accessNetwork g.m_shutdownRequestId).1 then
        postShutdown
          ({ g with m_shutdownRequestId := RequestId.invalid }.emit
            (forwarded (g.m_jsonWebClient.accessNetwork g.m_shutdownRequestId).2))
          g.m_shutdownRequestId
      else
        { g with m_shutdownRequestId := RequestId.invalid }.emit
          (forwarded (g.m_jsonWebClient.accessNetwork g.m_shutdownRequestId).2) := by
  obtain ⟨client, queue, pending, token, qt, conns, deq, em⟩ := g
  simp only at hp hq ht
  subst hp hq
  unfold slotShutdownDirect
  simp [RequestId.isValid, ht, accessNetworkDirect]

theorem dispatch_fields (g : Gateway) (head : WriteRequest) (rest : List WriteRequest) :
    (dispatchWriteRequest g head rest).m_pendingWriteRequestId = head.id ∧
    (dispatchWriteRequest g head rest).m_queuedWriteRequests = rest ∧
    (dispatchWriteRequest g head rest).dequeued = g.dequeued ++ [head] ∧
    (dispatchWriteRequest g head rest).m_shutdownRequestId = g.m_shutdownRequestId ∧
    (dispatchWriteRequest g head rest).emitted = g.emitted ∧
    (dispatchWriteRequest g head rest).qt.calls =
      g.qt.calls ++ [writeCall head (g.qt.nextReply + 1)] := by
  refine ⟨rfl, rfl, rfl, rfl, rfl, ?_⟩
  rw [dispatchWriteRequest, (awaitReply_qt _ _ _ _).2, (sendWriteRequest_eq g.qt head).2.2]

theorem postShutdown_fields (g : Gateway) (id : RequestId) :
    (postShutdown g id).m_pendingWriteRequestId = g.m_pendingWriteRequestId ∧
    (postShutdown g id).m_queuedWriteRequests = g.m_queuedWriteRequests ∧
    (postShutdown g id).dequeued = g.dequeued ∧
    (postShutdown g id).m_shutdownRequestId = g.m_shutdownRequestId ∧
    (postShutdown g id).emitted = g.emitted ∧
    (postShutdown g id).qt.calls =
      g.qt.calls ++ [{ method := HttpRequestMethod.Post, path := "/shutdown", query := "",
                       jsonHeader := false, body := "", reply := g.qt.nextReply + 1 }] ∧
    (postShutdown g id).requestIdOf (g.qt.nextReply + 1) = id := by
  refine ⟨rfl, rfl, rfl, rfl, rfl, ?_, ?_⟩
  · rw [postShutdown, (awaitReply_qt _ _ _ _).2]
    rfl
  · rw [postShutdown, awaitReply_requestIdOf]
    simp [Qt.send]

end Gateway

end aoide

end mixxx

namespace mixxx

namespace aoide

open network

namespace Gateway

theorem emit_emit (g : Gateway) (s t : List GatewaySignal) :
    (g.emit s).emit t = g.emit (s ++ t) := by
  simp [emit, List.append_assoc]

theorem emit_nil (g : Gateway) : g.emit [] = g := by
  simp [emit]

/-- The pending write is finished while no access manager is available: the queue keeps
its requests and the failure is signalled for the head of the queue. -/
theorem finish_blocked (g : Gateway) (x : RequestId) (head : WriteRequest)
    (rest : List WriteRequest)
    (hp : g.m_pendingWriteRequestId = 0 ∨ (x ≠ 0 ∧ g.m_pendingWriteRequestId = x))
    (hq : g.m_queuedWriteRequests = head :: rest)
    (ha : (g.m_jsonWebClient.accessNetwork head.id).1 = false) :
    finishWriteRequestDirect g x =
      { g with m_pendingWriteRequestId := RequestId.invalid }.emit
        (forwarded (g.m_jsonWebClient.accessNetwork head.id).2) := by
  obtain ⟨client, queue, pending, token, qt, conns, deq, em⟩ := g
  simp only at hp hq ha
  subst hq
  unfold finishWriteRequestDirect
  rcases hp with hp | ⟨hx, hp⟩
  · subst hp
    simp [RequestId.isValid, accessNetworkDirect, ha]
  · subst hp
    simp [RequestId.isValid, hx, accessNetworkDirect, ha]

/-- The head of the queue is sent when the pending write is finished and an access
manager is available. -/
theorem finish_send (g : Gateway) (x : RequestId) (head : WriteRequest)
    (rest : List WriteRequest) (hx : x ≠ 0) (hp : g.m_pendingWriteRequestId = x)
    (hq : g.m_queuedWriteRequests = head :: rest)
    (ha : (g.m_jsonWebClient.accessNetwork head.id).1 = true) :
    finishWriteRequestDirect g x =
      dispatchWriteRequest
        ({ g with m_pendingWriteRequestId := RequestId.invalid }.emit
          (forwarded (g.m_jsonWebClient.accessNetwork head.id).2)) head rest := by
  obtain ⟨client, queue, pending, token, qt, conns, deq, em⟩ := g
  simp only at hp hq ha
  subst hp hq
  unfold finishWriteRequestDirect
  simp [RequestId.isValid, hx, accessNetworkDirect, ha]

/-- The state after the deferred shutdown has been continued. -/
theorem slotShutdown_continue_fields (g : Gateway) (hp : g.m_pendingWriteRequestId = 0)
    (hq : g.m_queuedWriteRequests = []) (ht : g.m_shutdownRequestId ≠ 0) :
    (slotShutdownDirect g g.m_shutdownRequestId).m_pendingWriteRequestId = 0 ∧
    (slotShutdownDirect g g.m_shutdownRequestId).m_queuedWriteRequests = [] ∧
    (slotShutdownDirect g g.m_shutdownRequestId).m_shutdownRequestId = 0 := by
  rw [slotShutdown_continue g hp hq ht]
  split
  · exact ⟨hp, hq, rfl⟩
  · exact ⟨hp, hq, rfl⟩

/-- A second call of `finishWriteRequest` for the same id, as made by the reply handler
after `onNetworkRequestFailed`, changes nothing but the signals emitted. -/
theorem finish_twice {x : RequestId} {g : Gateway} (h : Inv x g) (hx : x ≠ 0)
    (hp : g.m_pendingWriteRequestId = x) (s : List GatewaySignal) :
    ∃ t, finishWriteRequestDirect ((finishWriteRequestDirect g x).emit s) x =
      (finishWriteRequestDirect g x).emit t := by
  cases hq : g.m_queuedWriteRequests with
  | nil =>
    have hidle : (finishWriteRequestDirect g x).m_pendingWriteRequestId = 0 ∧
        (finishWriteRequestDirect g x).m_queuedWriteRequests = [] ∧
        (finishWriteRequestDirect g x).m_shutdownRequestId = 0 := by
      rw [finish_empty g x hx hp hq]
      split
      · rename_i hv
        have ht : g.m_shutdownRequestId ≠ 0 := by simpa [RequestId.isValid] using hv
        exact slotShutdown_continue_fields
          { g with m_pendingWriteRequestId := RequestId.invalid } rfl hq ht
      · rename_i hv
        have ht : g.m_shutdownRequestId = 0 := by simpa [RequestId.isValid] using hv
        exact ⟨rfl, hq, ht⟩
    exact ⟨s, finish_idle _ x hidle.1 hidle.2.1 hidle.2.2⟩
  | cons head rest =>
    have hmem : head.id ∈ g.queuedIds ++ g.inFlightIds := by
      apply List.mem_append_left
      simp [queuedIds, hq]
    have hne : head.id ≠ x := fun e => h.finishing_fresh (e ▸ hmem)
    have h0 : head.id ≠ 0 := h.ids_valid _ hmem
    cases ha : (g.m_jsonWebClient.accessNetwork head.id).1 with
    | true =>
      rw [finish_send g x head rest hx hp hq ha]
      exact ⟨s, finish_noop _ x hx h0 hne⟩
    | false =>
      rw [finish_blocked g x head rest (Or.inr ⟨hx, hp⟩) hq ha]
      refine ⟨s ++ forwarded (g.m_jsonWebClient.accessNetwork head.id).2, ?_⟩
      have hb := finish_blocked
        (({ g with m_pendingWriteRequestId := RequestId.invalid }.emit
          (forwarded (g.m_jsonWebClient.accessNetwork head.id).2)).emit s)
        x head rest (Or.inl rfl) hq ha
      rw [hb]
      simp [emit, List.append_assoc]

end Gateway

end aoide

end mixxx

namespace mixxx

namespace aoide

open network

namespace Gateway

theorem requestIdOf_valid {x : RequestId} {g : Gateway} (h : Inv x g) (reply : ReplyHandle)
    (op : Operation) (hl : List.lookup reply g.connections = some op) :
    g.requestIdOf reply ≠ 0 := by
  apply h.ids_valid
  apply List.mem_append_right
  exact List.mem_map.mpr ⟨(reply, op), mem_of_lookup _ _ _ hl, rfl⟩

/-- The reply handler of a write operation: up to the signals emitted, the state it
leaves is the one `finishWriteRequest` produces right after `receiveReply`. -/
theorem handler_write {g : Gateway} (h : Inv 0 g) (reply : ReplyHandle) (op : Operation)
    (d : NetworkReplyData) (hl : List.lookup reply g.connections = some op)
    (hw : op.isWrite = true) :
    ∃ s, stepDirect g (Event.replyFinished reply d) =
      (finishWriteRequestDirect
        { g with
          connections := g.connections.filter (fun c => c.1 != reply),
          m_jsonWebClient :=
            (g.m_jsonWebClient.receiveReply (g.qt.finish reply) reply d op.readsJson).2.1,
          qt := (g.m_jsonWebClient.receiveReply (g.qt.finish reply) reply d op.readsJson).2.2 }
        (g.requestIdOf reply)).emit s := by
  obtain ⟨hid, hx, _, hpend⟩ := h.received reply op d op.readsJson hl
  have hx0 : g.requestIdOf reply ≠ 0 := requestIdOf_valid h reply op hl
  have hp := hpend hw
  have hv : (!(g.requestIdOf reply).isValid) = false := by
    simp [RequestId.isValid, hx0]
  simp only [Gateway.stepDirect, hl]
  unfold onNetworkReplyFinishedDirect
  simp only
  rw [hid]
  simp only [hw, if_true, hv, Bool.false_eq_true, if_false]
  have hcases := receiveReply_emitted_cases g.m_jsonWebClient (g.qt.finish reply) reply d
    op.readsJson
  rw [hid] at hcases
  rcases hcases with he | he
  · rw [he]
    simp only [deliverDirect, List.foldl]
    split_ifs
    · exact ⟨[], (emit_nil _).symm⟩
    · exact ⟨_, rfl⟩
    · exact ⟨[], (emit_nil _).symm⟩
  · rw [he]
    simp only [deliverDirect, List.foldl, onNetworkRequestFailedDirect]
    rw [if_pos hp.symm]
    obtain ⟨t, ht⟩ := finish_twice hx hx0 hp
      [GatewaySignal.networkRequestFailed (g.requestIdOf reply) (replyErrorMessage d)]
    rw [ht]
    split_ifs
    · exact ⟨_, rfl⟩
    · exact ⟨_, emit_emit _ _ _⟩
    · exact ⟨_, rfl⟩

end Gateway

end aoide

end mixxx

namespace mixxx

namespace aoide

open network

namespace Gateway

/-! ## Signals emitted by the slots -/

theorem receiveReply_access (c : JsonWebClient) (qt : Qt) (reply : ReplyHandle)
    (d : NetworkReplyData) (wantJson : Bool) :
    (c.receiveReply qt reply d wantJson).2.1.m_networkAccessManager =
      c.m_networkAccessManager := by
  unfold JsonWebClient.receiveReply
  simp only
  split_ifs <;> rfl

theorem slotShutdownDirect_emitted (g : Gateway) (id : RequestId) :
    ∃ extra, (slotShutdownDirect g id).emitted = g.emitted ++ extra ∧
      ∀ s ∈ extra, ∃ msg, s = GatewaySignal.networkRequestFailed id msg := by
  unfold slotShutdownDirect
  split
  · exact ⟨[], by simp⟩
  · split
    · exact ⟨[], by simp⟩
    · simp only [accessNetworkDirect]
      split
      · split
        · exact ⟨_, (postShutdown_fields _ id).2.2.2.2.1, forwarded_access _ id⟩
        · exact ⟨_, rfl, forwarded_access _ id⟩
      · split
        · exact ⟨_, (postShutdown_fields _ id).2.2.2.2.1, forwarded_access _ id⟩
        · exact ⟨_, rfl, forwarded_access _ id⟩

/-- The signals `finishWriteRequest` emits are failures of the head of the queue or of
the deferred shutdown. -/
theorem finishWriteRequestDirect_emitted (g : Gateway) (x : RequestId) :
    ∃ extra, (finishWriteRequestDirect g x).emitted = g.emitted ++ extra ∧
      ∀ s ∈ extra, ∃ y msg, s = GatewaySignal.networkRequestFailed y msg ∧
        (y ∈ g.queuedIds ∨ (y = g.m_shutdownRequestId ∧ y ≠ 0)) := by
  obtain ⟨client, queue, pending, token, qt, conns, deq, em⟩ := g
  unfold finishWriteRequestDirect
  split
  · exact ⟨[], by simp⟩
  · split
    · exact ⟨[], by simp⟩
    · cases queue with
      | nil =>
        simp only
        split
        · rename_i hv
          have ht : token ≠ 0 := by simpa [RequestId.isValid] using hv
          obtain ⟨extra, he, hs⟩ := slotShutdownDirect_emitted
            { m_jsonWebClient := client, m_queuedWriteRequests := [],
              m_pendingWriteRequestId := RequestId.invalid, m_shutdownRequestId := token,
              qt := qt, connections := conns, dequeued := deq, emitted := em } token
          refine ⟨extra, he, ?_⟩
          intro s hmem
          obtain ⟨msg, hmsg⟩ := hs s hmem
          exact ⟨token, msg, hmsg, Or.inr ⟨rfl, ht⟩⟩
        · exact ⟨[], by simp⟩
      | cons head rest =>
        simp only [accessNetworkDirect]
        have hf : ∀ s ∈ forwarded (client.accessNetwork head.id).2,
            ∃ y msg, s = GatewaySignal.networkRequestFailed y msg ∧
              (y ∈ queuedIds
                  { m_jsonWebClient := client, m_queuedWriteRequests := head :: rest,
                    m_pendingWriteRequestId := pending, m_shutdownRequestId := token,
                    qt := qt, connections := conns, dequeued := deq, emitted := em } ∨
                (y = token ∧ y ≠ 0)) := by
          intro s hmem
          obtain ⟨msg, hmsg⟩ := forwarded_access client head.id s hmem
          exact ⟨head.id, msg, hmsg, Or.inl (by simp [queuedIds])⟩
        split
        · exact ⟨_, (dispatch_fields _ head rest).2.2.2.2.1, hf⟩
        · exact ⟨_, rfl, hf⟩

/-- While the reply of request `x` is handled, `finishWriteRequest` emits no signal for
`x`. -/
theorem finish_emitted_other {x : RequestId} {g : Gateway} (h : Inv x g) (hx : x ≠ 0)
    (y : RequestId) :
    ∃ extra, (finishWriteRequestDirect g y).emitted = g.emitted ++ extra ∧
      extra.filter (fun s => s.requestId == x) = [] := by
  obtain ⟨extra, he, hs⟩ := finishWriteRequestDirect_emitted g y
  refine ⟨extra, he, ?_⟩
  rw [List.filter_eq_nil_iff]
  intro s hmem
  obtain ⟨z, msg, hz, hsrc⟩ := hs s hmem
  subst hz
  simp only [GatewaySignal.requestId, beq_iff_eq]
  intro hzx
  subst hzx
  rcases hsrc with hq | ⟨ht, h0⟩
  · exact h.finishing_fresh (List.mem_append_left _ hq)
  · exact h0 (h.finishing_token ht)

end Gateway

end aoide

end mixxx

namespace mixxx

namespace aoide

open network

namespace Gateway

theorem deliver_emitted {x : RequestId} {g : Gateway} (h : Inv x g) (hx : x ≠ 0)
    (signals : List ClientSignal) (msg : String)
    (hs : signals = [] ∨ signals = [ClientSignal.networkRequestFailed x msg]) :
    ∃ e1, (deliverDirect g signals).emitted = g.emitted ++ e1 ∧
      e1.filter (fun s => s.requestId == x) = forwarded signals := by
  rcases hs with hs | hs
  · subst hs
    exact ⟨[], by simp [deliverDirect], rfl⟩
  · subst hs
    simp only [deliverDirect, List.foldl, onNetworkRequestFailedDirect]
    split
    · obtain ⟨e, he, hf⟩ := finish_emitted_other h hx x
      refine ⟨e ++ [GatewaySignal.networkRequestFailed x msg], ?_, ?_⟩
      · simp only [emit, he, List.append_assoc]
      · rw [List.filter_append, hf]
        simp [forwarded, GatewaySignal.requestId]
    · refine ⟨[GatewaySignal.networkRequestFailed x msg], rfl, ?_⟩
      simp [forwarded, GatewaySignal.requestId]

theorem finishIf_emitted {x : RequestId} {g : Gateway} (h : Inv x g) (hx : x ≠ 0)
    (b : Bool) :
    ∃ e2, (if b = true then finishWriteRequestDirect g x else g).emitted = g.emitted ++ e2 ∧
      e2.filter (fun s => s.requestId == x) = [] := by
  cases b with
  | true => simpa using finish_emitted_other h hx x
  | false => exact ⟨[], by simp, rfl⟩

theorem result_emitted (g : Gateway) (b1 b2 : Bool) (signal : GatewaySignal) :
    (if (!b1) = true then g else if b2 = true then g.emit [signal] else g).emitted =
      g.emitted ++ (if (b1 && b2) = true then [signal] else []) := by
  cases b1 <;> cases b2 <;> simp [emit]

/-- Signals of one reply handler that carry the id of the request replied to: the
failure forwarded from `receiveReply`, or the result signal after a status of success. -/
theorem handler_emitted {g : Gateway} (h : Inv 0 g) (reply : ReplyHandle) (op : Operation)
    (d : NetworkReplyData) (hl : List.lookup reply g.connections = some op) :
    ∃ new, (stepDirect g (Event.replyFinished reply d)).emitted = g.emitted ++ new ∧
      new.filter (fun s => s.requestId == g.requestIdOf reply) =
        forwarded
            (g.m_jsonWebClient.receiveReply (g.qt.finish reply) reply d op.readsJson).1.emitted ++
          (if (JsonWebClient.isStatusCodeSuccess
                (g.m_jsonWebClient.receiveReply (g.qt.finish reply) reply d
                  op.readsJson).1.statusCode && op.emitsResult) = true then
            [GatewaySignal.result op (g.requestIdOf reply)
              (g.m_jsonWebClient.receiveReply (g.qt.finish reply) reply d
                op.readsJson).1.jsonResponse]
          else []) := by
  obtain ⟨hid, hx, _, _⟩ := h.received reply op d op.readsJson hl
  have hx0 : g.requestIdOf reply ≠ 0 := requestIdOf_valid h reply op hl
  have hv : (!(g.requestIdOf reply).isValid) = false := by
    simp [RequestId.isValid, hx0]
  have hcases := receiveReply_emitted_cases g.m_jsonWebClient (g.qt.finish reply) reply d
    op.readsJson
  rw [hid] at hcases
  obtain ⟨e1, he1, hf1⟩ := deliver_emitted hx hx0 _ (replyErrorMessage d) hcases
  obtain ⟨e2, he2, hf2⟩ := finishIf_emitted (hx.deliverDirect _ _ hcases).1 hx0 op.isWrite
  simp only [Gateway.stepDirect, hl]
  unfold onNetworkReplyFinishedDirect
  simp only
  rw [hid]
  simp only [hv, Bool.false_eq_true, if_false]
  refine ⟨e1 ++ e2 ++
    (if (JsonWebClient.isStatusCodeSuccess
          (g.m_jsonWebClient.receiveReply (g.qt.finish reply) reply d
            op.readsJson).1.statusCode && op.emitsResult) = true then
      [GatewaySignal.result op (g.requestIdOf reply)
        (g.m_jsonWebClient.receiveReply (g.qt.finish reply) reply d
          op.readsJson).1.jsonResponse]
    else []), ?_, ?_⟩
  · refine (result_emitted _ _ _ _).trans ?_
    rw [he2, he1, List.append_assoc, List.append_assoc, List.append_assoc]
  · rw [List.filter_append, List.filter_append, hf1, hf2, List.append_nil]
    congr 1
    split
    · simp [GatewaySignal.requestId]
    · rfl

end Gateway

end aoide

end mixxx

namespace mixxx

namespace aoide

open network

namespace Gateway

/-! ## Scenario states -/

theorem oneWrite_reachable : Reachable accessible oneWrite :=
  Reachable.step (init accessible) (Event.slotWrite 1 (WriteCall.createCollection "X")) 5
    oneWrite Reachable.init (by decide) (by decide)

theorem twoWrites_reachable : Reachable accessible twoWrites :=
  Reachable.step oneWrite (Event.slotWrite 2 (WriteCall.deleteCollection "X")) 5
    twoWrites oneWrite_reachable (by decide) (by decide)

theorem writeThenShutdown_reachable : Reachable accessible writeThenShutdown :=
  Reachable.step oneWrite (Event.slotShutdown 9) 5
    writeThenShutdown oneWrite_reachable (by decide) (by decide)

theorem shutdownOnly_reachable : Reachable accessible shutdownOnly :=
  Reachable.step (init accessible) (Event.slotShutdown 9) 5
    shutdownOnly Reachable.init (by decide) (by decide)

/-! ## C4: signals of a reply that is not stale -/

theorem isStatusCodeSuccess_invalid :
    JsonWebClient.isStatusCodeSuccess kHttpStatusCodeInvalid = false := by decide

/-- What `receiveReply` reports for a reply that is not stale. -/
theorem receiveReply_valid (c : JsonWebClient) (qt : Qt) (reply : ReplyHandle)
    (d : NetworkReplyData) (wantJson : Bool)
    (hv : (c.m_requestReplyManager.afterReplyReceived qt reply).1.2 = true) :
    (c.receiveReply qt reply d wantJson).1.emitted =
      (if d.error = true then
        [ClientSignal.networkRequestFailed (c.receiveReply qt reply d wantJson).1.requestId
          (replyErrorMessage d)]
      else []) ∧
    (c.receiveReply qt reply d wantJson).1.statusCode =
      (if d.error = true then kHttpStatusCodeInvalid
      else readStatusCode d kHttpStatusCodeInvalid) ∧
    (c.receiveReply qt reply d wantJson).1.jsonResponse =
      (if d.error = true then none
      else if (wantJson && readStatusCode d kHttpStatusCodeInvalid != kHttpStatusCodeInvalid)
          = true then readJsonContent d
      else none) := by
  unfold JsonWebClient.receiveReply
  simp only [hv, Bool.not_true, Bool.false_eq_true, if_false]
  split <;> simp

/-- What `receiveReply` reports for a stale reply. -/
theorem receiveReply_stale (c : JsonWebClient) (qt : Qt) (reply : ReplyHandle)
    (d : NetworkReplyData) (wantJson : Bool)
    (hv : (c.m_requestReplyManager.afterReplyReceived qt reply).1.2 = false) :
    (c.receiveReply qt reply d wantJson).1.emitted = [] ∧
    (c.receiveReply qt reply d wantJson).1.statusCode = kHttpStatusCodeInvalid := by
  unfold JsonWebClient.receiveReply
  simp [hv]

end Gateway

end aoide

end mixxx

namespace mixxx

namespace aoide

open network

namespace Gateway

/-- C4, counterexample: `slotCreateCollection` is called with request id 1 and the reply
of its POST arrives without transport error and with status 301. The reply is not stale
(`afterReplyReceived` reports the request as valid), yet the handler emits no signal at
all for the request: neither `createCollectionResult` nor `networkRequestFailed`. The
same happens for the reply of a shutdown request, whatever its status: the handler of
`POST /shutdown` has no result signal. -/
theorem C4_terminal_outcome_counterexample :
    (oneWrite.m_jsonWebClient.m_requestReplyManager.afterReplyReceived
        (oneWrite.qt.finish 1) 1).1 = (1, true) ∧
    (step 5 oneWrite (Event.replyFinished 1 (replyWithStatus 301))).map
      (fun g => g.emitted) = some [] ∧
    (shutdownOnly.m_jsonWebClient.m_requestReplyManager.afterReplyReceived
        (shutdownOnly.qt.finish 1) 1).1 = (9, true) ∧
    (step 5 shutdownOnly (Event.replyFinished 1 (replyWithStatus 202))).map
      (fun g => g.emitted) = some [] := by
  refine ⟨by decide, by decide, by decide, by decide⟩

/-- C4, amended: for a reachable gateway and the reply of an outstanding request that is
not stale, the reply handler returns and emits, among the signals carrying the id of the
request, exactly one terminal signal in two cases: `networkRequestFailed` with the error
message of the reply when the transport reports an error, and the result signal of the
operation when there is no transport error, the status is 2xx and the operation is not
the shutdown. In the remaining cases (no transport error and a status that is not 2xx;
the shutdown request) it emits no signal carrying the id. -/
theorem C4_terminal_outcome (access : NetworkAccess) (g : Gateway)
    (hreach : Reachable access g) (reply : ReplyHandle) (op : Operation)
    (d : NetworkReplyData) (hl : List.lookup reply g.connections = some op)
    (hvalid : (g.m_jsonWebClient.m_requestReplyManager.afterReplyReceived
      (g.qt.finish reply) reply).1.2 = true) :
    (∀ fuel, 5 ≤ fuel → step fuel g (Event.replyFinished reply d) =
      some (stepDirect g (Event.replyFinished reply d))) ∧
    ∃ new, (stepDirect g (Event.replyFinished reply d)).emitted = g.emitted ++ new ∧
      new.filter (fun s => s.requestId == g.requestIdOf reply) =
        if d.error = true then
          [GatewaySignal.networkRequestFailed (g.requestIdOf reply) (replyErrorMessage d)]
        else if (JsonWebClient.isStatusCodeSuccess (readStatusCode d kHttpStatusCodeInvalid)
            && op.emitsResult) = true then
          [GatewaySignal.result op (g.requestIdOf reply)
            (if (op.readsJson &&
                readStatusCode d kHttpStatusCodeInvalid != kHttpStatusCodeInvalid) = true
              then readJsonContent d else none)]
        else [] := by
  have hinv := hreach.inv
  refine ⟨fun fuel hfuel => (step_direct g (Event.replyFinished reply d) hinv.queue_valid trivial fuel).2 hfuel, ?_⟩
  obtain ⟨new, hnew, hfilter⟩ := handler_emitted hinv reply op d hl
  obtain ⟨hid, _⟩ := hinv.received reply op d op.readsJson hl
  obtain ⟨he, hs, hj⟩ := receiveReply_valid g.m_jsonWebClient (g.qt.finish reply) reply d
    op.readsJson hvalid
  refine ⟨new, hnew, ?_⟩
  rw [hfilter, he, hs, hj, hid]
  by_cases herr : d.error = true
  · simp [herr, forwarded, isStatusCodeSuccess_invalid]
  · simp [herr, forwarded]

/-- C4, instance: the reply of the POST of `slotCreateCollection` with request id 1
arrives with status 201; the handler emits `createCollectionResult` for request 1, with
the JSON document of the reply, and nothing else. -/
theorem C4_terminal_outcome_witness :
    ∃ new, (stepDirect oneWrite (Event.replyFinished 1 (replyWithStatus 201))).emitted =
        oneWrite.emitted ++ new ∧
      new.filter (fun s => s.requestId == oneWrite.requestIdOf 1) =
        [GatewaySignal.result Operation.CreateCollection 1 (some "[]")] :=
  (C4_terminal_outcome accessible oneWrite oneWrite_reachable 1 Operation.CreateCollection
    (replyWithStatus 201) (by decide) (by decide)).2

end Gateway

end aoide

end mixxx

namespace mixxx

namespace aoide

open network

namespace Gateway

/-! ## C5: a failed write completes the write slot -/

/-- The state `finishWriteRequest` leaves when it is called for the pending write. -/
theorem finish_pending_fields {x : RequestId} {g : Gateway} (h : Inv x g) (hx : x ≠ 0)
    (hp : g.m_pendingWriteRequestId = x) :
    (finishWriteRequestDirect g x).m_pendingWriteRequestId ≠ x ∧
    (∀ head rest, g.m_queuedWriteRequests = head :: rest →
      g.m_jsonWebClient.m_networkAccessManager = accessible →
      (finishWriteRequestDirect g x).m_pendingWriteRequestId = head.id ∧
      (finishWriteRequestDirect g x).m_queuedWriteRequests = rest ∧
      (finishWriteRequestDirect g x).dequeued = g.dequeued ++ [head] ∧
      (finishWriteRequestDirect g x).qt.calls =
        g.qt.calls ++ [writeCall head (g.qt.nextReply + 1)] ∧
      head.id ≠ x) ∧
    (g.m_queuedWriteRequests = [] →
      (finishWriteRequestDirect g x).m_pendingWriteRequestId = 0 ∧
      (finishWriteRequestDirect g x).m_queuedWriteRequests = [] ∧
      (finishWriteRequestDirect g x).dequeued = g.dequeued) := by
  cases hq : g.m_queuedWriteRequests with
  | nil =>
    have hf : (finishWriteRequestDirect g x).m_pendingWriteRequestId = 0 ∧
        (finishWriteRequestDirect g x).m_queuedWriteRequests = [] ∧
        (finishWriteRequestDirect g x).dequeued = g.dequeued := by
      have hd : (finishWriteRequestDirect g x).dequeued = g.dequeued := by
        rcases finishWriteRequestDirect_dequeued g x with hd | ⟨_, head, rest, hcons, _⟩
        · exact hd
        · rw [hq] at hcons
          cases hcons
      rw [finish_empty g x hx hp hq] at hd ⊢
      split
      · rename_i hv
        have ht : g.m_shutdownRequestId ≠ 0 := by simpa [RequestId.isValid] using hv
        have hc := slotShutdown_continue_fields
          { g with m_pendingWriteRequestId := RequestId.invalid } rfl hq ht
        rw [if_pos hv] at hd
        exact ⟨hc.1, hc.2.1, hd⟩
      · exact ⟨rfl, hq, rfl⟩
    refine ⟨?_, ?_, fun _ => hf⟩
    · rw [hf.1]
      exact fun e => hx e.symm
    · intro head rest hcons
      cases hcons
  | cons head rest =>
    have hmem : head.id ∈ g.queuedIds ++ g.inFlightIds := by
      apply List.mem_append_left
      simp [queuedIds, hq]
    have hne : head.id ≠ x := fun e => h.finishing_fresh (e ▸ hmem)
    refine ⟨?_, ?_, ?_⟩
    · cases ha : (g.m_jsonWebClient.accessNetwork head.id).1 with
      | true =>
        rw [finish_send g x head rest hx hp hq ha]
        exact hne
      | false =>
        rw [finish_blocked g x head rest (Or.inr ⟨hx, hp⟩) hq ha]
        exact fun e => hx e.symm
    · intro head1 rest1 hcons hacc
      cases hcons
      rw [finish_dispatch g x head rest hx hp hq hacc]
      exact ⟨rfl, rfl, rfl, (dispatch_fields _ head rest).2.2.2.2.2, hne⟩
    · intro hnil
      cases hnil

/-- C5: in a reachable gateway, let the reply of an outstanding write request arrive with
a transport error or with a status that is not 2xx. The request is the pending write.
The reply handler returns, and afterwards the failed request is not pending, not in the
queue and not outstanding. If the queue was non-empty and the network access manager is
accessible, the former head of the queue has been taken from the queue, an HTTP call has
been issued for it, and it is the new pending write; the head is not the failed request.
If the queue was empty no write is pending. The handler emits no result signal for the
failed request: the signals carrying its id are `networkRequestFailed`. -/
theorem C5_failed_write_completes (access : NetworkAccess) (g : Gateway)
    (hreach : Reachable access g) (reply : ReplyHandle) (op : Operation)
    (d : NetworkReplyData) (hl : List.lookup reply g.connections = some op)
    (hw : op.isWrite = true)
    (hfail : d.error = true ∨
      JsonWebClient.isStatusCodeSuccess (readStatusCode d kHttpStatusCodeInvalid) = false) :
    g.m_pendingWriteRequestId = g.requestIdOf reply ∧
    g.m_pendingWriteRequestId ≠ 0 ∧
    (∀ fuel, 5 ≤ fuel → step fuel g (Event.replyFinished reply d) =
      some (stepDirect g (Event.replyFinished reply d))) ∧
    (stepDirect g (Event.replyFinished reply d)).m_pendingWriteRequestId ≠
      g.m_pendingWriteRequestId ∧
    g.m_pendingWriteRequestId ∉ (stepDirect g (Event.replyFinished reply d)).queuedIds ∧
    g.m_pendingWriteRequestId ∉ (stepDirect g (Event.replyFinished reply d)).inFlightIds ∧
    (∀ head rest, g.m_queuedWriteRequests = head :: rest →
      g.m_jsonWebClient.m_networkAccessManager = accessible →
      (stepDirect g (Event.replyFinished reply d)).m_pendingWriteRequestId = head.id ∧
      (stepDirect g (Event.replyFinished reply d)).m_queuedWriteRequests = rest ∧
      (stepDirect g (Event.replyFinished reply d)).dequeued = g.dequeued ++ [head] ∧
      (stepDirect g (Event.replyFinished reply d)).qt.calls =
        g.qt.calls ++ [writeCall head (g.qt.nextReply + 1)] ∧
      head.id ≠ g.m_pendingWriteRequestId) ∧
    (g.m_queuedWriteRequests = [] →
      (stepDirect g (Event.replyFinished reply d)).m_pendingWriteRequestId = 0 ∧
      (stepDirect g (Event.replyFinished reply d)).m_queuedWriteRequests = [] ∧
      (stepDirect g (Event.replyFinished reply d)).dequeued = g.dequeued) ∧
    ∃ new, (stepDirect g (Event.replyFinished reply d)).emitted = g.emitted ++ new ∧
      ∀ s ∈ new, s.requestId = g.m_pendingWriteRequestId →
        s = GatewaySignal.networkRequestFailed g.m_pendingWriteRequestId
          (replyErrorMessage d) := by
  have hinv := hreach.inv
  obtain ⟨hid, hx, _, hpend⟩ := hinv.received reply op d op.readsJson hl
  have hx0 : g.requestIdOf reply ≠ 0 := requestIdOf_valid hinv reply op hl
  have hp := hpend hw
  obtain ⟨s, hs⟩ := handler_write hinv reply op d hl hw
  obtain ⟨hf1, hf2, hf3⟩ := finish_pending_fields hx hx0 hp
  have hfin := (Inv.finishWriteRequestDirect hx).2.emit s
  rw [← hs] at hfin
  have hqt := receiveReply_qt g.m_jsonWebClient (g.qt.finish reply) reply d op.readsJson
  rw [hp]
  refine ⟨rfl, hx0,
    fun fuel hfuel =>
      (step_direct g (Event.replyFinished reply d) hinv.queue_valid trivial fuel).2 hfuel,
    ?_, ?_, ?_, ?_, ?_, ?_⟩
  · rw [hs]
    exact hf1
  · exact fun hm => hfin.finishing_fresh (List.mem_append_left _ hm)
  · exact fun hm => hfin.finishing_fresh (List.mem_append_right _ hm)
  · intro head rest hq hacc
    have hacc1 := (receiveReply_access g.m_jsonWebClient (g.qt.finish reply) reply d
      op.readsJson).trans hacc
    obtain ⟨a, b, c, e, f⟩ := hf2 head rest hq hacc1
    rw [hs]
    refine ⟨a, b, c, ?_, f⟩
    refine e.trans ?_
    show _ ++ [writeCall head (_ + 1)] = g.qt.calls ++ [writeCall head (g.qt.nextReply + 1)]
    rw [hqt.1, hqt.2]
    rfl
  · intro hq
    rw [hs]
    exact hf3 hq
  · obtain ⟨new, hnew, hfilter⟩ := handler_emitted hinv reply op d hl
    refine ⟨new, hnew, ?_⟩
    intro sig hmem hsig
    have hin : sig ∈ new.filter (fun s => s.requestId == g.requestIdOf reply) := by
      rw [List.mem_filter]
      exact ⟨hmem, by simpa using hsig⟩
    rw [hfilter] at hin
    have hstatus : JsonWebClient.isStatusCodeSuccess
        (g.m_jsonWebClient.receiveReply (g.qt.finish reply) reply d
          op.readsJson).1.statusCode = false := by
      cases hv : (g.m_jsonWebClient.m_requestReplyManager.afterReplyReceived
          (g.qt.finish reply) reply).1.2 with
      | false =>
        rw [(receiveReply_stale _ _ _ d op.readsJson hv).2]
        exact isStatusCodeSuccess_invalid
      | true =>
        rw [(receiveReply_valid _ _ _ d op.readsJson hv).2.1]
        rcases hfail with herr | hst
        · rw [if_pos herr]
          exact isStatusCodeSuccess_invalid
        · split
          · exact isStatusCodeSuccess_invalid
          · exact hst
    rw [hstatus] at hin
    simp only [Bool.false_and, Bool.false_eq_true, if_false, List.append_nil] at hin
    have hcases := receiveReply_emitted_cases g.m_jsonWebClient (g.qt.finish reply) reply d
      op.readsJson
    rw [hid] at hcases
    rcases hcases with he | he
    · rw [he] at hin
      simp [forwarded] at hin
    · rw [he] at hin
      simpa [forwarded] using hin

/-- C5, instance: two writes are enqueued, the POST of the first is outstanding and the
second is queued. The reply of the first arrives with a transport error: the second
request, id 2, is sent and pending, the queue is empty, and the only signal for
request 1 is `networkRequestFailed`. -/
theorem C5_failed_write_completes_witness :
    (stepDirect twoWrites (Event.replyFinished 1 replyRefused)).m_pendingWriteRequestId = 2 ∧
    (stepDirect twoWrites (Event.replyFinished 1 replyRefused)).m_queuedWriteRequests = [] ∧
    (stepDirect twoWrites (Event.replyFinished 1 replyRefused)).dequeued =
      twoWrites.dequeued ++ [WriteCall.writeRequest 2 (WriteCall.deleteCollection "X")] ∧
    (stepDirect twoWrites (Event.replyFinished 1 replyRefused)).qt.calls =
      twoWrites.qt.calls ++
        [writeCall (WriteCall.writeRequest 2 (WriteCall.deleteCollection "X"))
          (twoWrites.qt.nextReply + 1)] ∧
    (WriteCall.writeRequest 2 (WriteCall.deleteCollection "X")).id ≠
      twoWrites.m_pendingWriteRequestId :=
  (C5_failed_write_completes accessible twoWrites twoWrites_reachable 1
    Operation.CreateCollection replyRefused (by decide) (by decide)
    (Or.inl (by decide))).2.2.2.2.2.2.1
    (WriteCall.writeRequest 2 (WriteCall.deleteCollection "X")) [] (by decide) (by decide)

end Gateway

end aoide

end mixxx

namespace mixxx

namespace aoide

open network

namespace Gateway

/-! ## C3: the shutdown request -/

theorem isShutdownCall_writeCall (w : WriteRequest) (r : ReplyHandle) :
    isShutdownCall (writeCall w r) = false := by
  obtain ⟨method, id, path, query, body, handler⟩ := w
  cases method <;> rfl

theorem shutdownCalls_append (g g1 : Gateway) (c : HttpCall)
    (h : g1.qt.calls = g.qt.calls ++ [c]) :
    g1.shutdownCalls = g.shutdownCalls ++ (if isShutdownCall c = true then [c] else []) := by
  simp only [shutdownCalls, h, List.filter_append]
  cases hc : isShutdownCall c <;> simp [List.filter, hc]

/-- End of `slotShutdown`: the request is posted when an access manager is available. -/
theorem access_post (g : Gateway) (id : RequestId) :
    ((if (accessNetworkDirect g id).1 = true then
          postShutdown (accessNetworkDirect g id).2 id
        else (accessNetworkDirect g id).2).qt.calls = g.qt.calls ∨
      (if (accessNetworkDirect g id).1 = true then
          postShutdown (accessNetworkDirect g id).2 id
        else (accessNetworkDirect g id).2).qt.calls =
        g.qt.calls ++ [shutdownCall (g.qt.nextReply + 1)]) ∧
    (if (accessNetworkDirect g id).1 = true then
        postShutdown (accessNetworkDirect g id).2 id
      else (accessNetworkDirect g id).2).m_pendingWriteRequestId =
      g.m_pendingWriteRequestId ∧
    (if (accessNetworkDirect g id).1 = true then
        postShutdown (accessNetworkDirect g id).2 id
      else (accessNetworkDirect g id).2).m_queuedWriteRequests = g.m_queuedWriteRequests ∧
    (if (accessNetworkDirect g id).1 = true then
        postShutdown (accessNetworkDirect g id).2 id
      else (accessNetworkDirect g id).2).m_shutdownRequestId = g.m_shutdownRequestId := by
  cases ha : (accessNetworkDirect g id).1 with
  | true =>
    simp only [if_true]
    exact ⟨Or.inr (postShutdown_fields _ id).2.2.2.2.2.1, rfl, rfl, rfl⟩
  | false =>
    simp only [Bool.false_eq_true, if_false]
    exact ⟨Or.inl rfl, rfl, rfl, rfl⟩

/-- A call of `slotShutdown` posts the shutdown request at most once, and only when no
write is pending and none is queued. -/
theorem slotShutdownDirect_posts (g : Gateway) (id : RequestId) :
    ((slotShutdownDirect g id).qt.calls = g.qt.calls ∧
      ((slotShutdownDirect g id).m_shutdownRequestId = g.m_shutdownRequestId ∨
        (slotShutdownDirect g id).m_shutdownRequestId = id ∨
        (slotShutdownDirect g id).m_shutdownRequestId = 0)) ∨
    (g.m_pendingWriteRequestId = 0 ∧ g.m_queuedWriteRequests = [] ∧
      (slotShutdownDirect g id).qt.calls =
        g.qt.calls ++ [shutdownCall (g.qt.nextReply + 1)] ∧
      (slotShutdownDirect g id).m_pendingWriteRequestId = 0 ∧
      (slotShutdownDirect g id).m_queuedWriteRequests = [] ∧
      (slotShutdownDirect g id).m_shutdownRequestId = 0) := by
  obtain ⟨client, queue, pending, token, qt, conns, deq, em⟩ := g
  unfold slotShutdownDirect
  by_cases h1 : (RequestId.isValid token && token != id) = true
  · rw [if_pos h1]
    exact Or.inl ⟨rfl, Or.inl rfl⟩
  · rw [if_neg h1]
    by_cases h2 : (RequestId.isValid pending || !List.isEmpty queue) = true
    · rw [if_pos h2]
      exact Or.inl ⟨rfl, Or.inr (Or.inl rfl)⟩
    · rw [if_neg h2]
      have hpq : pending = 0 ∧ queue = [] := by
        simpa [RequestId.isValid] using h2
      obtain ⟨hp, hq⟩ := hpq
      subst hp hq
      simp only
      by_cases hv : token.isValid = true
      · rw [if_pos hv]
        obtain ⟨hc, hp1, hq1, ht1⟩ := access_post
          { m_jsonWebClient := client, m_queuedWriteRequests := [],
            m_pendingWriteRequestId := 0, m_shutdownRequestId := RequestId.invalid,
            qt := qt, connections := conns, dequeued := deq, emitted := em } id
        rcases hc with hc | hc
        · exact Or.inl ⟨hc, Or.inr (Or.inr ht1)⟩
        · exact Or.inr ⟨trivial, trivial, hc, hp1, hq1, ht1⟩
      · rw [if_neg hv]
        have ht : token = 0 := by simpa [RequestId.isValid] using hv
        subst ht
        obtain ⟨hc, hp1, hq1, ht1⟩ := access_post
          { m_jsonWebClient := client, m_queuedWriteRequests := [],
            m_pendingWriteRequestId := 0, m_shutdownRequestId := 0,
            qt := qt, connections := conns, dequeued := deq, emitted := em } id
        rcases hc with hc | hc
        · exact Or.inl ⟨hc, Or.inl ht1⟩
        · exact Or.inr ⟨trivial, trivial, hc, hp1, hq1, ht1⟩

/-- A call of `finishWriteRequest` posts the shutdown request at most once, and only the
deferred one, after which no write is pending and none is queued. -/
theorem finishWriteRequestDirect_posts (g : Gateway) (x : RequestId) :
    ((finishWriteRequestDirect g x).shutdownCalls = g.shutdownCalls ∧
      ((finishWriteRequestDirect g x).m_shutdownRequestId = g.m_shutdownRequestId ∨
        (finishWriteRequestDirect g x).m_shutdownRequestId = 0)) ∨
    (g.m_shutdownRequestId ≠ 0 ∧
      (finishWriteRequestDirect g x).shutdownCalls =
        g.shutdownCalls ++ [shutdownCall (g.qt.nextReply + 1)] ∧
      (finishWriteRequestDirect g x).m_pendingWriteRequestId = 0 ∧
      (finishWriteRequestDirect g x).m_queuedWriteRequests = [] ∧
      (finishWriteRequestDirect g x).m_shutdownRequestId = 0) := by
  obtain ⟨client, queue, pending, token, qt, conns, deq, em⟩ := g
  unfold finishWriteRequestDirect
  split
  · exact Or.inl ⟨rfl, Or.inl rfl⟩
  · split
    · exact Or.inl ⟨rfl, Or.inl rfl⟩
    · cases queue with
      | nil =>
        simp only
        split
        · rename_i hv
          have ht : token ≠ 0 := by simpa [RequestId.isValid] using hv
          rcases slotShutdownDirect_posts
            { m_jsonWebClient := client, m_queuedWriteRequests := [],
              m_pendingWriteRequestId := RequestId.invalid, m_shutdownRequestId := token,
              qt := qt, connections := conns, dequeued := deq, emitted := em } token with
            ⟨hc, ht1⟩ | ⟨_, _, hc, hp1, hq1, ht1⟩
          · left
            refine ⟨by simp only [shutdownCalls, hc], ?_⟩
            rcases ht1 with h | h | h
            · exact Or.inl h
            · exact Or.inl h
            · exact Or.inr h
          · right
            refine ⟨ht, ?_, hp1, hq1, ht1⟩
            rw [shutdownCalls_append _ _ _ hc]
            rfl
        · exact Or.inl ⟨rfl, Or.inl rfl⟩
      | cons head rest =>
        simp only [accessNetworkDirect]
        split
        · left
          refine ⟨?_, Or.inl rfl⟩
          rw [shutdownCalls_append _ _ _ (dispatch_fields _ head rest).2.2.2.2.2,
            isShutdownCall_writeCall]
          simp [shutdownCalls, emit]
        · exact Or.inl ⟨rfl, Or.inl rfl⟩

end Gateway

end aoide

end mixxx

namespace mixxx

namespace aoide

open network

namespace Gateway

theorem PostsDeferred.same (g : Gateway) : PostsDeferred g g :=
  Or.inl ⟨rfl, Or.inl rfl⟩

theorem PostsDeferred.signals {g g1 : Gateway} (h : PostsDeferred g g1)
    (s : List GatewaySignal) : PostsDeferred g (g1.emit s) := h

theorem PostsDeferred.finish {g g1 : Gateway} (h : PostsDeferred g g1) (x : RequestId) :
    PostsDeferred g (finishWriteRequestDirect g1 x) := by
  rcases h with ⟨hc, ht⟩ | ⟨ht, hc, hp, hq, ht1⟩
  · rcases finishWriteRequestDirect_posts g1 x with ⟨hc2, ht2⟩ | ⟨ht2, hc2, hp2, hq2, ht3⟩
    · left
      refine ⟨hc2.trans hc, ?_⟩
      rcases ht2 with h2 | h2
      · rw [h2]
        exact ht
      · exact Or.inr h2
    · right
      have hg : g.m_shutdownRequestId ≠ 0 := by
        rcases ht with h1 | h1
        · rw [← h1]
          exact ht2
        · exact absurd h1 ht2
      exact ⟨hg, ⟨_, by rw [hc2, hc]⟩, hp2, hq2, ht3⟩
  · rw [finish_idle g1 x hp hq ht1]
    exact Or.inr ⟨ht, hc, hp, hq, ht1⟩

theorem PostsDeferred.finishIf {g g1 : Gateway} (h : PostsDeferred g g1) (x : RequestId)
    (b : Bool) :
    PostsDeferred g (if b = true then finishWriteRequestDirect g1 x else g1) := by
  cases b with
  | true => exact h.finish x
  | false => exact h

theorem PostsDeferred.failed {g g1 : Gateway} (h : PostsDeferred g g1) (x : RequestId)
    (msg : String) : PostsDeferred g (onNetworkRequestFailedDirect g1 x msg) := by
  unfold onNetworkRequestFailedDirect
  split
  · exact (h.finish x).signals _
  · exact h.signals _

theorem PostsDeferred.deliver {g g1 : Gateway} (h : PostsDeferred g g1)
    (signals : List ClientSignal) : PostsDeferred g (deliverDirect g1 signals) := by
  unfold deliverDirect
  induction signals generalizing g1 with
  | nil => exact h
  | cons signal rest ih =>
    simp only [List.foldl]
    cases signal with
    | networkRequestFailed failedId errorMessage => exact ih (h.failed failedId errorMessage)

/-- One reply handler posts the shutdown request at most once, and only a deferred one. -/
theorem handler_posts (g : Gateway) (op : Operation) (reply : ReplyHandle)
    (d : NetworkReplyData) : PostsDeferred g (onNetworkReplyFinishedDirect g op reply d) := by
  have h0 : PostsDeferred g
      { g with
        m_jsonWebClient := (g.m_jsonWebClient.receiveReply g.qt reply d op.readsJson).2.1,
        qt := (g.m_jsonWebClient.receiveReply g.qt reply d op.readsJson).2.2 } := by
    left
    refine ⟨?_, Or.inl rfl⟩
    simp only [shutdownCalls]
    rw [(receiveReply_qt _ _ _ _ _).2]
  have h2 := h0.deliver
    (g.m_jsonWebClient.receiveReply g.qt reply d op.readsJson).1.emitted
  unfold onNetworkReplyFinishedDirect
  simp only
  split
  · exact h2
  · have h3 := h2.finishIf
      (g.m_jsonWebClient.receiveReply g.qt reply d op.readsJson).1.requestId op.isWrite
    split
    · exact h3
    · split
      · exact h3.signals _
      · exact h3

/-- A call of `finishWriteRequest` with a non-empty queue posts no shutdown request. -/
theorem finish_nonempty_quiet (g : Gateway) (x : RequestId)
    (hq : g.m_queuedWriteRequests ≠ []) :
    (finishWriteRequestDirect g x).shutdownCalls = g.shutdownCalls := by
  obtain ⟨client, queue, pending, token, qt, conns, deq, em⟩ := g
  cases queue with
  | nil => exact absurd rfl hq
  | cons head rest =>
    unfold finishWriteRequestDirect
    split
    · rfl
    · split
      · rfl
      · simp only [accessNetworkDirect]
        split
        · rw [shutdownCalls_append _ _ _ (dispatch_fields _ head rest).2.2.2.2.2,
            isShutdownCall_writeCall]
          simp [shutdownCalls, Gateway.emit]
        · rfl

end Gateway

end aoide

end mixxx

namespace mixxx

namespace aoide

open network

namespace Gateway

/-- One event posts the shutdown request at most once; if it does, the event is a call
of `slotShutdown` with nothing pending and nothing queued, or a reply handler that
continues a deferred shutdown, and afterwards no write is pending or queued. -/
theorem stepDirect_posts (g : Gateway) (event : Event) :
    (stepDirect g event).shutdownCalls = g.shutdownCalls ∨
    ((∃ c, (stepDirect g event).shutdownCalls = g.shutdownCalls ++ [c]) ∧
      (stepDirect g event).m_pendingWriteRequestId = 0 ∧
      (stepDirect g event).m_queuedWriteRequests = [] ∧
      (stepDirect g event).m_shutdownRequestId = 0 ∧
      ((∃ id, event = Event.slotShutdown id ∧ g.m_pendingWriteRequestId = 0 ∧
          g.m_queuedWriteRequests = []) ∨
        ((∃ reply d, event = Event.replyFinished reply d) ∧ g.m_shutdownRequestId ≠ 0))) := by
  cases event with
  | slotWrite requestId call =>
    left
    exact finish_nonempty_quiet
      { g with
        m_queuedWriteRequests := g.m_queuedWriteRequests ++ [call.writeRequest requestId] }
      RequestId.invalid (by simp)
  | slotShutdown requestId =>
    rcases slotShutdownDirect_posts g requestId with ⟨hc, _⟩ | ⟨hp, hq, hc, hp1, hq1, ht1⟩
    · left
      simp only [Gateway.stepDirect, shutdownCalls, hc]
    · right
      refine ⟨⟨shutdownCall (g.qt.nextReply + 1), ?_⟩, hp1, hq1, ht1,
        Or.inl ⟨requestId, rfl, hp, hq⟩⟩
      simp only [Gateway.stepDirect]
      rw [shutdownCalls_append _ _ _ hc]
      rfl
  | slotRead requestId call query =>
    left
    simp only [Gateway.stepDirect, accessNetworkDirect]
    split
    · simp only [shutdownCalls]
      rw [(awaitReply_qt _ _ _ _).2]
      simp [Qt.send, Gateway.emit, isShutdownCall]
    · rfl
  | replyFinished reply d =>
    simp only [Gateway.stepDirect]
    cases hl : List.lookup reply g.connections with
    | none => exact Or.inl rfl
    | some op =>
      simp only
      rcases handler_posts
        { g with
          connections := g.connections.filter (fun c => c.1 != reply),
          qt := g.qt.finish reply } op reply d with ⟨hc, _⟩ | ⟨ht, hc, hp1, hq1, ht1⟩
      · exact Or.inl hc
      · exact Or.inr ⟨hc, hp1, hq1, ht1, Or.inr ⟨⟨reply, d, rfl⟩, ht⟩⟩
  | timerEvent timerId =>
    left
    simp only [Gateway.stepDirect, shutdownCalls]
    rw [(RequestReplyManager.timerEvent_nextReply _ _ _).2]
  | networkAccess access => exact Or.inl rfl

/-- The pending write is finished with an empty queue and a deferred shutdown. -/
theorem finish_drain (g : Gateway) (x : RequestId) (hx : x ≠ 0)
    (hp : g.m_pendingWriteRequestId = x) (hq : g.m_queuedWriteRequests = [])
    (ht : g.m_shutdownRequestId ≠ 0) :
    ((g.m_jsonWebClient.accessNetwork g.m_shutdownRequestId).1 = true →
      (finishWriteRequestDirect g x).qt.calls =
        g.qt.calls ++ [shutdownCall (g.qt.nextReply + 1)] ∧
      (finishWriteRequestDirect g x).requestIdOf (g.qt.nextReply + 1) =
        g.m_shutdownRequestId ∧
      (finishWriteRequestDirect g x).m_shutdownRequestId = 0 ∧
      (finishWriteRequestDirect g x).m_pendingWriteRequestId = 0) ∧
    ((g.m_jsonWebClient.accessNetwork g.m_shutdownRequestId).1 = false →
      (finishWriteRequestDirect g x).qt.calls = g.qt.calls ∧
      (finishWriteRequestDirect g x).m_shutdownRequestId = 0 ∧
      (finishWriteRequestDirect g x).m_pendingWriteRequestId = 0 ∧
      ∃ msg, GatewaySignal.networkRequestFailed g.m_shutdownRequestId msg ∈
        (finishWriteRequestDirect g x).emitted) := by
  have hv : g.m_shutdownRequestId.isValid = true := by simp [RequestId.isValid, ht]
  have hf : finishWriteRequestDirect g x =
      slotShutdownDirect { g with m_pendingWriteRequestId := RequestId.invalid }
        g.m_shutdownRequestId := by
    rw [finish_empty g x hx hp hq, if_pos hv]
  have hc := slotShutdown_continue
    { g with m_pendingWriteRequestId := RequestId.invalid } rfl hq ht
  rw [hf]
  simp only at hc
  rw [hc]
  constructor
  · intro ha
    rw [if_pos ha]
    exact ⟨(postShutdown_fields _ _).2.2.2.2.2.1, (postShutdown_fields _ _).2.2.2.2.2.2,
      rfl, rfl⟩
  · intro ha
    rw [if_neg (by simp [ha])]
    refine ⟨rfl, rfl, rfl, ?_⟩
    rcases clientAccess_cases g.m_jsonWebClient g.m_shutdownRequestId with h | ⟨msg, h⟩
    · rw [h] at ha
      cases ha
    · refine ⟨msg, ?_⟩
      rw [h]
      simp [Gateway.emit, forwarded]

end Gateway

end aoide

end mixxx

namespace mixxx

namespace aoide

open network

namespace Gateway

/-- C3, counterexample: `slotShutdown(9)` is called while the write with request id 1 is
outstanding, so the shutdown is deferred. The network becomes inaccessible and the write
fails with a transport error. Its reply handler calls `finishWriteRequest`, which finds
the queue empty and continues the shutdown; `accessNetwork` returns no manager, so no
shutdown request is posted, and the deferred id is forgotten: all writes have completed
and the number of shutdown requests posted is zero, not one. -/
theorem C3_shutdown_deferral_counterexample :
    writeThenShutdown.m_pendingWriteRequestId = 1 ∧
    writeThenShutdown.m_shutdownRequestId = 9 ∧
    writeThenShutdown.shutdownCalls = [] ∧
    (run 5 writeThenShutdown
        [Event.networkAccess notAccessible, Event.replyFinished 1 replyRefused]).map
      (fun g => (g.shutdownCalls, g.m_pendingWriteRequestId, g.queuedIds,
        g.m_shutdownRequestId)) = some ([], 0, [], 0) := by
  refine ⟨by decide, by decide, by decide, by decide⟩

/-- C3, amended: in a reachable gateway,
(1) a call of `slotShutdown` with a fresh id while a write is pending or writes are
queued returns without issuing an HTTP call and without touching the queue, and records
the id when no shutdown was deferred before;
(2) an event posts the shutdown request at most once, and if it does, the event is a
call of `slotShutdown` with no write pending and none queued, or a reply handler running
with a deferred shutdown, and after the event no write is pending and none is queued;
(3) when the reply of the pending write arrives while the queue is empty and a shutdown
is deferred, its handler posts the shutdown request exactly once, registered under the
deferred id, provided `accessNetwork` returns a manager at that moment; otherwise no
call is issued, `networkRequestFailed` is emitted for the deferred id, and the deferred id
is dropped. -/
theorem C3_shutdown_deferral (access : NetworkAccess) (g : Gateway)
    (hreach : Reachable access g) :
    (∀ id, g.Fresh id → (g.m_pendingWriteRequestId ≠ 0 ∨ g.m_queuedWriteRequests ≠ []) →
      (∀ fuel, 5 ≤ fuel → step fuel g (Event.slotShutdown id) =
        some (stepDirect g (Event.slotShutdown id))) ∧
      (stepDirect g (Event.slotShutdown id)).qt.calls = g.qt.calls ∧
      (stepDirect g (Event.slotShutdown id)).m_pendingWriteRequestId =
        g.m_pendingWriteRequestId ∧
      (stepDirect g (Event.slotShutdown id)).m_queuedWriteRequests =
        g.m_queuedWriteRequests ∧
      (stepDirect g (Event.slotShutdown id)).m_shutdownRequestId =
        (if g.m_shutdownRequestId = 0 then id else g.m_shutdownRequestId)) ∧
    (∀ event fuel g1, g.Admissible event → step fuel g event = some g1 →
      g1.shutdownCalls = g.shutdownCalls ∨
      ((∃ c, g1.shutdownCalls = g.shutdownCalls ++ [c]) ∧
        g1.m_pendingWriteRequestId = 0 ∧ g1.m_queuedWriteRequests = [] ∧
        g1.m_shutdownRequestId = 0 ∧
        ((∃ id, event = Event.slotShutdown id ∧ g.m_pendingWriteRequestId = 0 ∧
            g.m_queuedWriteRequests = []) ∨
          ((∃ reply d, event = Event.replyFinished reply d) ∧
            g.m_shutdownRequestId ≠ 0)))) ∧
    (∀ reply op d, List.lookup reply g.connections = some op → op.isWrite = true →
      g.m_queuedWriteRequests = [] → g.m_shutdownRequestId ≠ 0 →
      (∀ fuel, 5 ≤ fuel → step fuel g (Event.replyFinished reply d) =
        some (stepDirect g (Event.replyFinished reply d))) ∧
      ((g.m_jsonWebClient.accessNetwork g.m_shutdownRequestId).1 = true →
        (stepDirect g (Event.replyFinished reply d)).qt.calls =
          g.qt.calls ++ [shutdownCall (g.qt.nextReply + 1)] ∧
        (stepDirect g (Event.replyFinished reply d)).requestIdOf (g.qt.nextReply + 1) =
          g.m_shutdownRequestId ∧
        (stepDirect g (Event.replyFinished reply d)).m_shutdownRequestId = 0 ∧
        (stepDirect g (Event.replyFinished reply d)).m_pendingWriteRequestId = 0) ∧
      ((g.m_jsonWebClient.accessNetwork g.m_shutdownRequestId).1 = false →
        (stepDirect g (Event.replyFinished reply d)).qt.calls = g.qt.calls ∧
        (stepDirect g (Event.replyFinished reply d)).m_shutdownRequestId = 0 ∧
        (stepDirect g (Event.replyFinished reply d)).m_pendingWriteRequestId = 0 ∧
        ∃ msg, GatewaySignal.networkRequestFailed g.m_shutdownRequestId msg ∈
          (stepDirect g (Event.replyFinished reply d)).emitted)) := by
  have hinv := hreach.inv
  refine ⟨?_, ?_, ?_⟩
  · intro id hfresh hbusy
    refine ⟨fun fuel hfuel =>
      (step_direct g (Event.slotShutdown id) hinv.queue_valid hfresh fuel).2 hfuel, ?_⟩
    have h2 : (g.m_pendingWriteRequestId.isValid || !g.m_queuedWriteRequests.isEmpty)
        = true := by
      rcases hbusy with hp | hq
      · simp [RequestId.isValid, hp]
      · simp [hq]
    simp only [Gateway.stepDirect]
    unfold slotShutdownDirect
    by_cases ht : g.m_shutdownRequestId = 0
    · have h1 : ¬ (g.m_shutdownRequestId.isValid && g.m_shutdownRequestId != id) = true := by
        simp [RequestId.isValid, ht]
      rw [if_neg h1, if_pos h2, if_pos ht]
      exact ⟨rfl, rfl, rfl, rfl⟩
    · have h1 : (g.m_shutdownRequestId.isValid && g.m_shutdownRequestId != id) = true := by
        have hne : g.m_shutdownRequestId ≠ id := fun e => hfresh.2.2.2 e.symm
        simp [RequestId.isValid, ht, hne]
      rw [if_pos h1, if_neg ht]
      exact ⟨rfl, rfl, rfl, rfl⟩
  · intro event fuel g1 hadm hstep
    rcases (step_direct g event hinv.queue_valid hadm fuel).1 with hn | hs
    · rw [hn] at hstep
      cases hstep
    · rw [hs] at hstep
      cases hstep
      exact stepDirect_posts g event
  · intro reply op d hl hw hq ht
    refine ⟨fun fuel hfuel =>
      (step_direct g (Event.replyFinished reply d) hinv.queue_valid trivial fuel).2 hfuel, ?_⟩
    obtain ⟨hid, hx, _, hpend⟩ := hinv.received reply op d op.readsJson hl
    have hx0 : g.requestIdOf reply ≠ 0 := requestIdOf_valid hinv reply op hl
    obtain ⟨s, hs⟩ := handler_write hinv reply op d hl hw
    have hqt := receiveReply_qt g.m_jsonWebClient (g.qt.finish reply) reply d op.readsJson
    have hacc := receiveReply_access g.m_jsonWebClient (g.qt.finish reply) reply d
      op.readsJson
    obtain ⟨hd1, hd2⟩ := finish_drain
      { g with
        connections := g.connections.filter (fun c => c.1 != reply),
        m_jsonWebClient :=
          (g.m_jsonWebClient.receiveReply (g.qt.finish reply) reply d op.readsJson).2.1,
        qt := (g.m_jsonWebClient.receiveReply (g.qt.finish reply) reply d op.readsJson).2.2 }
      (g.requestIdOf reply) hx0 (hpend hw) hq ht
    simp only [JsonWebClient.accessNetwork, hacc, hqt.1, hqt.2] at hd1 hd2
    rw [hs]
    constructor
    · intro ha
      simp only [JsonWebClient.accessNetwork] at ha
      obtain ⟨a, b, c, e⟩ := hd1 ha
      exact ⟨a, b, c, e⟩
    · intro ha
      simp only [JsonWebClient.accessNetwork] at ha
      obtain ⟨a, b, c, msg, e⟩ := hd2 ha
      exact ⟨a, b, c, msg, List.mem_append_left _ e⟩

/-- C3, instance: `slotShutdown(9)` is called while the write with request id 1 is
outstanding and deferred. When the reply of the write arrives, with status 201 and the
network accessible, the shutdown request is posted, as second HTTP call. -/
theorem C3_shutdown_deferral_witness :
    (stepDirect writeThenShutdown (Event.replyFinished 1 (replyWithStatus 201))).qt.calls =
      writeThenShutdown.qt.calls ++ [shutdownCall (writeThenShutdown.qt.nextReply + 1)] ∧
    (stepDirect writeThenShutdown (Event.replyFinished 1 (replyWithStatus 201))).requestIdOf
      (writeThenShutdown.qt.nextReply + 1) = writeThenShutdown.m_shutdownRequestId ∧
    (stepDirect writeThenShutdown
      (Event.replyFinished 1 (replyWithStatus 201))).m_shutdownRequestId = 0 ∧
    (stepDirect writeThenShutdown
      (Event.replyFinished 1 (replyWithStatus 201))).m_pendingWriteRequestId = 0 :=
  ((C3_shutdown_deferral accessible writeThenShutdown writeThenShutdown_reachable).2.2
    1 Operation.CreateCollection (replyWithStatus 201) (by decide) (by decide) (by decide)
    (by decide)).2.1 (by decide)

end Gateway

end aoide

end mixxx

namespace mixxx

namespace network

namespace RequestId

/-! ## C11: request ids -/

theorem increment_lt (c : Nat) : increment c < 2 ^ 32 :=
  Nat.mod_lt _ (by decide)

/-- Two passes of the loop suffice, whatever the counter. -/
theorem nextValidLoop_two (fuel c : Nat) :
    nextValidLoop (fuel + 2) c =
      some (if increment c = 0 then 1 else increment c,
            if increment c = 0 then 1 else increment c) := by
  by_cases h : increment c = 0
  · have h2 : increment (increment c) = 1 := by rw [h]; rfl
    rw [nextValidLoop, if_neg (by simp [isValid, h]), nextValidLoop,
      if_pos (by simp [isValid, h2]), h2]
    simp [h]
  · simp [nextValidLoop, h, isValid]

theorem nextValid_eq (c : Nat) :
    nextValid c = (if increment c = 0 then 1 else increment c,
      if increment c = 0 then 1 else increment c) := by
  unfold nextValid
  rw [nextValidLoop_two 0 c]
  rfl

/-- On counter values up to `2^32 - 1` the next id is `c mod (2^32 - 1) + 1`. -/
theorem nextValid_mod (c : Nat) (hc : c < 2 ^ 32) :
    nextValid c = (c % (2 ^ 32 - 1) + 1, c % (2 ^ 32 - 1) + 1) := by
  rw [nextValid_eq]
  unfold increment
  have h32 : (2 : Nat) ^ 32 = 4294967296 := by norm_num
  rw [h32] at hc ⊢
  by_cases h : c = 4294967295
  · subst h
    rfl
  · have h1 : (c + 1) % 4294967296 = c + 1 := Nat.mod_eq_of_lt (by omega)
    have h2 : c % (4294967296 - 1) = c := Nat.mod_eq_of_lt (by omega)
    rw [h1, h2]
    simp

theorem counterAfter_lt (n c : Nat) (hc : c < 2 ^ 32) : counterAfter n c < 2 ^ 32 := by
  induction n generalizing c with
  | zero => exact hc
  | succ n ih =>
    apply ih
    rw [nextValid_mod c hc]
    have : c % (2 ^ 32 - 1) < 2 ^ 32 - 1 := Nat.mod_lt _ (by norm_num)
    show c % (2 ^ 32 - 1) + 1 < 2 ^ 32
    omega

theorem counterAfter_succ (n c : Nat) :
    counterAfter (n + 1) c = (nextValid (counterAfter n c)).2 := by
  induction n generalizing c with
  | zero => rfl
  | succ n ih =>
    show counterAfter (n + 1) (nextValid c).2 = _
    rw [ih]
    rfl

/-- Closed form of the id returned by call number `n + 1`. -/
theorem result_mod (n c : Nat) (hc : c < 2 ^ 32) :
    result n c = (c + n) % (2 ^ 32 - 1) + 1 ∧
    counterAfter (n + 1) c = (c + n) % (2 ^ 32 - 1) + 1 := by
  induction n with
  | zero =>
    have h := nextValid_mod c hc
    constructor
    · show (nextValid c).1 = _
      rw [h]
      rfl
    · show (nextValid c).2 = _
      rw [h]
      rfl
  | succ n ih =>
    have hlt := counterAfter_lt (n + 1) c hc
    have h := nextValid_mod (counterAfter (n + 1) c) hlt
    have hmod : ((c + n) % (2 ^ 32 - 1) + 1) % (2 ^ 32 - 1) = (c + (n + 1)) % (2 ^ 32 - 1) := by
      rw [Nat.mod_add_mod, Nat.add_assoc]
    constructor
    · show (nextValid (counterAfter (n + 1) c)).1 = _
      rw [h, ih.2, hmod]
    · rw [counterAfter_succ, h, ih.2, hmod]

/-- Ids handed out less than `2^32 - 1` calls apart are different. -/
theorem result_ne (c i j : Nat) (hc : c < 2 ^ 32) (hij : i < j) (hd : j - i < 2 ^ 32 - 1) :
    result i c ≠ result j c := by
  intro heq
  rw [(result_mod i c hc).1, (result_mod j c hc).1] at heq
  have hmod : (c + j) % (2 ^ 32 - 1) = (c + i) % (2 ^ 32 - 1) :=
    Nat.add_right_cancel heq.symm
  have hz := Nat.sub_mod_eq_zero_of_mod_eq hmod
  have hsub : c + j - (c + i) = j - i := by omega
  rw [hsub, Nat.mod_eq_of_lt hd] at hz
  omega

/-- C11, counterexample: from the initial counter 0 the first call of `nextValid` and
call number `2^32` both return the id 1, although only `2^32 - 2` calls, which is fewer
than `2^32 - 1`, lie in between: the ids repeat with period `2^32 - 1`. -/
theorem C11_nextValid_counterexample :
    result 0 0 = 1 ∧ result (2 ^ 32 - 1) 0 = 1 ∧ (2 ^ 32 - 1) - 0 - 1 < 2 ^ 32 - 1 := by
  refine ⟨?_, ?_, by norm_num⟩
  · rw [(result_mod 0 0 (by norm_num)).1]
    norm_num
  · rw [(result_mod (2 ^ 32 - 1) 0 (by norm_num)).1]
    norm_num

/-- C11, amended: `nextValid` returns within two passes of its loop; with the shared
counter at `c` it returns `(c + 1) mod 2^32`, except that a wrap to 0 is skipped and 1 is
returned, and leaves the counter at the returned value; the id is never the invalid
id 0. Two results with at most `2^32 - 3` calls in between, that is, two of any
`2^32 - 1` consecutive calls, are different, and until the wrap the results are the
successors `c + 1, c + 2, ...` of the counter, hence strictly increasing. A
default-constructed or reset id is invalid. -/
theorem C11_nextValid (c : Nat) (hc : c < 2 ^ 32) :
    (∀ fuel, 2 ≤ fuel → nextValidLoop fuel c = some (nextValid c)) ∧
    (nextValid c).1 = (if (c + 1) % 2 ^ 32 = 0 then 1 else (c + 1) % 2 ^ 32) ∧
    (nextValid c).2 = (nextValid c).1 ∧
    isValid (nextValid c).1 = true ∧
    (∀ n, isValid (result n c) = true) ∧
    (∀ i j, i < j → j - i < 2 ^ 32 - 1 → result i c ≠ result j c) ∧
    (∀ n, c + n + 1 < 2 ^ 32 → result n c = c + n + 1) ∧
    (∀ n, c + n + 2 < 2 ^ 32 → result n c < result (n + 1) c) ∧
    isValid RequestId.invalid = false ∧
    (∀ r, isValid (reset r) = false) := by
  have hP : (2 : Nat) ^ 32 - 1 = 4294967295 := by norm_num
  have hup : ∀ n, c + n + 1 < 2 ^ 32 → result n c = c + n + 1 := by
    intro n hn
    rw [(result_mod n c hc).1, Nat.mod_eq_of_lt (by omega)]
  refine ⟨?_, ?_, ?_, ?_, ?_, ?_, hup, ?_, rfl, fun _ => rfl⟩
  · intro fuel hfuel
    obtain ⟨k, rfl⟩ : ∃ k, fuel = k + 2 := ⟨fuel - 2, by omega⟩
    rw [nextValidLoop_two, nextValid_eq]
  · rw [nextValid_eq]
    rfl
  · rw [nextValid_eq]
  · rw [nextValid_mod c hc]
    simp [isValid]
  · intro n
    rw [(result_mod n c hc).1]
    simp [isValid]
  · exact fun i j hij hd => result_ne c i j hc hij hd
  · intro n hn
    rw [hup n (by omega), hup (n + 1) (by omega)]
    exact Nat.lt_succ_self _

/-- C11, instance: with the counter at `2^32 - 1` the increment wraps to 0, which is
skipped, and the id 1 is returned; the two following ids are 2 and 3. -/
theorem C11_nextValid_witness :
    (nextValid (2 ^ 32 - 1)).1 = 1 ∧ result 1 (2 ^ 32 - 1) ≠ result 2 (2 ^ 32 - 1) :=
  ⟨(C11_nextValid (2 ^ 32 - 1) (by norm_num)).2.1,
   (C11_nextValid (2 ^ 32 - 1) (by norm_num)).2.2.2.2.2.1 1 2 (by norm_num) (by norm_num)⟩

end RequestId

end network

end mixxx

namespace mixxx

namespace aoide

open network

namespace TrackReplacementScheduler

/-! ## C12: admission bounds -/

theorem enterLoading_eq (s : TrackReplacementScheduler) (ref : TrackRef) :
    s.enterLoading ref =
      if ref ∈ s.m_loadingTrackRefs then (false, s)
      else (true, { s with m_loadingTrackRefs := s.m_loadingTrackRefs ++ [ref] }) := by
  unfold enterLoading isLoading
  by_cases h : ref ∈ s.m_loadingTrackRefs
  · simp [h, List.count_pos_iff]
  · simp [h, List.count_pos_iff]

theorem leaveLoading_fst (s : TrackReplacementScheduler) (ref : TrackRef) :
    (s.leaveLoading ref).1 = decide (ref ∈ s.m_loadingTrackRefs) := by
  simp [leaveLoading, List.count_pos_iff]

/-- The loading loop, one pass unfolded. -/
theorem loadLoop_cons (ref : TrackRef) (rest : List TrackRef) (s : TrackReplacementScheduler) :
    loadLoop (ref :: rest) s =
      if s.m_loadingTrackRefs.length < kMaxLoading ∧ s.m_pendingCounter < (kMaxPending : Int) then
        if ref ∈ s.m_loadingTrackRefs then loadLoop rest { s with m_queuedTrackRefs := rest }
        else if s.m_trackLoader = false then
          { s with
            m_queuedTrackRefs := rest,
            m_loadingTrackRefs := s.m_loadingTrackRefs ++ [ref],
            m_failedCounter := s.m_failedCounter + 1 }
        else
          loadLoop rest
            { s with
              m_queuedTrackRefs := rest,
              m_loadingTrackRefs := s.m_loadingTrackRefs ++ [ref],
              m_pendingCounter := s.m_pendingCounter + 1,
              loadCalls := s.loadCalls ++ [ref] }
      else { s with m_queuedTrackRefs := ref :: rest } := by
  rw [loadLoop]
  simp only [enterLoading_eq]
  by_cases hg : s.m_loadingTrackRefs.length < kMaxLoading ∧ s.m_pendingCounter < (kMaxPending : Int)
  · rw [if_pos hg, if_pos hg]
    by_cases hm : ref ∈ s.m_loadingTrackRefs
    · simp [hm]
    · cases hl : s.m_trackLoader <;> simp [hm, hl]
  · rw [if_neg hg, if_neg hg]

theorem loadLoop_bounded (q : List TrackRef) (s : TrackReplacementScheduler)
    (h : Bounded s) : Bounded (loadLoop q s) := by
  induction q generalizing s with
  | nil => exact h
  | cons ref rest ih =>
    rw [loadLoop_cons]
    obtain ⟨h1, h2, h3, h4⟩ := h
    split_ifs with hg hm hl
    · exact ih _ ⟨h1, h2, h3, h4⟩
    · refine ⟨?_, ?_, h3, h4⟩
      · simp only [List.length_append, List.length_singleton]
        omega
      · exact List.Nodup.append h2 (List.nodup_singleton _) (by simpa using hm)
    · apply ih
      refine ⟨?_, ?_, ?_, h4⟩
      · simp only [List.length_append, List.length_singleton]
        omega
      · exact List.Nodup.append h2 (List.nodup_singleton _) (by simpa using hm)
      · show s.m_pendingCounter + 1 ≤ _
        omega
    · exact ⟨h1, h2, h3, h4⟩

theorem settle_bounded (s : TrackReplacementScheduler) (h : Bounded s) :
    Bounded (settle s) := by
  unfold settle emitProgress
  split_ifs <;> exact h

theorem makeProgressLoop_bounded (deferred : List (String × List TrackRef))
    (s : TrackReplacementScheduler) (h : Bounded s) :
    Bounded (makeProgressLoop deferred s) := by
  induction deferred generalizing s with
  | nil =>
    rw [makeProgressLoop]
    split_ifs
    · exact h
    · exact settle_bounded _ (loadLoop_bounded _ _ h)
  | cons nextBatch rest ih =>
    rw [makeProgressLoop]
    split_ifs
    · exact h
    · exact ih _ (settle_bounded _ (loadLoop_bounded _ _ h))
    · exact settle_bounded _ (loadLoop_bounded _ _ h)

theorem makeProgress_bounded (s : TrackReplacementScheduler) (h : Bounded s) :
    Bounded (makeProgress s) :=
  makeProgressLoop_bounded _ _ h

theorem leaveLoading_bounded (s : TrackReplacementScheduler) (ref : TrackRef)
    (h : Bounded s) :
    (s.leaveLoading ref).2.m_loadingTrackRefs.length ≤ kMaxLoading ∧
    (s.leaveLoading ref).2.m_loadingTrackRefs.Nodup := by
  obtain ⟨h1, h2, _, _⟩ := h
  exact ⟨le_trans (List.length_filter_le _ _) h1, h2.filter _⟩

theorem step_bounded (s : TrackReplacementScheduler) (event : Event) (h : Bounded s) :
    Bounded (s.step event) := by
  obtain ⟨h1, h2, h3, h4⟩ := h
  cases event with
  | slotReplaceTracks uid refs =>
    simp only [step, slotReplaceTracks]
    split_ifs
    · exact makeProgress_bounded _ ⟨h1, h2, h3, h4⟩
    · exact ⟨h1, h2, h3, h4⟩
  | slotCancel => exact makeProgress_bounded _ ⟨h1, h2, h3, h4⟩
  | onTrackLoaded ref trackPtr =>
    obtain ⟨hl1, hl2⟩ := leaveLoading_bounded s ref ⟨h1, h2, h3, h4⟩
    have hfail : Bounded (countFailed (s.leaveLoading ref).2) := by
      refine ⟨hl1, hl2, ?_, h4⟩
      show s.m_pendingCounter - 1 ≤ _
      omega
    simp only [step, onTrackLoaded]
    split_ifs with ha hb hc
    · exact ⟨h1, h2, h3, h4⟩
    · cases trackPtr with
      | none => exact hfail
      | some track =>
        exact hfail
    · cases trackPtr with
      | none => exact hfail
      | some track =>
        apply makeProgress_bounded
        exact ⟨hl1, hl2, h3, by simp [flush, kBatchSize]⟩
    · cases trackPtr with
      | none => exact hfail
      | some track =>
        apply makeProgress_bounded
        refine ⟨hl1, hl2, h3, ?_⟩
        have hlt : ¬ (s.m_bufferedRequests.length + 1 ≥ kBatchSize) := by
          intro hge
          exact hc (by simp [hge])
        simp only [List.length_append, List.length_singleton]
        omega
  | onReplaceTracksResult id result =>
    simp only [step, onReplaceTracksResult]
    split_ifs
    · apply makeProgress_bounded
      refine ⟨h1, h2, ?_, h4⟩
      show s.m_pendingCounter - _ - _ ≤ _
      omega
    · exact ⟨h1, h2, h3, h4⟩
  | onNetworkRequestFailed id msg =>
    simp only [step, onNetworkRequestFailed]
    split_ifs
    · apply makeProgress_bounded
      refine ⟨h1, h2, ?_, h4⟩
      show s.m_pendingCounter - 1 ≤ _
      omega
    · exact ⟨h1, h2, h3, h4⟩

theorem init_bounded (gateway trackLoader : Bool) (s_value : Nat) :
    Bounded (init gateway trackLoader s_value) := by
  refine ⟨?_, ?_, ?_, ?_⟩ <;> simp [init, kMaxLoading, kMaxPending, kBatchSize]

theorem reachable_bounded {gateway trackLoader : Bool} {s_value : Nat}
    {s : TrackReplacementScheduler} (h : Reachable gateway trackLoader s_value s) :
    Bounded s := by
  induction h with
  | init => exact init_bounded _ _ _
  | step s event _ ih => exact step_bounded s event ih

/-- C12: in every state the scheduler reaches from its construction through
`slotReplaceTracks`, `slotCancel`, `onTrackLoaded`, `onReplaceTracksResult` and
`onNetworkRequestFailed`, whatever their arguments, the loading set has at most 8
entries and no duplicates, `m_pendingCounter` is at most 144, and fewer than 64 exported
tracks are buffered. -/
theorem C12_admission_bounds (gateway trackLoader : Bool) (s_value : Nat)
    (s : TrackReplacementScheduler) (hreach : Reachable gateway trackLoader s_value s) :
    s.m_loadingTrackRefs.length ≤ 8 ∧ s.m_loadingTrackRefs.Nodup ∧
    s.m_pendingCounter ≤ 144 ∧ s.m_bufferedRequests.length < 64 :=
  reachable_bounded hreach

/-- C12, instance: 20 track refs are submitted for collection "C1"; 8 of them are
loading, and the bounds hold. -/
theorem C12_admission_bounds_witness :
    ((init true true 0).step
        (Event.slotReplaceTracks "C1" (List.range 20))).m_loadingTrackRefs.length ≤ 8 ∧
    ((init true true 0).step
        (Event.slotReplaceTracks "C1" (List.range 20))).m_pendingCounter ≤ 144 :=
  ⟨(C12_admission_bounds true true 0 _
      (Reachable.step _ (Event.slotReplaceTracks "C1" (List.range 20)) Reachable.init)).1,
   (C12_admission_bounds true true 0 _
      (Reachable.step _ (Event.slotReplaceTracks "C1" (List.range 20)) Reachable.init)).2.2.1⟩

end TrackReplacementScheduler

end aoide

end mixxx

namespace mixxx

namespace aoide

open network

namespace TrackReplacementScheduler

/-! ## What `makeProgress` leaves alone -/

/-- The loading loop touches neither the writes nor the signals, and counts one pending
track per load it starts. -/
theorem loadLoop_frame (q : List TrackRef) (s : TrackReplacementScheduler) :
    (loadLoop q s).writeCalls = s.writeCalls ∧
    (loadLoop q s).m_pendingRequests = s.m_pendingRequests ∧
    (loadLoop q s).m_bufferedRequests = s.m_bufferedRequests ∧
    (loadLoop q s).s_value = s.s_value ∧
    (loadLoop q s).progress = s.progress ∧
    (loadLoop q s).m_collectionUid = s.m_collectionUid ∧
    (loadLoop q s).m_deferredRequests = s.m_deferredRequests ∧
    (loadLoop q s).m_gateway = s.m_gateway ∧
    (loadLoop q s).m_trackLoader = s.m_trackLoader ∧
    (loadLoop q s).m_succeededCounter = s.m_succeededCounter ∧
    (loadLoop q s).m_pendingCounter - ((loadLoop q s).loadCalls.length : Int) =
      s.m_pendingCounter - (s.loadCalls.length : Int) ∧
    (∃ started, (loadLoop q s).loadCalls = s.loadCalls ++ started) := by
  induction q generalizing s with
  | nil => exact ⟨rfl, rfl, rfl, rfl, rfl, rfl, rfl, rfl, rfl, rfl, rfl, [], by simp [loadLoop]⟩
  | cons ref rest ih =>
    rw [loadLoop_cons]
    split_ifs
    · exact ih _
    · exact ⟨rfl, rfl, rfl, rfl, rfl, rfl, rfl, rfl, rfl, rfl, rfl, [], by simp⟩
    · obtain ⟨a, b, c, d, e, f, g, h, i, j, k, started, l⟩ := ih
        { s with
          m_queuedTrackRefs := rest,
          m_loadingTrackRefs := s.m_loadingTrackRefs ++ [ref],
          m_pendingCounter := s.m_pendingCounter + 1,
          loadCalls := s.loadCalls ++ [ref] }
      refine ⟨a, b, c, d, e, f, g, h, i, j, ?_, ref :: started, ?_⟩
      · rw [k]
        simp only [List.length_append, List.length_singleton]
        push_cast
        ring
      · rw [l]
        simp
    · exact ⟨rfl, rfl, rfl, rfl, rfl, rfl, rfl, rfl, rfl, rfl, rfl, [], by simp⟩

/-- The idle check emits one signal and changes no counter but the ones it resets. -/
theorem settle_frame (s : TrackReplacementScheduler) :
    (settle s).writeCalls = s.writeCalls ∧
    (settle s).m_pendingRequests = s.m_pendingRequests ∧
    (settle s).m_bufferedRequests = s.m_bufferedRequests ∧
    (settle s).s_value = s.s_value ∧
    (settle s).m_deferredRequests = s.m_deferredRequests ∧
    (settle s).m_gateway = s.m_gateway ∧
    (settle s).m_trackLoader = s.m_trackLoader ∧
    (settle s).m_pendingCounter = s.m_pendingCounter ∧
    (settle s).loadCalls = s.loadCalls ∧
    (settle s).m_queuedTrackRefs = s.m_queuedTrackRefs ∧
    (settle s).m_loadingTrackRefs = s.m_loadingTrackRefs ∧
    (settle s).progress = s.progress ++
      [{ queued := (s.m_queuedTrackRefs.length : Int), pending := s.m_pendingCounter,
         succeeded := (settle s).m_succeededCounter, failed := (settle s).m_failedCounter }] := by
  unfold settle emitProgress
  split_ifs <;> exact ⟨rfl, rfl, rfl, rfl, rfl, rfl, rfl, rfl, rfl, rfl, rfl, rfl⟩

/-- The collection stays active unless the queue is empty and nothing is pending. -/
theorem settle_uid (s : TrackReplacementScheduler) :
    ((s.m_queuedTrackRefs = [] ∧ s.m_pendingCounter = 0) →
      (settle s).m_collectionUid = "" ∧ (settle s).m_succeededCounter = 0 ∧
      (settle s).m_failedCounter = 0) ∧
    (¬ (s.m_queuedTrackRefs = [] ∧ s.m_pendingCounter = 0) →
      (settle s).m_collectionUid = s.m_collectionUid ∧
      (settle s).m_succeededCounter = s.m_succeededCounter ∧
      (settle s).m_failedCounter = s.m_failedCounter) := by
  unfold settle emitProgress
  constructor
  · rintro ⟨hq, hp⟩
    simp [hq, hp]
  · intro h
    have : (s.m_queuedTrackRefs.isEmpty && s.m_pendingCounter == 0) = false := by
      by_cases hq : s.m_queuedTrackRefs = []
      · have hp : s.m_pendingCounter ≠ 0 := fun e => h ⟨hq, e⟩
        simp [hq, hp]
      · simp [hq]
    simp [this]

theorem makeProgressLoop_frame (deferred : List (String × List TrackRef))
    (s : TrackReplacementScheduler) :
    (makeProgressLoop deferred s).writeCalls = s.writeCalls ∧
    (makeProgressLoop deferred s).m_pendingRequests = s.m_pendingRequests ∧
    (makeProgressLoop deferred s).m_bufferedRequests = s.m_bufferedRequests ∧
    (makeProgressLoop deferred s).s_value = s.s_value ∧
    (makeProgressLoop deferred s).m_gateway = s.m_gateway ∧
    (makeProgressLoop deferred s).m_trackLoader = s.m_trackLoader ∧
    (makeProgressLoop deferred s).m_pendingCounter -
        ((makeProgressLoop deferred s).loadCalls.length : Int) =
      s.m_pendingCounter - (s.loadCalls.length : Int) ∧
    (∃ started, (makeProgressLoop deferred s).loadCalls = s.loadCalls ++ started) ∧
    (∃ later, (makeProgressLoop deferred s).progress = s.progress ++ later) := by
  have one : ∀ s : TrackReplacementScheduler,
      (settle (loadLoop s.m_queuedTrackRefs s)).writeCalls = s.writeCalls ∧
      (settle (loadLoop s.m_queuedTrackRefs s)).m_pendingRequests = s.m_pendingRequests ∧
      (settle (loadLoop s.m_queuedTrackRefs s)).m_bufferedRequests = s.m_bufferedRequests ∧
      (settle (loadLoop s.m_queuedTrackRefs s)).s_value = s.s_value ∧
      (settle (loadLoop s.m_queuedTrackRefs s)).m_gateway = s.m_gateway ∧
      (settle (loadLoop s.m_queuedTrackRefs s)).m_trackLoader = s.m_trackLoader ∧
      (settle (loadLoop s.m_queuedTrackRefs s)).m_pendingCounter -
          ((settle (loadLoop s.m_queuedTrackRefs s)).loadCalls.length : Int) =
        s.m_pendingCounter - (s.loadCalls.length : Int) ∧
      (∃ started, (settle (loadLoop s.m_queuedTrackRefs s)).loadCalls =
        s.loadCalls ++ started) ∧
      (∃ later, (settle (loadLoop s.m_queuedTrackRefs s)).progress = s.progress ++ later) := by
    intro s
    obtain ⟨a, b, c, d, e, _, _, h, i, _, k, l⟩ := loadLoop_frame s.m_queuedTrackRefs s
    obtain ⟨a1, b1, c1, d1, _, f1, g1, h1, i1, _, _, l1⟩ :=
      settle_frame (loadLoop s.m_queuedTrackRefs s)
    refine ⟨a1.trans a, b1.trans b, c1.trans c, d1.trans d, f1.trans h, g1.trans i, ?_, ?_,
      ⟨_, by rw [l1, e]⟩⟩
    · rw [h1, i1]
      exact k
    · rw [i1]
      exact l
  induction deferred generalizing s with
  | nil =>
    rw [makeProgressLoop]
    split_ifs
    · exact ⟨rfl, rfl, rfl, rfl, rfl, rfl, rfl, ⟨[], by simp⟩, ⟨[], by simp⟩⟩
    · exact one s
  | cons nextBatch rest ih =>
    rw [makeProgressLoop]
    split_ifs
    · exact ⟨rfl, rfl, rfl, rfl, rfl, rfl, rfl, ⟨[], by simp⟩, ⟨[], by simp⟩⟩
    · obtain ⟨a, b, c, d, e, f, g, ⟨st, h⟩, ⟨lt, i⟩⟩ := one s
      obtain ⟨a1, b1, c1, d1, e1, f1, g1, ⟨st1, h1⟩, ⟨lt1, i1⟩⟩ := ih
        { settle (loadLoop s.m_queuedTrackRefs s) with
          m_deferredRequests := rest,
          m_collectionUid := nextBatch.1,
          m_queuedTrackRefs :=
            (settle (loadLoop s.m_queuedTrackRefs s)).m_queuedTrackRefs ++ nextBatch.2 }
      refine ⟨a1.trans a, b1.trans b, c1.trans c, d1.trans d, e1.trans e, f1.trans f,
        g1.trans g, ⟨st ++ st1, ?_⟩, ⟨lt ++ lt1, ?_⟩⟩
      · rw [h1]
        show (settle (loadLoop s.m_queuedTrackRefs s)).loadCalls ++ st1 = _
        rw [h, List.append_assoc]
      · rw [i1]
        show (settle (loadLoop s.m_queuedTrackRefs s)).progress ++ lt1 = _
        rw [i, List.append_assoc]
    · exact one s

/-- With no active collection `makeProgress` does nothing. -/
theorem makeProgress_inactive (s : TrackReplacementScheduler)
    (h : s.m_collectionUid = "") : makeProgress s = s := by
  unfold makeProgress
  cases hd : s.m_deferredRequests with
  | nil =>
    rw [makeProgressLoop, if_pos ((String.isEmpty_iff _).mpr h), ← hd]
  | cons nextBatch rest =>
    rw [makeProgressLoop, if_pos ((String.isEmpty_iff _).mpr h), ← hd]

end TrackReplacementScheduler

end aoide

end mixxx

namespace mixxx

namespace aoide

open network

namespace TrackReplacementScheduler

/-! ## C15, C16: results and cancellation -/

theorem makeProgress_frame (s : TrackReplacementScheduler) :
    (makeProgress s).writeCalls = s.writeCalls ∧
    (makeProgress s).m_pendingRequests = s.m_pendingRequests ∧
    (makeProgress s).m_bufferedRequests = s.m_bufferedRequests ∧
    (makeProgress s).s_value = s.s_value ∧
    (makeProgress s).m_gateway = s.m_gateway ∧
    (makeProgress s).m_trackLoader = s.m_trackLoader ∧
    (makeProgress s).m_pendingCounter - ((makeProgress s).loadCalls.length : Int) =
      s.m_pendingCounter - (s.loadCalls.length : Int) ∧
    (∃ started, (makeProgress s).loadCalls = s.loadCalls ++ started) ∧
    (∃ later, (makeProgress s).progress = s.progress ++ later) :=
  makeProgressLoop_frame _ s

/-- C15: for a request id in the pending-write set, `onReplaceTracksResult` accounts the
result and then calls `emitProgress` and `makeProgress`: it removes the id from the set
and keeps the other ids, decreases `m_pendingCounter` by `c + u + s + r + d`, and the
first progress signal it emits carries this decreased pending value, a succeeded value
that is `c + u + s` higher and a failed value that is `r + d` higher than before the
call. When the slot returns, `m_pendingCounter` is the decreased value plus one for
every load that `makeProgress` has started. For an id that is not in the set the slot
changes nothing: no counter, and no signal is emitted. -/
theorem C15_result_accounting (s : TrackReplacementScheduler) (requestId : RequestId)
    (result : ReplaceTracksResult) :
    (requestId ∈ s.m_pendingRequests →
      s.onReplaceTracksResult requestId result =
        makeProgress (emitProgress (account s requestId result)) ∧
      requestId ∉ (s.onReplaceTracksResult requestId result).m_pendingRequests ∧
      (∀ r, r ≠ requestId →
        (r ∈ (s.onReplaceTracksResult requestId result).m_pendingRequests ↔
          r ∈ s.m_pendingRequests)) ∧
      (account s requestId result).m_pendingCounter =
        s.m_pendingCounter - (result.total : Int) ∧
      (∃ later, (s.onReplaceTracksResult requestId result).progress =
        s.progress ++
          [{ queued := (s.m_queuedTrackRefs.length : Int),
             pending := s.m_pendingCounter - (result.total : Int),
             succeeded := s.m_succeededCounter +
               ((result.created.length + result.updated.length +
                 result.skipped.length : Nat) : Int),
             failed := s.m_failedCounter +
               ((result.rejected.length + result.discarded.length : Nat) : Int) }] ++
          later) ∧
      (s.onReplaceTracksResult requestId result).m_pendingCounter =
        s.m_pendingCounter - (result.total : Int) +
          (((s.onReplaceTracksResult requestId result).loadCalls.length : Int) -
            (s.loadCalls.length : Int))) ∧
    (requestId ∉ s.m_pendingRequests → s.onReplaceTracksResult requestId result = s) := by
  have hacc : (account s requestId result).m_pendingCounter =
      s.m_pendingCounter - (result.total : Int) := by
    simp only [account, ReplaceTracksResult.total]
    push_cast
    ring
  constructor
  · intro hmem
    have heq : s.onReplaceTracksResult requestId result =
        makeProgress (emitProgress (account s requestId result)) := by
      rw [onReplaceTracksResult, if_pos hmem]
    obtain ⟨_, hp, _, _, _, _, hc, _, ⟨later, hl⟩⟩ :=
      makeProgress_frame (emitProgress (account s requestId result))
    refine ⟨heq, ?_, ?_, hacc, ⟨later, ?_⟩, ?_⟩
    · rw [heq, hp]
      simp [emitProgress, account]
    · intro r hr
      rw [heq, hp]
      simp [emitProgress, account, hr]
    · rw [heq, hl]
      simp only [emitProgress, hacc]
      rfl
    · rw [heq]
      have hc2 : (makeProgress (emitProgress (account s requestId result))).m_pendingCounter -
          ((makeProgress (emitProgress (account s requestId result))).loadCalls.length : Int) =
          s.m_pendingCounter - (result.total : Int) - (s.loadCalls.length : Int) := by
        rw [hc, ← hacc]
        rfl
      omega
  · intro hmem
    rw [onReplaceTracksResult, if_neg hmem]

/-- C15, instance: the batch of three tracks sent under request id 1 is answered with
`created = [a, b]`, `rejected = [c]`: the progress signal reports pending 0 (3 less),
succeeded 2 and failed 1. -/
theorem C15_result_accounting_witness :
    ∃ later, (threeLoaded.onReplaceTracksResult 1
        { created := ["a", "b"], updated := [], skipped := [], rejected := ["c"],
          discarded := [] }).progress =
      threeLoaded.progress ++
        [{ queued := 0, pending := 3 - 3, succeeded := 0 + 2, failed := 0 + 1 }] ++ later :=
  ((C15_result_accounting threeLoaded 1
    { created := ["a", "b"], updated := [], skipped := [], rejected := ["c"],
      discarded := [] }).1 (by decide)).2.2.2.2.1

theorem slotCancel_eq (s : TrackReplacementScheduler) :
    s.slotCancel =
      { s with m_deferredRequests := [], m_collectionUid := "", m_queuedTrackRefs := [] } :=
  makeProgress_inactive _ rfl

/-- C16, counterexample: a batch of three tracks has been written under request id 1
and is pending (`m_pendingCounter` = 3). After `slotCancel` the id 1 is still in the
pending-write set, and the later `onReplaceTracksResult` for it changes the counters
from (3, 0, 0) to (0, 3, 0). -/
theorem C16_cancellation_counterexample :
    threeLoaded.writeCalls.map (fun w => w.requestId) = [1] ∧
    threeLoaded.slotCancel.m_pendingRequests = [1] ∧
    (threeLoaded.slotCancel.m_pendingCounter, threeLoaded.slotCancel.m_succeededCounter,
      threeLoaded.slotCancel.m_failedCounter) = (3, 0, 0) ∧
    ((threeLoaded.slotCancel.onReplaceTracksResult 1
        { created := ["a", "b", "c"], updated := [], skipped := [], rejected := [],
          discarded := [] }).m_pendingCounter,
      (threeLoaded.slotCancel.onReplaceTracksResult 1
        { created := ["a", "b", "c"], updated := [], skipped := [], rejected := [],
          discarded := [] }).m_succeededCounter,
      (threeLoaded.slotCancel.onReplaceTracksResult 1
        { created := ["a", "b", "c"], updated := [], skipped := [], rejected := [],
          discarded := [] }).m_failedCounter) = (0, 3, 0) := by
  refine ⟨by decide, by decide, by decide, by decide⟩

/-- C16, amended: `slotCancel` empties the deferred-request queue, the active collection
id and the active queue, and changes nothing else: the pending-write set, the loading
set and the counters are kept, so the request ids of writes dispatched before the cancel
are still tracked. A later `onReplaceTracksResult` for such an id is accounted as usual
(`m_pendingCounter` decreases by the size of the result, the succeeded and failed
counters increase) and takes the id out of the pending-write set. A later
`onNetworkRequestFailed` for such an id is not ignored either: it changes the state, as
it takes the id out of the set, and it leaves the succeeded counter as it is. Only for an
id that is not in the set both slots change nothing. -/
theorem C16_cancellation (s : TrackReplacementScheduler) :
    s.slotCancel.m_deferredRequests = [] ∧ s.slotCancel.m_collectionUid = "" ∧
    s.slotCancel.m_queuedTrackRefs = [] ∧
    s.slotCancel.m_pendingRequests = s.m_pendingRequests ∧
    s.slotCancel.m_loadingTrackRefs = s.m_loadingTrackRefs ∧
    s.slotCancel.m_pendingCounter = s.m_pendingCounter ∧
    s.slotCancel.m_succeededCounter = s.m_succeededCounter ∧
    s.slotCancel.m_failedCounter = s.m_failedCounter ∧
    (∀ requestId result, requestId ∈ s.m_pendingRequests →
      (s.slotCancel.onReplaceTracksResult requestId result).m_pendingCounter =
        s.m_pendingCounter - (result.total : Int) ∧
      (s.slotCancel.onReplaceTracksResult requestId result).m_succeededCounter =
        s.m_succeededCounter +
          ((result.created.length + result.updated.length + result.skipped.length : Nat) : Int) ∧
      (s.slotCancel.onReplaceTracksResult requestId result).m_failedCounter =
        s.m_failedCounter + ((result.rejected.length + result.discarded.length : Nat) : Int) ∧
      (s.slotCancel.onReplaceTracksResult requestId result).m_pendingRequests =
        s.m_pendingRequests.filter (fun r => r != requestId)) ∧
    (∀ requestId errorMessage, requestId ∈ s.m_pendingRequests →
      (s.slotCancel.onNetworkRequestFailed requestId errorMessage).m_pendingRequests =
        s.m_pendingRequests.filter (fun r => r != requestId) ∧
      s.slotCancel.onNetworkRequestFailed requestId errorMessage ≠ s.slotCancel ∧
      (s.slotCancel.onNetworkRequestFailed requestId errorMessage).m_succeededCounter =
        s.m_succeededCounter) ∧
    (∀ requestId result errorMessage, requestId ∉ s.m_pendingRequests →
      s.slotCancel.onReplaceTracksResult requestId result = s.slotCancel ∧
      s.slotCancel.onNetworkRequestFailed requestId errorMessage = s.slotCancel) := by
  rw [slotCancel_eq]
  refine ⟨rfl, rfl, rfl, rfl, rfl, rfl, rfl, rfl, ?_, ?_, ?_⟩
  · intro requestId result hmem
    rw [onReplaceTracksResult, if_pos hmem, makeProgress_inactive _ rfl]
    refine ⟨?_, rfl, rfl, rfl⟩
    simp only [emitProgress, account, ReplaceTracksResult.total]
    push_cast
    ring
  · intro requestId errorMessage hmem
    rw [onNetworkRequestFailed, if_pos hmem, makeProgress_inactive _ rfl]
    refine ⟨rfl, ?_, rfl⟩
    intro heq
    have hset := congrArg TrackReplacementScheduler.m_pendingRequests heq
    have hin : requestId ∈ s.m_pendingRequests.filter (fun r => r != requestId) := by
      have hset2 : s.m_pendingRequests.filter (fun r => r != requestId) =
          s.m_pendingRequests := hset
      rw [hset2]
      exact hmem
    simp at hin
  · intro requestId result errorMessage hmem
    constructor
    · rw [onReplaceTracksResult, if_neg hmem]
    · rw [onNetworkRequestFailed, if_neg hmem]

/-- C16, instance: cancelling while the write with request id 1 is pending keeps the
id, and its result with three created tracks brings `m_pendingCounter` from 3 to 0. -/
theorem C16_cancellation_witness :
    (threeLoaded.slotCancel.onReplaceTracksResult 1
        { created := ["a", "b", "c"], updated := [], skipped := [], rejected := [],
          discarded := [] }).m_pendingCounter =
      threeLoaded.m_pendingCounter -
        ((ReplaceTracksResult.total
          { created := ["a", "b", "c"], updated := [], skipped := [], rejected := [],
            discarded := [] } : Nat) : Int) :=
  ((C16_cancellation threeLoaded).2.2.2.2.2.2.2.2.1 1
    { created := ["a", "b", "c"], updated := [], skipped := [], rejected := [],
      discarded := [] } (by decide)).1

end TrackReplacementScheduler

end aoide

end mixxx

namespace mixxx

namespace aoide

open network

namespace TrackReplacementScheduler

/-! ## C14: one collection at a time -/

/-- When `makeProgress` changes the active collection, the idle check has fired: a
progress signal with nothing queued and nothing pending has been emitted. -/
theorem makeProgressLoop_switch (deferred : List (String × List TrackRef))
    (s : TrackReplacementScheduler)
    (h : (makeProgressLoop deferred s).m_collectionUid ≠ s.m_collectionUid) :
    ∃ earlier p later, (makeProgressLoop deferred s).progress =
        s.progress ++ earlier ++ [p] ++ later ∧ p.queued = 0 ∧ p.pending = 0 := by
  have key : ∀ s : TrackReplacementScheduler,
      (settle (loadLoop s.m_queuedTrackRefs s)).m_collectionUid ≠ s.m_collectionUid →
      ∃ p, (settle (loadLoop s.m_queuedTrackRefs s)).progress = s.progress ++ [p] ∧
        p.queued = 0 ∧ p.pending = 0 := by
    intro s hne
    have hf := loadLoop_frame s.m_queuedTrackRefs s
    have hs := settle_frame (loadLoop s.m_queuedTrackRefs s)
    have hu := settle_uid (loadLoop s.m_queuedTrackRefs s)
    by_cases hidle : (loadLoop s.m_queuedTrackRefs s).m_queuedTrackRefs = [] ∧
        (loadLoop s.m_queuedTrackRefs s).m_pendingCounter = 0
    · refine ⟨{ queued := ((loadLoop s.m_queuedTrackRefs s).m_queuedTrackRefs.length : Int),
                pending := (loadLoop s.m_queuedTrackRefs s).m_pendingCounter,
                succeeded := (settle (loadLoop s.m_queuedTrackRefs s)).m_succeededCounter,
                failed := (settle (loadLoop s.m_queuedTrackRefs s)).m_failedCounter },
        ?_, ?_, ?_⟩
      · rw [hs.2.2.2.2.2.2.2.2.2.2.2, hf.2.2.2.2.1]
      · simp [hidle.1]
      · exact hidle.2
    · exfalso
      apply hne
      rw [(hu.2 hidle).1, hf.2.2.2.2.2.1]
  cases deferred with
  | nil =>
    rw [makeProgressLoop] at h ⊢
    split_ifs at h ⊢ with he
    · exact absurd rfl h
    · obtain ⟨p, hp, hq, hpe⟩ := key s h
      exact ⟨[], p, [], by simpa using hp, hq, hpe⟩
  | cons nextBatch rest =>
    rw [makeProgressLoop] at h ⊢
    split_ifs at h ⊢ with he hi
    · exact absurd rfl h
    · have hne : (settle (loadLoop s.m_queuedTrackRefs s)).m_collectionUid ≠
          s.m_collectionUid := by
        intro e
        rw [e] at hi
        exact he hi
      obtain ⟨p, hp, hq, hpe⟩ := key s hne
      obtain ⟨_, _, _, _, _, _, _, _, ⟨later, hl⟩⟩ := makeProgressLoop_frame rest
        { settle (loadLoop s.m_queuedTrackRefs s) with
          m_deferredRequests := rest,
          m_collectionUid := nextBatch.1,
          m_queuedTrackRefs :=
            (settle (loadLoop s.m_queuedTrackRefs s)).m_queuedTrackRefs ++ nextBatch.2 }
      refine ⟨[], p, later, ?_, hq, hpe⟩
      rw [hl]
      show (settle (loadLoop s.m_queuedTrackRefs s)).progress ++ later = _
      rw [hp]
      simp
    · obtain ⟨p, hp, hq, hpe⟩ := key s h
      exact ⟨[], p, [], by simpa using hp, hq, hpe⟩

theorem makeProgress_switch (s : TrackReplacementScheduler)
    (h : (makeProgress s).m_collectionUid ≠ s.m_collectionUid) :
    ∃ earlier p later, (makeProgress s).progress =
        s.progress ++ earlier ++ [p] ++ later ∧ p.queued = 0 ∧ p.pending = 0 :=
  makeProgressLoop_switch _ s h

/-- Writes issued by one event carry the collection that is active when the event
arrives. -/
theorem step_writes (s : TrackReplacementScheduler) (event : Event) :
    ∃ new, (s.step event).writeCalls = s.writeCalls ++ new ∧
      ∀ w ∈ new, w.collectionUid = s.m_collectionUid := by
  cases event with
  | slotReplaceTracks uid refs =>
    refine ⟨[], ?_, by simp⟩
    simp only [step, slotReplaceTracks]
    split_ifs
    · rw [(makeProgress_frame _).1]
      simp
    · simp
  | slotCancel =>
    refine ⟨[], ?_, by simp⟩
    simp only [step, slotCancel]
    rw [(makeProgress_frame _).1]
    simp
  | onTrackLoaded ref trackPtr =>
    simp only [step, onTrackLoaded]
    split_ifs with ha hb hc
    · exact ⟨[], by simp, by simp⟩
    · cases trackPtr <;> exact ⟨[], by simp [countFailed, emitProgress, leaveLoading], by simp⟩
    · cases trackPtr with
      | none => exact ⟨[], by simp [countFailed, emitProgress, leaveLoading], by simp⟩
      | some track =>
        refine ⟨[{ requestId := (RequestId.nextValid s.s_value).1,
                   collectionUid := s.m_collectionUid,
                   tracks := s.m_bufferedRequests ++
                     [{ collectionUid := s.m_collectionUid, track := track }] }], ?_, ?_⟩
        · simp only
          rw [(makeProgress_frame _).1]
          rfl
        · intro w hw
          have : w = _ := List.mem_singleton.mp hw
          rw [this]
    · cases trackPtr with
      | none => exact ⟨[], by simp [countFailed, emitProgress, leaveLoading], by simp⟩
      | some track =>
        refine ⟨[], ?_, by simp⟩
        simp only
        rw [(makeProgress_frame _).1]
        simp [leaveLoading]
  | onReplaceTracksResult id result =>
    refine ⟨[], ?_, by simp⟩
    simp only [step, onReplaceTracksResult]
    split_ifs
    · rw [(makeProgress_frame _).1]
      simp [emitProgress, account]
    · simp
  | onNetworkRequestFailed id msg =>
    refine ⟨[], ?_, by simp⟩
    simp only [step, onNetworkRequestFailed]
    split_ifs
    · rw [(makeProgress_frame _).1]
      simp [emitProgress]
    · simp

/-- An event other than `slotCancel` changes the active collection only through the
idle check of `makeProgress`. -/
theorem step_switch (s : TrackReplacementScheduler) (event : Event)
    (hactive : s.m_collectionUid ≠ "") (hevent : event ≠ Event.slotCancel)
    (h : (s.step event).m_collectionUid ≠ s.m_collectionUid) :
    ∃ earlier p later, (s.step event).progress = s.progress ++ earlier ++ [p] ++ later ∧
      p.queued = 0 ∧ p.pending = 0 := by
  have hne : s.m_collectionUid.isEmpty = false := by
    cases he : s.m_collectionUid.isEmpty
    · rfl
    · exact absurd ((String.isEmpty_iff _).mp he) hactive
  cases event with
  | slotReplaceTracks uid refs =>
    simp only [step, slotReplaceTracks] at h ⊢
    split_ifs at h ⊢ with hc
    · have hu : s.m_collectionUid = uid := by simpa [hne] using hc
      subst hu
      exact makeProgress_switch _ h
    · exact absurd rfl h
  | slotCancel => exact absurd rfl hevent
  | onTrackLoaded ref trackPtr =>
    simp only [step, onTrackLoaded] at h ⊢
    split_ifs at h ⊢ with ha hb hc
    · exact absurd rfl h
    · cases trackPtr <;> exact absurd rfl h
    · cases trackPtr with
      | none => exact absurd rfl h
      | some track => exact makeProgress_switch _ h
    · cases trackPtr with
      | none => exact absurd rfl h
      | some track => exact makeProgress_switch _ h
  | onReplaceTracksResult id result =>
    simp only [step, onReplaceTracksResult] at h ⊢
    split_ifs at h ⊢
    · obtain ⟨earlier, p, later, hp, hq, hpe⟩ := makeProgress_switch _ h
      obtain ⟨p0, hp0⟩ : ∃ p0, (emitProgress (account s id result)).progress =
          s.progress ++ [p0] := ⟨_, rfl⟩
      refine ⟨p0 :: earlier, p, later, ?_, hq, hpe⟩
      rw [hp, hp0]
      simp
    · exact absurd rfl h
  | onNetworkRequestFailed id msg =>
    simp only [step, onNetworkRequestFailed] at h ⊢
    split_ifs at h ⊢
    · obtain ⟨earlier, p, later, hp, hq, hpe⟩ := makeProgress_switch _ h
      obtain ⟨p0, hp0⟩ : ∃ p0,
          (emitProgress
            { s with
              m_pendingRequests := s.m_pendingRequests.filter (fun r => r != id),
              m_pendingCounter := s.m_pendingCounter - 1,
              m_failedCounter := s.m_failedCounter + 1 }).progress =
          s.progress ++ [p0] := ⟨_, rfl⟩
      refine ⟨p0 :: earlier, p, later, ?_, hq, hpe⟩
      rw [hp, hp0]
      simp
    · exact absurd rfl h

/-- C14: let collection A be active. (1) `slotReplaceTracks` for a different
collection B only appends `(B, refs)` to the deferred requests; the active collection,
its queue and everything else are unchanged. (2) Every `replaceTracks` write issued
while an event is handled carries the collection that was active when the event
arrived, so none is issued for B while A is active. (3) An event other than
`slotCancel` changes the active collection only after the idle check of `makeProgress`
has found the queue empty and `m_pendingCounter` at 0, which shows in a progress signal
with queued 0 and pending 0. (4) Until then `makeProgress` keeps the active collection
and the deferred requests; at that point it activates the deferred request at the head
of the queue, so deferred requests become active in the order in which they were
deferred. -/
theorem C14_collection_isolation (s : TrackReplacementScheduler)
    (hactive : s.m_collectionUid ≠ "") :
    (∀ collectionUid trackRefs, collectionUid ≠ s.m_collectionUid →
      s.slotReplaceTracks collectionUid trackRefs =
        { s with
          m_deferredRequests := s.m_deferredRequests ++ [(collectionUid, trackRefs)] }) ∧
    (∀ event, ∃ new, (s.step event).writeCalls = s.writeCalls ++ new ∧
      ∀ w ∈ new, w.collectionUid = s.m_collectionUid) ∧
    (∀ event, event ≠ Event.slotCancel →
      (s.step event).m_collectionUid ≠ s.m_collectionUid →
      ∃ earlier p later, (s.step event).progress = s.progress ++ earlier ++ [p] ++ later ∧
        p.queued = 0 ∧ p.pending = 0) ∧
    (¬ ((loadLoop s.m_queuedTrackRefs s).m_queuedTrackRefs = [] ∧
        (loadLoop s.m_queuedTrackRefs s).m_pendingCounter = 0) →
      (makeProgress s).m_collectionUid = s.m_collectionUid ∧
      (makeProgress s).m_deferredRequests = s.m_deferredRequests) ∧
    (∀ nextBatch rest, s.m_deferredRequests = nextBatch :: rest →
      (loadLoop s.m_queuedTrackRefs s).m_queuedTrackRefs = [] →
      (loadLoop s.m_queuedTrackRefs s).m_pendingCounter = 0 →
      makeProgress s =
        makeProgress
          { settle (loadLoop s.m_queuedTrackRefs s) with
            m_deferredRequests := rest,
            m_collectionUid := nextBatch.1,
            m_queuedTrackRefs := nextBatch.2 }) := by
  have hne : s.m_collectionUid.isEmpty = false := by
    cases he : s.m_collectionUid.isEmpty
    · rfl
    · exact absurd ((String.isEmpty_iff _).mp he) hactive
  refine ⟨?_, step_writes s, fun event he h => step_switch s event hactive he h, ?_, ?_⟩
  · intro uid refs hu
    rw [slotReplaceTracks, if_neg]
    simp [hne, Ne.symm hu]
  · intro hidle
    have hu := (settle_uid (loadLoop s.m_queuedTrackRefs s)).2 hidle
    have hf := loadLoop_frame s.m_queuedTrackRefs s
    have hs := settle_frame (loadLoop s.m_queuedTrackRefs s)
    have hkeep : (settle (loadLoop s.m_queuedTrackRefs s)).m_collectionUid.isEmpty = false := by
      rw [hu.1, hf.2.2.2.2.2.1]
      exact hne
    unfold makeProgress
    cases hd : s.m_deferredRequests with
    | nil =>
      rw [makeProgressLoop, if_neg (by simp [hne])]
      exact ⟨hu.1.trans hf.2.2.2.2.2.1, rfl⟩
    | cons nextBatch rest =>
      rw [makeProgressLoop, if_neg (by simp [hne]), if_neg (by simp [hkeep])]
      exact ⟨hu.1.trans hf.2.2.2.2.2.1, rfl⟩
  · intro nextBatch rest hd hq hp
    have hu := (settle_uid (loadLoop s.m_queuedTrackRefs s)).1 ⟨hq, hp⟩
    have hs := settle_frame (loadLoop s.m_queuedTrackRefs s)
    have hempty : (settle (loadLoop s.m_queuedTrackRefs s)).m_collectionUid.isEmpty = true := by
      rw [hu.1]
      rfl
    have hqueue : (settle (loadLoop s.m_queuedTrackRefs s)).m_queuedTrackRefs = [] := by
      rw [hs.2.2.2.2.2.2.2.2.2.1, hq]
    unfold makeProgress
    rw [hd, makeProgressLoop, if_neg (by simp [hne]), if_pos hempty, hqueue]
    rfl

/-- C14, instance: while collection "C1" is active with three tracks pending,
`slotReplaceTracks` for "C2" is deferred; the write issued for the loaded tracks is for
"C1", and "C2" becomes active when the result for it has arrived. -/
theorem C14_collection_isolation_witness :
    threeLoaded.slotReplaceTracks "C2" [20] =
      { threeLoaded with
        m_deferredRequests := threeLoaded.m_deferredRequests ++ [("C2", [20])] } :=
  (C14_collection_isolation threeLoaded (by decide)).1 "C2" [20] (by decide)

end TrackReplacementScheduler

end aoide

end mixxx

namespace mixxx

namespace aoide

open network

namespace TrackReplacementScheduler

/-! ## C13: batch sizes -/

/-- With a loader at hand and pairwise distinct track refs, the loading loop moves the
first `m` queued refs into the loading set and counts them as pending. -/
theorem loadLoop_coop (q : List TrackRef) (s : TrackReplacementScheduler)
    (hl : s.m_trackLoader = true) (hn : (q ++ s.m_loadingTrackRefs).Nodup) :
    ∃ m, m ≤ q.length ∧
      (loadLoop q s).m_queuedTrackRefs = q.drop m ∧
      (loadLoop q s).m_loadingTrackRefs = s.m_loadingTrackRefs ++ q.take m ∧
      (loadLoop q s).m_pendingCounter = s.m_pendingCounter + (m : Int) := by
  induction q generalizing s with
  | nil => exact ⟨0, le_refl _, rfl, by simp [loadLoop], by simp [loadLoop]⟩
  | cons ref rest ih =>
    rw [loadLoop_cons]
    have hnot : ref ∉ s.m_loadingTrackRefs := by
      intro hm
      have := List.nodup_append.mp hn
      exact this.2.2 (List.mem_cons_self _ _) hm
    by_cases hg : s.m_loadingTrackRefs.length < kMaxLoading ∧
        s.m_pendingCounter < (kMaxPending : Int)
    · rw [if_pos hg, if_neg hnot, if_neg (by simp [hl])]
      have hn2 : (rest ++ (s.m_loadingTrackRefs ++ [ref])).Nodup := by
        have hp : (rest ++ (s.m_loadingTrackRefs ++ [ref])).Perm
            (ref :: rest ++ s.m_loadingTrackRefs) := by
          rw [← List.append_assoc]
          exact (List.perm_append_singleton _ _).trans (List.Perm.refl _)
        exact hp.nodup_iff.mpr hn
      obtain ⟨m, hm1, hm2, hm3, hm4⟩ := ih
        { s with
          m_queuedTrackRefs := rest,
          m_loadingTrackRefs := s.m_loadingTrackRefs ++ [ref],
          m_pendingCounter := s.m_pendingCounter + 1,
          loadCalls := s.loadCalls ++ [ref] } hl hn2
      refine ⟨m + 1, by simpa using hm1, ?_, ?_, ?_⟩
      · rw [hm2]
        rfl
      · rw [hm3]
        simp
      · rw [hm4]
        show s.m_pendingCounter + 1 + (m : Int) = s.m_pendingCounter + ((m + 1 : Nat) : Int)
        push_cast
        ring
    · rw [if_neg hg]
      exact ⟨0, Nat.zero_le _, rfl, by simp, by simp⟩

/-- Sum of the sizes of the batches whose request id is in a set of pending ids. -/
theorem inflight_append (ws : List ReplaceTracksCall) (pending : List RequestId)
    (w : ReplaceTracksCall) (hfresh : ∀ v ∈ ws, v.requestId ≠ w.requestId) :
    (((ws ++ [w]).filter
        (fun v => decide (v.requestId ∈ pending ++ [w.requestId]))).map
        (fun v => v.tracks.length)).sum =
      ((ws.filter (fun v => decide (v.requestId ∈ pending))).map
        (fun v => v.tracks.length)).sum + w.tracks.length := by
  induction ws with
  | nil => simp
  | cons v rest ih =>
    have hv : v.requestId ≠ w.requestId := hfresh v (List.mem_cons_self _ _)
    have ih2 := ih (fun u hu => hfresh u (List.mem_cons_of_mem _ hu))
    have hmem : v.requestId ∈ pending ++ [w.requestId] ↔ v.requestId ∈ pending := by
      simp [hv]
    simp only [List.cons_append, List.filter_cons, hmem]
    by_cases hp : v.requestId ∈ pending
    · simp only [hp, decide_True, if_true, List.map_cons, List.sum_cons]
      rw [ih2]
      omega
    · simp only [hp, decide_False, Bool.false_eq_true, if_false]
      exact ih2

theorem inflight_remove (ws : List ReplaceTracksCall) (pending : List RequestId)
    (w : ReplaceTracksCall) (hnodup : (ws.map (fun v => v.requestId)).Nodup)
    (hw : w ∈ ws) (hp : w.requestId ∈ pending) :
    ((ws.filter
        (fun v => decide (v.requestId ∈ pending.filter (fun r => r != w.requestId)))).map
        (fun v => v.tracks.length)).sum + w.tracks.length =
      ((ws.filter (fun v => decide (v.requestId ∈ pending))).map
        (fun v => v.tracks.length)).sum := by
  induction ws with
  | nil => cases hw
  | cons v rest ih =>
    have hnd := List.nodup_cons.mp hnodup
    rcases List.mem_cons.mp hw with he | hin
    · subst he
      have hrest : ∀ u ∈ rest, u.requestId ≠ w.requestId := by
        intro u hu e
        exact hnd.1 (List.mem_map.mpr ⟨u, hu, e⟩)
      have hsame : rest.filter
          (fun v => decide (v.requestId ∈ pending.filter (fun r => r != w.requestId))) =
          rest.filter (fun v => decide (v.requestId ∈ pending)) := by
        apply List.filter_congr
        intro u hu
        simp [List.mem_filter, hrest u hu]
      simp only [List.filter_cons, hp, decide_True, if_true, List.map_cons, List.sum_cons]
      have hnotin : w.requestId ∉ pending.filter (fun r => r != w.requestId) := by
        simp [List.mem_filter]
      simp only [hnotin, decide_False, Bool.false_eq_true, if_false]
      rw [hsame]
      omega
    · have hv : v.requestId ≠ w.requestId := by
        intro e
        exact hnd.1 (List.mem_map.mpr ⟨w, hin, e.symm⟩)
      have ih2 := ih hnd.2 hin
      simp only [List.filter_cons]
      by_cases hpv : v.requestId ∈ pending
      · have : v.requestId ∈ pending.filter (fun r => r != w.requestId) := by
          simp [List.mem_filter, hpv, hv]
        simp only [this, hpv, decide_True, if_true, List.map_cons, List.sum_cons]
        omega
      · have : v.requestId ∉ pending.filter (fun r => r != w.requestId) := by
          simp [List.mem_filter, hpv]
        simp only [this, hpv, decide_False, Bool.false_eq_true, if_false]
        exact ih2

end TrackReplacementScheduler

end aoide

end mixxx

namespace mixxx

namespace aoide

open network

namespace TrackReplacementScheduler

theorem Cooperating.size_pos {uid : String} {N c0 : Nat} {s : TrackReplacementScheduler}
    (h : Cooperating uid N c0 s) : ∀ w ∈ s.writeCalls, 0 < w.tracks.length := by
  intro w hw
  have hmem : w.tracks.length ∈ s.writeCalls.map (fun w => w.tracks.length) :=
    List.mem_map.mpr ⟨w, hw, rfl⟩
  rw [h.sizes] at hmem
  rcases List.mem_append.mp hmem with h1 | h1
  · rw [(List.mem_replicate.mp h1).2]
    decide
  · split_ifs at h1 with hz
    · cases h1
    · rw [List.mem_singleton.mp h1]
      exact Nat.pos_of_ne_zero hz

theorem Cooperating.calls_le {uid : String} {N c0 : Nat} {s : TrackReplacementScheduler}
    (h : Cooperating uid N c0 s) : s.writeCalls.length ≤ N := by
  have hlen := congrArg List.length h.sizes
  have ht := h.total
  simp only [List.length_map, List.length_append, List.length_replicate, kBatchSize] at hlen
  split_ifs at hlen with hz
  · simp only [List.length_nil] at hlen
    omega
  · simp only [List.length_singleton] at hlen
    omega

/-- The request id of the next write differs from the ids of the writes so far. -/
theorem Cooperating.fresh {uid : String} {N c0 : Nat} {s : TrackReplacementScheduler}
    (h : Cooperating uid N c0 s) (hc0 : c0 < 2 ^ 32) (hN : N < 2 ^ 31) :
    ∀ v ∈ s.writeCalls, v.requestId ≠ RequestId.result s.writeCalls.length c0 := by
  intro v hv
  have hmem : v.requestId ∈ s.writeCalls.map (fun w => w.requestId) :=
    List.mem_map.mpr ⟨v, hv, rfl⟩
  rw [h.ids] at hmem
  obtain ⟨i, hi, he⟩ := List.mem_map.mp hmem
  have hik : i < s.writeCalls.length := List.mem_range.mp hi
  have hk := h.calls_le
  rw [← he]
  apply RequestId.result_ne c0 i _ hc0 hik
  have : (2 : Nat) ^ 31 = 2147483648 := by norm_num
  have : (2 : Nat) ^ 32 = 4294967296 := by norm_num
  omega

theorem Cooperating.ids_nodup {uid : String} {N c0 : Nat} {s : TrackReplacementScheduler}
    (h : Cooperating uid N c0 s) (hc0 : c0 < 2 ^ 32) (hN : N < 2 ^ 31) :
    (s.writeCalls.map (fun w => w.requestId)).Nodup := by
  rw [h.ids]
  apply List.Nodup.map_on _ (List.nodup_range _)
  intro x hx y hy hxy
  have hxk : x < s.writeCalls.length := List.mem_range.mp hx
  have hyk : y < s.writeCalls.length := List.mem_range.mp hy
  have hk := h.calls_le
  have h31 : (2 : Nat) ^ 31 = 2147483648 := by norm_num
  have h32 : (2 : Nat) ^ 32 = 4294967296 := by norm_num
  by_contra hne
  rcases Nat.lt_or_gt_of_ne hne with hlt | hgt
  · exact RequestId.result_ne c0 x y hc0 hlt (by omega) hxy
  · exact RequestId.result_ne c0 y x hc0 hgt (by omega) hxy.symm

/-- With nothing in flight no write is pending. -/
theorem Cooperating.pending_nil {uid : String} {N c0 : Nat} {s : TrackReplacementScheduler}
    (h : Cooperating uid N c0 s) (hz : s.inflight = 0) : s.m_pendingRequests = [] := by
  by_contra hne
  obtain ⟨id, hid⟩ := List.exists_mem_of_ne_nil _ hne
  obtain ⟨w, hw, he⟩ := List.mem_map.mp (h.tracked id hid)
  have hpos := h.size_pos w hw
  have hin : w ∈ s.writeCalls.filter (fun w => decide (w.requestId ∈ s.m_pendingRequests)) := by
    rw [List.mem_filter]
    refine ⟨hw, ?_⟩
    have : w.requestId ∈ s.m_pendingRequests := by
      rw [show w.requestId = id from he]
      exact hid
    simpa using this
  have hle : w.tracks.length ≤ s.inflight := by
    unfold inflight
    exact List.single_le_sum (fun _ _ => Nat.zero_le _) _
      (List.mem_map.mpr ⟨w, hin, rfl⟩)
  omega

theorem length_filter_remove (l : List TrackRef) (a : TrackRef) (hn : l.Nodup) (ha : a ∈ l) :
    (l.filter (fun r => r != a)).length + 1 = l.length := by
  induction l with
  | nil => cases ha
  | cons b rest ih =>
    have hnd := List.nodup_cons.mp hn
    rcases List.mem_cons.mp ha with he | hin
    · subst he
      have : rest.filter (fun r => r != a) = rest := by
        apply List.filter_eq_self.mpr
        intro x hx
        have : x ≠ a := fun e => hnd.1 (e ▸ hx)
        simpa using this
      simp [this]
    · have hb : b ≠ a := fun e => hnd.1 (e ▸ hin)
      simp [hb, ih hnd.2 hin]

/-- The effect of `makeProgress` on a cooperative run: some queued refs start loading. -/
theorem Cooperating.of_moved {uid : String} {N c0 : Nat} {s s1 : TrackReplacementScheduler}
    (h : Cooperating uid N c0 s) (m : Nat) (hm : m ≤ s.m_queuedTrackRefs.length)
    (hg : s1.m_gateway = s.m_gateway) (hl : s1.m_trackLoader = s.m_trackLoader)
    (hd : s1.m_deferredRequests = [])
    (hq : s1.m_queuedTrackRefs = s.m_queuedTrackRefs.drop m)
    (hld : s1.m_loadingTrackRefs = s.m_loadingTrackRefs ++ s.m_queuedTrackRefs.take m)
    (hb : s1.m_bufferedRequests = s.m_bufferedRequests)
    (hw : s1.writeCalls = s.writeCalls)
    (hp : s1.m_pendingRequests = s.m_pendingRequests)
    (hpc : s1.m_pendingCounter = s.m_pendingCounter + (m : Int))
    (hs : s1.s_value = s.s_value)
    (hu : s1.m_collectionUid = uid ∨ (s1.m_queuedTrackRefs = [] ∧ s1.m_pendingCounter = 0)) :
    Cooperating uid N c0 s1 := by
  have hwr : s1.written = s.written := by simp [written, hw]
  have hin : s1.inflight = s.inflight := by simp [inflight, hw, hp]
  have hlen : s1.m_loadingTrackRefs.length = s.m_loadingTrackRefs.length + m := by
    rw [hld, List.length_append, List.length_take, Nat.min_eq_left hm]
  have hpend : s1.m_pendingCounter =
      ((s1.m_loadingTrackRefs.length + s1.m_bufferedRequests.length + s1.inflight : Nat) : Int) := by
    rw [hpc, h.pending, hlen, hb, hin]
    push_cast
    ring
  refine ⟨hg.trans h.gateway, hl.trans h.loader, hd, ?_, by rw [hb]; exact h.buffered_lt, ?_,
    ?_, ?_, ?_, hpend, ?_, ?_, ?_, ?_⟩
  · rw [hq, hld]
    have hperm : (s.m_queuedTrackRefs.drop m ++
        (s.m_loadingTrackRefs ++ s.m_queuedTrackRefs.take m)).Perm
        (s.m_queuedTrackRefs ++ s.m_loadingTrackRefs) := by
      have h1 : (s.m_queuedTrackRefs.drop m ++
          (s.m_loadingTrackRefs ++ s.m_queuedTrackRefs.take m)).Perm
          ((s.m_loadingTrackRefs ++ s.m_queuedTrackRefs.take m) ++
            s.m_queuedTrackRefs.drop m) := List.perm_append_comm
      rw [List.append_assoc, List.take_append_drop] at h1
      exact h1.trans List.perm_append_comm
    exact hperm.nodup_iff.mpr h.nodup
  · intro hq0 hl0
    rw [hb]
    rw [hld] at hl0
    rw [hq] at hq0
    have hl1 := (List.append_eq_nil.mp hl0).1
    have ht1 := (List.append_eq_nil.mp hl0).2
    have hq1 : s.m_queuedTrackRefs = [] := by
      rw [← List.take_append_drop m s.m_queuedTrackRefs, ht1, hq0]
      rfl
    exact h.drained hq1 hl1
  · rw [hq, hlen, hb, hwr, List.length_drop]
    have := h.total
    omega
  · rw [hw, hwr]
    exact h.sizes
  · intro hz
    rw [hwr] at hz
    obtain ⟨hq1, hl1⟩ := h.last hz
    rw [hq, hld, hq1, hl1]
    simp
  · rw [hw]
    exact h.ids
  · rw [hs, hw]
    exact h.counter
  · intro id hid
    rw [hw]
    rw [hp] at hid
    exact h.tracked id hid
  · rcases hu with hu | ⟨hq0, hp0⟩
    · exact Or.inl hu
    · right
      rw [hpend] at hp0
      have hsum : s1.m_loadingTrackRefs.length + s1.m_bufferedRequests.length + s1.inflight = 0 := by
        exact_mod_cast hp0
      have hl0 : s1.m_loadingTrackRefs = [] := List.length_eq_zero.mp (by omega)
      have hi0 : s.inflight = 0 := by omega
      exact ⟨hl0, by rw [hp]; exact h.pending_nil hi0⟩

end TrackReplacementScheduler

end aoide

end mixxx

namespace mixxx

namespace aoide

open network

namespace TrackReplacementScheduler

theorem isEmpty_false_of_ne {u : String} (h : u ≠ "") : u.isEmpty = false := by
  cases he : u.isEmpty
  · rfl
  · exact absurd ((String.isEmpty_iff _).mp he) h

/-- `makeProgress` keeps the invariant of a cooperative run. -/
theorem Cooperating.makeProgress {uid : String} {N c0 : Nat} {s : TrackReplacementScheduler}
    (h : Cooperating uid N c0 s) (hu : s.m_collectionUid = uid) (huid : uid ≠ "") :
    Cooperating uid N c0 (makeProgress s) := by
  have hne : s.m_collectionUid.isEmpty = false := by
    rw [hu]
    exact isEmpty_false_of_ne huid
  have heq : TrackReplacementScheduler.makeProgress s =
      { settle (loadLoop s.m_queuedTrackRefs s) with m_deferredRequests := [] } := by
    unfold TrackReplacementScheduler.makeProgress
    rw [h.deferred, makeProgressLoop, if_neg (by simp [hne])]
  obtain ⟨m, hm, hq, hl, hp⟩ := loadLoop_coop s.m_queuedTrackRefs s h.loader h.nodup
  obtain ⟨fw, fp, fb, fs, _, fu, _, fg, fl, _, _, _⟩ := loadLoop_frame s.m_queuedTrackRefs s
  obtain ⟨sw, sp, sb, ss, _, sg, sl, spc, _, sq, sld, _⟩ :=
    settle_frame (loadLoop s.m_queuedTrackRefs s)
  have hsu := settle_uid (loadLoop s.m_queuedTrackRefs s)
  rw [heq]
  refine h.of_moved m hm (sg.trans fg) (sl.trans fl) rfl (sq.trans hq) (sld.trans hl)
    (sb.trans fb) (sw.trans fw) (sp.trans fp) (spc.trans hp) (ss.trans fs) ?_
  by_cases hidle : (loadLoop s.m_queuedTrackRefs s).m_queuedTrackRefs = [] ∧
      (loadLoop s.m_queuedTrackRefs s).m_pendingCounter = 0
  · right
    exact ⟨sq.trans hidle.1, spc.trans hidle.2⟩
  · left
    exact ((hsu.2 hidle).1.trans fu).trans hu

/-- The scheduler after the call of `slotReplaceTracks` that starts the run. -/
theorem Cooperating.start (uid : String) (refs : List TrackRef) (c0 : Nat)
    (huid : uid ≠ "") (hn : refs.Nodup) :
    Cooperating uid refs.length c0 ((init true true c0).slotReplaceTracks uid refs) := by
  have h0 : Cooperating uid refs.length c0
      { init true true c0 with m_collectionUid := uid, m_queuedTrackRefs := [] ++ refs } := by
    refine ⟨rfl, rfl, rfl, ?_, by simp [init, kBatchSize], ?_, ?_, ?_, ?_, ?_, rfl, rfl, ?_,
      Or.inl rfl⟩
    · simpa [init] using hn
    · intro _ _
      rfl
    · simp [init, written]
    · simp [init, written]
    · intro hz
      simp [init, written] at hz
    · simp [init, inflight]
    · intro id hid
      simp [init] at hid
  have heq : (init true true c0).slotReplaceTracks uid refs =
      TrackReplacementScheduler.makeProgress
        { init true true c0 with m_collectionUid := uid, m_queuedTrackRefs := [] ++ refs } := by
    rw [slotReplaceTracks, if_pos (by rfl)]
    rfl
  rw [heq]
  exact h0.makeProgress rfl huid

end TrackReplacementScheduler

end aoide

end mixxx

namespace mixxx

namespace aoide

open network

namespace TrackReplacementScheduler

/-- The state of `onTrackLoaded` after the loaded track has been buffered. -/
theorem Cooperating.buffer {uid : String} {N c0 : Nat} {s : TrackReplacementScheduler}
    (h : Cooperating uid N c0 s) (ref : TrackRef) (t : AoideTrack)
    (hmem : ref ∈ s.m_loadingTrackRefs) (hu : s.m_collectionUid = uid)
    (hlt : s.m_bufferedRequests.length + 1 < kBatchSize)
    (hmore : ¬ (s.m_queuedTrackRefs = [] ∧
      s.m_loadingTrackRefs.filter (fun r => r != ref) = [])) :
    Cooperating uid N c0
      { (s.leaveLoading ref).2 with m_bufferedRequests := s.m_bufferedRequests ++ [t] } := by
  have hnl : s.m_loadingTrackRefs.Nodup := (List.nodup_append.mp h.nodup).2.1
  have hlen := length_filter_remove s.m_loadingTrackRefs ref hnl hmem
  have hW0 : s.written % kBatchSize = 0 := by
    by_contra hz
    rw [(h.last hz).2] at hmem
    cases hmem
  refine ⟨h.gateway, h.loader, h.deferred, ?_, ?_, ?_, ?_, h.sizes, ?_, ?_, h.ids, h.counter,
    h.tracked, Or.inl hu⟩
  · exact h.nodup.sublist ((List.Sublist.refl _).append (List.filter_sublist _))
  · simpa using hlt
  · intro hq hl
    exact absurd ⟨hq, hl⟩ hmore
  · have := h.total
    show s.m_queuedTrackRefs.length + (s.m_loadingTrackRefs.filter (fun r => r != ref)).length +
      (s.m_bufferedRequests ++ [t]).length + s.written = N
    simp only [List.length_append, List.length_singleton]
    omega
  · intro hz
    exact absurd hW0 hz
  · show s.m_pendingCounter =
      (((s.m_loadingTrackRefs.filter (fun r => r != ref)).length +
        (s.m_bufferedRequests ++ [t]).length + s.inflight : Nat) : Int)
    rw [h.pending]
    simp only [List.length_append, List.length_singleton]
    congr 1
    omega

/-- The state of `onTrackLoaded` after the buffered tracks have been handed to the
gateway. -/
theorem Cooperating.flush {uid : String} {N c0 : Nat} {s : TrackReplacementScheduler}
    (h : Cooperating uid N c0 s) (hc0 : c0 < 2 ^ 32) (hN : N < 2 ^ 31)
    (ref : TrackRef) (t : AoideTrack)
    (hmem : ref ∈ s.m_loadingTrackRefs) (hu : s.m_collectionUid = uid)
    (hcond : kBatchSize ≤ s.m_bufferedRequests.length + 1 ∨
      (s.m_queuedTrackRefs = [] ∧ s.m_loadingTrackRefs.filter (fun r => r != ref) = [])) :
    Cooperating uid N c0
      (TrackReplacementScheduler.flush
        { (s.leaveLoading ref).2 with m_bufferedRequests := s.m_bufferedRequests ++ [t] }) := by
  have hnl : s.m_loadingTrackRefs.Nodup := (List.nodup_append.mp h.nodup).2.1
  have hlen := length_filter_remove s.m_loadingTrackRefs ref hnl hmem
  have hW0 : s.written % kBatchSize = 0 := by
    by_contra hz
    rw [(h.last hz).2] at hmem
    cases hmem
  have hblt := h.buffered_lt
  have hid : (RequestId.nextValid s.s_value).1 = RequestId.result s.writeCalls.length c0 := by
    rw [h.counter]
    rfl
  have hfresh := h.fresh hc0 hN
  have hnotin : (RequestId.nextValid s.s_value).1 ∉ s.m_pendingRequests := by
    intro hin
    obtain ⟨v, hv, he⟩ := List.mem_map.mp (h.tracked _ hin)
    exact hfresh v hv (he.trans hid)
  have hwritten : (TrackReplacementScheduler.flush
      { (s.leaveLoading ref).2 with
        m_bufferedRequests := s.m_bufferedRequests ++ [t] }).written =
      s.written + (s.m_bufferedRequests.length + 1) := by
    simp [written, TrackReplacementScheduler.flush, leaveLoading]
  have hinflight : (TrackReplacementScheduler.flush
      { (s.leaveLoading ref).2 with
        m_bufferedRequests := s.m_bufferedRequests ++ [t] }).inflight =
      s.inflight + (s.m_bufferedRequests.length + 1) := by
    unfold inflight
    simp only [TrackReplacementScheduler.flush, leaveLoading, if_neg hnotin]
    have := inflight_append s.writeCalls s.m_pendingRequests
      { requestId := (RequestId.nextValid s.s_value).1,
        collectionUid := s.m_collectionUid,
        tracks := s.m_bufferedRequests ++ [t] }
      (fun v hv => by
        rw [hid]
        exact hfresh v hv)
    rw [this]
    simp
  refine ⟨h.gateway, h.loader, h.deferred, ?_, ?_, ?_, ?_, ?_, ?_, ?_, ?_, ?_, ?_, Or.inl hu⟩
  · exact h.nodup.sublist ((List.Sublist.refl _).append (List.filter_sublist _))
  · show ([] : List AoideTrack).length < kBatchSize
    decide
  · intro _ _
    rfl
  · rw [hwritten]
    have := h.total
    show s.m_queuedTrackRefs.length + (s.m_loadingTrackRefs.filter (fun r => r != ref)).length +
      ([] : List AoideTrack).length + (s.written + (s.m_bufferedRequests.length + 1)) = N
    simp only [List.length_nil]
    omega
  · rw [hwritten]
    show (s.writeCalls ++ [(_ : ReplaceTracksCall)]).map (fun w : ReplaceTracksCall => w.tracks.length) = _
    rw [List.map_append, h.sizes, if_pos hW0, List.append_nil]
    simp only [kBatchSize] at hW0 hblt hcond ⊢
    simp only [List.map_cons, List.map_nil, List.length_append, List.length_singleton]
    by_cases hfull : s.m_bufferedRequests.length + 1 = 64
    · rw [hfull]
      have h1 : (s.written + 64) / 64 = s.written / 64 + 1 := by omega
      have h2 : (s.written + 64) % 64 = 0 := by omega
      rw [h1, h2, if_pos rfl, List.append_nil, List.replicate_succ']
    · have h1 : (s.written + (s.m_bufferedRequests.length + 1)) / 64 = s.written / 64 := by
        omega
      have h2 : (s.written + (s.m_bufferedRequests.length + 1)) % 64 =
          s.m_bufferedRequests.length + 1 := by omega
      rw [h1, h2, if_neg (by omega)]
  · rw [hwritten]
    intro hz
    simp only [kBatchSize] at hW0 hblt hcond hz
    rcases hcond with hge | hdone
    · exfalso
      have : s.m_bufferedRequests.length + 1 = 64 := by omega
      omega
    · exact hdone
  · rw [hinflight]
    show s.m_pendingCounter =
      (((s.m_loadingTrackRefs.filter (fun r => r != ref)).length +
        ([] : List AoideTrack).length +
        (s.inflight + (s.m_bufferedRequests.length + 1)) : Nat) : Int)
    rw [h.pending]
    simp only [List.length_nil]
    congr 1
    omega
  · show (s.writeCalls ++ [(_ : ReplaceTracksCall)]).map (fun w : ReplaceTracksCall => w.requestId) =
      (List.range (s.writeCalls ++ [(_ : ReplaceTracksCall)]).length).map (fun i => RequestId.result i c0)
    rw [List.map_append, h.ids, List.length_append, List.length_singleton, List.range_succ,
      List.map_append]
    simp only [List.map_cons, List.map_nil]
    exact congrArg (fun x => _ ++ [x]) hid
  · show (RequestId.nextValid s.s_value).2 =
      RequestId.counterAfter (s.writeCalls ++ [(_ : ReplaceTracksCall)]).length c0
    rw [List.length_append, List.length_singleton, RequestId.counterAfter_succ, h.counter]
  · intro id hidm
    have hidm2 : id ∈ s.m_pendingRequests ++ [(RequestId.nextValid s.s_value).1] := by
      simpa [TrackReplacementScheduler.flush, leaveLoading, hnotin] using hidm
    show id ∈ (s.writeCalls ++ [(_ : ReplaceTracksCall)]).map (fun w : ReplaceTracksCall => w.requestId)
    rw [List.map_append]
    rcases List.mem_append.mp hidm2 with h1 | h1
    · exact List.mem_append_left _ (h.tracked id h1)
    · apply List.mem_append_right
      simpa using h1

end TrackReplacementScheduler

end aoide

end mixxx

namespace mixxx

namespace aoide

open network

namespace TrackReplacementScheduler

/-- A loaded track that was loading keeps the invariant of a cooperative run. -/
theorem Cooperating.onTrackLoaded {uid : String} {N c0 : Nat} {s : TrackReplacementScheduler}
    (h : Cooperating uid N c0 s) (huid : uid ≠ "") (hc0 : c0 < 2 ^ 32) (hN : N < 2 ^ 31)
    (ref : TrackRef) (track : Track) (hmem : ref ∈ s.m_loadingTrackRefs) :
    ∃ x : TrackReplacementScheduler, Cooperating uid N c0 x ∧ x.m_collectionUid = uid ∧
      s.onTrackLoaded ref (some track) = TrackReplacementScheduler.makeProgress x := by
  have hu : s.m_collectionUid = uid := by
    rcases h.active with h1 | h1
    · exact h1
    · rw [h1.1] at hmem
      cases hmem
  have hlv : (s.leaveLoading ref).1 = true := by
    rw [leaveLoading_fst]
    exact decide_eq_true hmem
  have hgate : (!s.m_gateway || s.m_collectionUid.isEmpty) = false := by
    rw [h.gateway, hu, isEmpty_false_of_ne huid]
    rfl
  unfold TrackReplacementScheduler.onTrackLoaded
  rw [if_neg (by simp [hlv])]
  simp only
  rw [if_neg (by simp [hgate])]
  have hfl : (s.leaveLoading ref).2.m_loadingTrackRefs =
      s.m_loadingTrackRefs.filter (fun r => r != ref) := rfl
  by_cases hcond : (decide ((s.m_bufferedRequests.length + 1) ≥ kBatchSize) ||
      (s.m_queuedTrackRefs.isEmpty &&
        (s.leaveLoading ref).2.m_loadingTrackRefs.isEmpty)) = true
  · rw [if_pos hcond]
    refine ⟨_,
      h.flush hc0 hN ref { collectionUid := s.m_collectionUid, track := track } hmem hu ?_,
      hu, rfl⟩
    rw [hfl] at hcond
    simpa [List.isEmpty_iff] using hcond
  · rw [if_neg hcond]
    rw [hfl] at hcond
    have hcond2 : ¬ (kBatchSize ≤ s.m_bufferedRequests.length + 1 ∨
        (s.m_queuedTrackRefs = [] ∧ s.m_loadingTrackRefs.filter (fun r => r != ref) = [])) := by
      simpa [List.isEmpty_iff] using hcond
    refine ⟨_,
      h.buffer ref { collectionUid := s.m_collectionUid, track := track } hmem hu ?_ ?_,
      hu, rfl⟩
    · exact Nat.lt_of_not_le (fun hle => hcond2 (Or.inl hle))
    · exact fun hd => hcond2 (Or.inr hd)

/-- The result of a pending write that accounts for its whole batch keeps the invariant
of a cooperative run. -/
theorem Cooperating.onReplaceTracksResult {uid : String} {N c0 : Nat}
    {s : TrackReplacementScheduler}
    (h : Cooperating uid N c0 s) (hc0 : c0 < 2 ^ 32) (hN : N < 2 ^ 31)
    (requestId : RequestId) (result : ReplaceTracksResult)
    (hcoop : s.Cooperative (Event.onReplaceTracksResult requestId result)) :
    ∃ x : TrackReplacementScheduler, Cooperating uid N c0 x ∧ x.m_collectionUid = uid ∧
      s.onReplaceTracksResult requestId result = TrackReplacementScheduler.makeProgress x := by
  obtain ⟨hp, w, hw, hwid, htot⟩ := hcoop
  have hu : s.m_collectionUid = uid := by
    rcases h.active with h1 | h1
    · exact h1
    · rw [h1.2] at hp
      cases hp
  have hrem := inflight_remove s.writeCalls s.m_pendingRequests w (h.ids_nodup hc0 hN) hw
    (by rw [hwid]; exact hp)
  rw [hwid] at hrem
  unfold TrackReplacementScheduler.onReplaceTracksResult
  rw [if_pos hp]
  refine ⟨emitProgress (account s requestId result),
    ⟨h.gateway, h.loader, h.deferred, h.nodup, h.buffered_lt, h.drained, h.total,
      h.sizes, h.last, ?_, h.ids, h.counter, ?_, Or.inl hu⟩, hu, rfl⟩
  · show s.m_pendingCounter -
        ((result.created.length + result.updated.length + result.skipped.length : Nat) : Int) -
        ((result.rejected.length + result.discarded.length : Nat) : Int) =
      ((s.m_loadingTrackRefs.length + s.m_bufferedRequests.length +
        ((s.writeCalls.filter
          (fun v => decide (v.requestId ∈ s.m_pendingRequests.filter
            (fun r => r != requestId)))).map (fun v => v.tracks.length)).sum : Nat) : Int)
    rw [h.pending]
    unfold inflight
    unfold ReplaceTracksResult.total at htot
    push_cast
    have hrem2 := congrArg (fun n : Nat => (n : Int)) hrem
    simp only at hrem2
    push_cast at hrem2
    have htot2 := congrArg (fun n : Nat => (n : Int)) htot
    simp only at htot2
    push_cast at htot2
    linarith
  · intro id hid
    exact h.tracked id (List.mem_of_mem_filter hid)

/-- The loading loop stops only at one of its bounds. -/
theorem loadLoop_saturated (q : List TrackRef) (s : TrackReplacementScheduler)
    (hl : s.m_trackLoader = true) : Saturated (loadLoop q s) := by
  induction q generalizing s with
  | nil => exact fun hne => absurd rfl hne
  | cons ref rest ih =>
    rw [loadLoop_cons]
    by_cases hg : s.m_loadingTrackRefs.length < kMaxLoading ∧
        s.m_pendingCounter < (kMaxPending : Int)
    · rw [if_pos hg]
      by_cases hm : ref ∈ s.m_loadingTrackRefs
      · rw [if_pos hm]
        exact ih _ hl
      · rw [if_neg hm, if_neg (by simp [hl])]
        exact ih _ hl
    · rw [if_neg hg]
      exact fun _ => hg

/-- After `makeProgress` the invariant of a cooperative run holds and the loading loop
has stopped at one of its bounds. -/
theorem Cooperating.progressed {uid : String} {N c0 : Nat} {s : TrackReplacementScheduler}
    (h : Cooperating uid N c0 s) (hu : s.m_collectionUid = uid) (huid : uid ≠ "") :
    Cooperating uid N c0 (TrackReplacementScheduler.makeProgress s) ∧
      Saturated (TrackReplacementScheduler.makeProgress s) := by
  refine ⟨h.makeProgress hu huid, ?_⟩
  have hne : s.m_collectionUid.isEmpty = false := by
    rw [hu]
    exact isEmpty_false_of_ne huid
  have heq : TrackReplacementScheduler.makeProgress s =
      { settle (loadLoop s.m_queuedTrackRefs s) with m_deferredRequests := [] } := by
    unfold TrackReplacementScheduler.makeProgress
    rw [h.deferred, makeProgressLoop, if_neg (by simp [hne])]
  obtain ⟨_, _, _, _, _, _, _, spc, _, sq, sld, _⟩ :=
    settle_frame (loadLoop s.m_queuedTrackRefs s)
  have hsat := loadLoop_saturated s.m_queuedTrackRefs s h.loader
  rw [heq]
  intro hq
  show ¬ ((settle (loadLoop s.m_queuedTrackRefs s)).m_loadingTrackRefs.length < kMaxLoading ∧
    (settle (loadLoop s.m_queuedTrackRefs s)).m_pendingCounter < (kMaxPending : Int))
  rw [sld, spc]
  apply hsat
  rw [← sq]
  exact hq

/-- Every state of a cooperative run satisfies the invariant, and its loading loop has
stopped at one of its bounds. -/
theorem Cooperating.run {uid : String} {N c0 : Nat} (huid : uid ≠ "") (hc0 : c0 < 2 ^ 32)
    (hN : N < 2 ^ 31) (events : List Event) :
    ∀ s : TrackReplacementScheduler, Cooperating uid N c0 s ∧ Saturated s →
      s.CooperativeRun events →
      Cooperating uid N c0 (s.run events) ∧ Saturated (s.run events) := by
  induction events with
  | nil => exact fun s h _ => h
  | cons event rest ih =>
    intro s h hrun
    obtain ⟨hco, hrest⟩ := hrun
    refine ih _ ?_ hrest
    cases event with
    | slotReplaceTracks collectionUid trackRefs => exact absurd hco (by simp [Cooperative])
    | slotCancel => exact absurd hco (by simp [Cooperative])
    | onNetworkRequestFailed requestId errorMessage => exact absurd hco (by simp [Cooperative])
    | onTrackLoaded trackRef trackPtr =>
      obtain ⟨hmem, hsome⟩ := hco
      cases trackPtr with
      | none => cases hsome
      | some track =>
        obtain ⟨x, hx, hxu, hxe⟩ := h.1.onTrackLoaded huid hc0 hN trackRef track hmem
        show Cooperating uid N c0 (s.onTrackLoaded trackRef (some track)) ∧
          Saturated (s.onTrackLoaded trackRef (some track))
        rw [hxe]
        exact hx.progressed hxu huid
    | onReplaceTracksResult requestId result =>
      obtain ⟨x, hx, hxu, hxe⟩ := h.1.onReplaceTracksResult hc0 hN requestId result hco
      show Cooperating uid N c0 (s.onReplaceTracksResult requestId result) ∧
        Saturated (s.onReplaceTracksResult requestId result)
      rw [hxe]
      exact hx.progressed hxu huid

/-- Once every load has been delivered and every write answered, nothing is queued. -/
theorem Cooperating.quiet {uid : String} {N c0 : Nat} {s : TrackReplacementScheduler}
    (h : Cooperating uid N c0 s) (hs : Saturated s)
    (hl : s.m_loadingTrackRefs = []) (hp : s.m_pendingRequests = []) :
    s.m_queuedTrackRefs = [] := by
  by_contra hq
  apply hs hq
  have hin : s.inflight = 0 := by
    unfold inflight
    rw [hp]
    simp
  have hpc := h.pending
  have hb := h.buffered_lt
  rw [hl, hin] at hpc
  rw [hl, hpc]
  simp only [kBatchSize, kMaxLoading, kMaxPending] at hb ⊢
  simp only [List.length_nil]
  constructor
  · decide
  · omega

/-- Once nothing is queued or loading, all tracks have been written in full batches and
one last batch. -/
theorem Cooperating.done {uid : String} {N c0 : Nat} {s : TrackReplacementScheduler}
    (h : Cooperating uid N c0 s) (hq : s.m_queuedTrackRefs = [])
    (hl : s.m_loadingTrackRefs = []) :
    s.writeCalls.map (fun w => w.tracks.length) =
      List.replicate (N / kBatchSize) kBatchSize ++
        (if N % kBatchSize = 0 then [] else [N % kBatchSize]) := by
  have hb := h.drained hq hl
  have ht := h.total
  rw [hq, hl, hb] at ht
  simp only [List.length_nil, Nat.zero_add] at ht
  rw [h.sizes, ht]

end TrackReplacementScheduler

end aoide

end mixxx

namespace mixxx

namespace aoide

open network

namespace TrackReplacementScheduler

/-- The scheduler after the call of `slotReplaceTracks` that starts a cooperative run. -/
theorem Cooperating.started (uid : String) (refs : List TrackRef) (c0 : Nat)
    (huid : uid ≠ "") (hn : refs.Nodup) :
    Saturated ((init true true c0).slotReplaceTracks uid refs) := by
  have h0 : Cooperating uid refs.length c0
      { init true true c0 with m_collectionUid := uid, m_queuedTrackRefs := [] ++ refs } := by
    refine ⟨rfl, rfl, rfl, ?_, by simp [init, kBatchSize], ?_, ?_, ?_, ?_, ?_, rfl, rfl, ?_,
      Or.inl rfl⟩
    · simpa [init] using hn
    · intro _ _
      rfl
    · simp [init, written]
    · simp [init, written]
    · intro hz
      exact absurd (by simp [init, written]) hz
    · simp [init, inflight]
    · intro id hid
      cases hid
  unfold TrackReplacementScheduler.slotReplaceTracks
  rw [if_pos (by rfl)]
  exact (h0.progressed rfl huid).2

/-- Full batches followed by the rest: all but the last entry are 64. -/
theorem batches_get (N i : Nat)
    (hi : i + 1 < (List.replicate (N / kBatchSize) kBatchSize ++
      (if N % kBatchSize = 0 then [] else [N % kBatchSize])).length) :
    (List.replicate (N / kBatchSize) kBatchSize ++
      (if N % kBatchSize = 0 then [] else [N % kBatchSize]))[i]? = some kBatchSize := by
  have hlt : i < N / kBatchSize := by
    split_ifs at hi with hz
    · simp at hi
      omega
    · simp at hi
      omega
  rw [List.getElem?_append_left (by simpa using hlt)]
  simp [List.getElem?_replicate, hlt]

/-- Full batches followed by the rest: the last entry. -/
theorem batches_getLast (N : Nat) (hN : 1 ≤ N) :
    (List.replicate (N / kBatchSize) kBatchSize ++
      (if N % kBatchSize = 0 then [] else [N % kBatchSize])).getLast? =
      some (N - kBatchSize * ((N + 63) / kBatchSize - 1)) := by
  simp only [kBatchSize]
  by_cases hz : N % 64 = 0
  · rw [if_pos hz, List.append_nil]
    obtain ⟨a, ha⟩ : ∃ a, N / 64 = a + 1 := ⟨N / 64 - 1, by omega⟩
    rw [ha, List.replicate_succ', List.getLast?_append]
    simp
    omega
  · rw [if_neg hz, List.getLast?_append]
    simp
    omega

/-- Full batches followed by the rest: the number of entries. -/
theorem batches_length (N : Nat) :
    (List.replicate (N / kBatchSize) kBatchSize ++
      (if N % kBatchSize = 0 then [] else [N % kBatchSize])).length =
      (N + 63) / kBatchSize := by
  simp only [kBatchSize]
  split_ifs with hz
  · simp
    omega
  · simp
    omega

end TrackReplacementScheduler

end aoide

end mixxx

namespace mixxx

namespace aoide

open network

namespace TrackReplacementScheduler

/-- Claim C13, scheduler batch sizes. An idle scheduler with a gateway and a track loader
receives one call of `slotReplaceTracks` with `N` pairwise distinct track refs for a
collection; then events arrive of which each is a successful load of a track that is
loading or the result of a pending write that accounts for the whole batch of that write.
Once no track is loading and no write is pending, nothing is queued or buffered any more,
and the scheduler has issued exactly `ceil (N / 64)` writes: full batches of 64 tracks
and, if 64 does not divide `N`, one last batch with the rest. All writes but the last
carry 64 tracks and, for `N ≥ 1`, the last carries `N - 64 * (ceil (N / 64) - 1)`. -/
theorem C13_batch_sizes (collectionUid : String) (trackRefs : List TrackRef) (c0 : Nat)
    (events : List Event)
    (huid : collectionUid ≠ "") (hnodup : trackRefs.Nodup)
    (hlen : trackRefs.length < 2 ^ 31) (hc0 : c0 < 2 ^ 32)
    (hrun : ((init true true c0).slotReplaceTracks collectionUid trackRefs).CooperativeRun
      events)
    (hloaded : (((init true true c0).slotReplaceTracks collectionUid trackRefs).run
      events).m_loadingTrackRefs = [])
    (hanswered : (((init true true c0).slotReplaceTracks collectionUid trackRefs).run
      events).m_pendingRequests = []) :
    (((init true true c0).slotReplaceTracks collectionUid trackRefs).run
        events).m_queuedTrackRefs = [] ∧
    (((init true true c0).slotReplaceTracks collectionUid trackRefs).run
        events).m_bufferedRequests = [] ∧
    (((init true true c0).slotReplaceTracks collectionUid trackRefs).run
        events).writeCalls.map (fun w => w.tracks.length) =
      List.replicate (trackRefs.length / 64) 64 ++
        (if trackRefs.length % 64 = 0 then [] else [trackRefs.length % 64]) ∧
    (((init true true c0).slotReplaceTracks collectionUid trackRefs).run
        events).writeCalls.length = (trackRefs.length + 63) / 64 ∧
    (∀ i, i + 1 < (((init true true c0).slotReplaceTracks collectionUid trackRefs).run
        events).writeCalls.length →
      ((((init true true c0).slotReplaceTracks collectionUid trackRefs).run
        events).writeCalls.map (fun w => w.tracks.length))[i]? = some 64) ∧
    (1 ≤ trackRefs.length →
      ((((init true true c0).slotReplaceTracks collectionUid trackRefs).run
        events).writeCalls.map (fun w => w.tracks.length)).getLast? =
        some (trackRefs.length - 64 * ((trackRefs.length + 63) / 64 - 1))) := by
  obtain ⟨hco, hsat⟩ := Cooperating.run huid hc0 hlen events _
    ⟨Cooperating.start collectionUid trackRefs c0 huid hnodup,
      Cooperating.started collectionUid trackRefs c0 huid hnodup⟩ hrun
  have hq := hco.quiet hsat hloaded hanswered
  have hsizes := hco.done hq hloaded
  have hlength := congrArg List.length hsizes
  rw [List.length_map, batches_length] at hlength
  refine ⟨hq, hco.drained hq hloaded, hsizes, hlength, ?_, ?_⟩
  · intro i hi
    rw [hsizes]
    apply batches_get
    rw [batches_length, ← hlength]
    exact hi
  · intro h1
    rw [hsizes]
    exact batches_getLast _ h1

/-- Claim C13 at 200 and at 65 track refs, where the track that has been loading longest
arrives first and writes are answered when no track is loading: the writes carry
64, 64, 64 and 8 tracks, and 64 and 1 tracks. -/
theorem C13_batch_sizes_witness :
    (((init true true 0).slotReplaceTracks "C1" (List.range 200)).run
        (schedule 300 ((init true true 0).slotReplaceTracks "C1" (List.range 200)))
      ).writeCalls.map (fun w => w.tracks.length) = [64, 64, 64, 8] ∧
    (((init true true 0).slotReplaceTracks "C1" (List.range 65)).run
        (schedule 100 ((init true true 0).slotReplaceTracks "C1" (List.range 65)))
      ).writeCalls.map (fun w => w.tracks.length) = [64, 1] := by
  have h200 := (C13_batch_sizes "C1" (List.range 200) 0
    (schedule 300 ((init true true 0).slotReplaceTracks "C1" (List.range 200)))
    (by decide) (List.nodup_range 200) (by simp) (by decide) (by decide!) (by decide!)
    (by decide!)).2.2.1
  have h65 := (C13_batch_sizes "C1" (List.range 65) 0
    (schedule 100 ((init true true 0).slotReplaceTracks "C1" (List.range 65)))
    (by decide) (List.nodup_range 65) (by simp) (by decide) (by decide!) (by decide!)
    (by decide!)).2.2.1
  exact ⟨h200.trans (by rw [List.length_range]; decide),
    h65.trans (by rw [List.length_range]; decide)⟩

end TrackReplacementScheduler

end aoide

end mixxx

namespace mixxx

namespace aoide

open network

namespace Gateway

/-- Claim C17 fails for `invokeRelocateTracks`: the member name it passes to
`QMetaObject::invokeMethod` is `relocateTracks`, which is not among the declared slots,
so an id is returned but nothing is posted to the gateway and no write request is ever
enqueued for that id. -/
theorem C17_write_entry_points_counterexample :
    InvokeCall.invoked (InvokeCall.invokeRelocateTracks "C1" "[]") =
      Invoked.member "relocateTracks" ∧
    "relocateTracks" ∉ publicSlots ∧
    invoke { s_value := 0, posted := [] } (InvokeCall.invokeRelocateTracks "C1" "[]") =
      (1, { s_value := 1, posted := [] }) ∧
    invoke { s_value := 0, posted := [] } (InvokeCall.invokeRelocateAllTracks "C1" "[]") =
      (1, { s_value := 1,
            posted := [Event.slotWrite 1 (WriteCall.relocateTracks "C1" "[]")] }) := by
  refine ⟨rfl, by decide, by decide, by decide⟩

/-- Claim C17 for the nine write operations other than `invokeRelocateTracks`: the
operation posts exactly one call of a write slot, which carries the request id that the
operation returns; delivered to the gateway, that call is one call of
`enqueueWriteRequest` with a write request that has the returned id and the method and
path of the endpoint table; a member name that is dispatched to is a declared slot; and
the request that deletes a collection has an empty body. -/
theorem C17_write_entry_points (fuel : Nat) (g : Gateway) (c : Caller) (call : InvokeCall)
    (hcall : call.invoked ≠ Invoked.member "relocateTracks") :
    (invoke c call).1 = (RequestId.nextValid c.s_value).1 ∧
    (invoke c call).2.s_value = (RequestId.nextValid c.s_value).2 ∧
    (∀ name, call.invoked = Invoked.member name → name ∈ publicSlots) ∧
    ∃ slotCalled : WriteCall,
      (invoke c call).2.posted = c.posted ++ [Event.slotWrite (invoke c call).1 slotCalled] ∧
      step fuel g (Event.slotWrite (invoke c call).1 slotCalled) =
        enqueueWriteRequest fuel g (slotCalled.writeRequest (invoke c call).1) ∧
      (slotCalled.writeRequest (invoke c call).1).id = (invoke c call).1 ∧
      (slotCalled.writeRequest (invoke c call).1).method = call.endpointTable.1 ∧
      (slotCalled.writeRequest (invoke c call).1).path = call.endpointTable.2 ∧
      (∀ collectionUid, call = InvokeCall.invokeDeleteCollection collectionUid →
        (slotCalled.writeRequest (invoke c call).1).jsonContent = "") := by
  cases call with
  | invokeRelocateTracks collectionUid relocateTracksParams => exact absurd rfl hcall
  | invokeCreateCollection collection =>
    refine ⟨rfl, rfl, ?_, WriteCall.createCollection collection, rfl, rfl, rfl, rfl, rfl, ?_⟩
    · intro name hn
      cases hn
      decide
    · intro _ hc
      cases hc
  | invokeUpdateCollection uid collectionEntity =>
    refine ⟨rfl, rfl, ?_, WriteCall.updateCollection uid collectionEntity, rfl, rfl, rfl, rfl,
      rfl, ?_⟩
    · intro name hn
      cases hn
      decide
    · intro _ hc
      cases hc
  | invokeDeleteCollection collectionUid =>
    refine ⟨rfl, rfl, ?_, WriteCall.deleteCollection collectionUid, rfl, rfl, rfl, rfl, rfl, ?_⟩
    · intro name hn
      cases hn
      decide
    · intro _ _
      rfl
  | invokeReplaceTracks collectionUid tracks =>
    refine ⟨rfl, rfl, ?_, WriteCall.replaceTracks collectionUid tracks, rfl, rfl, rfl, rfl,
      rfl, ?_⟩
    · intro name hn
      cases hn
      decide
    · intro _ hc
      cases hc
  | invokeRelocateAllTracks collectionUid relocateTracksParams =>
    refine ⟨rfl, rfl, ?_, WriteCall.relocateTracks collectionUid relocateTracksParams, rfl, rfl,
      rfl, rfl, rfl, ?_⟩
    · intro name hn
      cases hn
      decide
    · intro _ hc
      cases hc
  | invokePurgeTracks collectionUid purgeTracksParams =>
    refine ⟨rfl, rfl, ?_, WriteCall.purgeTracks collectionUid purgeTracksParams, rfl, rfl, rfl,
      rfl, rfl, ?_⟩
    · intro name hn
      cases hn
      decide
    · intro _ hc
      cases hc
  | invokePurgeAllTracks collectionUid purgeTracksParams =>
    refine ⟨rfl, rfl, ?_, WriteCall.purgeTracks collectionUid purgeTracksParams, rfl, rfl, rfl,
      rfl, rfl, ?_⟩
    · intro name hn
      cases hn
      decide
    · intro _ hc
      cases hc
  | invokeCreatePlaylist playlist =>
    refine ⟨rfl, rfl, ?_, WriteCall.createPlaylist playlist, rfl, rfl, rfl, rfl, rfl, ?_⟩
    · intro name hn
      cases hn
    · intro _ hc
      cases hc
  | invokeDeletePlaylist playlistUid =>
    refine ⟨rfl, rfl, ?_, WriteCall.deletePlaylist playlistUid, rfl, rfl, rfl, rfl, rfl, ?_⟩
    · intro name hn
      cases hn
    · intro _ hc
      cases hc

/-- Claim C17 at `invokeRelocateAllTracks`, called first on a fresh counter. -/
theorem C17_write_entry_points_witness :
    (invoke { s_value := 0, posted := [] }
        (InvokeCall.invokeRelocateAllTracks "C1" "[]")).1 = 1 ∧
    ∃ slotCalled : WriteCall,
      (invoke { s_value := 0, posted := [] }
        (InvokeCall.invokeRelocateAllTracks "C1" "[]")).2.posted =
        [] ++ [Event.slotWrite
          (invoke { s_value := 0, posted := [] }
            (InvokeCall.invokeRelocateAllTracks "C1" "[]")).1 slotCalled] ∧
      (slotCalled.writeRequest
        (invoke { s_value := 0, posted := [] }
          (InvokeCall.invokeRelocateAllTracks "C1" "[]")).1).path = "/tracks/relocate" := by
  obtain ⟨h1, _, _, slotCalled, h2, _, _, _, h3, _⟩ :=
    C17_write_entry_points 0 (Gateway.init accessible) { s_value := 0, posted := [] }
      (InvokeCall.invokeRelocateAllTracks "C1" "[]") (by decide)
  exact ⟨h1.trans (by decide), slotCalled, h2, h3⟩

end Gateway

end aoide

end mixxx

namespace mixxx

namespace aoide

namespace AoideTag

/-- A label that has been set is the label of the tag. -/
theorem label_setLabel (t : AoideTag) (label : QString) : (t.setLabel label).label = label := by
  unfold AoideTag.label setLabel
  cases label with
  | nil => rfl
  | cons c rest => rfl

/-- A facet that has been set is the facet of the tag. -/
theorem facet_setFacet (t : AoideTag) (facet : QString) : (t.setFacet facet).facet = facet := by
  unfold AoideTag.facet setFacet
  cases facet with
  | nil => rfl
  | cons c rest => rfl

/-- A score that has been set is the score of the tag. -/
theorem score_setScore (t : AoideTag) (score : ℚ) : (t.setScore score).score = score := rfl

end AoideTag

namespace MultiGenreTagger

/-- The labels of the tags that the loop of `exportGenreTags` makes. -/
theorem exportLoop_labels (t : MultiGenreTagger) (parts : List QString) (score : ℚ) :
    (exportLoop t parts score).map AoideTag.label =
      (parts.map QString.trimmed).filter (fun g => !g.isEmpty) := by
  induction parts generalizing score with
  | nil => rfl
  | cons genre rest ih =>
    rw [exportLoop]
    by_cases hg : (!(QString.trimmed genre).isEmpty) = true
    · rw [if_pos hg, List.map_cons, List.map_cons, List.filter_cons, if_pos hg, ih]
      congr 1
      exact AoideTag.label_setLabel (AoideTag.empty.setFacet AoideTag.kFacetGenre) _
    · rw [if_neg hg, List.map_cons, List.filter_cons, if_neg hg, ih]

/-- The scores of the tags that the loop of `exportGenreTags` makes: each is the product
of the one before and the attenuation. -/
theorem exportLoop_scores (t : MultiGenreTagger) (parts : List QString) (score : ℚ) :
    (exportLoop t parts score).map AoideTag.score =
      (List.range ((parts.map QString.trimmed).filter (fun g => !g.isEmpty)).length).map
        (fun k => (fun s => Double.mul s t.m_multiGenreAttenuation)^[k] score) := by
  induction parts generalizing score with
  | nil => rfl
  | cons genre rest ih =>
    rw [exportLoop]
    by_cases hg : (!(QString.trimmed genre).isEmpty) = true
    · rw [if_pos hg, List.map_cons, List.map_cons, List.filter_cons, if_pos hg, ih,
        List.length_cons, List.range_succ_eq_map, List.map_cons, List.map_map]
      rfl
    · rw [if_neg hg, List.map_cons, List.filter_cons, if_neg hg, ih]

/-- While the powers of the attenuation are values of type `double`, the products of
the loop are these powers. -/
theorem iterate_mul_exact (a : ℚ) (n : Nat)
    (hexact : ∀ k, k < n - 1 → Double.round (a ^ (k + 1)) = a ^ (k + 1)) :
    ∀ k, k < n → (fun s => Double.mul s a)^[k] 1 = a ^ k := by
  intro k
  induction k with
  | zero =>
    intro _
    rfl
  | succ k ih =>
    intro hk
    rw [Function.iterate_succ_apply', ih (by omega)]
    show Double.round (a ^ k * a) = a ^ (k + 1)
    rw [← pow_succ]
    exact hexact k (by omega)

/-- The facets of the tags that the loop of `exportGenreTags` makes. -/
theorem exportLoop_facets (t : MultiGenreTagger) (parts : List QString) (score : ℚ) :
    ∀ tag ∈ exportLoop t parts score, tag.facet = AoideTag.kFacetGenre := by
  induction parts generalizing score with
  | nil => exact fun tag h => absurd h (List.not_mem_nil _)
  | cons genre rest ih =>
    rw [exportLoop]
    by_cases hg : (!(QString.trimmed genre).isEmpty) = true
    · rw [if_pos hg]
      intro tag h
      rcases List.mem_cons.mp h with h1 | h1
      · rw [h1]
        rfl
      · exact ih _ tag h1
    · rw [if_neg hg]
      exact ih _

/-- Claim C18, counterexample: with the separator ' - ' and the attenuation 0.1, which as a
`double` is 3602879701896397 / 2 ^ 55, the third of three genres gets the score
1441151880758559 / 2 ^ 57, the `double` 0.010000000000000002. It is the rounded product
of the attenuation with itself, which is neither the square of the attenuation nor the
`double` 0.01. -/
theorem C18_exportGenreTags_counterexample :
    Double.round (1 / 10) = 3602879701896397 / 36028797018963968 ∧
    (exportGenreTags
        { m_multiGenreSeparator := " - ".toList,
          m_multiGenreAttenuation := 3602879701896397 / 36028797018963968 }
        "Pop - Rock - Jazz".toList).map AoideTag.score =
      [1, 3602879701896397 / 36028797018963968, 1441151880758559 / 144115188075855872] ∧
    (1441151880758559 / 144115188075855872 : ℚ) ≠
      (3602879701896397 / 36028797018963968) ^ 2 ∧
    (1441151880758559 / 144115188075855872 : ℚ) ≠ Double.round (1 / 100) := by
  decide!

/-- Claim C18, as the code has it. The method `exportGenreTags` splits the genre at the
separator, trims the parts and drops those that are empty then; the tags it returns have
the remaining parts as their labels, in order, and all have the facet `genre`. The first
score is 1 and every further score is the product of type `double` of the score before
and the attenuation, the exact product rounded. The score of the tag at position `k`,
counted from 0, is the attenuation to the power `k` when the powers of the attenuation
up to the last position are values of type `double`. -/
theorem C18_exportGenreTags (t : MultiGenreTagger) (genre : QString) :
    (t.exportGenreTags genre).map AoideTag.label =
      ((QString.split t.m_multiGenreSeparator genre).map QString.trimmed).filter
        (fun g => !g.isEmpty) ∧
    (∀ tag ∈ t.exportGenreTags genre, tag.facet = "genre".toList) ∧
    (t.exportGenreTags genre).map AoideTag.score =
      (List.range (((QString.split t.m_multiGenreSeparator genre).map QString.trimmed).filter
        (fun g => !g.isEmpty)).length).map
        (fun k => (fun s => Double.mul s t.m_multiGenreAttenuation)^[k] 1) ∧
    (t.exportGenreTags genre).length =
      (((QString.split t.m_multiGenreSeparator genre).map QString.trimmed).filter
        (fun g => !g.isEmpty)).length ∧
    (∀ tag, (t.exportGenreTags genre).head? = some tag → tag.score = 1) ∧
    ((∀ k, k < (((QString.split t.m_multiGenreSeparator genre).map QString.trimmed).filter
          (fun g => !g.isEmpty)).length - 1 →
        Double.round (t.m_multiGenreAttenuation ^ (k + 1)) =
          t.m_multiGenreAttenuation ^ (k + 1)) →
      (t.exportGenreTags genre).map AoideTag.score =
        (List.range (((QString.split t.m_multiGenreSeparator genre).map
          QString.trimmed).filter (fun g => !g.isEmpty)).length).map
          (fun k => t.m_multiGenreAttenuation ^ k)) := by
  have hl := exportLoop_labels t (QString.split t.m_multiGenreSeparator genre)
    AoideTag.defaultScore
  have hs2 : (t.exportGenreTags genre).map AoideTag.score =
      (List.range (((QString.split t.m_multiGenreSeparator genre).map QString.trimmed).filter
        (fun g => !g.isEmpty)).length).map
        (fun k => (fun s => Double.mul s t.m_multiGenreAttenuation)^[k] 1) :=
    exportLoop_scores t (QString.split t.m_multiGenreSeparator genre) AoideTag.defaultScore
  refine ⟨hl, exportLoop_facets t _ _, hs2, ?_, ?_, ?_⟩
  · have := congrArg List.length hl
    rw [List.length_map] at this
    exact this
  · intro tag htag
    have h1 : ((t.exportGenreTags genre).map AoideTag.score).head? = some tag.score := by
      rw [List.head?_map, htag]
      rfl
    rw [hs2] at h1
    cases hn : (((QString.split t.m_multiGenreSeparator genre).map QString.trimmed).filter
        (fun g => !g.isEmpty)).length with
    | zero =>
      rw [hn] at h1
      cases h1
    | succ n =>
      rw [hn, List.range_succ_eq_map] at h1
      simp only [List.map_cons, List.head?_cons, Option.some.injEq] at h1
      rw [← h1]
      rfl
  · intro hexact
    rw [hs2]
    apply List.map_congr_left
    intro k hk
    exact iterate_mul_exact t.m_multiGenreAttenuation _ hexact k (List.mem_range.mp hk)

/-- Claim C18 at the separator ' - ', the attenuation 0.5 and five genres: the powers of
0.5 are values of type `double`, and the scores are 1, 0.5, 0.25, 0.125 and 0.0625. -/
theorem C18_exportGenreTags_witness :
    (exportGenreTags { m_multiGenreSeparator := " - ".toList, m_multiGenreAttenuation := 1 / 2 }
      "R&B/Soul - Pop - Hip-Hop/Rap - Rock'n'Roll - New Wave".toList).map AoideTag.label =
      ["R&B/Soul".toList, "Pop".toList, "Hip-Hop/Rap".toList, "Rock'n'Roll".toList,
        "New Wave".toList] ∧
    (exportGenreTags { m_multiGenreSeparator := " - ".toList, m_multiGenreAttenuation := 1 / 2 }
      "R&B/Soul - Pop - Hip-Hop/Rap - Rock'n'Roll - New Wave".toList).map AoideTag.score =
      [1, 1 / 2, 1 / 4, 1 / 8, 1 / 16] := by
  have h := C18_exportGenreTags
    { m_multiGenreSeparator := " - ".toList, m_multiGenreAttenuation := 1 / 2 }
    "R&B/Soul - Pop - Hip-Hop/Rap - Rock'n'Roll - New Wave".toList
  have hparts : ((QString.split " - ".toList
      "R&B/Soul - Pop - Hip-Hop/Rap - Rock'n'Roll - New Wave".toList).map
        QString.trimmed).filter (fun g => !g.isEmpty) =
      ["R&B/Soul".toList, "Pop".toList, "Hip-Hop/Rap".toList, "Rock'n'Roll".toList,
        "New Wave".toList] := by decide
  refine ⟨h.1.trans hparts, (h.2.2.2.2.2 ?_).trans ?_⟩
  · rw [hparts]
    decide!
  · rw [hparts]
    decide!

end MultiGenreTagger

end aoide

end mixxx

namespace mixxx

namespace aoide

namespace QString

/-- The characters of a separator that has been found are skipped. -/
theorem splitKeep_skip (sep d s : QString) :
    splitKeep sep (d ++ s) d.length = splitKeep sep s 0 := by
  induction d with
  | nil => rfl
  | cons c d ih =>
    show splitKeep sep (c :: (d ++ s)) (d.length + 1) = _
    rw [splitKeep]
    exact ih

/-- A text that starts with the separator: an empty part ends there. -/
theorem splitKeep_sep (sep s : QString) (hsep : sep ≠ []) :
    splitKeep sep (sep ++ s) 0 = [] :: splitKeep sep s 0 := by
  cases sep with
  | nil => exact absurd rfl hsep
  | cons c d =>
    show splitKeep (c :: d) (c :: (d ++ s)) 0 = _
    have hp : (c :: d).isPrefixOf (c :: (d ++ s)) = true :=
      List.isPrefixOf_iff_prefix.mpr (List.prefix_append (c :: d) s)
    rw [splitKeep, if_pos hp]
    show [] :: splitKeep (c :: d) (d ++ s) d.length = _
    rw [splitKeep_skip]

/-- A text that starts with a label in which no separator starts: the first part starts
with that label. -/
theorem splitKeep_label (sep l tail p : QString) (ps : List QString)
    (hfree : ∀ t : QString, t ≠ [] → t <:+ l → sep.isPrefixOf (t ++ tail) = false)
    (htail : splitKeep sep tail 0 = p :: ps) :
    splitKeep sep (l ++ tail) 0 = (l ++ p) :: ps := by
  induction l with
  | nil => exact htail
  | cons c l ih =>
    have h1 := hfree (c :: l) (List.cons_ne_nil c l) (List.suffix_refl _)
    have h2 := ih (fun t ht hs => hfree t ht (hs.trans (List.suffix_cons c l)))
    show splitKeep sep (c :: (l ++ tail)) 0 = _
    rw [splitKeep, if_neg (by rw [show (c :: (l ++ tail)) = (c :: l) ++ tail from rfl, h1]; simp),
      h2]
    rfl

/-- No separator starts inside a label, before the end of the text or before a separator
that follows the label, when the separator does not occur in the label followed by the
separator without its last character. -/
theorem isPrefixOf_label (sep l t tail : QString) (hsep : sep ≠ [])
    (hfree : ¬ sep <:+: l ++ sep.dropLast) (ht : t ≠ []) (hsuf : t <:+ l)
    (htail : tail = [] ∨ ∃ rest, tail = sep ++ rest) :
    sep.isPrefixOf (t ++ tail) = false := by
  cases hp : sep.isPrefixOf (t ++ tail) with
  | false => rfl
  | true =>
    exfalso
    apply hfree
    have hpre : sep <+: t ++ tail := List.isPrefixOf_iff_prefix.mp hp
    have hpre2 : sep <+: t ++ sep.dropLast := by
      rcases htail with h0 | ⟨rest, hrest⟩
      · rw [h0, List.append_nil] at hpre
        exact hpre.trans (List.prefix_append t _)
      · have hq : t ++ sep.dropLast <+: t ++ tail := by
          rw [hrest]
          refine ⟨[sep.getLast hsep] ++ rest, ?_⟩
          rw [List.append_assoc, ← List.append_assoc sep.dropLast,
            List.dropLast_append_getLast hsep]
        refine List.prefix_of_prefix_length_le hpre hq ?_
        have hlen : 0 < t.length := List.length_pos.mpr ht
        have hsl : 0 < sep.length := List.length_pos.mpr hsep
        rw [List.length_append, List.length_dropLast]
        omega
    obtain ⟨u, hu⟩ := hsuf
    obtain ⟨v, hv⟩ := hpre2
    refine ⟨u, v, ?_⟩
    rw [← hu, List.append_assoc, hv, List.append_assoc]

/-- Splitting the joined labels gives the labels back, empty parts kept. -/
theorem splitKeep_join (sep : QString) (hsep : sep ≠ []) (labels : List QString) :
    ∀ l : QString, (∀ x ∈ l :: labels, ¬ sep <:+: x ++ sep.dropLast) →
      splitKeep sep (join sep (l :: labels)) 0 = l :: labels := by
  induction labels with
  | nil =>
    intro l hfree
    have h := splitKeep_label sep l [] [] []
      (fun t ht hs => isPrefixOf_label sep l t [] hsep (hfree l (List.mem_cons_self _ _)) ht hs
        (Or.inl rfl)) rfl
    rw [List.append_nil] at h
    exact h
  | cons next rest ih =>
    intro l hfree
    have hrest := ih next (fun x hx => hfree x (List.mem_cons_of_mem _ hx))
    have h := splitKeep_label sep l (sep ++ join sep (next :: rest)) [] (next :: rest)
      (fun t ht hs => isPrefixOf_label sep l t _ hsep (hfree l (List.mem_cons_self _ _)) ht hs
        (Or.inr ⟨_, rfl⟩))
      (by rw [splitKeep_sep sep _ hsep, hrest])
    rw [List.append_nil] at h
    show splitKeep sep (l ++ sep ++ join sep (next :: rest)) 0 = _
    rw [List.append_assoc]
    exact h

/-- Splitting the joined labels gives the labels back. -/
theorem split_join (sep : QString) (hsep : sep ≠ []) (labels : List QString)
    (hne : ∀ x ∈ labels, x ≠ [])
    (hfree : ∀ x ∈ labels, ¬ sep <:+: x ++ sep.dropLast) :
    split sep (join sep labels) = labels := by
  have hse : sep.isEmpty = false := by
    cases sep with
    | nil => exact absurd rfl hsep
    | cons c d => rfl
  unfold split
  rw [hse]
  simp only [Bool.false_eq_true, if_false]
  cases labels with
  | nil => rfl
  | cons l rest =>
    rw [splitKeep_join sep hsep rest l hfree, List.filter_eq_self]
    intro x hx
    cases x with
    | nil => exact absurd rfl (hne [] hx)
    | cons c d => rfl

end QString

end aoide

end mixxx

namespace mixxx

namespace aoide

namespace MultiGenreTagger

/-- A tag whose score differs from the scores of a list in descending order is inserted
in descending order. -/
theorem orderedInsert_descending (a : AoideTag) (l : List AoideTag)
    (hs : l.Sorted (fun t1 t2 => t1.score > t2.score))
    (hd : ∀ b ∈ l, a.score ≠ b.score) :
    (l.orderedInsert (fun t1 t2 => t1.score > t2.score) a).Sorted
      (fun t1 t2 => t1.score > t2.score) := by
  induction l with
  | nil => exact List.sorted_singleton a
  | cons b l ih =>
    have hb := List.sorted_cons.mp hs
    rw [List.orderedInsert]
    by_cases hab : a.score > b.score
    · rw [if_pos hab]
      refine List.sorted_cons.mpr ⟨?_, hs⟩
      intro c hc
      rcases List.mem_cons.mp hc with h1 | h1
      · rw [h1]
        exact hab
      · exact lt_trans (hb.1 c h1) hab
    · rw [if_neg hab]
      have hba : b.score > a.score :=
        lt_of_le_of_ne (not_lt.mp hab) (hd b (List.mem_cons_self _ _))
      refine List.sorted_cons.mpr ⟨?_, ih hb.2 (fun c hc => hd c (List.mem_cons_of_mem _ hc))⟩
      intro c hc
      rcases List.mem_cons.mp ((List.perm_orderedInsert _ a l).mem_iff.mp hc) with h2 | h2
      · rw [h2]
        exact hba
      · exact hb.1 c h2

/-- Tags with pairwise distinct scores are sorted in descending order of their scores. -/
theorem sortByScore_descending (tags : List AoideTag)
    (hd : (tags.map AoideTag.score).Nodup) :
    (sortByScore tags).Sorted (fun t1 t2 => t1.score > t2.score) := by
  induction tags with
  | nil => exact List.sorted_nil
  | cons a l ih =>
    have hn := List.nodup_cons.mp hd
    show (List.orderedInsert _ a (sortByScore l)).Sorted _
    apply orderedInsert_descending a _ (ih hn.2)
    intro b hb heq
    apply hn.1
    rw [heq]
    exact List.mem_map.mpr ⟨b, (List.perm_insertionSort _ l).mem_iff.mp hb, rfl⟩

/-- The genre that `importGenre` returns is made of the labels of the sorted tags. -/
theorem importGenre_eq (t : MultiGenreTagger) (tags : List AoideTag) :
    t.importGenre tags =
      QString.join t.m_multiGenreSeparator ((sortByScore tags).map AoideTag.label) := by
  cases tags with
  | nil => rfl
  | cons a l =>
    cases l with
    | nil => rfl
    | cons b rest => rfl

end MultiGenreTagger

end aoide

end mixxx

namespace mixxx

namespace aoide

namespace MultiGenreTagger

/-- Claim C19 as stated fails: with the separator ' - ' the genre tags 'x -' (score 0.8)
and 'y' (score 0.5) have pairwise distinct scores and non-empty, trimmed labels that do
not contain the separator, yet the genre 'x - - y' that `importGenre` returns is
exported as the labels 'x' and '- y', which are not the labels 'x -' and 'y' of the tags
in descending order of their scores. -/
theorem C19_genre_round_trip_counterexample :
    (([((AoideTag.empty.setFacet AoideTag.kFacetGenre).setLabel "x -".toList).setScore (4 / 5),
        ((AoideTag.empty.setFacet AoideTag.kFacetGenre).setLabel "y".toList).setScore (1 / 2)]
      ).map AoideTag.score).Nodup ∧
    (∀ tag ∈
        [((AoideTag.empty.setFacet AoideTag.kFacetGenre).setLabel "x -".toList).setScore (4 / 5),
          ((AoideTag.empty.setFacet AoideTag.kFacetGenre).setLabel "y".toList).setScore (1 / 2)],
      tag.label ≠ [] ∧ QString.trimmed tag.label = tag.label ∧
        ¬ " - ".toList <:+: tag.label) ∧
    importGenre { m_multiGenreSeparator := " - ".toList, m_multiGenreAttenuation := 1 / 2 }
      [((AoideTag.empty.setFacet AoideTag.kFacetGenre).setLabel "x -".toList).setScore (4 / 5),
        ((AoideTag.empty.setFacet AoideTag.kFacetGenre).setLabel "y".toList).setScore (1 / 2)] =
      "x - - y".toList ∧
    (exportGenreTags { m_multiGenreSeparator := " - ".toList, m_multiGenreAttenuation := 1 / 2 }
      "x - - y".toList).map AoideTag.label = ["x".toList, "- y".toList] ∧
    (sortByScore
      [((AoideTag.empty.setFacet AoideTag.kFacetGenre).setLabel "x -".toList).setScore (4 / 5),
        ((AoideTag.empty.setFacet AoideTag.kFacetGenre).setLabel "y".toList).setScore (1 / 2)]
      ).map AoideTag.label = ["x -".toList, "y".toList] := by
  refine ⟨by decide!, by decide, by decide!, by decide, by decide!⟩

/-- Claim C19, amended. For genre tags with pairwise distinct scores whose labels are
non-empty and trimmed, and a non-empty separator that does not occur in any label
followed by the separator without its last character (so that no occurrence of the
separator starts inside a label of the joined genre): `importGenre` joins the labels
with the separator in descending order of the scores, and `exportGenreTags` returns
exactly those labels, in that order, for the genre imported. -/
theorem C19_genre_round_trip (t : MultiGenreTagger) (tags : List AoideTag)
    (hsep : t.m_multiGenreSeparator ≠ [])
    (hscores : (tags.map AoideTag.score).Nodup)
    (hlabels : ∀ tag ∈ tags, tag.label ≠ [] ∧ QString.trimmed tag.label = tag.label ∧
      ¬ t.m_multiGenreSeparator <:+: tag.label ++ t.m_multiGenreSeparator.dropLast) :
    (sortByScore tags).Perm tags ∧
    (sortByScore tags).Sorted (fun t1 t2 => t1.score > t2.score) ∧
    t.importGenre tags =
      QString.join t.m_multiGenreSeparator ((sortByScore tags).map AoideTag.label) ∧
    (t.exportGenreTags (t.importGenre tags)).map AoideTag.label =
      (sortByScore tags).map AoideTag.label := by
  have hperm : (sortByScore tags).Perm tags := List.perm_insertionSort _ tags
  have hall : ∀ x ∈ (sortByScore tags).map AoideTag.label,
      x ≠ [] ∧ QString.trimmed x = x ∧
        ¬ t.m_multiGenreSeparator <:+: x ++ t.m_multiGenreSeparator.dropLast := by
    intro x hx
    obtain ⟨tag, htag, he⟩ := List.mem_map.mp hx
    rw [← he]
    exact hlabels tag (hperm.mem_iff.mp htag)
  refine ⟨hperm, sortByScore_descending tags hscores, importGenre_eq t tags, ?_⟩
  unfold exportGenreTags
  rw [exportLoop_labels, importGenre_eq,
    QString.split_join _ hsep _ (fun x hx => (hall x hx).1) (fun x hx => (hall x hx).2.2)]
  have hmap : ((sortByScore tags).map AoideTag.label).map QString.trimmed =
      (sortByScore tags).map AoideTag.label := by
    conv_rhs => rw [← List.map_id ((sortByScore tags).map AoideTag.label)]
    apply List.map_congr_left
    intro x hx
    exact (hall x hx).2.1
  rw [hmap, List.filter_eq_self]
  intro x hx
  have hne := (hall x hx).1
  cases x with
  | nil => exact absurd rfl hne
  | cons c d => rfl

/-- Claim C19, amended, at three genre tags of the test and the separator of two
blanks. -/
theorem C19_genre_round_trip_witness :
    importGenre { m_multiGenreSeparator := "  ".toList, m_multiGenreAttenuation := 1 / 2 }
      [((AoideTag.empty.setFacet AoideTag.kFacetGenre).setLabel "Pop".toList).setScore (7 / 10),
        ((AoideTag.empty.setFacet AoideTag.kFacetGenre).setLabel "New Wave".toList).setScore
          (1 / 10),
        ((AoideTag.empty.setFacet AoideTag.kFacetGenre).setLabel "R&B/Soul".toList).setScore
          (4 / 5)] = "R&B/Soul  Pop  New Wave".toList ∧
    (exportGenreTags { m_multiGenreSeparator := "  ".toList, m_multiGenreAttenuation := 1 / 2 }
      (importGenre { m_multiGenreSeparator := "  ".toList, m_multiGenreAttenuation := 1 / 2 }
        [((AoideTag.empty.setFacet AoideTag.kFacetGenre).setLabel "Pop".toList).setScore
            (7 / 10),
          ((AoideTag.empty.setFacet AoideTag.kFacetGenre).setLabel "New Wave".toList).setScore
            (1 / 10),
          ((AoideTag.empty.setFacet AoideTag.kFacetGenre).setLabel "R&B/Soul".toList).setScore
            (4 / 5)])).map AoideTag.label =
      ["R&B/Soul".toList, "Pop".toList, "New Wave".toList] := by
  have h := C19_genre_round_trip
    { m_multiGenreSeparator := "  ".toList, m_multiGenreAttenuation := 1 / 2 }
    [((AoideTag.empty.setFacet AoideTag.kFacetGenre).setLabel "Pop".toList).setScore (7 / 10),
      ((AoideTag.empty.setFacet AoideTag.kFacetGenre).setLabel "New Wave".toList).setScore
        (1 / 10),
      ((AoideTag.empty.setFacet AoideTag.kFacetGenre).setLabel "R&B/Soul".toList).setScore
        (4 / 5)]
    (by decide) (by decide!) (by decide)
  exact ⟨h.2.2.1.trans (by decide!), h.2.2.2.trans (by decide!)⟩

end MultiGenreTagger

end aoide

end mixxx

namespace mixxx

namespace aoide

namespace QString

/-- A text in which the string searched for does not occur has no last index of it. -/
theorem lastIndexOf_none (sep s : QString) (hsep : sep ≠ []) (h : ¬ sep <:+: s) :
    lastIndexOf sep s = none := by
  induction s with
  | nil =>
    cases sep with
    | nil => exact absurd rfl hsep
    | cons c d => rfl
  | cons c rest ih =>
    have h1 : ¬ sep <:+: rest := fun hi => h (hi.trans (List.suffix_cons c rest).isInfix)
    have h2 : sep.isPrefixOf (c :: rest) = false := by
      cases hp : sep.isPrefixOf (c :: rest) with
      | false => rfl
      | true => exact absurd (List.isPrefixOf_iff_prefix.mp hp).isInfix h
    rw [lastIndexOf, ih h1]
    simp only [h2, Bool.false_eq_true, if_false]

/-- The last index in a text that is extended at its start. -/
theorem lastIndexOf_append (sep before s : QString) (i : Nat)
    (h : lastIndexOf sep s = some i) :
    lastIndexOf sep (before ++ s) = some (before.length + i) := by
  induction before with
  | nil =>
    rw [List.nil_append, List.length_nil, Nat.zero_add]
    exact h
  | cons c rest ih =>
    show lastIndexOf sep (c :: (rest ++ s)) = _
    rw [lastIndexOf, ih]
    show some (rest.length + i + 1) = some (rest.length + 1 + i)
    rw [Nat.add_right_comm]

end QString

namespace HashtagCommentsTagger

/-- The separator of the protected part occurs after its own start only where it occurs
in the text that follows it. -/
theorem lastIndexOf_separator (after : QString)
    (hafter : ¬ kProtectedCommentTagsSeparator <:+: after) :
    QString.lastIndexOf kProtectedCommentTagsSeparator
      (kProtectedCommentTagsSeparator ++ after) = some 0 := by
  have hsep : kProtectedCommentTagsSeparator ≠ [] := by decide
  have h1 : ¬ kProtectedCommentTagsSeparator <:+: '\n' :: after := by
    intro hi
    rcases List.infix_cons_iff.mp hi with hp | hr
    · have : kProtectedCommentTagsSeparator.isPrefixOf ('\n' :: after) = true :=
        List.isPrefixOf_iff_prefix.mpr hp
      have hf : kProtectedCommentTagsSeparator.isPrefixOf ('\n' :: after) = false := rfl
      rw [hf] at this
      cases this
    · exact hafter hr
  have h2 : ¬ kProtectedCommentTagsSeparator <:+: '#' :: '\n' :: after := by
    intro hi
    rcases List.infix_cons_iff.mp hi with hp | hr
    · have : kProtectedCommentTagsSeparator.isPrefixOf ('#' :: '\n' :: after) = true :=
        List.isPrefixOf_iff_prefix.mpr hp
      have hf : kProtectedCommentTagsSeparator.isPrefixOf ('#' :: '\n' :: after) = false := rfl
      rw [hf] at this
      cases this
    · exact h1 hr
  show QString.lastIndexOf kProtectedCommentTagsSeparator ('#' :: '#' :: '\n' :: after) = some 0
  have hp : kProtectedCommentTagsSeparator.isPrefixOf ('#' :: '#' :: '\n' :: after) = true :=
    List.isPrefixOf_iff_prefix.mpr ⟨after, rfl⟩
  rw [QString.lastIndexOf, QString.lastIndexOf_none _ _ hsep h2]
  simp only [hp, if_true]

/-- The comment is split at the last separator of the protected part. -/
theorem splitProtectedCommentTag_append (before after : QString)
    (hafter : ¬ kProtectedCommentTagsSeparator <:+: after) :
    splitProtectedCommentTag (before ++ kProtectedCommentTagsSeparator ++ after) =
      ((AoideTag.empty.setFacet AoideTag.kFacetComment).setLabel (QString.trimmed before),
        after) := by
  have hidx := QString.lastIndexOf_append kProtectedCommentTagsSeparator before _ 0
    (lastIndexOf_separator after hafter)
  rw [Nat.add_zero, ← List.append_assoc] at hidx
  unfold splitProtectedCommentTag
  rw [hidx]
  simp only
  have hleft : QString.left (before ++ kProtectedCommentTagsSeparator ++ after) before.length =
      before := by
    unfold QString.left
    rw [List.append_assoc, List.take_left]
  have hright : QString.right (before ++ kProtectedCommentTagsSeparator ++ after)
      ((before ++ kProtectedCommentTagsSeparator ++ after).length -
        (before.length + kProtectedCommentTagsSeparator.length)) = after := by
    unfold QString.right
    have hlen : (before ++ kProtectedCommentTagsSeparator ++ after).length -
        ((before ++ kProtectedCommentTagsSeparator ++ after).length -
          (before.length + kProtectedCommentTagsSeparator.length)) =
        (before ++ kProtectedCommentTagsSeparator).length := by
      simp only [List.length_append]
      omega
    rw [hlen, List.drop_left]
  rw [hleft, hright]

/-- A comment without the separator of the protected part is left as it is. -/
theorem splitProtectedCommentTag_none (comment : QString)
    (h : ¬ kProtectedCommentTagsSeparator <:+: comment) :
    splitProtectedCommentTag comment = (AoideTag.empty, comment) := by
  unfold splitProtectedCommentTag
  rw [QString.lastIndexOf_none _ _ (by decide) h]

end HashtagCommentsTagger

end aoide

end mixxx

namespace mixxx

namespace aoide

namespace HashtagCommentsTagger

/-- A comment tag with a label is added as one faceted tag, which reads as it was. -/
theorem addTags_comment (tags : AoideTags) (label : QString) (hlabel : label ≠ []) :
    (tags.addTags [(AoideTag.empty.setFacet AoideTag.kFacetComment).setLabel label]).plain =
      tags.plain ∧
    (tags.addTags [(AoideTag.empty.setFacet AoideTag.kFacetComment).setLabel label]).allTags =
      tags.allTags ++ [(AoideTag.empty.setFacet AoideTag.kFacetComment).setLabel label] := by
  cases label with
  | nil => exact absurd rfl hlabel
  | cons c rest =>
    refine ⟨rfl, ?_⟩
    show tags.plain.map AoideTag.fromPlain ++
        (tags.faceted ++ [_]).map AoideTag.fromFaceted = _
    rw [List.map_append, ← List.append_assoc]
    rfl

/-- A comment that contains the separator of the protected part has a last occurrence
of it. -/
theorem exists_last_separator (n : Nat) :
    ∀ comment : QString, comment.length ≤ n → kProtectedCommentTagsSeparator <:+: comment →
      ∃ before after, comment = before ++ kProtectedCommentTagsSeparator ++ after ∧
        ¬ kProtectedCommentTagsSeparator <:+: after := by
  induction n with
  | zero =>
    intro comment hlen hin
    have hnil : comment = [] := List.length_eq_zero.mp (Nat.le_zero.mp hlen)
    rw [hnil] at hin
    exact absurd (List.eq_nil_of_infix_nil hin) (by decide)
  | succ n ih =>
    intro comment hlen hin
    obtain ⟨u, v, huv⟩ := hin
    by_cases hv : kProtectedCommentTagsSeparator <:+: v
    · have hvlen : v.length ≤ n := by
        have h3 : kProtectedCommentTagsSeparator.length = 3 := rfl
        rw [← huv] at hlen
        simp only [List.length_append, h3] at hlen
        omega
      obtain ⟨b, a, hba, hna⟩ := ih v hvlen hv
      refine ⟨u ++ kProtectedCommentTagsSeparator ++ b, a, ?_, hna⟩
      rw [← huv, hba]
      simp only [List.append_assoc]
    · exact ⟨u, v, huv.symm, hv⟩

/-- Claim C20. Every comment that contains the separator '##' followed by a line break
consists of a text before the last separator, that separator, and a text after it in
which the separator does not occur. For a comment given in these three parts,
`exportCommentAsTags` splits the comment there; what it adds to the tags is one tag with
the facet `comment` and the trimmed text before the separator as its label, followed by
what it adds for the text after the separator taken as the whole comment, so hashtags
are extracted from that text only and the text before the separator enters the result
only through that one tag, whatever it contains. When the text before the separator is
not empty after trimming, that tag is one more faceted tag, which reads as facet
`comment`, the trimmed text and the default score. -/
theorem C20_protected_comment (qt : QStringFunctions) (tags : AoideTags)
    (before after : QString)
    (hafter : ¬ kProtectedCommentTagsSeparator <:+: after) :
    (∀ comment : QString, kProtectedCommentTagsSeparator <:+: comment →
      ∃ before0 after0, comment = before0 ++ kProtectedCommentTagsSeparator ++ after0 ∧
        ¬ kProtectedCommentTagsSeparator <:+: after0) ∧
    splitProtectedCommentTag (before ++ kProtectedCommentTagsSeparator ++ after) =
      ((AoideTag.empty.setFacet AoideTag.kFacetComment).setLabel (QString.trimmed before),
        after) ∧
    exportCommentAsTags qt tags (before ++ kProtectedCommentTagsSeparator ++ after) =
      exportUnprotected qt
        (tags.addTags
          [(AoideTag.empty.setFacet AoideTag.kFacetComment).setLabel (QString.trimmed before)])
        after ∧
    exportCommentAsTags qt tags (before ++ kProtectedCommentTagsSeparator ++ after) =
      exportCommentAsTags qt
        (tags.addTags
          [(AoideTag.empty.setFacet AoideTag.kFacetComment).setLabel (QString.trimmed before)])
        after ∧
    (QString.trimmed before ≠ [] →
      (tags.addTags
        [(AoideTag.empty.setFacet AoideTag.kFacetComment).setLabel
          (QString.trimmed before)]).plain = tags.plain ∧
      (tags.addTags
        [(AoideTag.empty.setFacet AoideTag.kFacetComment).setLabel
          (QString.trimmed before)]).allTags =
        tags.allTags ++
          [(AoideTag.empty.setFacet AoideTag.kFacetComment).setLabel (QString.trimmed before)] ∧
      ((AoideTag.empty.setFacet AoideTag.kFacetComment).setLabel
        (QString.trimmed before)).facet = "comment".toList ∧
      ((AoideTag.empty.setFacet AoideTag.kFacetComment).setLabel
        (QString.trimmed before)).label = QString.trimmed before ∧
      ((AoideTag.empty.setFacet AoideTag.kFacetComment).setLabel
        (QString.trimmed before)).score = 1) := by
  have hsplit := splitProtectedCommentTag_append before after hafter
  have hexport : exportCommentAsTags qt tags
      (before ++ kProtectedCommentTagsSeparator ++ after) =
      exportUnprotected qt
        (tags.addTags
          [(AoideTag.empty.setFacet AoideTag.kFacetComment).setLabel (QString.trimmed before)])
        after := by
    unfold exportCommentAsTags
    rw [hsplit]
    rfl
  refine ⟨fun comment hin => exists_last_separator comment.length comment (le_refl _) hin,
    hsplit, hexport, ?_, ?_⟩
  · rw [hexport]
    unfold exportCommentAsTags
    rw [splitProtectedCommentTag_none after hafter]
    rfl
  · intro hne
    obtain ⟨h1, h2⟩ := addTags_comment tags (QString.trimmed before) hne
    exact ⟨h1, h2, rfl, AoideTag.label_setLabel _ _, rfl⟩

/-- Claim C20 at a comment whose protected part holds '#' and '##': the protected part
becomes the comment tag, and the two hashtags after the separator become a plain tag
and a tag with the facet `crate`. -/
theorem C20_protected_comment_witness :
    (exportCommentAsTags asciiText AoideTags.empty
      ("Any comments with ## and #hashtags that are not extracted".toList ++
        kProtectedCommentTagsSeparator ++ "#Top40 #crate:DJ".toList)).allTags =
      [AoideTag.empty.setLabel "Top40".toList,
        (AoideTag.empty.setFacet AoideTag.kFacetComment).setLabel
          "Any comments with ## and #hashtags that are not extracted".toList,
        (AoideTag.empty.setFacet "crate".toList).setLabel "DJ".toList] := by
  have h := (C20_protected_comment asciiText AoideTags.empty
    "Any comments with ## and #hashtags that are not extracted".toList
    "#Top40 #crate:DJ".toList (by decide)).2.2.2.1
  rw [h]
  decide!

end HashtagCommentsTagger

end aoide

end mixxx

namespace mixxx

namespace network

/-- Claim C27 fails at the server errors: `HttpStatusCode_isServerError` tests the range
of the client errors. The valid code 500 satisfies none of the five class predicates,
and the valid code 404 satisfies two of them, `HttpStatusCode_isClientError` and
`HttpStatusCode_isServerError`. -/
theorem C27_status_classes_counterexample :
    HttpStatusCode_isValid 500 = true ∧ statusClasses 500 = [false, false, false, false, false] ∧
    HttpStatusCode_isValid 404 = true ∧ statusClasses 404 = [false, false, false, true, true] := by
  decide

/-- Claim C27 as far as it holds. The success predicate holds exactly for the codes from
200 to 299 in all three implementations. A code from 100 to 399 satisfies exactly one of
the five class predicates, the one of its hundred; a code from 400 to 499 satisfies
`HttpStatusCode_isClientError` and also `HttpStatusCode_isServerError`; a code from 500
to 599 satisfies none of the five. -/
theorem C27_status_classes (statusCode : Int) (content : Option String) :
    (HttpStatusCode_isSuccess statusCode = true ↔ 200 ≤ statusCode ∧ statusCode < 300) ∧
    (JsonWebClient.isStatusCodeSuccess statusCode = true ↔
      200 ≤ statusCode ∧ statusCode < 300) ∧
    (JsonWebResponse.isStatusCodeSuccess { statusCode := statusCode, content := content } =
      true ↔ 200 ≤ statusCode ∧ statusCode < 300) ∧
    (100 ≤ statusCode ∧ statusCode < 200 →
      statusClasses statusCode = [true, false, false, false, false]) ∧
    (200 ≤ statusCode ∧ statusCode < 300 →
      statusClasses statusCode = [false, true, false, false, false]) ∧
    (300 ≤ statusCode ∧ statusCode < 400 →
      statusClasses statusCode = [false, false, true, false, false]) ∧
    (400 ≤ statusCode ∧ statusCode < 500 →
      statusClasses statusCode = [false, false, false, true, true]) ∧
    (500 ≤ statusCode ∧ statusCode < 600 →
      statusClasses statusCode = [false, false, false, false, false]) ∧
    (HttpStatusCode_isValid statusCode = true → statusCode < 400 →
      (statusClasses statusCode).count true = 1) := by
  have hclass : ∀ (a b : Int), (decide (statusCode ≥ a) && decide (statusCode < b)) =
      decide (a ≤ statusCode ∧ statusCode < b) := by
    intro a b
    by_cases h1 : a ≤ statusCode <;> by_cases h2 : statusCode < b <;> simp [h1, h2]
  refine ⟨?_, ?_, ?_, ?_, ?_, ?_, ?_, ?_, ?_⟩
  · simp [HttpStatusCode_isSuccess]
  · simp [JsonWebClient.isStatusCodeSuccess]
  · simp [JsonWebResponse.isStatusCodeSuccess]
  · rintro ⟨h1, h2⟩
    simp only [statusClasses, HttpStatusCode_isInformational, HttpStatusCode_isSuccess,
      HttpStatusCode_isRedirection, HttpStatusCode_isClientError, HttpStatusCode_isServerError,
      hclass]
    simp only [List.cons.injEq, decide_eq_true_eq, decide_eq_false_iff_not, and_true]
    omega
  · rintro ⟨h1, h2⟩
    simp only [statusClasses, HttpStatusCode_isInformational, HttpStatusCode_isSuccess,
      HttpStatusCode_isRedirection, HttpStatusCode_isClientError, HttpStatusCode_isServerError,
      hclass]
    simp only [List.cons.injEq, decide_eq_true_eq, decide_eq_false_iff_not, and_true]
    omega
  · rintro ⟨h1, h2⟩
    simp only [statusClasses, HttpStatusCode_isInformational, HttpStatusCode_isSuccess,
      HttpStatusCode_isRedirection, HttpStatusCode_isClientError, HttpStatusCode_isServerError,
      hclass]
    simp only [List.cons.injEq, decide_eq_true_eq, decide_eq_false_iff_not, and_true]
    omega
  · rintro ⟨h1, h2⟩
    simp only [statusClasses, HttpStatusCode_isInformational, HttpStatusCode_isSuccess,
      HttpStatusCode_isRedirection, HttpStatusCode_isClientError, HttpStatusCode_isServerError,
      hclass]
    simp only [List.cons.injEq, decide_eq_true_eq, decide_eq_false_iff_not, and_true]
    omega
  · rintro ⟨h1, h2⟩
    simp only [statusClasses, HttpStatusCode_isInformational, HttpStatusCode_isSuccess,
      HttpStatusCode_isRedirection, HttpStatusCode_isClientError, HttpStatusCode_isServerError,
      hclass]
    simp only [List.cons.injEq, decide_eq_true_eq, decide_eq_false_iff_not, and_true]
    omega
  · intro hvalid hlt
    have hv : 100 ≤ statusCode := by
      simp only [HttpStatusCode_isValid, Bool.and_eq_true, decide_eq_true_eq] at hvalid
      exact hvalid.1
    simp only [statusClasses, HttpStatusCode_isInformational, HttpStatusCode_isSuccess,
      HttpStatusCode_isRedirection, HttpStatusCode_isClientError, HttpStatusCode_isServerError,
      hclass]
    by_cases ha : statusCode < 200
    · have e1 : decide (100 ≤ statusCode ∧ statusCode < 200) = true := by simp; omega
      have e2 : decide (200 ≤ statusCode ∧ statusCode < 300) = false := by simp; omega
      have e3 : decide (300 ≤ statusCode ∧ statusCode < 400) = false := by simp; omega
      have e4 : decide (400 ≤ statusCode ∧ statusCode < 500) = false := by simp; omega
      rw [e1, e2, e3, e4]
      rfl
    · by_cases hb : statusCode < 300
      · have e1 : decide (100 ≤ statusCode ∧ statusCode < 200) = false := by simp; omega
        have e2 : decide (200 ≤ statusCode ∧ statusCode < 300) = true := by simp; omega
        have e3 : decide (300 ≤ statusCode ∧ statusCode < 400) = false := by simp; omega
        have e4 : decide (400 ≤ statusCode ∧ statusCode < 500) = false := by simp; omega
        rw [e1, e2, e3, e4]
        rfl
      · have e1 : decide (100 ≤ statusCode ∧ statusCode < 200) = false := by simp; omega
        have e2 : decide (200 ≤ statusCode ∧ statusCode < 300) = false := by simp; omega
        have e3 : decide (300 ≤ statusCode ∧ statusCode < 400) = true := by simp; omega
        have e4 : decide (400 ≤ statusCode ∧ statusCode < 500) = false := by simp; omega
        rw [e1, e2, e3, e4]
        rfl

/-- Claim C27 at the codes 204 and 503: 204 is a success and nothing else, and 503
satisfies none of the five class predicates. -/
theorem C27_status_classes_witness :
    statusClasses 204 = [false, true, false, false, false] ∧
    statusClasses 503 = [false, false, false, false, false] :=
  ⟨(C27_status_classes 204 none).2.2.2.2.1 (by decide),
    (C27_status_classes 503 none).2.2.2.2.2.2.2.1 (by decide)⟩

end network

end mixxx

namespace mixxx

namespace aoide

namespace UserSettings

/-- The value that has been set is the value stored. -/
theorem get_setValue_self (s : UserSettings) (key : ConfigKey) (value : QString) :
    get (setValue s key value) key = some value := by
  simp [get, setValue]

/-- Setting a value leaves the values of the other keys. -/
theorem get_setValue_ne (s : UserSettings) (key other : ConfigKey) (value : QString)
    (hne : key ≠ other) : get (setValue s key value) other = get s other := by
  unfold get setValue remove
  rw [List.find?_cons_of_neg _ (by simpa using hne)]
  congr 1
  induction s with
  | nil => rfl
  | cons e rest ih =>
    by_cases he : e.1 = key
    · have hne2 : e.1 ≠ other := fun h => hne (he.symm.trans h)
      rw [List.filter_cons_of_neg (by simp [he]), List.find?_cons_of_neg _ (by simpa using hne2)]
      exact ih
    · rw [List.filter_cons_of_pos (by simpa using he)]
      by_cases ho : e.1 = other
      · rw [List.find?_cons_of_pos _ (by simpa using ho),
          List.find?_cons_of_pos _ (by simpa using ho)]
      · rw [List.find?_cons_of_neg _ (by simpa using ho),
          List.find?_cons_of_neg _ (by simpa using ho)]
        exact ih

end UserSettings

namespace Settings

/-- Claim C30 fails for the empty collection uid: `setCollectionUid` then removes the
value of the protocol instead of the value of the collection uid. With the collection
uid 'c1' and the protocol 'https' stored, `setCollectionUid` with the empty uid leaves
`collectionUid()` at 'c1' and makes `protocol()` read the default 'http'. -/
theorem C30_setCollectionUid_counterexample :
    collectionUid
      (setCollectionUid [(kCollectionUidKey, "c1".toList), (kProtocolKey, "https".toList)]
        []) = "c1".toList ∧
    protocol [(kCollectionUidKey, "c1".toList), (kProtocolKey, "https".toList)] =
      "https".toList ∧
    protocol
      (setCollectionUid [(kCollectionUidKey, "c1".toList), (kProtocolKey, "https".toList)]
        []) = "http".toList := by
  decide

/-- Claim C30 for a collection uid that is not empty: after `setCollectionUid`, the
method `collectionUid` returns that uid, and command, database, protocol, host, port and
the multi-genre separator and attenuation read as before. For the empty uid the value of
the protocol is removed and nothing else is changed. -/
theorem C30_setCollectionUid (m_userSettings : UserSettings) (uid : QString) :
    (uid ≠ [] →
      collectionUid (setCollectionUid m_userSettings uid) = uid ∧
      others (setCollectionUid m_userSettings uid) = others m_userSettings) ∧
    setCollectionUid m_userSettings [] = m_userSettings.remove kProtocolKey := by
  constructor
  · intro hne
    have hset : setCollectionUid m_userSettings uid =
        m_userSettings.setValue kCollectionUidKey uid := by
      unfold setCollectionUid
      rw [if_pos]
      cases uid with
      | nil => exact absurd rfl hne
      | cons c rest => rfl
    rw [hset]
    have hget : ∀ other : ConfigKey, kCollectionUidKey ≠ other →
        UserSettings.get (m_userSettings.setValue kCollectionUidKey uid) other =
          UserSettings.get m_userSettings other :=
      fun other h => UserSettings.get_setValue_ne m_userSettings _ other uid h
    constructor
    · unfold collectionUid UserSettings.getValue
      rw [UserSettings.get_setValue_self]
      rfl
    · unfold others command database protocol host port multiGenreSeparator
        multiGenreAttenuation UserSettings.getValue
      rw [hget kCommandKey (by decide), hget kDatabaseKey (by decide),
        hget kProtocolKey (by decide), hget kHostKey (by decide), hget kPortKey (by decide),
        hget kMultiGenreSeparatorKey (by decide), hget kMultiGenreAttenuationKey (by decide)]
  · rfl

/-- Claim C30 at the uid 'c2', set where the uid 'c1' and the protocol 'https' are
stored. -/
theorem C30_setCollectionUid_witness :
    collectionUid
      (setCollectionUid [(kCollectionUidKey, "c1".toList), (kProtocolKey, "https".toList)]
        "c2".toList) = "c2".toList ∧
    others
      (setCollectionUid [(kCollectionUidKey, "c1".toList), (kProtocolKey, "https".toList)]
        "c2".toList) =
      others [(kCollectionUidKey, "c1".toList), (kProtocolKey, "https".toList)] :=
  (C30_setCollectionUid [(kCollectionUidKey, "c1".toList), (kProtocolKey, "https".toList)]
    "c2".toList).1 (by decide)

end Settings

end aoide

end mixxx

namespace mixxx

namespace aoide

namespace AoideTags

/-- Claim C28 fails when a label is given: for a facet, `removeTags` ignores the label.
Where the tags `mixxx.org:rating` and `mixxx.org:hidden` are stored, `facetedTags` for
the facet `mixxx.org` and the label `rating` returns the rating tag only, but
`removeTags` for them returns and removes both tags, the hidden tag as well. -/
theorem C28_removeTags_counterexample :
    ((empty.addTags [MixxxTag.rating (4 / 5), MixxxTag.hidden]).facetedTags MixxxTag.kFacet
      MixxxTag.kLabelRating).map AoideTag.label = [MixxxTag.kLabelRating] ∧
    ((empty.addTags [MixxxTag.rating (4 / 5), MixxxTag.hidden]).removeTags MixxxTag.kFacet
      MixxxTag.kLabelRating).1.map AoideTag.label =
      [MixxxTag.kLabelRating, MixxxTag.kLabelHidden] ∧
    ((empty.addTags [MixxxTag.rating (4 / 5), MixxxTag.hidden]).removeTags MixxxTag.kFacet
      MixxxTag.kLabelRating).2 = empty := by
  refine ⟨by decide!, by decide!, by decide!⟩

/-- Claim C28 as far as it holds. For a facet that is not empty, `removeTags` returns
the tags that `facetedTags` returns for the facet without a label, whatever label is
given: all tags of the facet. It leaves the plain tags and, in their order, the faceted
tags of other facets. So it agrees with `facetedTags` for the facet and the label when
no label is given. -/
theorem C28_removeTags (tags : AoideTags) (facet label : QString) (hfacet : facet ≠ []) :
    (tags.removeTags facet label).1 = tags.facetedTags facet AoideTag.noLabel ∧
    (tags.removeTags facet label).2.plain = tags.plain ∧
    (tags.removeTags facet label).2.faceted =
      tags.faceted.filter (fun jsonValue => !(facet == (AoideTag.fromFaceted jsonValue).facet)) ∧
    (label = [] → (tags.removeTags facet label).1 = tags.facetedTags facet label) := by
  have hf : facet.isEmpty = false := by
    cases facet with
    | nil => exact absurd rfl hfacet
    | cons c rest => rfl
  have hnf : (facet == AoideTag.noFacet) = false := by
    cases facet with
    | nil => exact absurd rfl hfacet
    | cons c rest => rfl
  have h1 : (tags.removeTags facet label).1 = tags.facetedTags facet AoideTag.noLabel := by
    unfold removeTags facetedTags
    rw [hf]
    simp only [Bool.false_eq_true, if_false, hnf, Bool.false_or]
    apply List.filter_congr
    intro tag _
    simp [AoideTag.noLabel]
  refine ⟨h1, ?_, ?_, ?_⟩
  · unfold removeTags
    rw [hf]
    rfl
  · unfold removeTags
    rw [hf]
    rfl
  · intro hl
    rw [h1, hl]
    rfl

/-- Claim C28 at the removal of the genre tags, as `importCommentFromTags` does it, where
a genre tag and the hidden tag are stored: the genre tag is returned and the hidden tag
is left. -/
theorem C28_removeTags_witness :
    ((empty.addTags
        [(AoideTag.empty.setFacet AoideTag.kFacetGenre).setLabel "Pop".toList,
          MixxxTag.hidden]).removeTags AoideTag.kFacetGenre AoideTag.noLabel).1 =
      (empty.addTags
        [(AoideTag.empty.setFacet AoideTag.kFacetGenre).setLabel "Pop".toList,
          MixxxTag.hidden]).facetedTags AoideTag.kFacetGenre AoideTag.noLabel :=
  (C28_removeTags
    (empty.addTags
      [(AoideTag.empty.setFacet AoideTag.kFacetGenre).setLabel "Pop".toList, MixxxTag.hidden])
    AoideTag.kFacetGenre AoideTag.noLabel (by decide)).1

end AoideTags

end aoide

end mixxx

namespace mixxx

namespace aoide

namespace AoideTag

/-- A score other than the default is held as a number. -/
theorem score_ne_default (t : AoideTag) (h : t.score ≠ defaultScore) :
    t.atScoreIndex = QJsonScalar.double t.score := by
  unfold score at h ⊢
  cases hs : t.atScoreIndex with
  | null => rw [hs] at h; exact absurd rfl h
  | string s => rw [hs] at h; exact absurd rfl h
  | double d => rfl

/-- A label that is not empty is held as a text. -/
theorem label_ne_nil (t : AoideTag) (h : t.label ≠ []) :
    t.atLabelIndex = QJsonScalar.string t.label := by
  unfold label at h ⊢
  cases hs : t.atLabelIndex with
  | null => rw [hs] at h; exact absurd rfl h
  | string s => rfl
  | double d => rw [hs] at h; exact absurd rfl h

/-- A facet that is not empty is held as a text. -/
theorem facet_ne_nil (t : AoideTag) (h : t.facet ≠ []) :
    t.atFacetIndex = QJsonScalar.string t.facet := by
  unfold facet at h ⊢
  cases hs : t.atFacetIndex with
  | null => rw [hs] at h; exact absurd rfl h
  | string s => rfl
  | double d => rw [hs] at h; exact absurd rfl h

/-- The tag that `setFacet`, `setLabel` and `setScore` make from a facet, a label and a
score has that facet, label and score. -/
theorem fields_set (facet label : QString) (score : ℚ) :
    (((empty.setFacet facet).setLabel label).setScore score).facet = facet ∧
    (((empty.setFacet facet).setLabel label).setScore score).label = label ∧
    (((empty.setFacet facet).setLabel label).setScore score).score = score := by
  refine ⟨?_, ?_, rfl⟩
  · exact facet_setFacet empty facet
  · exact label_setLabel (empty.setFacet facet) label

/-- A tag with a facet or a label is not empty. -/
theorem isEmpty_false (t : AoideTag) (h : t.facet ≠ [] ∨ t.label ≠ []) : t.isEmpty = false := by
  unfold isEmpty
  rcases h with h | h
  · rw [facet_ne_nil t h]
    rfl
  · rw [label_ne_nil t h]
    simp [QJsonScalar.isNull]

end AoideTag

end aoide

end mixxx

namespace mixxx

namespace aoide

namespace AoideTag

/-- The JSON value of a plain tag with a label and a valid score. -/
theorem intoJsonValue_plain (t : AoideTag) (hf : t.facet = []) (hl : t.label ≠ [])
    (hs : isValidScore t.score = true) :
    t.intoJsonValue =
      if t.score = defaultScore then QJsonValue.scalar (QJsonScalar.string t.label)
      else QJsonValue.array [QJsonScalar.string t.label, QJsonScalar.double t.score] := by
  have he := isEmpty_false t (Or.inr hl)
  have hfac : t.isFaceted = false := by
    unfold isFaceted isPlain
    rw [hf]
    rfl
  unfold intoJsonValue
  rw [he, hfac, hs, label_ne_nil t hl]
  by_cases h1 : t.score = defaultScore
  · rw [if_pos h1]
    have : (t.score != defaultScore) = false := by simp [h1]
    rw [this]
    rfl
  · rw [if_neg h1, score_ne_default t h1]
    have : (t.score != defaultScore) = true := by simpa using h1
    rw [this]
    rfl

/-- The JSON value of a tag with a facet and a valid score. -/
theorem intoJsonValue_faceted (t : AoideTag) (hf : t.facet ≠ [])
    (hs : isValidScore t.score = true) :
    t.intoJsonValue =
      if t.label = [] then
        if t.score = defaultScore then QJsonValue.scalar (QJsonScalar.string t.facet)
        else QJsonValue.array [QJsonScalar.string t.facet, QJsonScalar.double t.score]
      else
        if t.score = defaultScore then
          QJsonValue.array [QJsonScalar.string t.facet, QJsonScalar.string t.label]
        else
          QJsonValue.array
            [QJsonScalar.string t.facet, QJsonScalar.string t.label,
              QJsonScalar.double t.score] := by
  have he := isEmpty_false t (Or.inl hf)
  have hfac : t.isFaceted = true := by
    unfold isFaceted isPlain
    cases hfc : t.facet with
    | nil => exact absurd hfc hf
    | cons c rest => rfl
  unfold intoJsonValue
  rw [he, hfac, hs, facet_ne_nil t hf]
  by_cases hl : t.label = []
  · have hle : t.label.isEmpty = true := by rw [hl]; rfl
    rw [if_pos hl, hle]
    by_cases h1 : t.score = defaultScore
    · rw [if_pos h1]
      have : (t.score != defaultScore) = false := by simp [h1]
      rw [this]
      rfl
    · rw [if_neg h1, score_ne_default t h1]
      have : (t.score != defaultScore) = true := by simpa using h1
      rw [this]
      rfl
  · have hle : t.label.isEmpty = false := by
      cases hlc : t.label with
      | nil => exact absurd hlc hl
      | cons c rest => rfl
    rw [if_neg hl, hle, label_ne_nil t hl]
    by_cases h1 : t.score = defaultScore
    · rw [if_pos h1]
      have : (t.score != defaultScore) = false := by simp [h1]
      rw [this]
      rfl
    · rw [if_neg h1, score_ne_default t h1]
      have : (t.score != defaultScore) = true := by simpa using h1
      rw [this]
      rfl

end AoideTag

end aoide

end mixxx

namespace mixxx

namespace aoide

namespace AoideTag

/-- Decoding of the JSON value of a tag: `fromPlain` for a plain tag and `fromFaceted`
for a faceted one. -/
theorem decode_plain (t : AoideTag) (hf : t.facet = []) (hl : t.label ≠ [])
    (hs : isValidScore t.score = true) :
    (fromPlain t.intoJsonValue).facet = t.facet ∧
    (fromPlain t.intoJsonValue).label = t.label ∧
    (fromPlain t.intoJsonValue).score = t.score := by
  rw [intoJsonValue_plain t hf hl hs]
  by_cases h1 : t.score = defaultScore
  · rw [if_pos h1, hf]
    refine ⟨rfl, ?_, ?_⟩
    · exact label_setLabel empty t.label
    · rw [h1]
      rfl
  · rw [if_neg h1, hf]
    refine ⟨rfl, ?_, rfl⟩
    exact label_setLabel empty t.label

/-- Decoding of the JSON value of a faceted tag. -/
theorem decode_faceted (t : AoideTag) (hf : t.facet ≠ [])
    (hs : isValidScore t.score = true) :
    (fromFaceted t.intoJsonValue).facet = t.facet ∧
    (fromFaceted t.intoJsonValue).label = t.label ∧
    (fromFaceted t.intoJsonValue).score = t.score := by
  rw [intoJsonValue_faceted t hf hs]
  by_cases hl : t.label = []
  · rw [if_pos hl]
    by_cases h1 : t.score = defaultScore
    · rw [if_pos h1, hl, h1]
      refine ⟨facet_setFacet empty t.facet, ?_, rfl⟩
      cases hfc : t.facet with
      | nil => exact absurd hfc hf
      | cons c rest => rfl
    · rw [if_neg h1, hl]
      refine ⟨facet_setFacet empty t.facet, ?_, rfl⟩
      cases hfc : t.facet with
      | nil => exact absurd hfc hf
      | cons c rest => rfl
  · rw [if_neg hl]
    by_cases h1 : t.score = defaultScore
    · rw [if_pos h1, h1]
      refine ⟨facet_setFacet empty t.facet, label_setLabel (empty.setFacet t.facet) t.label, ?_⟩
      cases hfc : t.facet with
      | nil => exact absurd hfc hf
      | cons c rest =>
        cases hlc : t.label with
        | nil => exact absurd hlc hl
        | cons c2 rest2 => rfl
    · rw [if_neg h1]
      exact fields_set t.facet t.label t.score

end AoideTag

namespace AoideTags

/-- The arrays after `addTags`: the JSON values of the plain tags and of the faceted tags
are appended, each in their order. -/
theorem addTags_arrays (added : List AoideTag) :
    ∀ tags : AoideTags,
      (tags.addTags added).plain =
        tags.plain ++ (added.filter AoideTag.isPlain).map AoideTag.intoJsonValue ∧
      (tags.addTags added).faceted =
        tags.faceted ++ (added.filter AoideTag.isFaceted).map AoideTag.intoJsonValue := by
  induction added with
  | nil =>
    intro tags
    exact ⟨(List.append_nil _).symm, (List.append_nil _).symm⟩
  | cons tag rest ih =>
    intro tags
    show (addTags (if tag.isPlain then { tags with plain := tags.plain ++ [tag.intoJsonValue] }
      else { tags with faceted := tags.faceted ++ [tag.intoJsonValue] }) rest).plain = _ ∧
      (addTags (if tag.isPlain then { tags with plain := tags.plain ++ [tag.intoJsonValue] }
      else { tags with faceted := tags.faceted ++ [tag.intoJsonValue] }) rest).faceted = _
    by_cases hp : tag.isPlain = true
    · have hfac : tag.isFaceted = false := by
        unfold AoideTag.isFaceted
        rw [hp]
        rfl
      rw [if_pos hp, (ih _).1, (ih _).2, List.filter_cons_of_pos hp,
        List.filter_cons_of_neg (by simp [hfac])]
      simp
    · have hp2 : tag.isPlain = false := by simpa using hp
      have hfac : tag.isFaceted = true := by
        unfold AoideTag.isFaceted
        rw [hp2]
        rfl
      rw [if_neg hp, (ih _).1, (ih _).2, List.filter_cons_of_neg hp,
        List.filter_cons_of_pos hfac]
      simp

end AoideTags

end aoide

end mixxx

namespace mixxx

namespace aoide

namespace AoideTags

/-- Claim C29. A tag whose score lies between 0 and 1 and that is plain with a label, or
faceted, is decoded from its JSON value with the same facet, label and score: by
`fromPlain` when it is plain and by `fromFaceted` when it is faceted. Consequently the
tags that `addTags` adds are returned with their facets, labels and scores: `plainTags`
returns the plain ones after the plain tags that were there, in the order in which they
were added, and `allTags` on tags that were empty returns the added plain tags followed
by the added faceted tags, each group in the order in which they were added. -/
theorem C29_tag_round_trip (t : AoideTag) (tags : AoideTags) (added : List AoideTag) :
    (AoideTag.isValidScore t.score = true → t.facet = [] → t.label ≠ [] →
      ((AoideTag.fromPlain t.intoJsonValue).facet, (AoideTag.fromPlain t.intoJsonValue).label,
        (AoideTag.fromPlain t.intoJsonValue).score) = (t.facet, t.label, t.score)) ∧
    (AoideTag.isValidScore t.score = true → t.facet ≠ [] →
      ((AoideTag.fromFaceted t.intoJsonValue).facet,
        (AoideTag.fromFaceted t.intoJsonValue).label,
        (AoideTag.fromFaceted t.intoJsonValue).score) = (t.facet, t.label, t.score)) ∧
    ((∀ tag ∈ added, AoideTag.isValidScore tag.score = true ∧
        (tag.facet ≠ [] ∨ tag.label ≠ [])) →
      (tags.addTags added).plainTags.map (fun tag => (tag.facet, tag.label, tag.score)) =
        tags.plainTags.map (fun tag => (tag.facet, tag.label, tag.score)) ++
          (added.filter AoideTag.isPlain).map (fun tag => (tag.facet, tag.label, tag.score)) ∧
      (empty.addTags added).allTags.map (fun tag => (tag.facet, tag.label, tag.score)) =
        (added.filter AoideTag.isPlain ++ added.filter AoideTag.isFaceted).map
          (fun tag => (tag.facet, tag.label, tag.score))) := by
  refine ⟨?_, ?_, ?_⟩
  · intro hs hf hl
    obtain ⟨h1, h2, h3⟩ := AoideTag.decode_plain t hf hl hs
    rw [h1, h2, h3]
  · intro hs hf
    obtain ⟨h1, h2, h3⟩ := AoideTag.decode_faceted t hf hs
    rw [h1, h2, h3]
  · intro hvalid
    have hplain : ∀ tag ∈ added.filter AoideTag.isPlain,
        ((AoideTag.fromPlain tag.intoJsonValue).facet,
          (AoideTag.fromPlain tag.intoJsonValue).label,
          (AoideTag.fromPlain tag.intoJsonValue).score) = (tag.facet, tag.label, tag.score) := by
      intro tag htag
      obtain ⟨hmem, hp⟩ := List.mem_filter.mp htag
      have hf : tag.facet = [] := by
        unfold AoideTag.isPlain at hp
        exact List.isEmpty_iff.mp hp
      have hl : tag.label ≠ [] := by
        rcases (hvalid tag hmem).2 with h | h
        · exact absurd hf h
        · exact h
      obtain ⟨h1, h2, h3⟩ := AoideTag.decode_plain tag hf hl (hvalid tag hmem).1
      rw [h1, h2, h3]
    have hfaceted : ∀ tag ∈ added.filter AoideTag.isFaceted,
        ((AoideTag.fromFaceted tag.intoJsonValue).facet,
          (AoideTag.fromFaceted tag.intoJsonValue).label,
          (AoideTag.fromFaceted tag.intoJsonValue).score) =
          (tag.facet, tag.label, tag.score) := by
      intro tag htag
      obtain ⟨hmem, hp⟩ := List.mem_filter.mp htag
      have hf : tag.facet ≠ [] := by
        intro h0
        unfold AoideTag.isFaceted AoideTag.isPlain at hp
        rw [h0] at hp
        cases hp
      obtain ⟨h1, h2, h3⟩ := AoideTag.decode_faceted tag hf (hvalid tag hmem).1
      rw [h1, h2, h3]
    constructor
    · unfold plainTags
      rw [(addTags_arrays added tags).1]
      simp only [List.map_append, List.map_map]
      congr 1
      apply List.map_congr_left
      intro tag htag
      exact hplain tag htag
    · unfold allTags
      rw [(addTags_arrays added empty).1, (addTags_arrays added empty).2]
      have he1 : empty.plain = [] := rfl
      have he2 : empty.faceted = [] := rfl
      rw [he1, he2]
      simp only [List.nil_append, List.map_append, List.map_map]
      congr 1
      · apply List.map_congr_left
        intro tag htag
        exact hplain tag htag
      · apply List.map_congr_left
        intro tag htag
        exact hfaceted tag htag

/-- Claim C29 at the rating tag with the score 0.8 and the plain tag 'Top40', added to
empty tags: `allTags` returns the plain tag and then the rating tag. -/
theorem C29_tag_round_trip_witness :
    (empty.addTags [MixxxTag.rating (4 / 5), AoideTag.empty.setLabel "Top40".toList]).allTags.map
        (fun tag => (tag.facet, tag.label, tag.score)) =
      [([], "Top40".toList, 1), (MixxxTag.kFacet, MixxxTag.kLabelRating, 4 / 5)] := by
  have h := ((C29_tag_round_trip AoideTag.empty empty
    [MixxxTag.rating (4 / 5), AoideTag.empty.setLabel "Top40".toList]).2.2
      (by decide!)).2
  exact h.trans (by decide!)

end AoideTags

end aoide

end mixxx

namespace mixxx

namespace aoide

open network

namespace Gateway

/-! ## C24: `finishWriteRequest` with an id that is not the pending one -/

/-- With no write pending the guard of `finishWriteRequest` lets every id pass: a valid
id is handled like no id. -/
theorem finishWriteRequest_unguarded (g : Gateway) (requestId : RequestId)
    (hp : g.m_pendingWriteRequestId = 0) (fuel : Nat) :
    finishWriteRequest fuel g requestId = finishWriteRequest fuel g RequestId.invalid := by
  cases fuel with
  | zero => rfl
  | succ n =>
    simp only [finishWriteRequest, RequestId.isValid, RequestId.invalid, hp, bne_self_eq_false,
      Bool.not_false, Bool.true_or, Bool.not_true, Bool.and_false, Bool.false_eq_true,
      if_false]

/-- C24, counterexample: after `slotCreateCollection` was called without network access
and the network came back, no write is pending and the write is queued; then
`finishWriteRequest(7)`, with a valid id that is not the pending one, sends the queued
write: it becomes the pending one, the queue is empty and an HTTP call is dispatched. -/
theorem C24_finishWriteRequest_mismatch_counterexample :
    writeWaiting.m_pendingWriteRequestId = 0 ∧
      writeWaiting.m_queuedWriteRequests.map (fun w => w.id) = [1] ∧
      writeWaiting.qt.calls.length = 0 ∧
      (finishWriteRequest 5 writeWaiting 7).map
          (fun g => (g.m_pendingWriteRequestId, g.m_queuedWriteRequests.length,
            g.qt.calls.length)) = some (1, 0, 1) := by
  decide

/-- C24, as the code has it: while a write is pending, `finishWriteRequest` called with
a valid id that is not the pending one, or with no id, returns the state unchanged (so
the pending id, the queue, the shutdown token and the HTTP calls are unchanged). With
no write pending a valid id is not rejected: the call does what the call with no id
does, which changes nothing only when nothing is queued and no shutdown is deferred. -/
theorem C24_finishWriteRequest_mismatch (g : Gateway) (requestId : RequestId) (fuel : Nat) :
    (requestId ≠ 0 → g.m_pendingWriteRequestId ≠ 0 →
        g.m_pendingWriteRequestId ≠ requestId →
        finishWriteRequest (fuel + 1) g requestId = some g) ∧
      (g.m_pendingWriteRequestId ≠ 0 →
        finishWriteRequest (fuel + 1) g RequestId.invalid = some g) ∧
      (g.m_pendingWriteRequestId = 0 →
        finishWriteRequest fuel g requestId = finishWriteRequest fuel g RequestId.invalid) ∧
      (g.m_pendingWriteRequestId = 0 → g.m_queuedWriteRequests = [] →
        g.m_shutdownRequestId = 0 →
        finishWriteRequest (fuel + 1) g requestId = some g) := by
  refine ⟨?_, ?_, ?_, ?_⟩
  · intro hx hp hne
    simp only [finishWriteRequest]
    rw [if_pos]
    simp [RequestId.isValid, hx, hp, Ne.symm hne]
  · intro hp
    simp only [finishWriteRequest]
    rw [if_neg, if_pos]
    · simp [RequestId.isValid, RequestId.invalid, hp]
    · simp [RequestId.isValid, RequestId.invalid]
  · intro hp
    exact finishWriteRequest_unguarded g requestId hp fuel
  · intro hp hq ht
    obtain ⟨client, queue, pending, token, qt, conns, deq, em⟩ := g
    simp only at hp hq ht
    subst hp hq ht
    simp [finishWriteRequest, RequestId.isValid, RequestId.invalid]

/-- C24, witness: while the write 1 is pending and the write 2 is queued, the calls
`finishWriteRequest(7)` and `finishWriteRequest()` change nothing; in the initial state
`finishWriteRequest(7)` changes nothing. -/
theorem C24_finishWriteRequest_mismatch_witness :
    twoWrites.m_pendingWriteRequestId = 1 ∧
      finishWriteRequest 1 twoWrites 7 = some twoWrites ∧
      finishWriteRequest 1 twoWrites RequestId.invalid = some twoWrites ∧
      finishWriteRequest 1 (init accessible) 7 = some (init accessible) :=
  ⟨by decide,
    (C24_finishWriteRequest_mismatch twoWrites 7 0).1 (by decide) (by decide) (by decide),
    (C24_finishWriteRequest_mismatch twoWrites 7 0).2.1 (by decide),
    (C24_finishWriteRequest_mismatch (init accessible) 7 0).2.2.2 rfl rfl rfl⟩

end Gateway

end aoide

end mixxx

namespace mixxx

namespace aoide

open network

namespace Gateway

/-! ## C23: the calls of `finishWriteRequest` made for one reply -/

/-- The calls of `finishWriteRequest` for the reply of a write, in terms of what
`receiveReply` reports. -/
theorem finishCalls_write {g : Gateway} (h : Inv 0 g) (reply : ReplyHandle)
    (operation : Operation) (d : NetworkReplyData)
    (hl : List.lookup reply g.connections = some operation)
    (hw : operation.isWrite = true) :
    finishCalls g reply d =
      deliverFinishCalls
          { g with
            connections := g.connections.filter (fun c => c.1 != reply),
            m_jsonWebClient :=
              (g.m_jsonWebClient.receiveReply (g.qt.finish reply) reply d
                operation.readsJson).2.1,
            qt := (g.m_jsonWebClient.receiveReply (g.qt.finish reply) reply d
                operation.readsJson).2.2 }
          (g.m_jsonWebClient.receiveReply (g.qt.finish reply) reply d
            operation.readsJson).1.emitted ++
        [{ requestId := g.requestIdOf reply,
           pending :=
            (deliverDirect
              { g with
                connections := g.connections.filter (fun c => c.1 != reply),
                m_jsonWebClient :=
                  (g.m_jsonWebClient.receiveReply (g.qt.finish reply) reply d
                    operation.readsJson).2.1,
                qt := (g.m_jsonWebClient.receiveReply (g.qt.finish reply) reply d
                    operation.readsJson).2.2 }
              (g.m_jsonWebClient.receiveReply (g.qt.finish reply) reply d
                operation.readsJson).1.emitted).m_pendingWriteRequestId }] := by
  have hid := (h.received reply operation d operation.readsJson hl).1
  have hx0 : g.requestIdOf reply ≠ 0 := requestIdOf_valid h reply operation hl
  have hv : (g.requestIdOf reply).isValid = true := by simp [RequestId.isValid, hx0]
  simp only [finishCalls, hl, replyFinishCalls]
  rw [hid, hv, hw]
  rfl

/-- C23, counterexample: the write 1 is outstanding and the write 2 is queued; the reply
of the write 1 finishes with a transport error. Then `finishWriteRequest(1)` is called
twice, by `onNetworkRequestFailed` while the write 1 is the pending one, and by the
reply handler when the write 2 is the pending one already. -/
theorem C23_finish_calls_counterexample :
    List.lookup 1 twoWrites.connections = some Operation.CreateCollection ∧
      twoWrites.requestIdOf 1 = 1 ∧
      finishCalls twoWrites 1 replyRefused =
        [{ requestId := 1, pending := 1 }, { requestId := 1, pending := 2 }] := by
  decide

/-- C23, as the code has it: in a reachable state of the gateway let a reply of a write
operation finish; its request id is valid and is the pending write id. When the reply
has no transport error or is stale, `finishWriteRequest` is called once, with that id
and while that id is the pending one. When the reply that is not stale has a transport
error, `finishWriteRequest` is called twice with that id: by `onNetworkRequestFailed`
while the id is the pending one, and by the handler when it is not the pending one any
more; with a write queued and the network accessible the pending id of the second call
is the valid id of the next write, which is the case that `finishWriteRequest` asserts
not to happen. -/
theorem C23_finish_calls {access : NetworkAccess} {g : Gateway} (h : Reachable access g)
    (reply : ReplyHandle) (operation : Operation) (d : NetworkReplyData)
    (hl : List.lookup reply g.connections = some operation)
    (hw : operation.isWrite = true) :
    g.requestIdOf reply ≠ 0 ∧ g.m_pendingWriteRequestId = g.requestIdOf reply ∧
      (d.error = false ∨
          (g.m_jsonWebClient.m_requestReplyManager.afterReplyReceived
            (g.qt.finish reply) reply).1.2 = false →
        finishCalls g reply d =
          [{ requestId := g.requestIdOf reply, pending := g.requestIdOf reply }]) ∧
      (d.error = true →
        (g.m_jsonWebClient.m_requestReplyManager.afterReplyReceived
            (g.qt.finish reply) reply).1.2 = true →
        ∃ p, p ≠ g.requestIdOf reply ∧
          finishCalls g reply d =
            [{ requestId := g.requestIdOf reply, pending := g.requestIdOf reply },
             { requestId := g.requestIdOf reply, pending := p }] ∧
          ∀ head rest, g.m_queuedWriteRequests = head :: rest →
            g.m_jsonWebClient.m_networkAccessManager = accessible →
            p = head.id ∧ head.id ≠ 0) := by
  have hinv : Inv 0 g := h.inv
  obtain ⟨hid, hx, _, hpend⟩ := hinv.received reply operation d operation.readsJson hl
  have hx0 : g.requestIdOf reply ≠ 0 := requestIdOf_valid hinv reply operation hl
  have hp := hpend hw
  refine ⟨hx0, hp, ?_, ?_⟩
  · intro hcase
    have he : (g.m_jsonWebClient.receiveReply (g.qt.finish reply) reply d
        operation.readsJson).1.emitted = [] := by
      by_cases hv : (g.m_jsonWebClient.m_requestReplyManager.afterReplyReceived
          (g.qt.finish reply) reply).1.2 = true
      · rcases hcase with hc | hc
        · rw [(receiveReply_valid _ _ _ _ _ hv).1, hc]
          rfl
        · rw [hc] at hv
          cases hv
      · exact (receiveReply_stale _ _ _ _ _ (by simpa using hv)).1
    rw [finishCalls_write hinv reply operation d hl hw, he]
    simp only [deliverFinishCalls, deliverDirect, List.foldl, List.nil_append]
    rw [hp]
  · intro herr hv
    have he := (receiveReply_valid g.m_jsonWebClient (g.qt.finish reply) reply d
      operation.readsJson hv).1
    rw [herr, if_pos rfl, hid] at he
    have hf := finish_pending_fields hx hx0 (show _ = g.requestIdOf reply from hp)
    refine ⟨_, hf.1, ?_, ?_⟩
    · rw [finishCalls_write hinv reply operation d hl hw, he]
      simp only [deliverFinishCalls, deliverDirect, List.foldl, onNetworkRequestFailedDirect,
        List.append_nil]
      rw [if_pos hp.symm, if_pos hp.symm]
      simp only [emit, List.singleton_append]
      rw [hp]
    · intro head rest hq ha
      have hmem : head.id ∈ g.queuedIds ++ g.inFlightIds := by
        apply List.mem_append_left
        simp [queuedIds, hq]
      exact ⟨(hf.2.1 head rest hq ((receiveReply_access _ _ _ _ _).trans ha)).1,
        hinv.ids_valid _ hmem⟩

/-- C23, witness: the reply of the write 1 finishes with the status 201 while the write
2 is queued; `finishWriteRequest(1)` is called once. -/
theorem C23_finish_calls_witness :
    finishCalls twoWrites 1 (replyWithStatus 201) = [{ requestId := 1, pending := 1 }] :=
  (C23_finish_calls twoWrites_reachable 1 Operation.CreateCollection (replyWithStatus 201)
    (by decide) (by decide)).2.2.1 (Or.inl rfl)

end Gateway

end aoide

end mixxx

namespace mixxx

namespace network

namespace RequestReplyManager

/-! ## C25: the two tables of the `RequestReplyManager` agree -/

theorem lookup_remove_some {β : Type} (m : QMap β) (k k2 : Nat) (v : β)
    (h : List.lookup k2 (QMap.remove m k) = some v) : k2 ≠ k ∧ List.lookup k2 m = some v := by
  by_cases hk : k2 = k
  · subst hk
    rw [QMap.lookup_remove_self] at h
    cases h
  · exact ⟨hk, (QMap.lookup_remove_ne m k k2 hk) ▸ h⟩

/-- Consistency passes to a manager with fewer requests, when the replies of the
requests left keep their request ids. -/
theorem Consistent.shrink {m m1 : RequestReplyManager} (h : Consistent m)
    (hreq : ∀ id reply, List.lookup id m1.m_pendingRequests = some reply →
      List.lookup id m.m_pendingRequests = some reply)
    (hrep : ∀ id reply p, List.lookup id m1.m_pendingRequests = some reply →
      List.lookup reply m.m_pendingReplies = some p →
      ∃ p1, List.lookup reply m1.m_pendingReplies = some p1 ∧ p1.requestId = p.requestId) :
    Consistent m1 := by
  refine ⟨?_, ?_⟩
  · intro id1 id2 reply h1 h2
    exact h.1 id1 id2 reply (hreq _ _ h1) (hreq _ _ h2)
  · intro id reply hl
    obtain ⟨p, hp, hid⟩ := h.2 id reply (hreq _ _ hl)
    obtain ⟨p1, hp1, hid1⟩ := hrep id reply p hl hp
    exact ⟨p1, hp1, hid1.trans hid⟩

theorem Consistent.initial : Consistent init := by
  refine ⟨?_, ?_⟩
  · intro id1 id2 reply h1
    cases h1
  · intro id reply h1
    cases h1

theorem Consistent.cancelRequest {m : RequestReplyManager} (h : Consistent m) (qt : Qt)
    (requestId : RequestId) : Consistent (m.cancelRequest qt requestId).1 := by
  apply h.shrink
  · intro id reply hl
    rw [cancelRequest_requests] at hl
    exact (lookup_remove_some _ _ _ _ hl).2
  · intro id reply p _ hp
    rw [cancelRequest_replies]
    exact ⟨p, hp, rfl⟩

theorem Consistent.cancelAllLoop {m : RequestReplyManager} (h : Consistent m) (fuel : Nat)
    (qt : Qt) : Consistent (cancelAllLoop fuel m qt).1 := by
  induction fuel generalizing m qt with
  | zero => exact h
  | succ n ih =>
    unfold RequestReplyManager.cancelAllLoop
    split
    · exact h
    · exact ih (h.cancelRequest qt _) _

theorem Consistent.cancelAllRequests {m : RequestReplyManager} (h : Consistent m) (qt : Qt) :
    Consistent (m.cancelAllRequests qt).1 :=
  h.cancelAllLoop _ qt

theorem Consistent.afterReplyReceived {m : RequestReplyManager} (h : Consistent m) (qt : Qt)
    (reply : ReplyHandle) : Consistent (m.afterReplyReceived qt reply).2.1 := by
  have key : ∀ m1 : RequestReplyManager,
      m1.m_pendingReplies = QMap.remove m.m_pendingReplies reply →
      (∀ id r, List.lookup id m1.m_pendingRequests = some r →
        List.lookup id m.m_pendingRequests = some r ∧ r ≠ reply) → Consistent m1 := by
    intro m1 hrep hreq
    apply h.shrink
    · intro id r hl
      exact (hreq id r hl).1
    · intro id r p hl hp
      rw [hrep, QMap.lookup_remove_ne _ _ _ (hreq id r hl).2]
      exact ⟨p, hp, rfl⟩
  unfold RequestReplyManager.afterReplyReceived
  simp only
  split
  · rename_i hc
    apply key _ rfl
    intro id r hl
    refine ⟨hl, ?_⟩
    intro hr
    subst hr
    obtain ⟨p, hp, hid⟩ := h.2 id r hl
    simp only [QMap.value, hp, Option.getD_some, hid, QMap.contains, hl, Option.isSome_some,
      Bool.not_true, Bool.false_eq_true] at hc
  · have hm2 : Consistent
        { m_pendingRequests :=
            QMap.remove m.m_pendingRequests
              (QMap.value m.m_pendingReplies reply PendingReply.default).requestId,
          m_pendingReplies := QMap.remove m.m_pendingReplies reply } := by
      apply key _ rfl
      intro id r hl
      obtain ⟨hne, hl1⟩ := lookup_remove_some _ _ _ _ hl
      refine ⟨hl1, ?_⟩
      intro hr
      subst hr
      obtain ⟨p, hp, hid⟩ := h.2 id r hl1
      apply hne
      simp only [QMap.value, hp, Option.getD_some, hid]
    split <;> exact hm2

theorem Consistent.timerEvent {m : RequestReplyManager} (h : Consistent m) (qt : Qt)
    (timerId : Int) : Consistent (m.timerEvent qt timerId).1 := by
  have hm1 : Consistent
      { m with m_pendingReplies := (clearTimer timerId m.m_pendingReplies).2 } := by
    apply h.shrink
    · intro id r hl
      exact hl
    · intro id r p _ hp
      have hc := clearTimer_lookup timerId m.m_pendingReplies r
      rw [hp] at hc
      cases hl1 : List.lookup r (clearTimer timerId m.m_pendingReplies).2 with
      | none =>
        rw [hl1] at hc
        cases hc
      | some p1 =>
        rw [hl1] at hc
        exact ⟨p1, rfl, by simpa using hc⟩
  unfold RequestReplyManager.timerEvent RequestReplyManager.killTimerForPendingReply
  simp only
  split
  · exact hm1
  · exact hm1.cancelRequest _ _

theorem Consistent.afterRequestSent {m : RequestReplyManager} (h : Consistent m) (qt : Qt)
    (requestId : RequestId) (reply : ReplyHandle) (timeoutMillis : Int)
    (hfresh : QMap.contains m.m_pendingReplies reply = false) :
    Consistent (m.afterRequestSent qt requestId reply timeoutMillis).1 := by
  have hnone : List.lookup reply m.m_pendingReplies = none :=
    lookup_eq_none_of_contains_false _ _ hfresh
  have hother : ∀ id r, List.lookup id m.m_pendingRequests = some r → r ≠ reply := by
    intro id r hl hr
    subst hr
    obtain ⟨p, hp, _⟩ := h.2 id r hl
    rw [hnone] at hp
    cases hp
  obtain ⟨tid, hrep, _⟩ := afterRequestSent_replies m qt requestId reply timeoutMillis
  have hold : ∀ id r, id ≠ requestId →
      List.lookup id (m.afterRequestSent qt requestId reply timeoutMillis).1.m_pendingRequests
        = some r →
      List.lookup id m.m_pendingRequests = some r := by
    intro id r hne hl
    rcases afterRequestSent_requests m qt requestId reply timeoutMillis with e | e
    · rw [e, QMap.lookup_insert_ne _ _ _ _ hne] at hl
      exact (lookup_remove_some _ _ _ _ hl).2
    · rw [e, QMap.lookup_insert_ne _ _ _ _ hne] at hl
      exact hl
  have hnew : ∀ r,
      List.lookup requestId
          (m.afterRequestSent qt requestId reply timeoutMillis).1.m_pendingRequests = some r →
      r = reply := by
    intro r hl
    rw [afterRequestSent_lookup_request] at hl
    exact (Option.some.inj hl).symm
  refine ⟨?_, ?_⟩
  · intro id1 id2 r h1 h2
    by_cases e1 : id1 = requestId
    · by_cases e2 : id2 = requestId
      · rw [e1, e2]
      · exfalso
        subst e1
        have hr := hnew r h1
        exact hother id2 r (hold id2 r e2 h2) hr
    · by_cases e2 : id2 = requestId
      · exfalso
        subst e2
        have hr := hnew r h2
        exact hother id1 r (hold id1 r e1 h1) hr
      · exact h.1 id1 id2 r (hold id1 r e1 h1) (hold id2 r e2 h2)
  · intro id r hl
    by_cases e : id = requestId
    · subst e
      have hr := hnew r hl
      subst hr
      exact ⟨_, by rw [hrep, QMap.lookup_insert_self], rfl⟩
    · have hl1 := hold id r e hl
      obtain ⟨p, hp, hid⟩ := h.2 id r hl1
      refine ⟨p, ?_, hid⟩
      rw [hrep, QMap.lookup_insert_ne _ _ _ _ (hother id r hl1)]
      exact hp

/-- C25: in every state of the manager reached through `afterRequestSent`,
`cancelRequest`, `cancelAllRequests`, `afterReplyReceived` and timer events, where
`afterRequestSent` is called with a reply that is not registered yet, as it asserts, no
two pending request ids map to the same reply, and every pending request id maps to a
reply that `m_pendingReplies` registers with that request id. -/
theorem C25_bookkeeping_invariant (m : RequestReplyManager) (h : Reachable m) :
    (∀ id1 id2 reply, List.lookup id1 m.m_pendingRequests = some reply →
      List.lookup id2 m.m_pendingRequests = some reply → id1 = id2) ∧
    (∀ id reply, List.lookup id m.m_pendingRequests = some reply →
      ∃ p, List.lookup reply m.m_pendingReplies = some p ∧ p.requestId = id) := by
  have hc : Consistent m := by
    induction h with
    | init => exact Consistent.initial
    | afterRequestSent m qt requestId reply timeoutMillis _ hfresh ih =>
      exact ih.afterRequestSent qt requestId reply timeoutMillis hfresh
    | cancelRequest m qt requestId _ ih => exact ih.cancelRequest qt requestId
    | cancelAllRequests m qt _ ih => exact ih.cancelAllRequests qt
    | afterReplyReceived m qt reply _ ih => exact ih.afterReplyReceived qt reply
    | timerEvent m qt timerId _ ih => exact ih.timerEvent qt timerId
  exact hc

/-- C25, witness: after two requests have been sent the request 2 maps to the reply 2,
which is registered with the request id 2. -/
theorem C25_bookkeeping_invariant_witness :
    Reachable twoPending ∧
      List.lookup 2 twoPending.m_pendingRequests = some 2 ∧
      (∃ p, List.lookup 2 twoPending.m_pendingReplies = some p ∧ p.requestId = 2) :=
  have hreach : Reachable twoPending :=
    Reachable.afterRequestSent _ _ 2 2 0
      (Reachable.afterRequestSent _ Qt.init 1 1 0 Reachable.init (by decide)) (by decide)
  ⟨hreach, by decide,
    (C25_bookkeeping_invariant twoPending hreach).2 2 2 (by decide)⟩

end RequestReplyManager

end network

end mixxx

namespace mixxx

namespace aoide

open network

namespace TrackReplacementScheduler

/-! ## C26: the pending counter -/

/-- With nothing queued and nothing deferred `makeProgress` leaves the pending counter
as it is. -/
theorem makeProgress_pendingCounter (s : TrackReplacementScheduler)
    (hq : s.m_queuedTrackRefs = []) (hd : s.m_deferredRequests = []) :
    (makeProgress s).m_pendingCounter = s.m_pendingCounter := by
  unfold makeProgress
  rw [hd]
  unfold makeProgressLoop
  split
  · rfl
  · rw [hq]
    simp only [loadLoop, settle, emitProgress]
    split <;> rfl

/-- C26, counterexample: the batch of three tracks has been handed to the gateway under
request id 1 and the pending counter is 3. When the write fails, the pending counter is
2 although no track is loading or buffered and no write is unanswered; the collection
stays active and the progress reported is (0, 2, 0, 1). -/
theorem C26_pending_counter_counterexample :
    threeLoaded.writeCalls.map (fun w => (w.requestId, w.tracks.length)) = [(1, 3)] ∧
      threeLoaded.m_pendingRequests = [1] ∧ threeLoaded.m_pendingCounter = 3 ∧
      (threeLoaded.onNetworkRequestFailed 1 "Connection refused").m_pendingCounter = 2 ∧
      (threeLoaded.onNetworkRequestFailed 1 "Connection refused").m_loadingTrackRefs = [] ∧
      (threeLoaded.onNetworkRequestFailed 1 "Connection refused").m_bufferedRequests = [] ∧
      (threeLoaded.onNetworkRequestFailed 1 "Connection refused").m_pendingRequests = [] ∧
      (threeLoaded.onNetworkRequestFailed 1 "Connection refused").inflight = 0 ∧
      (threeLoaded.onNetworkRequestFailed 1 "Connection refused").m_collectionUid = "C1" ∧
      (threeLoaded.onNetworkRequestFailed 1 "Connection refused").progress.getLast? =
        some { queued := 0, pending := 2, succeeded := 0, failed := 1 } := by
  decide

/-- C26, as the code has it: on a run that starts with one call of `slotReplaceTracks`
on an idle scheduler and in which every load succeeds and every write is answered with a
result that accounts for its whole batch, the pending counter is the number of loading
track refs plus the number of buffered tracks plus the sizes of the batches whose write
has not been answered, and it is not negative. A failed write, with nothing queued and
nothing deferred, takes one off the pending counter, whatever the size of its batch. -/
theorem C26_pending_counter (collectionUid : String) (trackRefs : List TrackRef) (c0 : Nat)
    (events : List Event) (s : TrackReplacementScheduler) (requestId : RequestId)
    (errorMessage : String) :
    (collectionUid ≠ "" → trackRefs.Nodup → trackRefs.length < 2 ^ 31 → c0 < 2 ^ 32 →
      ((init true true c0).slotReplaceTracks collectionUid trackRefs).CooperativeRun events →
      (((init true true c0).slotReplaceTracks collectionUid trackRefs).run
          events).m_pendingCounter =
        (((((init true true c0).slotReplaceTracks collectionUid trackRefs).run
            events).m_loadingTrackRefs.length +
          (((init true true c0).slotReplaceTracks collectionUid trackRefs).run
            events).m_bufferedRequests.length +
          (((init true true c0).slotReplaceTracks collectionUid trackRefs).run
            events).inflight : Nat) : Int) ∧
      0 ≤ (((init true true c0).slotReplaceTracks collectionUid trackRefs).run
          events).m_pendingCounter) ∧
    (requestId ∈ s.m_pendingRequests → s.m_queuedTrackRefs = [] →
      s.m_deferredRequests = [] →
      (s.onNetworkRequestFailed requestId errorMessage).m_pendingCounter =
        s.m_pendingCounter - 1) := by
  refine ⟨?_, ?_⟩
  · intro huid hnodup hlen hc0 hrun
    obtain ⟨hco, _⟩ := Cooperating.run huid hc0 hlen events _
      ⟨Cooperating.start collectionUid trackRefs c0 huid hnodup,
        Cooperating.started collectionUid trackRefs c0 huid hnodup⟩ hrun
    refine ⟨hco.pending, ?_⟩
    rw [hco.pending]
    exact Int.natCast_nonneg _
  · intro hmem hq hd
    unfold onNetworkRequestFailed
    rw [if_pos hmem]
    exact makeProgress_pendingCounter _ hq hd

/-- C26, witness: after three tracks have been submitted and loaded, their batch is
unanswered and the pending counter is 3; when its result arrives the counter is 0. The
failed write of the batch of three takes one off the counter. -/
theorem C26_pending_counter_witness :
    (((init true true 0).slotReplaceTracks "C1" [10, 11, 12]).run
        [Event.onTrackLoaded 10 (some 10), Event.onTrackLoaded 11 (some 11),
         Event.onTrackLoaded 12 (some 12)]).m_pendingCounter = ((0 + 0 + 3 : Nat) : Int) ∧
      (threeLoaded.onNetworkRequestFailed 1 "Connection refused").m_pendingCounter = 3 - 1 :=
  ⟨((C26_pending_counter "C1" [10, 11, 12] 0
      [Event.onTrackLoaded 10 (some 10), Event.onTrackLoaded 11 (some 11),
       Event.onTrackLoaded 12 (some 12)] threeLoaded 1 "Connection refused").1
      (by decide) (by decide) (by decide) (by decide) (by decide)).1,
    (C26_pending_counter "C1" [10, 11, 12] 0 [] threeLoaded 1 "Connection refused").2
      (by decide) (by decide) (by decide)⟩

end TrackReplacementScheduler

end aoide

end mixxx

namespace mixxx

namespace aoide

namespace QString

/-! ## Searching for one character -/

theorem indexOf_char_none (c : Char) (s : QString) (h : c ∉ s) : indexOf [c] s = none := by
  induction s with
  | nil => rfl
  | cons d rest ih =>
    have hd : c ≠ d := fun e => h (e ▸ List.mem_cons_self _ _)
    have hr : c ∉ rest := fun e => h (List.mem_cons_of_mem _ e)
    have hp : List.isPrefixOf [c] (d :: rest) = false := by
      simp [List.isPrefixOf, hd]
    simp only [indexOf, hp, Bool.false_eq_true, if_false, ih hr, Option.map_none']

theorem indexOf_char_append (c : Char) (before after : QString) (h : c ∉ before) :
    indexOf [c] (before ++ c :: after) = some before.length := by
  induction before with
  | nil =>
    have hp : List.isPrefixOf [c] (c :: after) = true := by simp [List.isPrefixOf]
    simp only [List.nil_append, indexOf, hp, if_true, List.length_nil]
  | cons d rest ih =>
    have hd : c ≠ d := fun e => h (e ▸ List.mem_cons_self _ _)
    have hr : c ∉ rest := fun e => h (List.mem_cons_of_mem _ e)
    have hp : List.isPrefixOf [c] (d :: (rest ++ c :: after)) = false := by
      simp [List.isPrefixOf, hd]
    rw [List.cons_append]
    unfold indexOf
    rw [hp, ih hr]
    rfl

theorem lastIndexOf_char_none (c : Char) (s : QString) (h : c ∉ s) :
    lastIndexOf [c] s = none := by
  induction s with
  | nil => rfl
  | cons d rest ih =>
    have hd : c ≠ d := fun e => h (e ▸ List.mem_cons_self _ _)
    have hr : c ∉ rest := fun e => h (List.mem_cons_of_mem _ e)
    have hp : List.isPrefixOf [c] (d :: rest) = false := by
      simp [List.isPrefixOf, hd]
    simp only [lastIndexOf, ih hr, hp, Bool.false_eq_true, if_false]

theorem lastIndexOf_char_append (c : Char) (before after : QString) (h : c ∉ after) :
    lastIndexOf [c] (before ++ c :: after) = some before.length := by
  have h0 : lastIndexOf [c] (c :: after) = some 0 := by
    have hp : List.isPrefixOf [c] (c :: after) = true := by simp [List.isPrefixOf]
    simp only [lastIndexOf, lastIndexOf_char_none c after h, hp, if_true]
  exact lastIndexOf_append [c] before (c :: after) 0 h0

/-- The text splits at the index that `lastIndexOf` finds. -/
theorem lastIndexOf_char_split (c : Char) (s : QString) (i : Nat)
    (h : lastIndexOf [c] s = some i) : s = s.take i ++ c :: s.drop (i + 1) := by
  induction s generalizing i with
  | nil => cases h
  | cons d rest ih =>
    simp only [lastIndexOf] at h
    cases hr : lastIndexOf [c] rest with
    | some j =>
      rw [hr] at h
      cases h
      simp only [List.take_succ_cons, List.drop_succ_cons, List.cons_append]
      exact congrArg (d :: ·) (ih j hr)
    | none =>
      rw [hr] at h
      simp only at h
      split at h
      · rename_i hp
        cases h
        have hd : c = d := by simpa [List.isPrefixOf] using hp
        simp [hd]
      · cases h

theorem left_append (before after : QString) : left (before ++ after) before.length = before := by
  simp [left]

theorem right_append (before : QString) (c : Char) (after : QString) :
    right (before ++ c :: after) ((before ++ c :: after).length - (before.length + 1)) =
      after := by
  have hl : (before ++ c :: after).length = before.length + 1 + after.length := by
    simp [List.length_append]
    omega
  have hd : (before ++ c :: after).length - ((before ++ c :: after).length -
      (before.length + 1)) = before.length + 1 := by omega
  unfold right
  rw [hd]
  have : before ++ c :: after = (before ++ [c]) ++ after := by simp
  rw [this]
  have hlen : before.length + 1 = (before ++ [c]).length := by simp
  rw [hlen, List.drop_left]

end QString

end aoide

end mixxx

namespace mixxx

namespace aoide

namespace HashtagCommentsTagger

/-! ## The parts of a hashtag -/

/-- The facet is the trimmed text before the first colon, when it is a valid facet. -/
theorem extractTagFacet_colon (qt : QStringFunctions) (F R : QString) (hF : ':' ∉ F)
    (hvalid : AoideTag.isValidFacet qt (QString.trimmed F) = true) :
    extractTagFacet qt (F ++ ':' :: R) = (QString.trimmed F, R) := by
  unfold extractTagFacet
  have hi : QString.indexOf kFacetLabelSeparator (F ++ ':' :: R) = some F.length :=
    QString.indexOf_char_append ':' F R hF
  rw [hi]
  simp only [QString.left_append, hvalid, Bool.or_true, if_true]
  have hr := QString.right_append F ':' R
  have hlen : kFacetLabelSeparator.length = 1 := rfl
  rw [hlen, hr]

/-- Without a colon there is no facet. -/
theorem extractTagFacet_none (qt : QStringFunctions) (token : QString) (h : ':' ∉ token) :
    extractTagFacet qt token = (AoideTag.noFacet, token) := by
  unfold extractTagFacet
  have hi : QString.indexOf kFacetLabelSeparator token = none :=
    QString.indexOf_char_none ':' token h
  rw [hi]

/-- The score is the number after the last equals sign, when it is a valid score. -/
theorem extractTagScore_valid (qt : QStringFunctions) (L S : QString) (s : ℚ)
    (hS : '=' ∉ S) (hparse : qt.toDouble S = some s) (hvalid : AoideTag.isValidScore s = true) :
    extractTagScore qt (L ++ '=' :: S) = (s, L) := by
  unfold extractTagScore
  have hi : QString.lastIndexOf kLabelScoreSeparator (L ++ '=' :: S) = some L.length :=
    QString.lastIndexOf_char_append '=' L S hS
  rw [hi]
  have hlen : kLabelScoreSeparator.length = 1 := rfl
  simp only [hlen, QString.right_append, hparse, hvalid, if_true, QString.left_append]

/-- When no equals sign is followed by a valid score, the score is the default and the
text is left as it is. -/
theorem extractTagScore_default (qt : QStringFunctions) (R : QString)
    (h : ∀ A B : QString, R = A ++ '=' :: B →
      ∀ x, qt.toDouble B = some x → AoideTag.isValidScore x = false) :
    extractTagScore qt R = (AoideTag.defaultScore, R) := by
  unfold extractTagScore
  cases hi : QString.lastIndexOf kLabelScoreSeparator R with
  | none => rfl
  | some i =>
    have hsplit := QString.lastIndexOf_char_split '=' R i hi
    have hlen : kLabelScoreSeparator.length = 1 := rfl
    have hright : QString.right R (R.length - (i + kLabelScoreSeparator.length)) =
        R.drop (i + 1) := by
      have hr := QString.right_append (R.take i) '=' (R.drop (i + 1))
      rw [← hsplit] at hr
      have hi_le : i < R.length := by
        by_contra hge
        have hlen2 := congrArg List.length hsplit
        simp only [List.length_append, List.length_cons, List.length_take,
          List.length_drop] at hlen2
        omega
      have htake : (R.take i).length = i := by
        rw [List.length_take]
        omega
      rw [htake] at hr
      rw [hlen]
      exact hr
    simp only [hright]
    cases hp : qt.toDouble (R.drop (i + 1)) with
    | none => rfl
    | some x =>
      simp only [h _ _ hsplit x hp, Bool.false_eq_true, if_false]

/-! ## The tokens of a text -/

theorem splitAndKeepSpaces_eq (str : QString) :
    splitAndKeepSpaces str =
      splitEnd (str.foldl splitStep { tokens := [], nextSpaceToken := [], nextTextToken := [] }) :=
  rfl

/-- The loop of `splitAndKeepSpaces` keeps the characters it has read, in the tokens
and in the token it is collecting; no token is empty. -/
theorem splitLoop_invariant (str : QString) (st : SplitState)
    (hne : ∀ t ∈ st.tokens, t ≠ [])
    (hone : st.nextSpaceToken = [] ∨ st.nextTextToken = []) :
    (∀ t ∈ (str.foldl splitStep st).tokens, t ≠ []) ∧
      ((str.foldl splitStep st).nextSpaceToken = [] ∨
        (str.foldl splitStep st).nextTextToken = []) ∧
      (str.foldl splitStep st).tokens.flatten ++ (str.foldl splitStep st).nextSpaceToken ++
          (str.foldl splitStep st).nextTextToken =
        st.tokens.flatten ++ st.nextSpaceToken ++ st.nextTextToken ++ str := by
  induction str generalizing st with
  | nil => exact ⟨hne, hone, by simp⟩
  | cons c rest ih =>
    rw [List.foldl_cons]
    obtain ⟨tokens, space, text⟩ := st
    simp only at hne hone
    have hadd : ∀ (t : QString), t ≠ [] → ∀ x ∈ tokens ++ [t], x ≠ [] := by
      intro t htne x hx
      rcases List.mem_append.mp hx with h | h
      · exact hne x h
      · rw [List.mem_singleton.mp h]
        exact htne
    by_cases hc : QString.isSpace c = true
    · cases text with
      | nil =>
        have hstep : splitStep ⟨tokens, space, []⟩ c = ⟨tokens, space ++ [c], []⟩ := by
          simp [splitStep, hc]
        rw [hstep]
        obtain ⟨h1, h2, h3⟩ := ih ⟨tokens, space ++ [c], []⟩ hne (Or.inr rfl)
        refine ⟨h1, h2, ?_⟩
        rw [h3]
        simp
      | cons d text =>
        have hs : space = [] := by
          rcases hone with h | h
          · exact h
          · cases h
        subst hs
        have hstep : splitStep ⟨tokens, [], d :: text⟩ c =
            ⟨tokens ++ [d :: text], [c], []⟩ := by
          simp [splitStep, hc]
        rw [hstep]
        obtain ⟨h1, h2, h3⟩ := ih ⟨tokens ++ [d :: text], [c], []⟩
          (hadd _ (List.cons_ne_nil _ _)) (Or.inr rfl)
        refine ⟨h1, h2, ?_⟩
        rw [h3]
        simp
    · cases space with
      | nil =>
        have hstep : splitStep ⟨tokens, [], text⟩ c = ⟨tokens, [], text ++ [c]⟩ := by
          simp [splitStep, hc]
        rw [hstep]
        obtain ⟨h1, h2, h3⟩ := ih ⟨tokens, [], text ++ [c]⟩ hne (Or.inl rfl)
        refine ⟨h1, h2, ?_⟩
        rw [h3]
        simp
      | cons d space =>
        have hs : text = [] := by
          rcases hone with h | h
          · cases h
          · exact h
        subst hs
        have hstep : splitStep ⟨tokens, d :: space, []⟩ c =
            ⟨tokens ++ [d :: space], [], [c]⟩ := by
          simp [splitStep, hc]
        rw [hstep]
        obtain ⟨h1, h2, h3⟩ := ih ⟨tokens ++ [d :: space], [], [c]⟩
          (hadd _ (List.cons_ne_nil _ _)) (Or.inl rfl)
        refine ⟨h1, h2, ?_⟩
        rw [h3]
        simp

/-- The tokens of `splitAndKeepSpaces`, put together, are the text, and no token is
empty. -/
theorem splitAndKeepSpaces_flatten (str : QString) :
    (splitAndKeepSpaces str).flatten = str ∧ ∀ t ∈ splitAndKeepSpaces str, t ≠ [] := by
  obtain ⟨h1, h2, h3⟩ := splitLoop_invariant str
    { tokens := [], nextSpaceToken := [], nextTextToken := [] }
    (fun t ht => absurd ht (List.not_mem_nil t)) (Or.inl rfl)
  rw [splitAndKeepSpaces_eq]
  generalize (str.foldl splitStep _ : SplitState) = final at h1 h2 h3
  obtain ⟨tokens, space, text⟩ := final
  simp only [List.flatten_nil, List.nil_append] at h1 h2 h3
  subst h3
  unfold splitEnd
  refine ⟨?_, ?_⟩
  · cases space <;> cases text <;> simp
  · intro t ht
    cases space <;> cases text <;> simp at ht
    · exact h1 t ht
    · rcases ht with h | h
      · exact h1 t h
      · rw [h]; exact List.cons_ne_nil _ _
    · rcases ht with h | h
      · exact h1 t h
      · rw [h]; exact List.cons_ne_nil _ _
    · rcases h2 with h | h <;> cases h

end HashtagCommentsTagger

end aoide

end mixxx

namespace mixxx

namespace aoide

namespace HashtagCommentsTagger

/-! ## The loop of `extractHashtagsFromText` -/

/-- A token that starts with the hashtag prefix opens a hashtag when none is open. -/
theorem extractStep_open (qt : QStringFunctions) (st : ExtractState) (token : QString)
    (hst : st.nextHashtag = []) (hp : kHashtagPrefix.isPrefixOf token = true) :
    extractStep qt st token = { st with nextHashtag := token } := by
  simp [extractStep, hp, hst]

/-- Tokens that are not empty and do not start with the hashtag prefix are added to the
open hashtag. -/
theorem extractLoop_continue (qt : QStringFunctions) (more : List QString) :
    ∀ st : ExtractState, st.nextHashtag ≠ [] →
      (∀ t ∈ more, t ≠ [] ∧ kHashtagPrefix.isPrefixOf t = false) →
      more.foldl (extractStep qt) st =
        { st with nextHashtag := st.nextHashtag ++ more.flatten } := by
  induction more with
  | nil =>
    intro st _ _
    simp
  | cons t rest ih =>
    intro st hst hmore
    obtain ⟨htne, htp⟩ := hmore t (List.mem_cons_self _ _)
    have hstep : extractStep qt st t = { st with nextHashtag := st.nextHashtag ++ t } := by
      simp [extractStep, htp, htne, hst]
    rw [List.foldl_cons, hstep, ih _ (by simp [hst])
      (fun x hx => hmore x (List.mem_cons_of_mem _ hx))]
    simp [List.append_assoc]

/-- A token that starts with the hashtag prefix, or the terminator, closes the open
hashtag: the tag of its text after the prefix is extracted. -/
theorem extractStep_close (qt : QStringFunctions) (st : ExtractState) (next : QString)
    (hst : st.nextHashtag ≠ [])
    (hnext : kHashtagPrefix.isPrefixOf next = true ∨ next = [])
    (htag : (extractTag qt (st.nextHashtag.drop 1)).isEmpty = false) :
    extractStep qt st next =
      { text := st.text,
        extractedTags := st.extractedTags ++ [extractTag qt (st.nextHashtag.drop 1)],
        nextHashtag := next } := by
  have hright : QString.right st.nextHashtag (st.nextHashtag.length - kHashtagPrefix.length) =
      st.nextHashtag.drop 1 := by
    have hlen : kHashtagPrefix.length = 1 := rfl
    have hpos : 0 < st.nextHashtag.length := List.length_pos.mpr hst
    unfold QString.right
    rw [hlen]
    congr 1
    omega
  have hcond : (kHashtagPrefix.isPrefixOf next || next.isEmpty) = true := by
    rcases hnext with h | h
    · simp [h]
    · simp [h]
  have hne : (!st.nextHashtag.isEmpty) = true := by
    simp [hst]
  unfold extractStep
  rw [if_pos hcond, if_pos hne, hright, htag]
  simp

/-- A hashtag runs from its token up to the next token that starts with the hashtag
prefix, or to the terminator. -/
theorem extractLoop_hashtag (qt : QStringFunctions) (st : ExtractState)
    (hashtag : QString) (more : List QString) (next : QString)
    (hst : st.nextHashtag = []) (hp : kHashtagPrefix.isPrefixOf hashtag = true)
    (hmore : ∀ t ∈ more, t ≠ [] ∧ kHashtagPrefix.isPrefixOf t = false)
    (hnext : kHashtagPrefix.isPrefixOf next = true ∨ next = [])
    (htag : (extractTag qt ((hashtag ++ more.flatten).drop 1)).isEmpty = false) :
    (hashtag :: more ++ [next]).foldl (extractStep qt) st =
      { text := st.text,
        extractedTags := st.extractedTags ++
          [extractTag qt ((hashtag ++ more.flatten).drop 1)],
        nextHashtag := next } := by
  have hne : hashtag ≠ [] := by
    intro h
    rw [h] at hp
    exact absurd hp (by decide)
  have hclose := extractStep_close qt
    { text := st.text, extractedTags := st.extractedTags,
      nextHashtag := hashtag ++ more.flatten } next
    (by simp [hne]) hnext htag
  have hcont := extractLoop_continue qt more
    { text := st.text, extractedTags := st.extractedTags, nextHashtag := hashtag } hne hmore
  rw [List.cons_append, List.foldl_cons, extractStep_open qt st hashtag hst hp,
    List.foldl_append]
  simp only [List.foldl_cons, List.foldl_nil]
  exact (congrArg (fun x => extractStep qt x next) hcont).trans hclose

/-- A text that starts with the hashtag prefix and has no later token that starts with
it is one hashtag. -/
theorem extractHashtagsFromText_one (qt : QStringFunctions) (body : QString)
    (hmore : ∀ t ∈ (splitAndKeepSpaces ('#' :: body)).tail,
      kHashtagPrefix.isPrefixOf t = false)
    (htag : (extractTag qt body).isEmpty = false) :
    extractHashtagsFromText qt ('#' :: body) = ([extractTag qt body], []) := by
  obtain ⟨hflat, hne⟩ := splitAndKeepSpaces_flatten ('#' :: body)
  unfold extractHashtagsFromText
  simp only
  cases htokens : splitAndKeepSpaces ('#' :: body) with
  | nil =>
    rw [htokens] at hflat
    cases hflat
  | cons first others =>
    rw [htokens] at hflat hne hmore
    have hfirst : first ≠ [] := hne first (List.mem_cons_self _ _)
    cases first with
    | nil => exact absurd rfl hfirst
    | cons c tail =>
      simp only [List.flatten_cons, List.cons_append, List.cons.injEq] at hflat
      obtain ⟨hc, hbody⟩ := hflat
      subst hc
      have hrun := extractLoop_hashtag qt
        { text := [], extractedTags := [], nextHashtag := [] } ('#' :: tail) others [] rfl
        (by simp [kHashtagPrefix, List.isPrefixOf])
        (fun t ht => ⟨hne t (List.mem_cons_of_mem _ ht), hmore t ht⟩) (Or.inr rfl)
        (by
          simp only [List.cons_append, List.drop_succ_cons, List.drop_zero, hbody]
          exact htag)
      rw [hrun]
      simp only [List.cons_append, List.drop_succ_cons, List.drop_zero, hbody, List.nil_append]

end HashtagCommentsTagger

end aoide

end mixxx

namespace mixxx

namespace aoide

namespace HashtagCommentsTagger

/-! ## C21: the grammar of hashtags -/

/-- The tag of a hashtag with a facet. -/
theorem extractTag_faceted (qt : QStringFunctions) (F R label : QString) (score : ℚ)
    (hF : ':' ∉ F) (hne : QString.trimmed F ≠ [])
    (hvalid : AoideTag.isValidFacet qt (QString.trimmed F) = true)
    (hscore : extractTagScore qt R = (score, label)) :
    extractTag qt (F ++ ':' :: R) =
      ((AoideTag.empty.setFacet (QString.trimmed F)).setLabel (QString.trimmed label)).setScore
        score := by
  unfold extractTag
  rw [extractTagFacet_colon qt F R hF hvalid]
  simp only [hscore]
  rw [if_pos]
  simp [hne]

/-- C21: the hashtags of the unprotected part of a comment. When the unprotected part
is one hashtag, the prefix followed by a text of which no later whitespace-separated
token starts with the prefix, `exportCommentAsTags` adds the one tag that `extractTag`
makes of the text, if it is not empty; in the loop of `extractHashtagsFromText` a hashtag
runs from its token up to the next token that starts with the prefix, or to the
terminator. Of the text `F:L=S`, where `F` has no colon and `S` no equals sign, the
trimmed `F` is a valid facet and `S` parses as a number between 0 and 1, `extractTag`
makes the tag with the trimmed `F` as facet, the trimmed `L` as label and that number
as score. Of the text `F:R`, where no equals sign of `R` is followed by a valid score,
it makes the tag with the trimmed `R` as label and the default score 1. Of a text
without a colon it makes a plain tag, which has the trimmed text as label and the
default score when no equals sign is followed by a valid score. -/
theorem C21_hashtag_grammar (qt : QStringFunctions) (tags : AoideTags)
    (comment body : QString) (st : ExtractState) (hashtag : QString) (more : List QString)
    (next F L S R token : QString) (s : ℚ) :
    ((splitProtectedCommentTag comment).2 = '#' :: body →
      (∀ t ∈ (splitAndKeepSpaces ('#' :: body)).tail, kHashtagPrefix.isPrefixOf t = false) →
      (extractTag qt body).isEmpty = false →
      exportCommentAsTags qt tags comment =
        (if !(splitProtectedCommentTag comment).1.isEmpty then
          tags.addTags [(splitProtectedCommentTag comment).1]
         else tags).addTags [extractTag qt body]) ∧
    (st.nextHashtag = [] → kHashtagPrefix.isPrefixOf hashtag = true →
      (∀ t ∈ more, t ≠ [] ∧ kHashtagPrefix.isPrefixOf t = false) →
      (kHashtagPrefix.isPrefixOf next = true ∨ next = []) →
      (extractTag qt ((hashtag ++ more.flatten).drop 1)).isEmpty = false →
      (hashtag :: more ++ [next]).foldl (extractStep qt) st =
        { text := st.text,
          extractedTags := st.extractedTags ++
            [extractTag qt ((hashtag ++ more.flatten).drop 1)],
          nextHashtag := next }) ∧
    (':' ∉ F → QString.trimmed F ≠ [] → AoideTag.isValidFacet qt (QString.trimmed F) = true →
      '=' ∉ S → qt.toDouble S = some s → AoideTag.isValidScore s = true →
      (extractTag qt (F ++ ':' :: (L ++ '=' :: S))).isEmpty = false ∧
      (extractTag qt (F ++ ':' :: (L ++ '=' :: S))).facet = QString.trimmed F ∧
      (extractTag qt (F ++ ':' :: (L ++ '=' :: S))).label = QString.trimmed L ∧
      (extractTag qt (F ++ ':' :: (L ++ '=' :: S))).score = s) ∧
    (':' ∉ F → QString.trimmed F ≠ [] → AoideTag.isValidFacet qt (QString.trimmed F) = true →
      (∀ A B : QString, R = A ++ '=' :: B →
        ∀ x, qt.toDouble B = some x → AoideTag.isValidScore x = false) →
      (extractTag qt (F ++ ':' :: R)).isEmpty = false ∧
      (extractTag qt (F ++ ':' :: R)).facet = QString.trimmed F ∧
      (extractTag qt (F ++ ':' :: R)).label = QString.trimmed R ∧
      (extractTag qt (F ++ ':' :: R)).score = AoideTag.defaultScore) ∧
    (':' ∉ token →
      (extractTag qt token).isPlain = true ∧
      ((∀ A B : QString, token = A ++ '=' :: B →
          ∀ x, qt.toDouble B = some x → AoideTag.isValidScore x = false) →
        (extractTag qt token).label = QString.trimmed token ∧
        (extractTag qt token).score = AoideTag.defaultScore)) := by
  refine ⟨?_, ?_, ?_, ?_, ?_⟩
  · intro hrest hmore htag
    unfold exportCommentAsTags exportUnprotected
    rw [hrest, extractHashtagsFromText_one qt body hmore htag]
    have htrim : (!(QString.trimmed ([] : QString)).isEmpty) = false := by decide
    simp only [htrim, Bool.false_eq_true, if_false]
  · exact extractLoop_hashtag qt st hashtag more next
  · intro hF hne hvalid hS hparse hscore
    rw [extractTag_faceted qt F (L ++ '=' :: S) L s hF hne hvalid
      (extractTagScore_valid qt L S s hS hparse hscore)]
    obtain ⟨h1, h2, h3⟩ := AoideTag.fields_set (QString.trimmed F) (QString.trimmed L) s
    exact ⟨AoideTag.isEmpty_false _ (Or.inl (fun e => hne (h1.symm.trans e))), h1, h2, h3⟩
  · intro hF hne hvalid hno
    rw [extractTag_faceted qt F R R AoideTag.defaultScore hF hne hvalid
      (extractTagScore_default qt R hno)]
    obtain ⟨h1, h2, h3⟩ := AoideTag.fields_set (QString.trimmed F) (QString.trimmed R)
      AoideTag.defaultScore
    exact ⟨AoideTag.isEmpty_false _ (Or.inl (fun e => hne (h1.symm.trans e))), h1, h2, h3⟩
  · intro hcolon
    have hfacet := extractTagFacet_none qt token hcolon
    refine ⟨?_, ?_⟩
    · unfold extractTag AoideTag.isPlain
      rw [hfacet]
      simp only
      split
      · rw [(AoideTag.fields_set AoideTag.noFacet _ _).1]
        rfl
      · rfl
    · intro hno
      unfold extractTag
      rw [hfacet]
      simp only [extractTagScore_default qt token hno]
      split
      · exact ⟨(AoideTag.fields_set _ _ _).2.1, (AoideTag.fields_set _ _ _).2.2⟩
      · rename_i hcond
        have hempty : QString.trimmed token = [] := by
          simpa [AoideTag.noFacet] using hcond
        rw [hempty]
        exact ⟨rfl, rfl⟩

/-- C21, witness: of `rating:=0.85` the tag has the facet `rating`, no label and the
score 0.85, of `facet-with-label-eq:=` the label `=` and the score 1, and `Top40` gives
a plain tag; the comment that holds the three hashtags is exported as these three tags,
the plain one first. -/
theorem C21_hashtag_grammar_witness :
    ((extractTag asciiText ("rating".toList ++ ':' :: ([] ++ '=' :: "0.85".toList))).isEmpty
        = false ∧
      (extractTag asciiText ("rating".toList ++ ':' :: ([] ++ '=' :: "0.85".toList))).facet =
        QString.trimmed "rating".toList ∧
      (extractTag asciiText ("rating".toList ++ ':' :: ([] ++ '=' :: "0.85".toList))).label =
        QString.trimmed [] ∧
      (extractTag asciiText ("rating".toList ++ ':' :: ([] ++ '=' :: "0.85".toList))).score =
        17 / 20) ∧
    (extractTag asciiText "facet-with-label-eq:=".toList).label = "=".toList ∧
    (extractTag asciiText "facet-with-label-eq:=".toList).score = 1 ∧
    (extractTag asciiText "Top40".toList).isPlain = true ∧
    (exportCommentAsTags asciiText AoideTags.empty
        "#rating:=0.85 #facet-with-label-eq:= #Top40".toList).allTags.map
        (fun t => (t.facet, t.label, t.score)) =
      [([], "Top40".toList, 1), ("rating".toList, [], 17 / 20),
       ("facet-with-label-eq".toList, "=".toList, 1)] :=
  ⟨(C21_hashtag_grammar asciiText AoideTags.empty [] []
      { text := [], extractedTags := [], nextHashtag := [] } [] [] []
      "rating".toList [] "0.85".toList [] "Top40".toList (17 / 20)).2.2.1
      (by decide) (by decide) (by decide) (by decide) (by decide!) (by decide!),
    by decide!, by decide!,
    ((C21_hashtag_grammar asciiText AoideTags.empty [] []
      { text := [], extractedTags := [], nextHashtag := [] } [] [] []
      "rating".toList [] "0.85".toList [] "Top40".toList (17 / 20)).2.2.2.2
      (by decide)).1,
    by decide!⟩

end HashtagCommentsTagger

end aoide

end mixxx

namespace mixxx

namespace aoide

namespace QString

/-! ## Digits and whitespace -/

theorem isDigit_iff (c : Char) : c.isDigit = true ↔ 48 ≤ c.toNat ∧ c.toNat ≤ 57 := by
  simp [Char.isDigit, Char.toNat, UInt32.le_def, BitVec.le_def, UInt32.toNat]

theorem isRegexpWhitespace_of_isDigit (c : Char) (h : c.isDigit = true) :
    AoideTag.isRegexpWhitespace c = false := by
  have hd := (isDigit_iff c).mp h
  cases hw : AoideTag.isRegexpWhitespace c with
  | false => rfl
  | true =>
    simp only [AoideTag.isRegexpWhitespace, Bool.or_eq_true, Bool.and_eq_true,
      decide_eq_true_eq, beq_iff_eq] at hw
    omega

end QString

end aoide

end mixxx

namespace mixxx

namespace aoide

namespace QString

end QString

namespace QDate

/-! ## The parsers of dates -/

end QDate

end aoide

end mixxx

namespace mixxx

namespace aoide

namespace AoideJsonBase

/-! ## C22: `exportDateTimeOrYear` for dates without a time -/

end AoideJsonBase

end aoide

end mixxx

namespace mixxx

namespace aoide

namespace AoideJsonBase

end AoideJsonBase

end aoide

end mixxx
